import Mathlib

/-!
# PseudoInterp: the precedence-table parser

A shallow embedding of `src/src/parser.cpp` / `src/include/parser.h` (the parser) over the
token cursor declared in `src/PseudoInterp/lexer.h`, followed by theorems about the shape of
the trees the parser builds.

Conventions of the embedding.

* A C++ member function that reads and advances the lexer becomes a function from the lexer
  state to a `Result` holding the value and the new state.
* `throw` becomes `Result.throw`; nothing catches inside the parser, so the first exception is
  the result of the whole run.
* Recursion and `while (true)` loops are bounded by a `fuel : Nat` argument; running out of it
  is the separate outcome `Result.outOfFuel`, never an exception of the program.
* The call through the member-function pointer of the precedence table,
  `(this->*(g)->parserFunc)(g)`, is the function `callParserFunc`; inside a parsing discipline
  it is the parameter `call`.
-/

namespace PseudoInterp

/-! ## Tokens (lexer.h) -/

/-- The token kinds. The first block is `Lexer::TokenType` of lexer.h, in order. The last
seven kinds are not declared in lexer.h; parser.h and parser.cpp name them (`TT::DIV_EQ`,
`TT::OR`, `TT::AND`, `TT::MOD`, `TT::DIV`, `TT::NOT`, `TokenType::THEN`), so the parser cannot
be written down without them. -/
inductive TokenType where
  | RETURN_TOK | FUNCTION_DEF | L_PAREN | R_PAREN | L_SQ_BRACKET | R_SQ_BRACKET
  | COMMA | DOT | TILDA | CIRCUMFLEX | DOUBLE_PLUS | DOUBLE_MINUS | PLUS | MINUS
  | STAR | FORW_SLASH | PERCENT | PLUS_EQ | MINUS_EQ | STAR_EQ | FORW_SLASH_EQ
  | PERCENT_EQ | DOUBLE_AMP | AMP | DOUBLE_VERT_SLASH | VERT_SLASH | EXMARK | EQ
  | DOUBLE_EQ | NOT_EQ | LESS_EQ | GRE_EQ | LESS | GRE | LSHFT | RSHFT | INT_LIT
  | FLOAT_LIT | CHAR_LIT | ID | WHSPACE | TAB | NEWLINE | WHILE | IF | ELIF | ELSE
  | FOR | FROM | TO | EOFILE | STRING_LIT | TRUE_LIT | FALSE_LIT | COMMENT | UNKNOWN
  | THEN | AND | OR | NOT | MOD | DIV | DIV_EQ
  deriving DecidableEq, Repr

/-- The class `Lexer::Token`: lexeme, kind and byte offset (`wordToken` is only used while
lexing and is left out). -/
structure Token where
  lexeme : String
  type : TokenType
  pos : Nat
  deriving DecidableEq, Repr

/-- The kinds `enum class TokenType` of lexer.h declares, in the order of the header. -/
def TokenType.declaredInLexer : List TokenType :=
  [.RETURN_TOK, .FUNCTION_DEF, .L_PAREN, .R_PAREN, .L_SQ_BRACKET, .R_SQ_BRACKET, .COMMA, .DOT,
    .TILDA, .CIRCUMFLEX, .DOUBLE_PLUS, .DOUBLE_MINUS, .PLUS, .MINUS, .STAR, .FORW_SLASH,
    .PERCENT, .PLUS_EQ, .MINUS_EQ, .STAR_EQ, .FORW_SLASH_EQ, .PERCENT_EQ, .DOUBLE_AMP, .AMP,
    .DOUBLE_VERT_SLASH, .VERT_SLASH, .EXMARK, .EQ, .DOUBLE_EQ, .NOT_EQ, .LESS_EQ, .GRE_EQ,
    .LESS, .GRE, .LSHFT, .RSHFT, .INT_LIT, .FLOAT_LIT, .CHAR_LIT, .ID, .WHSPACE, .TAB,
    .NEWLINE, .WHILE, .IF, .ELIF, .ELSE, .FOR, .FROM, .TO, .EOFILE, .STRING_LIT, .TRUE_LIT,
    .FALSE_LIT, .COMMENT, .UNKNOWN]

/-- The class `Lexer::TokenDescriptor`: a lexeme, its kind, and whether it is a word token
(the two-argument constructor leaves `wordToken` false). -/
structure TokenDescriptor where
  lexeme : String
  type : TokenType
  wordToken : Bool
  deriving DecidableEq, Repr

/-- The member `fixedTokenList` of lexer.h: the keywords and operators, in the order of the
header. -/
def fixedTokenList : List TokenDescriptor := [
  ⟨"while", .WHILE, true⟩,
  ⟨"if", .IF, true⟩,
  ⟨"elif", .ELIF, true⟩,
  ⟨"else", .ELSE, true⟩,
  ⟨"//", .COMMENT, false⟩,
  ⟨"+=", .PLUS_EQ, false⟩,
  ⟨"-=", .MINUS_EQ, false⟩,
  ⟨"*=", .STAR_EQ, false⟩,
  ⟨"/=", .FORW_SLASH_EQ, false⟩,
  ⟨"%=", .PERCENT_EQ, false⟩,
  ⟨"++", .DOUBLE_PLUS, false⟩,
  ⟨"--", .DOUBLE_MINUS, false⟩,
  ⟨"+", .PLUS, false⟩,
  ⟨"-", .MINUS, false⟩,
  ⟨"*", .STAR, false⟩,
  ⟨"/", .FORW_SLASH, false⟩,
  ⟨"%", .PERCENT, false⟩,
  ⟨"(", .L_PAREN, false⟩,
  ⟨")", .R_PAREN, false⟩,
  ⟨"[", .L_SQ_BRACKET, false⟩,
  ⟨"]", .R_SQ_BRACKET, false⟩,
  ⟨"||", .DOUBLE_VERT_SLASH, false⟩,
  ⟨"&&", .DOUBLE_AMP, false⟩,
  ⟨"==", .DOUBLE_EQ, false⟩,
  ⟨"=", .EQ, false⟩,
  ⟨"<<", .LSHFT, false⟩,
  ⟨">>", .RSHFT, false⟩,
  ⟨"!=", .NOT_EQ, false⟩,
  ⟨"!", .EXMARK, false⟩,
  ⟨"<=", .LESS_EQ, false⟩,
  ⟨">=", .GRE_EQ, false⟩,
  ⟨"<", .LESS, false⟩,
  ⟨">", .GRE, false⟩,
  ⟨",", .COMMA, false⟩,
  ⟨".", .DOT, false⟩,
  ⟨"\t", .TAB, false⟩,
  ⟨"\n", .NEWLINE, false⟩,
  ⟨"for", .FOR, true⟩,
  ⟨"from", .FROM, true⟩,
  ⟨"to", .TO, true⟩,
  ⟨"true", .TRUE_LIT, true⟩,
  ⟨"false", .FALSE_LIT, true⟩,
  ⟨"return", .RETURN_TOK, true⟩,
  ⟨"function", .FUNCTION_DEF, true⟩]

/-- Modelled from the spec: `Token::getOppositeType`, whose body is not among the sources.
It maps `(` to `)` and `[` to `]` and back; every other kind is implementation-defined and is
sent to `UNKNOWN` here. The parser calls it on `(` and `[` only. -/
def Token.getOppositeType (t : Token) : TokenType :=
  match t.type with
  | .L_PAREN => .R_PAREN
  | .R_PAREN => .L_PAREN
  | .L_SQ_BRACKET => .R_SQ_BRACKET
  | .R_SQ_BRACKET => .L_SQ_BRACKET
  | _ => .UNKNOWN

/-- Modelled from the spec: the token cursor of `Lexer` (lexer.cpp is not among the sources).
`tokenList` holds the tokens from the cursor on, that is the buffer of lexer.h with its first
`tokenListIndex` tokens dropped; the parser never rewinds, so the consumed part is not kept.
`inputLength` is the length of the input text, the offset of the end-of-file token. -/
structure Lexer where
  tokenList : List Token
  inputLength : Nat
  deriving DecidableEq, Repr

/-- Modelled from the spec: the end-of-file token, "whose offset equals the input length". -/
def Lexer.eofToken (lexer : Lexer) : Token :=
  { lexeme := "", type := .EOFILE, pos := lexer.inputLength }

/-- Modelled from the spec: `Lexer::lookForw(k)`, the token `k` places after the cursor
(`k = 0` is the current token); past the last token it is the end-of-file token. -/
def Lexer.lookForw (lexer : Lexer) (k : Nat) : Token :=
  lexer.tokenList.getD k lexer.eofToken

/-- Modelled from the spec: `Lexer::getCurrToken()`, the token under the cursor. -/
def Lexer.getCurrToken (lexer : Lexer) : Token :=
  lexer.lookForw 0

/-- Modelled from the spec: `Lexer::scanToken(n)`, advance the cursor by `n` tokens (the
C++ default is `n = 1`); an advance past the end stays at the end. -/
def Lexer.scanToken (lexer : Lexer) (n : Nat) : Lexer :=
  { lexer with tokenList := lexer.tokenList.drop n }

/-! ## Operators and the syntax tree (parser.h, AST.h) -/

/-- The enumeration `OperatorType` of parser.h. -/
inductive OperatorType where
  | COMMA | UNARY_PLUS | UNARY_NEGATION | ADDITION | SUBTRACTION | MULTIPLICATION
  | DIVISION | MODULO | DIV | ADDITION_ASSIGN | SUBTRACTION_ASSIGN
  | MULTIPLICATION_ASSIGN | DIVISION_ASSIGN | MODULO_ASSIGN | DIV_ASSIGN | OR | AND
  | NOT | BIT_AND | BIT_OR | BIT_NOT | BIT_XOR | BIT_LSHIFT | BIT_RSHIFT | EQUAL
  | NOT_EQUAL | GREATER | LESS | GRE_EQ | LESS_EQ | ASSIGNMENT | PRE_INCR | PRE_DECR
  | POST_INCR | POST_DECR | FUNCTION_CALL | SUBSCRIPT | MEMBER_ACCESS | LIST_INIT
  | UNKNOWN
  deriving DecidableEq, Repr

/-- The payload of a `LiteralNode`, one alternative per constructor call in `parsePrimary`.
A float literal keeps its text: the binary value `std::stof` computes is floating point and
is not modelled (that `std::stof` can throw is, see `stof`). -/
inductive LiteralValue where
  | bool (b : Bool)
  | int (i : Int)
  | float (text : String)
  | char (c : Char)
  | string (s : String)
  deriving DecidableEq, Repr

/-- Modelled from the spec: the expression nodes of AST.h (not among the sources), with the
constructor arguments in the order parser.cpp passes them, followed by the `force_rvalue`
flag, which a constructor leaves unset and `setForceRval` sets. The receiver of an `nAryNode`
is `none` for the null pointer. -/
inductive ASTNode where
  | LiteralNode (value : LiteralValue) (pos : Nat) (forceRval : Bool)
  | IDNode (name : String) (pos : Nat) (forceRval : Bool)
  | UnaryNode (child : ASTNode) (op : OperatorType) (pos : Nat) (forceRval : Bool)
  | BinaryNode (nodeA nodeB : ASTNode) (op : OperatorType) (pos : Nat) (forceRval : Bool)
  | nAryNode (receiver : Option ASTNode) (op : OperatorType) (nOperands : List ASTNode)
      (pos : Nat) (forceRval : Bool)
  deriving Repr

/-- Modelled from the spec: `ASTNode::setForceRval`, which sets the flag of this node only. -/
def ASTNode.setForceRval : ASTNode → Bool → ASTNode
  | .LiteralNode v pos _, b => .LiteralNode v pos b
  | .IDNode name pos _, b => .IDNode name pos b
  | .UnaryNode child op pos _, b => .UnaryNode child op pos b
  | .BinaryNode nodeA nodeB op pos _, b => .BinaryNode nodeA nodeB op pos b
  | .nAryNode receiver op nOperands pos _, b => .nAryNode receiver op nOperands pos b

/-- The `force_rvalue` flag of a node. -/
def ASTNode.forceRval : ASTNode → Bool
  | .LiteralNode _ _ b => b
  | .IDNode _ _ b => b
  | .UnaryNode _ _ _ b => b
  | .BinaryNode _ _ _ _ b => b
  | .nAryNode _ _ _ _ b => b

/-! ## Outcomes -/

/-- What a run of the parser can throw: `ParsingError(message, position)` of errors.h, the two
exceptions of `std::stoi`, and the call of a null member-function pointer (an unused slot of
the precedence table), which is undefined behaviour in C++ and is kept apart here. -/
inductive Exn where
  | ParsingError (message : String) (position : Nat)
  | out_of_range
  | invalid_argument
  | nullParserFunc
  deriving DecidableEq, Repr

/-- The outcome of a bounded run: a value, an exception, or the bound was reached. -/
inductive Result (α : Type) where
  | ok (a : α)
  | throw (e : Exn)
  | outOfFuel
  deriving Repr

/-! ## The precedence table (parser.h) -/

/-- The six parsing functions a precedence group can point to. -/
inductive ParserFunc where
  | parseBinLeft | parseBinRight | parseUnary | parseUnaryPostfix | parseParenthAndDot
  | parsePrimary
  deriving DecidableEq, Repr

/-- The struct `precedenceGroup`: the `std::map` from token kind to operator as an
association list with distinct keys, and the member-function pointer (`none` when null). -/
structure precedenceGroup where
  findOp : List (TokenType × OperatorType)
  parserFunc : Option ParserFunc
  deriving Repr

/-- The maximum amount of operator groups. -/
def MAX_GROUPS : Nat := 15

/-- The precedence level of comma. -/
def COMMA_PRECEDENCE : Nat := 0

/-- The array `precedenceTab[MAX_GROUPS]`: twelve initialised groups, lowest precedence first,
and three value-initialised slots (empty map, null pointer). -/
def precedenceTab : List precedenceGroup := [
  -- Precedence = 0
  ⟨[(.COMMA, .COMMA)], some .parseBinLeft⟩,
  -- Precedence = 1
  ⟨[(.EQ, .ASSIGNMENT), (.PLUS_EQ, .ADDITION_ASSIGN), (.MINUS_EQ, .SUBTRACTION_ASSIGN),
    (.STAR_EQ, .MULTIPLICATION_ASSIGN), (.FORW_SLASH_EQ, .DIVISION_ASSIGN),
    (.PERCENT_EQ, .MODULO_ASSIGN), (.DIV_EQ, .DIV_ASSIGN)], some .parseBinRight⟩,
  -- Precedence = 2
  ⟨[(.DOUBLE_VERT_SLASH, .OR), (.OR, .OR)], some .parseBinLeft⟩,
  -- Precedence = 3
  ⟨[(.DOUBLE_AMP, .AND), (.AND, .AND)], some .parseBinLeft⟩,
  -- Precedence = 4
  ⟨[(.DOUBLE_EQ, .EQUAL), (.NOT_EQ, .NOT_EQUAL)], some .parseBinLeft⟩,
  -- Precedence = 5
  ⟨[(.LESS, .LESS), (.LESS_EQ, .LESS_EQ), (.GRE, .GREATER), (.GRE_EQ, .GRE_EQ)],
    some .parseBinLeft⟩,
  -- Precedence = 6
  ⟨[(.PLUS, .ADDITION), (.MINUS, .SUBTRACTION)], some .parseBinLeft⟩,
  ⟨[(.STAR, .MULTIPLICATION), (.FORW_SLASH, .DIVISION), (.PERCENT, .MODULO),
    (.MOD, .MODULO), (.DIV, .DIV)], some .parseBinLeft⟩,
  ⟨[(.PLUS, .UNARY_PLUS), (.MINUS, .UNARY_NEGATION), (.EXMARK, .NOT), (.NOT, .NOT),
    (.DOUBLE_PLUS, .PRE_INCR), (.DOUBLE_MINUS, .PRE_DECR)], some .parseUnary⟩,
  ⟨[(.DOUBLE_PLUS, .POST_INCR), (.DOUBLE_MINUS, .POST_DECR)], some .parseUnaryPostfix⟩,
  ⟨[(.L_SQ_BRACKET, .SUBSCRIPT), (.L_PAREN, .FUNCTION_CALL)], some .parseParenthAndDot⟩,
  ⟨[], some .parsePrimary⟩,
  ⟨[], none⟩, ⟨[], none⟩, ⟨[], none⟩]

/-- The expression `currGroup->findOp` together with `contains` and `operator[]`: the
operator the group at index `currGroup` links to a token kind, if any. -/
def findOp (currGroup : Nat) (t : TokenType) : Option OperatorType :=
  match precedenceTab.get? currGroup with
  | some group => group.findOp.lookup t
  | none => none

/-! ## Expression parsing (parser.cpp) -/

/-- The library function `std::stoi` on a lexeme (base 10): leading white space, an optional
sign, then the longest run of decimal digits; `invalid_argument` when there is no digit,
`out_of_range` when the value does not fit a 32-bit `int`. -/
def stoi (lexeme : String) : Result Int :=
  let cs := lexeme.data.dropWhile (fun c => c.toNat = 32 || (9 ≤ c.toNat && c.toNat ≤ 13))
  let (neg, cs) :=
    match cs with
    | '-' :: rest => (true, rest)
    | '+' :: rest => (false, rest)
    | _ => (false, cs)
  let digits := cs.takeWhile Char.isDigit
  if digits = [] then .throw .invalid_argument
  else
    let magnitude : Nat := digits.foldl (fun acc c => 10 * acc + (c.toNat - 48)) 0
    let value : Int := if neg then -(magnitude : Int) else (magnitude : Int)
    if value < -2147483648 ∨ 2147483647 < value then .throw .out_of_range
    else .ok value

/-- The value of a hexadecimal digit, for a character that is one. -/
def hexDigitValue (c : Char) : Option Nat :=
  if c.isDigit then some (c.toNat - 48)
  else if 97 ≤ c.toNat ∧ c.toNat ≤ 102 then some (c.toNat - 87)
  else if 65 ≤ c.toNat ∧ c.toNat ≤ 70 then some (c.toNat - 55)
  else none

/-- The exponent part that `strtof` reads after the digits of a number: the marker (`e` for a
decimal number, `p` for a hexadecimal one, in either case), an optional sign and the decimal
digits of the exponent. Without the marker, or without a digit after it, there is no exponent
part and the exponent is `0`. -/
def exponentPart (marker : Char) (cs : List Char) : Int :=
  match cs with
  | [] => 0
  | c :: rest =>
    if c.toLower = marker then
      let (neg, rest) :=
        match rest with
        | '-' :: more => (true, more)
        | '+' :: more => (false, more)
        | _ => (false, rest)
      let magnitude : Nat :=
        (rest.takeWhile Char.isDigit).foldl (fun acc d => 10 * acc + (d.toNat - 48)) 0
      if neg then -(magnitude : Int) else (magnitude : Int)
    else 0

/-- The hexadecimal number `strtof` reads after the sign: `0x` or `0X`, hexadecimal digits
with an optional point among them (one digit at least), and an optional binary exponent part.
The result is the pair `(m, k)` of the value `m * 2 ^ k`; `none` when the text does not start
with such a number. -/
def hexFloat (cs : List Char) : Option (Nat × Int) :=
  match cs with
  | '0' :: x :: rest =>
    if x = 'x' ∨ x = 'X' then
      let intDigits := rest.takeWhile (fun c => (hexDigitValue c).isSome)
      let rest := rest.dropWhile (fun c => (hexDigitValue c).isSome)
      let fracDigits :=
        match rest with
        | '.' :: more => more.takeWhile (fun c => (hexDigitValue c).isSome)
        | _ => []
      let rest :=
        match rest with
        | '.' :: more => more.dropWhile (fun c => (hexDigitValue c).isSome)
        | _ => rest
      if intDigits = [] ∧ fracDigits = [] then none
      else
        some ((intDigits ++ fracDigits).foldl
            (fun acc d => 16 * acc + (hexDigitValue d).getD 0) 0,
          exponentPart 'p' rest - 4 * (fracDigits.length : Int))
    else none
  | _ => none

/-- Whether the magnitude `m * base ^ k` is one for which `strtof` reports a range error for
`float`: it is `2 ^ 128 - 2 ^ 103` or more, so that it rounds to beyond the largest `float`
`2 ^ 128 - 2 ^ 104`, or it is not zero and less than `2 ^ (-126)`, the smallest normal `float`.
(Whether a result below the normal range is reported is implementation-defined; the common
libraries report it.) -/
def floatOutOfRange (m base : Nat) (k : Int) : Bool :=
  let num := m * base ^ k.toNat
  let den := base ^ (-k).toNat
  decide ((2 ^ 128 - 2 ^ 103) * den ≤ num) || (decide (m ≠ 0) && decide (num * 2 ^ 126 < den))

/-- The library function `std::stof` on a lexeme, as far as the parser depends on it, that
is whether it returns or throws. It converts what `strtof` reads: leading white space, an
optional sign, then `inf` or `nan` (in any case), a hexadecimal number, or a decimal number
(digits with an optional point among them, one digit at least, and an optional exponent
part). It throws `invalid_argument` when there is no such text and `out_of_range` when
`strtof` reports a range error. The `float` it returns is not modelled: the literal keeps the
lexeme. -/
def stof (lexeme : String) : Result LiteralValue :=
  let cs := lexeme.data.dropWhile (fun c => c.toNat = 32 || (9 ≤ c.toNat && c.toNat ≤ 13))
  let cs :=
    match cs with
    | '-' :: rest => rest
    | '+' :: rest => rest
    | _ => cs
  if ['i', 'n', 'f'].isPrefixOf (cs.map Char.toLower) ∨
      ['n', 'a', 'n'].isPrefixOf (cs.map Char.toLower) then
    .ok (.float lexeme)
  else
    match hexFloat cs with
    | some (m, k) =>
      if floatOutOfRange m 2 k then .throw .out_of_range else .ok (.float lexeme)
    | none =>
      let intDigits := cs.takeWhile Char.isDigit
      let rest := cs.dropWhile Char.isDigit
      let fracDigits :=
        match rest with
        | '.' :: more => more.takeWhile Char.isDigit
        | _ => []
      let rest :=
        match rest with
        | '.' :: more => more.dropWhile Char.isDigit
        | _ => rest
      if intDigits = [] ∧ fracDigits = [] then .throw .invalid_argument
      else
        let m := (intDigits ++ fracDigits).foldl (fun acc d => 10 * acc + (d.toNat - 48)) 0
        if floatOutOfRange m 10 (exponentPart 'e' rest - (fracDigits.length : Int)) then
          .throw .out_of_range
        else .ok (.float lexeme)

/-- The do-while loop shared by `parseParenthAndDot` and the `listParser` lambda of
`parsePrimary`: `do { scanToken(); nOperands.push_back(parse above the comma level); }
while (current token is COMMA)`. -/
def parseOperands (call : Nat → Lexer → Result (ASTNode × Lexer)) :
    Nat → Lexer → List ASTNode → Result (List ASTNode × Lexer)
  | 0, _, _ => .outOfFuel
  | fuel + 1, lexer, nOperands =>
    let lexer := lexer.scanToken 1
    match call (COMMA_PRECEDENCE + 1) lexer with
    | .ok (node, lexer) =>
      let nOperands := nOperands ++ [node]
      if lexer.getCurrToken.type = .COMMA then parseOperands call fuel lexer nOperands
      else .ok (nOperands, lexer)
    | .throw e => .throw e
    | .outOfFuel => .outOfFuel

/-- The lambda `listParser` of `parsePrimary`, run with the cursor on `[`. -/
def listParser (call : Nat → Lexer → Result (ASTNode × Lexer)) (fuel : Nat)
    (lexer : Lexer) : Result (List ASTNode × Lexer) :=
  if (lexer.lookForw 1).type ≠ .R_SQ_BRACKET then
    match parseOperands call fuel lexer [] with
    | .ok (nOperands, lexer) =>
      if lexer.getCurrToken.type ≠ .R_SQ_BRACKET then
        .throw (.ParsingError "] expected." lexer.getCurrToken.pos)
      else .ok (nOperands, lexer.scanToken 1)
    | .throw e => .throw e
    | .outOfFuel => .outOfFuel
  else .ok ([], lexer.scanToken 2)

/-- The function `Parser::parsePrimary`: literals, identifiers, parentheses, list
initialisers. The group argument is unused, as in the source. -/
def parsePrimary (call : Nat → Lexer → Result (ASTNode × Lexer)) (fuel : Nat)
    (lexer : Lexer) : Result (ASTNode × Lexer) :=
  let pos := lexer.getCurrToken.pos
  match lexer.getCurrToken.type with
  | .TRUE_LIT => .ok (.LiteralNode (.bool true) pos false, lexer.scanToken 1)
  | .FALSE_LIT => .ok (.LiteralNode (.bool false) pos false, lexer.scanToken 1)
  | .INT_LIT =>
    match stoi lexer.getCurrToken.lexeme with
    | .ok i => .ok (.LiteralNode (.int i) pos false, lexer.scanToken 1)
    | .throw e => .throw e
    | .outOfFuel => .outOfFuel
  | .FLOAT_LIT =>
    match stof lexer.getCurrToken.lexeme with
    | .ok value => .ok (.LiteralNode value pos false, lexer.scanToken 1)
    | .throw e => .throw e
    | .outOfFuel => .outOfFuel
  | .CHAR_LIT =>
    .ok (.LiteralNode (.char (lexer.getCurrToken.lexeme.data.headD (Char.ofNat 0))) pos false,
      lexer.scanToken 1)
  | .STRING_LIT =>
    .ok (.LiteralNode (.string lexer.getCurrToken.lexeme) pos false, lexer.scanToken 1)
  | .L_PAREN =>
    let lexer := lexer.scanToken 1
    match call 0 lexer with
    | .ok (node, lexer) =>
      let node := node.setForceRval true
      if lexer.getCurrToken.type = .R_PAREN then .ok (node, lexer.scanToken 1)
      else
        .throw (.ParsingError ") expected - matching parentheses not found."
          lexer.getCurrToken.pos)
    | .throw e => .throw e
    | .outOfFuel => .outOfFuel
  | .L_SQ_BRACKET =>
    match listParser call fuel lexer with
    | .ok (nOperands, lexer) => .ok (.nAryNode none .LIST_INIT nOperands pos false, lexer)
    | .throw e => .throw e
    | .outOfFuel => .outOfFuel
  | .ID => .ok (.IDNode lexer.getCurrToken.lexeme pos false, lexer.scanToken 1)
  | _ => .throw (.ParsingError "" lexer.getCurrToken.pos)

/-- The function `Parser::parseUnary`: right associative prefix operators
(`E -> T`, `E -> [op]E`); the recursion on itself is direct, as in the source. -/
def parseUnary (call : Nat → Lexer → Result (ASTNode × Lexer)) (currGroup : Nat) :
    Nat → Lexer → Result (ASTNode × Lexer)
  | 0, _ => .outOfFuel
  | fuel + 1, lexer =>
    let currToken := lexer.getCurrToken.type
    match findOp currGroup currToken with
    | some op =>
      let pos := lexer.getCurrToken.pos
      let lexer := lexer.scanToken 1
      match parseUnary call currGroup fuel lexer with
      | .ok (child, lexer) => .ok (.UnaryNode child op pos false, lexer)
      | .throw e => .throw e
      | .outOfFuel => .outOfFuel
    | none => call (currGroup + 1) lexer

/-- The `while (true)` loop of `Parser::parseBinLeft`, entered with the left operand
`nodeA`. -/
def parseBinLeft.loop (call : Nat → Lexer → Result (ASTNode × Lexer)) (currGroup : Nat) :
    Nat → ASTNode → Lexer → Result (ASTNode × Lexer)
  | 0, _, _ => .outOfFuel
  | fuel + 1, nodeA, lexer =>
    let currToken := lexer.getCurrToken.type
    match findOp currGroup currToken with
    | some op =>
      let pos := lexer.getCurrToken.pos
      let lexer := lexer.scanToken 1
      match call (currGroup + 1) lexer with
      | .ok (nodeB, lexer) =>
        parseBinLeft.loop call currGroup fuel (.BinaryNode nodeA nodeB op pos false) lexer
      | .throw e => .throw e
      | .outOfFuel => .outOfFuel
    | none => .ok (nodeA, lexer)

/-- The function `Parser::parseBinLeft`: binary left associative operators
(`E -> T {[op]T}`). -/
def parseBinLeft (call : Nat → Lexer → Result (ASTNode × Lexer)) (currGroup : Nat)
    (fuel : Nat) (lexer : Lexer) : Result (ASTNode × Lexer) :=
  match call (currGroup + 1) lexer with
  | .ok (nodeA, lexer) => parseBinLeft.loop call currGroup fuel nodeA lexer
  | .throw e => .throw e
  | .outOfFuel => .outOfFuel

/-- The function `Parser::parseBinRight`: binary right associative operators
(`E -> T [op] E`); the right operand is parsed through the table at the same group. -/
def parseBinRight (call : Nat → Lexer → Result (ASTNode × Lexer)) (currGroup : Nat)
    (lexer : Lexer) : Result (ASTNode × Lexer) :=
  match call (currGroup + 1) lexer with
  | .ok (nodeA, lexer) =>
    let currToken := lexer.getCurrToken.type
    match findOp currGroup currToken with
    | some op =>
      let pos := lexer.getCurrToken.pos
      let lexer := lexer.scanToken 1
      match call currGroup lexer with
      | .ok (nodeB, lexer) => .ok (.BinaryNode nodeA nodeB op pos false, lexer)
      | .throw e => .throw e
      | .outOfFuel => .outOfFuel
    | none => .ok (nodeA, lexer)
  | .throw e => .throw e
  | .outOfFuel => .outOfFuel

/-- The `while (true)` loop of `Parser::parseUnaryPostfix`. -/
def parseUnaryPostfix.loop (currGroup : Nat) :
    Nat → ASTNode → Lexer → Result (ASTNode × Lexer)
  | 0, _, _ => .outOfFuel
  | fuel + 1, node, lexer =>
    let currToken := lexer.getCurrToken.type
    match findOp currGroup currToken with
    | some op =>
      let pos := lexer.getCurrToken.pos
      let lexer := lexer.scanToken 1
      parseUnaryPostfix.loop currGroup fuel (.UnaryNode node op pos false) lexer
    | none => .ok (node, lexer)

/-- The function `Parser::parseUnaryPostfix`: postfix operators (`E -> T{[op]}`). -/
def parseUnaryPostfix (call : Nat → Lexer → Result (ASTNode × Lexer)) (currGroup : Nat)
    (fuel : Nat) (lexer : Lexer) : Result (ASTNode × Lexer) :=
  match call (currGroup + 1) lexer with
  | .ok (node, lexer) => parseUnaryPostfix.loop currGroup fuel node lexer
  | .throw e => .throw e
  | .outOfFuel => .outOfFuel

/-- The message of the `ParsingError` thrown by `parseParenthAndDot` when the closing token
is missing. In the source the conditional operator binds looser than `+`, so the text is
`")"` for a call and `"] expected."` for a subscript. -/
def closingMessage (closingToken : TokenType) : String :=
  if closingToken = .R_PAREN then ")" else "]" ++ " expected."

/-- The `while (true)` loop of `Parser::parseParenthAndDot`, entered with the base `node`
(`E -> T{. | (V) | [V]}`, `V -> ε | E{,E}`). -/
def parseParenthAndDot.loop (call : Nat → Lexer → Result (ASTNode × Lexer))
    (currGroup : Nat) : Nat → ASTNode → Lexer → Result (ASTNode × Lexer)
  | 0, _, _ => .outOfFuel
  | fuel + 1, node, lexer =>
    match findOp currGroup lexer.getCurrToken.type with
    | some op =>
      let closingToken := lexer.getCurrToken.getOppositeType
      let pos := lexer.getCurrToken.pos
      if (lexer.lookForw 1).type ≠ closingToken then
        match parseOperands call fuel lexer [] with
        | .ok (nOperands, lexer) =>
          if lexer.getCurrToken.type ≠ closingToken then
            .throw (.ParsingError (closingMessage closingToken) lexer.getCurrToken.pos)
          else
            parseParenthAndDot.loop call currGroup fuel
              (.nAryNode (some node) op nOperands pos false) (lexer.scanToken 1)
        | .throw e => .throw e
        | .outOfFuel => .outOfFuel
      else
        parseParenthAndDot.loop call currGroup fuel
          (.nAryNode (some node) op [] pos false) (lexer.scanToken 2)
    | none =>
      if lexer.getCurrToken.type = .DOT then
        let pos := lexer.getCurrToken.pos
        let lexer := lexer.scanToken 1
        match call (currGroup + 1) lexer with
        | .ok (nodeB, lexer) =>
          parseParenthAndDot.loop call currGroup fuel
            (.BinaryNode node nodeB .MEMBER_ACCESS pos false) lexer
        | .throw e => .throw e
        | .outOfFuel => .outOfFuel
      else .ok (node, lexer)

/-- The function `Parser::parseParenthAndDot`: call, subscript and member access, left
associative at one level. -/
def parseParenthAndDot (call : Nat → Lexer → Result (ASTNode × Lexer)) (currGroup : Nat)
    (fuel : Nat) (lexer : Lexer) : Result (ASTNode × Lexer) :=
  match call (currGroup + 1) lexer with
  | .ok (node, lexer) => parseParenthAndDot.loop call currGroup fuel node lexer
  | .throw e => .throw e
  | .outOfFuel => .outOfFuel

/-- The member `parserFunc` of the group at index `currGroup` of the table (`none` for a null
pointer and outside the array). -/
def parserFuncAt (currGroup : Nat) : Option ParserFunc :=
  (precedenceTab.get? currGroup).bind (fun group => group.parserFunc)

/-- The call `(this->*(precedenceTab + currGroup)->parserFunc)(precedenceTab + currGroup)`:
run the parsing function of the group at index `currGroup`. Every nested call through the
table, and every loop of the function called, gets one unit of fuel less. -/
def callParserFunc : Nat → Nat → Lexer → Result (ASTNode × Lexer)
  | 0, _, _ => .outOfFuel
  | fuel + 1, currGroup, lexer =>
    match parserFuncAt currGroup with
    | none => .throw .nullParserFunc
    | some .parseBinLeft => parseBinLeft (callParserFunc fuel) currGroup fuel lexer
    | some .parseBinRight => parseBinRight (callParserFunc fuel) currGroup lexer
    | some .parseUnary => parseUnary (callParserFunc fuel) currGroup fuel lexer
    | some .parseUnaryPostfix => parseUnaryPostfix (callParserFunc fuel) currGroup fuel lexer
    | some .parseParenthAndDot => parseParenthAndDot (callParserFunc fuel) currGroup fuel lexer
    | some .parsePrimary => parsePrimary (callParserFunc fuel) fuel lexer

/-! ## Statements and blocks (parser.cpp, AST.h) -/

mutual
/-- Modelled from the spec: the statement nodes of AST.h (not among the sources), with the
constructor arguments in the order parser.cpp passes them; the cases of an `IfStatement` are
the pairs given to `addCase`, in the order of the calls. -/
inductive Statement where
  | ExprStatement (expr : ASTNode) (pos : Nat)
  | ReturnStatement (expr : ASTNode) (pos : Nat)
  | IfStatement (cases : List (ASTNode × CodeBlock)) (pos : Nat)
  | WhileStatement (condition : ASTNode) (block : CodeBlock) (pos : Nat)
  | ForStatement (counterNode lowerNode upperNode : ASTNode) (block : CodeBlock) (pos : Nat)
  | FunctionDefStatement (funcIdNode : ASTNode) (paramVec : List ASTNode) (block : CodeBlock)
      (pos : Nat)
/-- Modelled from the spec: the class `CodeBlock` of AST.h, a sequence of statements. -/
inductive CodeBlock where
  | mk (statements : List Statement)
end

/-- Modelled from the spec: `CodeBlock::addStatement`, which appends to the sequence. -/
def CodeBlock.addStatement : CodeBlock → Statement → CodeBlock
  | .mk statements, s => .mk (statements ++ [s])

/-- The statements of a block. -/
def CodeBlock.statements : CodeBlock → List Statement
  | .mk statements => statements

/-- The state of a `Parser` object: its lexer and `blockLevel` (initially `-1`). -/
structure Parser where
  lexer : Lexer
  blockLevel : Int
  deriving DecidableEq, Repr

/-- The loop `for (i = 0; lexer.lookForw(i).getType() == TAB; i++);` of `lessTabs`: the number
of TAB tokens at the cursor (see `lookForw_leadingTabs` and `lookForw_lt_leadingTabs`). -/
def leadingTabs : List Token → Nat
  | [] => 0
  | t :: ts => if t.type = .TAB then leadingTabs ts + 1 else 0

/-- The function `Parser::lessTabs(int& i)`: the returned flag together with the value left
in `i`. It reads the lexer and changes nothing. -/
def lessTabs (parser : Parser) : Result (Bool × Nat) :=
  let i := leadingTabs parser.lexer.tokenList
  if (i : Int) < parser.blockLevel then .ok (true, i)
  else if (i : Int) > parser.blockLevel then
    .throw (.ParsingError "Indentation error." parser.lexer.getCurrToken.pos)
  else .ok (false, i)

/-- The loop `while (lexer.getCurrToken().getType() == TAB) lexer.scanToken();` on the token
list. -/
def skipTabs.go : List Token → List Token
  | [] => []
  | t :: ts => if t.type = .TAB then skipTabs.go ts else t :: ts

/-- The loop `while (lexer.getCurrToken().getType() == TAB) lexer.scanToken();`. -/
def skipTabs (lexer : Lexer) : Lexer :=
  { lexer with tokenList := skipTabs.go lexer.tokenList }

/-- The function `Parser::checkNewLine`. -/
def checkNewLine (lexer : Lexer) : Result Lexer :=
  if lexer.getCurrToken.type ≠ .NEWLINE then
    .throw (.ParsingError "Newline expected." lexer.getCurrToken.pos)
  else .ok (lexer.scanToken 1)

/-- The function `Parser::parseReturn`. -/
def parseReturn (call : Nat → Lexer → Result (ASTNode × Lexer)) (parser : Parser) :
    Result (Statement × Parser) :=
  let pos := parser.lexer.getCurrToken.pos
  let lexer := parser.lexer.scanToken 1
  match call 0 lexer with
  | .ok (node, lexer) =>
    match checkNewLine lexer with
    | .ok lexer => .ok (.ReturnStatement node pos, { parser with lexer := lexer })
    | .throw e => .throw e
    | .outOfFuel => .outOfFuel
  | .throw e => .throw e
  | .outOfFuel => .outOfFuel

/-- The function `Parser::parseExpr`. -/
def parseExpr (call : Nat → Lexer → Result (ASTNode × Lexer)) (parser : Parser) :
    Result (Statement × Parser) :=
  let pos := parser.lexer.getCurrToken.pos
  match call 0 parser.lexer with
  | .ok (node, lexer) =>
    match checkNewLine lexer with
    | .ok lexer => .ok (.ExprStatement node pos, { parser with lexer := lexer })
    | .throw e => .throw e
    | .outOfFuel => .outOfFuel
  | .throw e => .throw e
  | .outOfFuel => .outOfFuel

/-- The condition of one case of `parseIf`, parsed with the cursor just after the keyword
`currToken`: an expression followed by `then`, or the always-true dummy for `else`. -/
def parseIf.condition (call : Nat → Lexer → Result (ASTNode × Lexer))
    (currToken : TokenType) (lexer : Lexer) : Result (ASTNode × Lexer) :=
  if currToken ≠ .ELSE then
    match call 0 lexer with
    | .ok (condition, lexer) =>
      if lexer.getCurrToken.type = .THEN then .ok (condition, lexer.scanToken 1)
      else .throw (.ParsingError "'then' token expected." lexer.getCurrToken.pos)
    | .throw e => .throw e
    | .outOfFuel => .outOfFuel
  else .ok (.LiteralNode (.bool true) 0 false, lexer)

/-- The `while` loop of `Parser::parseIf`; `cases` and `pos` are the statement under
construction, `block` is `parseBlock`. -/
def parseIf.loop (call : Nat → Lexer → Result (ASTNode × Lexer))
    (block : Parser → Result (CodeBlock × Parser)) (pos : Nat) :
    Nat → Parser → List (ASTNode × CodeBlock) → Result (Statement × Parser)
  | 0, _, _ => .outOfFuel
  | fuel + 1, parser, cases =>
    let currToken := parser.lexer.getCurrToken.type
    if currToken = .IF ∨ currToken = .ELIF ∨ currToken = .ELSE then
      let lexer := parser.lexer.scanToken 1
      match parseIf.condition call currToken lexer with
      | .ok (condition, lexer) =>
        match checkNewLine lexer with
        | .ok lexer =>
          match block { parser with lexer := lexer } with
          | .ok (blk, parser) =>
            let cases := cases ++ [(condition, blk)]
            if currToken = .ELSE then .ok (.IfStatement cases pos, parser)
            else
              match lessTabs parser with
              | .ok (true, _) => .ok (.IfStatement cases pos, parser)
              | .ok (false, nTabs) =>
                let nextTok := (parser.lexer.lookForw nTabs).type
                if nextTok = .ELIF ∨ nextTok = .ELSE then
                  parseIf.loop call block pos fuel
                    { parser with lexer := skipTabs parser.lexer } cases
                else .ok (.IfStatement cases pos, parser)
              | .throw e => .throw e
              | .outOfFuel => .outOfFuel
          | .throw e => .throw e
          | .outOfFuel => .outOfFuel
        | .throw e => .throw e
        | .outOfFuel => .outOfFuel
      | .throw e => .throw e
      | .outOfFuel => .outOfFuel
    else .ok (.IfStatement cases pos, parser)

/-- The function `Parser::parseIf`. -/
def parseIf (call : Nat → Lexer → Result (ASTNode × Lexer))
    (block : Parser → Result (CodeBlock × Parser)) (fuel : Nat) (parser : Parser) :
    Result (Statement × Parser) :=
  parseIf.loop call block parser.lexer.getCurrToken.pos fuel parser []

/-- The function `Parser::parseWhile`. -/
def parseWhile (call : Nat → Lexer → Result (ASTNode × Lexer))
    (block : Parser → Result (CodeBlock × Parser)) (parser : Parser) :
    Result (Statement × Parser) :=
  let pos := parser.lexer.getCurrToken.pos
  let lexer := parser.lexer.scanToken 1
  match call 0 lexer with
  | .ok (condition, lexer) =>
    match checkNewLine lexer with
    | .ok lexer =>
      match block { parser with lexer := lexer } with
      | .ok (blk, parser) => .ok (.WhileStatement condition blk pos, parser)
      | .throw e => .throw e
      | .outOfFuel => .outOfFuel
    | .throw e => .throw e
    | .outOfFuel => .outOfFuel
  | .throw e => .throw e
  | .outOfFuel => .outOfFuel

/-- The function `Parser::parseFor`. -/
def parseFor (call : Nat → Lexer → Result (ASTNode × Lexer))
    (block : Parser → Result (CodeBlock × Parser)) (parser : Parser) :
    Result (Statement × Parser) :=
  let pos := parser.lexer.getCurrToken.pos
  let lexer := parser.lexer.scanToken 1
  if lexer.getCurrToken.type ≠ .ID then
    .throw (.ParsingError "Token is not an identifier." lexer.getCurrToken.pos)
  else
    let counterNode := ASTNode.IDNode lexer.getCurrToken.lexeme lexer.getCurrToken.pos false
    let lexer := lexer.scanToken 1
    if lexer.getCurrToken.type = .FROM then
      let lexer := lexer.scanToken 1
      match call 0 lexer with
      | .ok (lowerNode, lexer) =>
        if lexer.getCurrToken.type = .TO then
          let lexer := lexer.scanToken 1
          match call 0 lexer with
          | .ok (upperNode, lexer) =>
            match checkNewLine lexer with
            | .ok lexer =>
              match block { parser with lexer := lexer } with
              | .ok (blk, parser) =>
                .ok (.ForStatement counterNode lowerNode upperNode blk pos, parser)
              | .throw e => .throw e
              | .outOfFuel => .outOfFuel
            | .throw e => .throw e
            | .outOfFuel => .outOfFuel
          | .throw e => .throw e
          | .outOfFuel => .outOfFuel
        else
          .throw (.ParsingError "'to' - upper limit delimiter expected."
            lexer.getCurrToken.pos)
      | .throw e => .throw e
      | .outOfFuel => .outOfFuel
    else
      .throw (.ParsingError "'from' - lower limit delimiter expected."
        lexer.getCurrToken.pos)

/-- The do-while loop of `Parser::parseFunctionDef` that collects the parameters:
`do { scanToken(); require ID; push_back; scanToken(); } while (current token is COMMA)`. -/
def parseFunctionDef.params : Nat → Lexer → List ASTNode → Result (List ASTNode × Lexer)
  | 0, _, _ => .outOfFuel
  | fuel + 1, lexer, paramVec =>
    let lexer := lexer.scanToken 1
    if lexer.getCurrToken.type ≠ .ID then
      .throw (.ParsingError "Token is not an identifier." lexer.getCurrToken.pos)
    else
      let paramVec :=
        paramVec ++ [ASTNode.IDNode lexer.getCurrToken.lexeme lexer.getCurrToken.pos false]
      let lexer := lexer.scanToken 1
      if lexer.getCurrToken.type = .COMMA then parseFunctionDef.params fuel lexer paramVec
      else .ok (paramVec, lexer)

/-- The parameter list of `Parser::parseFunctionDef`, run with the cursor on `(`: the
do-while loop unless the next token is `)`, in which case only `(` is skipped. It leaves the
cursor on the token that has to be `)`. -/
def parseFunctionDef.paramList (fuel : Nat) (lexer : Lexer) : Result (List ASTNode × Lexer) :=
  if (lexer.lookForw 1).type ≠ .R_PAREN then parseFunctionDef.params fuel lexer []
  else .ok ([], lexer.scanToken 1)

/-- The function `Parser::parseFunctionDef`
(`function [ID]( ε | [ID]{, [ID]} )`, newline, block). -/
def parseFunctionDef (block : Parser → Result (CodeBlock × Parser)) (fuel : Nat)
    (parser : Parser) : Result (Statement × Parser) :=
  let pos := parser.lexer.getCurrToken.pos
  let lexer := parser.lexer.scanToken 1
  if lexer.getCurrToken.type ≠ .ID then
    .throw (.ParsingError "Token is not an identifier." lexer.getCurrToken.pos)
  else
    let funcIdNode := ASTNode.IDNode lexer.getCurrToken.lexeme lexer.getCurrToken.pos false
    let lexer := lexer.scanToken 1
    if lexer.getCurrToken.type ≠ .L_PAREN then
      .throw (.ParsingError "( expected." lexer.getCurrToken.pos)
    else
      match parseFunctionDef.paramList fuel lexer with
      | .ok (paramVec, lexer) =>
        if lexer.getCurrToken.type ≠ .R_PAREN then
          .throw (.ParsingError ") expected - matching parentheses not found."
            lexer.getCurrToken.pos)
        else
          let lexer := lexer.scanToken 1
          match checkNewLine lexer with
          | .ok lexer =>
            match block { parser with lexer := lexer } with
            | .ok (blk, parser) =>
              .ok (.FunctionDefStatement funcIdNode paramVec blk pos, parser)
            | .throw e => .throw e
            | .outOfFuel => .outOfFuel
          | .throw e => .throw e
          | .outOfFuel => .outOfFuel
      | .throw e => .throw e
      | .outOfFuel => .outOfFuel

/-- The `switch` of `Parser::parseBlock` on the first token of a statement. -/
def parseStatement (call : Nat → Lexer → Result (ASTNode × Lexer))
    (block : Parser → Result (CodeBlock × Parser)) (fuel : Nat) (parser : Parser) :
    Result (Statement × Parser) :=
  match parser.lexer.getCurrToken.type with
  | .WHILE => parseWhile call block parser
  | .IF => parseIf call block fuel parser
  | .FOR => parseFor call block parser
  | .RETURN_TOK => parseReturn call parser
  | .FUNCTION_DEF => parseFunctionDef block fuel parser
  | _ => parseExpr call parser

/-- The `while` loop of `Parser::parseBlock`, run after `blockLevel++` with the block under
construction; `block` is `parseBlock` itself, for the nested blocks. -/
def parseBlock.loop (call : Nat → Lexer → Result (ASTNode × Lexer))
    (block : Parser → Result (CodeBlock × Parser)) :
    Nat → Parser → CodeBlock → Result (CodeBlock × Parser)
  | 0, _, _ => .outOfFuel
  | fuel + 1, parser, currBlock =>
    if parser.lexer.getCurrToken.type ≠ .EOFILE then
      match lessTabs parser with
      | .ok (true, _) => .ok (currBlock, parser)
      | .ok (false, _) =>
        let parser := { parser with lexer := skipTabs parser.lexer }
        match parseStatement call block fuel parser with
        | .ok (currStatement, parser) =>
          parseBlock.loop call block fuel parser (currBlock.addStatement currStatement)
        | .throw e => .throw e
        | .outOfFuel => .outOfFuel
      | .throw e => .throw e
      | .outOfFuel => .outOfFuel
    else .ok (currBlock, parser)

/-- The function `Parser::parseBlock`. -/
def parseBlock : Nat → Parser → Result (CodeBlock × Parser)
  | 0, _ => .outOfFuel
  | fuel + 1, parser =>
    let parser := { parser with blockLevel := parser.blockLevel + 1 }
    match parseBlock.loop (callParserFunc fuel) (parseBlock fuel) fuel parser (.mk []) with
    | .ok (currBlock, parser) =>
      .ok (currBlock, { parser with blockLevel := parser.blockLevel - 1 })
    | .throw e => .throw e
    | .outOfFuel => .outOfFuel

/-- The function `Parser::getAST` on a fresh parser. The lexing of `inputStr`
(`lexer.setInput`, `lexer.lexInput`, not among the sources) is taken as given: `tokens` is the
token buffer it produced, without the closing end-of-file token, and `inputLength` the length
of `inputStr`. -/
def getAST (fuel : Nat) (tokens : List Token) (inputLength : Nat) : Result CodeBlock :=
  let parser : Parser := { lexer := { tokenList := tokens, inputLength := inputLength },
                           blockLevel := -1 }
  match parseBlock fuel parser with
  | .ok (mainBlock, parser) =>
    if parser.lexer.getCurrToken.type ≠ .EOFILE then
      .throw (.ParsingError "" parser.lexer.getCurrToken.pos)
    else .ok mainBlock
  | .throw e => .throw e
  | .outOfFuel => .outOfFuel

/-! ## The input cleaner (inputcleaner.cpp) -/

/-- The data members of the class `InputCleaner` that inputcleaner.cpp uses (the header is
not among the sources): the text given to the constructor or to `setInputStr`, the kept
lines of the last cleaning, and the counts of deleted lines. A `std::string` is the list of
its characters. -/
structure InputCleaner where
  originalStr : List Char
  subStrVec : List (List Char)
  sumOfDeletedStrs : List Nat

/-- The constructor `InputCleaner::InputCleaner(std::string inputStr)`: both vectors start
empty. -/
def InputCleaner.new (inputStr : List Char) : InputCleaner :=
  { originalStr := inputStr, subStrVec := [], sumOfDeletedStrs := [] }

/-- The member `InputCleaner::setInputStr`. -/
def InputCleaner.setInputStr (self : InputCleaner) (inputStr : List Char) : InputCleaner :=
  { self with originalStr := inputStr }

/-- The strings that the calls `std::getline(ss, subStr, '\n')` of the loop of `clean`
extract in turn from a stream over the text, until the call that fails: each call takes the
characters before the next line feed and drops the line feed; at the end of the text a call
succeeds when it extracted a character, and fails otherwise. -/
def getlines : List Char → List (List Char)
  | [] => []
  | c :: rest =>
    if c = '\n' then [] :: getlines rest
    else
      match getlines rest with
      | [] => [[c]]
      | subStr :: more => (c :: subStr) :: more

/-- The library function `isgraph` in the "C" locale: the printing characters other than the
space, `!` to `~`. -/
def isgraph (c : Char) : Bool :=
  decide (33 ≤ c.toNat) && decide (c.toNat ≤ 126)

/-- The constant `whitespaces` of `InputCleaner::clean`: space, tab, form feed, vertical
tab, line feed, carriage return. -/
def whitespaces : List Char := [' ', '\t', '\x0c', '\x0b', '\n', '\r']

/-- The library function `std::string::find_last_not_of`: the index of the last character
that is not among `chars`, or `none` for `npos`. -/
def find_last_not_of : List Char → List Char → Option Nat
  | [], _ => none
  | c :: rest, chars =>
    match find_last_not_of rest chars with
    | some i => some (i + 1)
    | none => if chars.contains c then none else some 0

/-- The local variables of `InputCleaner::clean` that the loop changes, with the two vectors
of the object. -/
structure clean.State where
  finalStr : List Char
  subStrVec : List (List Char)
  sumOfDeletedStrs : List Nat
  deletedLines : Nat

/-- One round of the loop of `InputCleaner::clean`, on the line `subStr` just extracted.
`subStr.compare(0, 2, "//") == 0` holds when the first two characters are `//`;
`find_last_not_of(..) + 1` is `0` for `npos`; `erase(pos)` keeps the first `pos`
characters. The counter `deletedLines` is an `int`, and stays below `2 ^ 31` on every text
of fewer than `2 ^ 31` lines. -/
def clean.step (st : clean.State) (subStr : List Char) : clean.State :=
  if subStr.take 2 = ['/', '/'] then
    { st with deletedLines := st.deletedLines + 1 }
  else if subStr.any isgraph then
    let subStr := subStr.take
      (match find_last_not_of subStr whitespaces with
        | some i => i + 1
        | none => 0)
    { finalStr := st.finalStr ++ (subStr ++ ['\n'])
      subStrVec := st.subStrVec ++ [subStr ++ ['\n']]
      sumOfDeletedStrs := st.sumOfDeletedStrs ++ [st.deletedLines]
      deletedLines := st.deletedLines }
  else { st with deletedLines := st.deletedLines + 1 }

/-- The state in which `InputCleaner::clean` leaves its loop: `subStrVec` is emptied first,
`sumOfDeletedStrs` is not. -/
def clean.loop (self : InputCleaner) : clean.State :=
  (getlines self.originalStr).foldl clean.step
    { finalStr := [], subStrVec := [], sumOfDeletedStrs := self.sumOfDeletedStrs,
      deletedLines := 0 }

/-- The member `InputCleaner::clean`: the returned text and the object after the call. -/
def InputCleaner.clean (self : InputCleaner) : List Char × InputCleaner :=
  let st := clean.loop self
  (st.finalStr,
    { self with subStrVec := st.subStrVec, sumOfDeletedStrs := st.sumOfDeletedStrs })

/-- The loop of `InputCleaner::getErrorLine` over the lines from `subStrVec`: the values of
`currLen`, `nlines` and `posInLine` when it ends. -/
def getErrorLine.scan (errPos : Nat) : List (List Char) → Nat → Nat → Nat × Nat × Nat
  | [], currLen, nlines => (currLen, nlines, 0)
  | subStr :: rest, currLen, nlines =>
    if currLen + subStr.length ≤ errPos then
      getErrorLine.scan errPos rest (currLen + subStr.length) (nlines + 1)
    else (currLen, nlines, errPos - currLen)

/-- The member `InputCleaner::getErrorLine`. The result is `none` where the function reads
outside a vector: `subStrVec.rbegin()` of an empty vector, or `sumOfDeletedStrs[nlines]`
past the end. The sizes are `size_t`; the subtractions `size() - 1` are on non-empty
strings, every line of `subStrVec` ending in a line feed. -/
def InputCleaner.getErrorLine (self : InputCleaner) (errPos : Nat) : Option (List Char) :=
  let (_, nlines, posInLine) := getErrorLine.scan errPos self.subStrVec 0 0
  let located : Option (Nat × Nat) :=
    if nlines ≥ self.subStrVec.length then
      match self.subStrVec.getLast? with
      | some last => some (self.subStrVec.length - 1, last.length - 1)
      | none => none
    else if posInLine ≥ (self.subStrVec.getD nlines []).length then
      some (nlines, (self.subStrVec.getD nlines []).length - 1)
    else some (nlines, posInLine)
  match located with
  | none => none
  | some (nlines, posInLine) =>
    match self.subStrVec[nlines]?, self.sumOfDeletedStrs[nlines]? with
    | some s, some deleted =>
      some ("Line: ".data ++ (Nat.repr (nlines + deleted + 1)).data ++ ['\n'] ++
        s.map (fun c => if c = '\t' then ' ' else c) ++ List.replicate posInLine ' ' ++ ['^'])
    | _, _ => none

/-! ## Vocabulary of the statements -/

/-- The second outcome agrees with the first wherever the first is not an exhausted bound. -/
def Refines {α : Type} (r r' : Result α) : Prop := r ≠ .outOfFuel → r' = r

/-- One table of parsing functions answers wherever the other does. -/
def CallMono (call call' : Nat → Lexer → Result (ASTNode × Lexer)) : Prop :=
  ∀ g lexer, Refines (call g lexer) (call' g lexer)

/-- One block parser answers wherever the other does. -/
def BlockMono (block block' : Parser → Result (CodeBlock × Parser)) : Prop :=
  ∀ parser, Refines (block parser) (block' parser)

/-- The index of the primary group in `precedenceTab`. -/
def primaryGroup : Nat := 11

/-- One operator and the operand after it, as they follow the first operand of a chain. -/
structure ChainStep where
  op : OperatorType
  pos : Nat
  operand : ASTNode

/-- The tree that associates a chain to the left: `((first op1 a1) op2 a2) ...`. -/
def leftFold (first : ASTNode) (steps : List ChainStep) : ASTNode :=
  steps.foldl (fun nodeA s => .BinaryNode nodeA s.operand s.op s.pos false) first

/-- The tree that associates a chain to the right: `first op1 (a1 op2 (a2 ...))`. -/
def rightFold : ASTNode → List ChainStep → ASTNode
  | first, [] => first
  | first, s :: rest => .BinaryNode first (rightFold s.operand rest) s.op s.pos false

/-- The tokens from `lexer` on are `op1 a1 op2 a2 ... opn an` followed by a token that is no
operator of group `g`: every `opi` is an operator of group `g`, every `ai` is what `call`
parses at group `g + 1`, and `lexer'` is the cursor after `an`. -/
inductive OperandChain (call : Nat → Lexer → Result (ASTNode × Lexer)) (g : Nat) :
    Lexer → List ChainStep → Lexer → Prop where
  | done (lexer : Lexer) (h : findOp g lexer.getCurrToken.type = none) :
      OperandChain call g lexer [] lexer
  | step (lexer lexer1 lexer2 : Lexer) (op : OperatorType) (nodeB : ASTNode)
      (steps : List ChainStep)
      (hop : findOp g lexer.getCurrToken.type = some op)
      (hB : call (g + 1) (lexer.scanToken 1) = .ok (nodeB, lexer1))
      (hrest : OperandChain call g lexer1 steps lexer2) :
      OperandChain call g lexer (⟨op, lexer.getCurrToken.pos, nodeB⟩ :: steps) lexer2

/-- A token kind that cannot continue an expression: no binary or postfix operator, no `(`
or `[`, and not the dot (group 8 holds the prefix operators, which do not continue one). -/
def endsExpression (t : TokenType) : Prop :=
  (∀ g, g ≤ 10 → g ≠ 8 → findOp g t = none) ∧ t ≠ .DOT

/-- The tree of a run of prefix operators before an operand: the first operator is the
outermost node. Each operator comes with the offset of its token. -/
def prefixFold (ops : List (OperatorType × Nat)) (operand : ASTNode) : ASTNode :=
  ops.foldr (fun o child => .UnaryNode child o.1 o.2 false) operand

instance : DecidablePred endsExpression := fun t => by
  unfold endsExpression; infer_instance

/-! ## Example inputs -/

/-- The tokens of `a - b - c` and a newline. -/
def tokensSub : List Token :=
  [⟨"a", .ID, 0⟩, ⟨"-", .MINUS, 2⟩, ⟨"b", .ID, 4⟩, ⟨"-", .MINUS, 6⟩, ⟨"c", .ID, 8⟩,
    ⟨"\n", .NEWLINE, 9⟩]

/-- The tokens of `a = b = c` and a newline. -/
def tokensAssign : List Token :=
  [⟨"a", .ID, 0⟩, ⟨"=", .EQ, 2⟩, ⟨"b", .ID, 4⟩, ⟨"=", .EQ, 6⟩, ⟨"c", .ID, 8⟩,
    ⟨"\n", .NEWLINE, 9⟩]

/-- The tokens of `a + b * c` and a newline. -/
def tokensAddMul : List Token :=
  [⟨"a", .ID, 0⟩, ⟨"+", .PLUS, 2⟩, ⟨"b", .ID, 4⟩, ⟨"*", .STAR, 6⟩, ⟨"c", .ID, 8⟩,
    ⟨"\n", .NEWLINE, 9⟩]

/-- The tokens of the line `x = 1 + 2 * 3`. -/
def tokensStatement : List Token :=
  [⟨"x", .ID, 0⟩, ⟨"=", .EQ, 2⟩, ⟨"1", .INT_LIT, 4⟩, ⟨"+", .PLUS, 6⟩, ⟨"2", .INT_LIT, 8⟩,
    ⟨"*", .STAR, 10⟩, ⟨"3", .INT_LIT, 12⟩, ⟨"\n", .NEWLINE, 13⟩]

/-- The tokens of `!a == b` and a newline. -/
def tokensNotEq : List Token :=
  [⟨"!", .EXMARK, 0⟩, ⟨"a", .ID, 1⟩, ⟨"==", .DOUBLE_EQ, 3⟩, ⟨"b", .ID, 6⟩,
    ⟨"\n", .NEWLINE, 7⟩]

/-- The tokens of `- ! a` and a newline. -/
def tokensPrefixes : List Token :=
  [⟨"-", .MINUS, 0⟩, ⟨"!", .EXMARK, 2⟩, ⟨"a", .ID, 4⟩, ⟨"\n", .NEWLINE, 5⟩]

/-- One suffix of a call/subscript/member chain: `( ... )` or `[ ... ]` with the operator the
table links to its opening token, the offset of that token and the parsed operands, or `.x`
with the offset of the dot and the parsed right operand. -/
inductive Suffix where
  | nary (op : OperatorType) (pos : Nat) (nOperands : List ASTNode)
  | member (pos : Nat) (nodeB : ASTNode)

/-- The node a suffix builds around the node before it: the receiver of the `nAryNode`, the
left operand of the member access. -/
def Suffix.wrap (node : ASTNode) : Suffix → ASTNode
  | .nary op pos nOperands => .nAryNode (some node) op nOperands pos false
  | .member pos nodeB => .BinaryNode node nodeB .MEMBER_ACCESS pos false

/-- The tree of a base followed by suffixes: every suffix wraps all that precedes it. -/
def suffixFold (base : ASTNode) (suffixes : List Suffix) : ASTNode :=
  suffixes.foldl Suffix.wrap base

/-- The tokens from `lexer` on are a sequence of suffixes of group `g` followed by a token
that starts no further suffix; `lexer'` is the cursor after the last suffix. The operands
between the brackets are what `parseOperands` collects with `fuel`, the right operand of a dot
is what `call` parses at group `g + 1`. -/
inductive SuffixChain (call : Nat → Lexer → Result (ASTNode × Lexer)) (g fuel : Nat) :
    Lexer → List Suffix → Lexer → Prop where
  | done (lexer : Lexer) (h : findOp g lexer.getCurrToken.type = none)
      (hdot : lexer.getCurrToken.type ≠ .DOT) : SuffixChain call g fuel lexer [] lexer
  | operands (lexer lexer1 lexer2 : Lexer) (op : OperatorType) (nOperands : List ASTNode)
      (rest : List Suffix)
      (hop : findOp g lexer.getCurrToken.type = some op)
      (hnonempty : (lexer.lookForw 1).type ≠ lexer.getCurrToken.getOppositeType)
      (hargs : parseOperands call fuel lexer [] = .ok (nOperands, lexer1))
      (hclose : lexer1.getCurrToken.type = lexer.getCurrToken.getOppositeType)
      (hrest : SuffixChain call g fuel (lexer1.scanToken 1) rest lexer2) :
      SuffixChain call g fuel lexer (.nary op lexer.getCurrToken.pos nOperands :: rest) lexer2
  | empty (lexer lexer2 : Lexer) (op : OperatorType) (rest : List Suffix)
      (hop : findOp g lexer.getCurrToken.type = some op)
      (hempty : (lexer.lookForw 1).type = lexer.getCurrToken.getOppositeType)
      (hrest : SuffixChain call g fuel (lexer.scanToken 2) rest lexer2) :
      SuffixChain call g fuel lexer (.nary op lexer.getCurrToken.pos [] :: rest) lexer2
  | member (lexer lexer1 lexer2 : Lexer) (nodeB : ASTNode) (rest : List Suffix)
      (hop : findOp g lexer.getCurrToken.type = none)
      (hdot : lexer.getCurrToken.type = .DOT)
      (hB : call (g + 1) (lexer.scanToken 1) = .ok (nodeB, lexer1))
      (hrest : SuffixChain call g fuel lexer1 rest lexer2) :
      SuffixChain call g fuel lexer (.member lexer.getCurrToken.pos nodeB :: rest) lexer2

/-- The tokens of `a.b(c)` and a newline. -/
def tokensMemberCall : List Token :=
  [⟨"a", .ID, 0⟩, ⟨".", .DOT, 1⟩, ⟨"b", .ID, 2⟩, ⟨"(", .L_PAREN, 3⟩, ⟨"c", .ID, 4⟩,
    ⟨")", .R_PAREN, 5⟩, ⟨"\n", .NEWLINE, 6⟩]

/-- The tokens of `a[b][c]` and a newline. -/
def tokensSubscripts : List Token :=
  [⟨"a", .ID, 0⟩, ⟨"[", .L_SQ_BRACKET, 1⟩, ⟨"b", .ID, 2⟩, ⟨"]", .R_SQ_BRACKET, 3⟩,
    ⟨"[", .L_SQ_BRACKET, 4⟩, ⟨"c", .ID, 5⟩, ⟨"]", .R_SQ_BRACKET, 6⟩, ⟨"\n", .NEWLINE, 7⟩]

/-- The tokens of the line `(x) = 5`. -/
def tokensParenAssign : List Token :=
  [⟨"(", .L_PAREN, 0⟩, ⟨"x", .ID, 1⟩, ⟨")", .R_PAREN, 2⟩, ⟨"=", .EQ, 4⟩, ⟨"5", .INT_LIT, 6⟩,
    ⟨"\n", .NEWLINE, 7⟩]

/-- The tokens of the line `x = 5`. -/
def tokensPlainAssign : List Token :=
  [⟨"x", .ID, 0⟩, ⟨"=", .EQ, 2⟩, ⟨"5", .INT_LIT, 4⟩, ⟨"\n", .NEWLINE, 5⟩]

/-- The tokens of a line `x` indented by one tab. -/
def tokensIndented : List Token :=
  [⟨"\t", .TAB, 0⟩, ⟨"x", .ID, 1⟩, ⟨"\n", .NEWLINE, 2⟩]

/-- A block parser that leaves `blockLevel` as it found it. -/
def KeepsLevel {α : Type} (f : Parser → Result (α × Parser)) : Prop :=
  ∀ parser a parser', f parser = .ok (a, parser') → parser'.blockLevel = parser.blockLevel

/-- The tokens of `if x then`, `<tab>y`, `<tab>else`, `<tab><tab>z`: an `else` one level
deeper than its `if`. -/
def tokensDeepElse : List Token :=
  [⟨"if", .IF, 0⟩, ⟨"x", .ID, 3⟩, ⟨"then", .THEN, 5⟩, ⟨"\n", .NEWLINE, 9⟩,
    ⟨"\t", .TAB, 10⟩, ⟨"y", .ID, 11⟩, ⟨"\n", .NEWLINE, 12⟩,
    ⟨"\t", .TAB, 13⟩, ⟨"else", .ELSE, 14⟩, ⟨"\n", .NEWLINE, 18⟩,
    ⟨"\t", .TAB, 19⟩, ⟨"\t", .TAB, 20⟩, ⟨"z", .ID, 21⟩, ⟨"\n", .NEWLINE, 22⟩]

/-- The tokens of `if x then`, `<tab>y`, `else`, `<tab>z`: an `else` at the level of its
`if`. -/
def tokensIfElse : List Token :=
  [⟨"if", .IF, 0⟩, ⟨"x", .ID, 3⟩, ⟨"then", .THEN, 5⟩, ⟨"\n", .NEWLINE, 9⟩,
    ⟨"\t", .TAB, 10⟩, ⟨"y", .ID, 11⟩, ⟨"\n", .NEWLINE, 12⟩,
    ⟨"else", .ELSE, 13⟩, ⟨"\n", .NEWLINE, 17⟩,
    ⟨"\t", .TAB, 18⟩, ⟨"z", .ID, 19⟩, ⟨"\n", .NEWLINE, 20⟩]

/-- One case of an if-chain as `parseIf` reads it: the keyword that opens it, the condition
given to `addCase` and the block. -/
structure IfCase where
  keyword : TokenType
  condition : ASTNode
  block : CodeBlock

/-- The pair `parseIf` stores for a case. -/
def IfCase.toPair (c : IfCase) : ASTNode × CodeBlock := (c.condition, c.block)

/-- The condition `parseIf` stores for an `else`: the literal `true` at offset 0. -/
def alwaysTrue : ASTNode := .LiteralNode (.bool true) 0 false

/-- The cases of an if-chain in the order of the source: with the cursor of `parser` on the
keyword of the first case, each case is read (keyword, condition with `then` unless the
keyword is `else`, newline, block) from where the one before it ended, after the leading tabs
of the line; a case that is followed by another one is not an `else`; `parser'` is the state
after the block of the last case. -/
inductive IfChain (call : Nat → Lexer → Result (ASTNode × Lexer))
    (block : Parser → Result (CodeBlock × Parser)) : Parser → List IfCase → Parser → Prop where
  | last (parser parser' : Parser) (lexer1 lexer2 : Lexer) (condition : ASTNode)
      (blk : CodeBlock)
      (hkw : parser.lexer.getCurrToken.type = .IF ∨ parser.lexer.getCurrToken.type = .ELIF ∨
        parser.lexer.getCurrToken.type = .ELSE)
      (hcond : parseIf.condition call parser.lexer.getCurrToken.type
        (parser.lexer.scanToken 1) = .ok (condition, lexer1))
      (hnl : checkNewLine lexer1 = .ok lexer2)
      (hblk : block { parser with lexer := lexer2 } = .ok (blk, parser')) :
      IfChain call block parser [⟨parser.lexer.getCurrToken.type, condition, blk⟩] parser'
  | more (parser parser' parserEnd : Parser) (lexer1 lexer2 : Lexer) (condition : ASTNode)
      (blk : CodeBlock) (rest : List IfCase)
      (hkw : parser.lexer.getCurrToken.type = .IF ∨ parser.lexer.getCurrToken.type = .ELIF)
      (hcond : parseIf.condition call parser.lexer.getCurrToken.type
        (parser.lexer.scanToken 1) = .ok (condition, lexer1))
      (hnl : checkNewLine lexer1 = .ok lexer2)
      (hblk : block { parser with lexer := lexer2 } = .ok (blk, parser'))
      (hrest : IfChain call block { parser' with lexer := skipTabs parser'.lexer } rest
        parserEnd) :
      IfChain call block parser (⟨parser.lexer.getCurrToken.type, condition, blk⟩ :: rest)
        parserEnd

/-- The tokens of `if x > 0 then / <tab>y = 1 / elif x < 0 then / <tab>y = -1 / else /
<tab>y = 0`. -/
def tokensIfElifElse : List Token :=
  [⟨"if", .IF, 0⟩, ⟨"x", .ID, 3⟩, ⟨">", .GRE, 5⟩, ⟨"0", .INT_LIT, 7⟩, ⟨"then", .THEN, 9⟩,
    ⟨"\n", .NEWLINE, 13⟩,
    ⟨"\t", .TAB, 14⟩, ⟨"y", .ID, 15⟩, ⟨"=", .EQ, 17⟩, ⟨"1", .INT_LIT, 19⟩, ⟨"\n", .NEWLINE, 20⟩,
    ⟨"elif", .ELIF, 21⟩, ⟨"x", .ID, 26⟩, ⟨"<", .LESS, 28⟩, ⟨"0", .INT_LIT, 30⟩,
    ⟨"then", .THEN, 32⟩, ⟨"\n", .NEWLINE, 36⟩,
    ⟨"\t", .TAB, 37⟩, ⟨"y", .ID, 38⟩, ⟨"=", .EQ, 40⟩, ⟨"-", .MINUS, 42⟩, ⟨"1", .INT_LIT, 43⟩,
    ⟨"\n", .NEWLINE, 44⟩,
    ⟨"else", .ELSE, 45⟩, ⟨"\n", .NEWLINE, 49⟩,
    ⟨"\t", .TAB, 50⟩, ⟨"y", .ID, 51⟩, ⟨"=", .EQ, 53⟩, ⟨"0", .INT_LIT, 55⟩, ⟨"\n", .NEWLINE, 56⟩]

/-- The three cases of the statement parsed from `tokensIfElifElse`. -/
def casesIfElifElse : List (ASTNode × CodeBlock) :=
  [(.BinaryNode (.IDNode "x" 3 false) (.LiteralNode (.int 0) 7 false) .GREATER 5 false,
      .mk [.ExprStatement
        (.BinaryNode (.IDNode "y" 15 false) (.LiteralNode (.int 1) 19 false) .ASSIGNMENT 17
          false) 15]),
    (.BinaryNode (.IDNode "x" 26 false) (.LiteralNode (.int 0) 30 false) .LESS 28 false,
      .mk [.ExprStatement
        (.BinaryNode (.IDNode "y" 38 false)
          (.UnaryNode (.LiteralNode (.int 1) 43 false) .UNARY_NEGATION 42 false) .ASSIGNMENT 40
          false) 38]),
    (alwaysTrue,
      .mk [.ExprStatement
        (.BinaryNode (.IDNode "y" 51 false) (.LiteralNode (.int 0) 55 false) .ASSIGNMENT 53
          false) 51])]

/-- The tokens `p1 c1 p2 c2 ...`: parameters with a separator after each but, when there is
one separator less, the last. -/
def interleave : List Token → List Token → List Token
  | [], _ => []
  | p :: ps, [] => p :: ps
  | p :: ps, c :: cs => p :: c :: interleave ps cs

/-- The `IDNode` built from an ID token. -/
def idNodeOf (t : Token) : ASTNode := .IDNode t.lexeme t.pos false

/-- The tokens of `function f(a, b)` and `<tab>return a + b`. -/
def tokensFunction : List Token :=
  [⟨"function", .FUNCTION_DEF, 0⟩, ⟨"f", .ID, 9⟩, ⟨"(", .L_PAREN, 10⟩, ⟨"a", .ID, 11⟩,
    ⟨",", .COMMA, 12⟩, ⟨"b", .ID, 14⟩, ⟨")", .R_PAREN, 15⟩, ⟨"\n", .NEWLINE, 16⟩,
    ⟨"\t", .TAB, 17⟩, ⟨"return", .RETURN_TOK, 18⟩, ⟨"a", .ID, 25⟩, ⟨"+", .PLUS, 27⟩,
    ⟨"b", .ID, 29⟩, ⟨"\n", .NEWLINE, 30⟩]

/-- The operands between an opening bracket and its closing one: with the cursor of `lexer`
on the opening token (or on a separating comma), the items are read one after the other, each
what `call` parses above the comma level from the token after the cursor; an item followed by
a comma is followed by a further item; `lexer'` is the cursor after the last item, on a token
that is no comma. -/
inductive OperandList (call : Nat → Lexer → Result (ASTNode × Lexer)) :
    Lexer → List ASTNode → Lexer → Prop where
  | last (lexer lexer1 : Lexer) (node : ASTNode)
      (hitem : call (COMMA_PRECEDENCE + 1) (lexer.scanToken 1) = .ok (node, lexer1))
      (hend : lexer1.getCurrToken.type ≠ .COMMA) : OperandList call lexer [node] lexer1
  | more (lexer lexer1 lexer2 : Lexer) (node : ASTNode) (rest : List ASTNode)
      (hitem : call (COMMA_PRECEDENCE + 1) (lexer.scanToken 1) = .ok (node, lexer1))
      (hcomma : lexer1.getCurrToken.type = .COMMA)
      (hrest : OperandList call lexer1 rest lexer2) :
      OperandList call lexer (node :: rest) lexer2

/-- The tokens of the line `arr = [1, 2, 3]`. -/
def tokensListInit : List Token :=
  [⟨"arr", .ID, 0⟩, ⟨"=", .EQ, 4⟩, ⟨"[", .L_SQ_BRACKET, 6⟩, ⟨"1", .INT_LIT, 7⟩,
    ⟨",", .COMMA, 8⟩, ⟨"2", .INT_LIT, 10⟩, ⟨",", .COMMA, 11⟩, ⟨"3", .INT_LIT, 13⟩,
    ⟨"]", .R_SQ_BRACKET, 14⟩, ⟨"\n", .NEWLINE, 15⟩]

/-- The tokens of `f(a, b)` and a newline. -/
def tokensCall : List Token :=
  [⟨"f", .ID, 0⟩, ⟨"(", .L_PAREN, 1⟩, ⟨"a", .ID, 2⟩, ⟨",", .COMMA, 3⟩, ⟨"b", .ID, 5⟩,
    ⟨")", .R_PAREN, 6⟩, ⟨"\n", .NEWLINE, 7⟩]

/-- The tokens of `for i from 1 to n` and `<tab>s = s + a[i]`. -/
def tokensFor : List Token :=
  [⟨"for", .FOR, 0⟩, ⟨"i", .ID, 4⟩, ⟨"from", .FROM, 6⟩, ⟨"1", .INT_LIT, 11⟩, ⟨"to", .TO, 13⟩,
    ⟨"n", .ID, 16⟩, ⟨"\n", .NEWLINE, 17⟩,
    ⟨"\t", .TAB, 18⟩, ⟨"s", .ID, 19⟩, ⟨"=", .EQ, 21⟩, ⟨"s", .ID, 23⟩, ⟨"+", .PLUS, 25⟩,
    ⟨"a", .ID, 27⟩, ⟨"[", .L_SQ_BRACKET, 28⟩, ⟨"i", .ID, 29⟩, ⟨"]", .R_SQ_BRACKET, 30⟩,
    ⟨"\n", .NEWLINE, 31⟩]

/-- The statement parsed from `tokensFor`. -/
def statementFor : Statement :=
  .ForStatement (.IDNode "i" 4 false) (.LiteralNode (.int 1) 11 false) (.IDNode "n" 16 false)
    (.mk [.ExprStatement
      (.BinaryNode (.IDNode "s" 19 false)
        (.BinaryNode (.IDNode "s" 23 false)
          (.nAryNode (some (.IDNode "a" 27 false)) .SUBSCRIPT [.IDNode "i" 29 false] 28 false)
          .ADDITION 25 false)
        .ASSIGNMENT 21 false) 19]) 0

/-- The tokens of the line `x y`: a second expression where the newline has to be. -/
def tokensNoNewline : List Token :=
  [⟨"x", .ID, 0⟩, ⟨"y", .ID, 2⟩, ⟨"\n", .NEWLINE, 3⟩]

/-- The tokens of `while x` / `<tab>return y z`: the missing newline is inside a block. -/
def tokensNoNewlineNested : List Token :=
  [⟨"while", .WHILE, 0⟩, ⟨"x", .ID, 6⟩, ⟨"\n", .NEWLINE, 7⟩,
    ⟨"\t", .TAB, 8⟩, ⟨"return", .RETURN_TOK, 9⟩, ⟨"y", .ID, 16⟩, ⟨"z", .ID, 18⟩,
    ⟨"\n", .NEWLINE, 19⟩]

/-- The number a string of decimal digits denotes: the digit values weighted by the powers of
ten, the last digit counting ones. -/
def decimalValue (digits : List Char) : Nat :=
  Nat.ofDigits 10 (digits.reverse.map (fun c => c.toNat - 48))

/-- The largest value of a 32-bit `int`. -/
def INT_MAX : Nat := 2147483647

/-- The first lexeme is a proper prefix of the second. -/
def properPrefix (a b : String) : Bool :=
  a.data.isPrefixOf b.data && decide (a.data.length < b.data.length)

/-- The lexemes of the fixed-lexeme table, in table order. -/
def fixedLexemes : List String := fixedTokenList.map TokenDescriptor.lexeme

/-- The pairs of operator lexemes of the table of which the first is a proper prefix of the
second. -/
def prefixPairs : List (String × String) :=
  [("=", "=="), ("<", "<<"), ("<", "<="), (">", ">>"), (">", ">="), ("+", "++"), ("+", "+="),
    ("-", "--"), ("-", "-="), ("*", "*="), ("/", "//"), ("/", "/="), ("%", "%="), ("!", "!=")]

/-- Modelled from the spec: whether a descriptor of the table matches at the front of the
remaining input (lexer.cpp is not among the sources). A word token matches only between
non-word characters; that test on the neighbouring characters is the parameter
`boundaryOk`. -/
def matchesAt (boundaryOk : TokenDescriptor → Bool) (input : List Char)
    (d : TokenDescriptor) : Bool :=
  d.lexeme.data.isPrefixOf input && (!d.wordToken || boundaryOk d)

/-- Modelled from the spec: the scan of the fixed-lexeme table in its order, which takes the
first descriptor that matches. -/
def firstFixedMatch (boundaryOk : TokenDescriptor → Bool) (input : List Char) :
    Option TokenDescriptor :=
  fixedTokenList.find? (matchesAt boundaryOk input)

/-! ## Vocabulary of the input cleaner -/

/-- The lines of a text: its pieces between line feeds. -/
def pieces (text : List Char) : List (List Char) := text.splitOn '\n'

/-- A line is kept when it does not begin with `//` and has a graphic character. -/
def keptLine (line : List Char) : Bool :=
  !(['/', '/'].isPrefixOf line) && line.any isgraph

/-- A line without its trailing whitespace. -/
def trimTrailing (line : List Char) : List Char :=
  line.rdropWhile (fun c => whitespaces.contains c)

/-- The text the specification gives for a cleaning: the kept lines in their order, each
without its trailing whitespace and followed by one line feed. -/
def normalized (text : List Char) : List Char :=
  (((pieces text).filter keptLine).map (fun line => trimTrailing line ++ ['\n'])).flatten

/-- The numbers, counted from `first`, of the kept lines among `lines`. -/
def keptNumbersFrom (first : Nat) (lines : List (List Char)) : List Nat :=
  ((lines.enumFrom first).filter (fun p => keptLine p.2)).map Prod.fst

/-- The 1-based numbers, in the original text, of the lines that are kept. -/
def keptLineNumbers (text : List Char) : List Nat := keptNumbersFrom 1 (pieces text)

/-- The rendering of a diagnostic: the line number, the line with its tabs replaced by
spaces, and a caret under the column. -/
def rendered (lineNumber : Nat) (line : List Char) (column : Nat) : List Char :=
  "Line: ".data ++ (Nat.repr lineNumber).data ++ ['\n'] ++
    line.map (fun c => if c = '\t' then ' ' else c) ++ List.replicate column ' ' ++ ['^']

/-- A text with an indented comment line. -/
def textIndentedComment : List Char := "\t// note\nx = 1\n".data

/-- A text with a comment line, a blank line and trailing blanks. -/
def textSample : List Char := "// head\nx = 1  \n\n\ty\t\n".data

/-- A first text, of the two lines `x` and `y`. -/
def textFirst : List Char := "x\ny\n".data

/-- A second text: a comment line, an empty line, `z = 1` and `<tab>w`. -/
def textSecond : List Char := "// c\n\nz = 1\n\tw\n".data

/-- A cleaner used twice: constructed on `textFirst` and cleaned, then given `textSecond`
through `setInputStr` and cleaned again. -/
def reusedCleaner : InputCleaner :=
  ((InputCleaner.new textFirst).clean.2.setInputStr textSecond).clean.2

/-! ## Vocabulary of the invariants of the parser -/

/-- The number of tokens from the cursor to the end of the buffer. -/
def Lexer.remaining (lexer : Lexer) : Nat := lexer.tokenList.length

/-- The cursor went from `lexer` to `lexer'` forwards, over the tokens `consumed`, none of
which is a COMMENT or an end-of-file token. -/
def Scanned (lexer lexer' : Lexer) (consumed : List Token) : Prop :=
  lexer.tokenList = consumed ++ lexer'.tokenList ∧ lexer'.inputLength = lexer.inputLength ∧
    ∀ t ∈ consumed, t.type ≠ .COMMENT ∧ t.type ≠ .EOFILE

/-- The cursor did not move backwards from `lexer` to `lexer'`. -/
def Advanced (lexer lexer' : Lexer) : Prop := ∃ consumed, Scanned lexer lexer' consumed

/-- The cursor moved forwards from `lexer` to `lexer'` by at least one token. -/
def Consumed (lexer lexer' : Lexer) : Prop :=
  ∃ consumed, consumed ≠ [] ∧ Scanned lexer lexer' consumed

mutual
/-- The rule on receivers, in a whole expression tree: a node without receiver is a
`LIST_INIT`, a node with a receiver is a `FUNCTION_CALL` or a `SUBSCRIPT`. -/
def ASTNode.receiverRule : ASTNode → Bool
  | .LiteralNode _ _ _ => true
  | .IDNode _ _ _ => true
  | .UnaryNode child _ _ _ => child.receiverRule
  | .BinaryNode nodeA nodeB _ _ _ => nodeA.receiverRule && nodeB.receiverRule
  | .nAryNode none op nOperands _ _ => decide (op = .LIST_INIT) && receiverRuleList nOperands
  | .nAryNode (some receiver) op nOperands _ _ =>
    (decide (op = .FUNCTION_CALL) || decide (op = .SUBSCRIPT)) && receiver.receiverRule &&
      receiverRuleList nOperands
/-- The rule on receivers in every tree of a list. -/
def receiverRuleList : List ASTNode → Bool
  | [] => true
  | node :: nodes => node.receiverRule && receiverRuleList nodes
end

mutual
/-- The rule on receivers in every expression of a statement, nested blocks included. -/
def Statement.receiverRule : Statement → Bool
  | .ExprStatement expr _ => expr.receiverRule
  | .ReturnStatement expr _ => expr.receiverRule
  | .IfStatement cases _ => receiverRuleCases cases
  | .WhileStatement condition block _ => condition.receiverRule && block.receiverRule
  | .ForStatement counterNode lowerNode upperNode block _ =>
    counterNode.receiverRule && lowerNode.receiverRule && upperNode.receiverRule &&
      block.receiverRule
  | .FunctionDefStatement funcIdNode paramVec block _ =>
    funcIdNode.receiverRule && receiverRuleList paramVec && block.receiverRule
/-- The rule on receivers in every statement of a block. -/
def CodeBlock.receiverRule : CodeBlock → Bool
  | .mk statements => receiverRuleStatements statements
/-- The rule on receivers in every statement of a list. -/
def receiverRuleStatements : List Statement → Bool
  | [] => true
  | s :: rest => s.receiverRule && receiverRuleStatements rest
/-- The rule on receivers in every case of an `if` statement. -/
def receiverRuleCases : List (ASTNode × CodeBlock) → Bool
  | [] => true
  | (condition, block) :: rest =>
    condition.receiverRule && block.receiverRule && receiverRuleCases rest
end

/-- What holds of a successful expression parse from `lexer`: the cursor moved forwards by
at least one token, over no COMMENT and no end-of-file token, and the tree obeys the rule on
receivers. -/
def GoodExpr (lexer : Lexer) (r : Result (ASTNode × Lexer)) : Prop :=
  ∀ node lexer', r = .ok (node, lexer') → Consumed lexer lexer' ∧ node.receiverRule = true

/-- Every call through the table is good. -/
def CallGood (call : Nat → Lexer → Result (ASTNode × Lexer)) : Prop :=
  ∀ g lexer, GoodExpr lexer (call g lexer)

/-- What holds of a successful statement parse from `parser`. -/
def GoodStatement (parser : Parser) (r : Result (Statement × Parser)) : Prop :=
  ∀ s parser', r = .ok (s, parser') →
    Consumed parser.lexer parser'.lexer ∧ s.receiverRule = true

/-- What holds of a successful block parse from `parser`; a block may be empty. -/
def GoodBlock (parser : Parser) (r : Result (CodeBlock × Parser)) : Prop :=
  ∀ b parser', r = .ok (b, parser') →
    Advanced parser.lexer parser'.lexer ∧ b.receiverRule = true

/-- Every nested block parse is good. -/
def BlockGood (block : Parser → Result (CodeBlock × Parser)) : Prop :=
  ∀ parser, GoodBlock parser (block parser)

/-- The call through the table returns (a tree or an exception) on every buffer with fewer
than `n` tokens left. -/
def TotalBelow (call : Nat → Lexer → Result (ASTNode × Lexer)) (n : Nat) : Prop :=
  ∀ g lexer, g ≤ 11 → lexer.remaining < n → call g lexer ≠ .outOfFuel

/-- The nested block parse returns on every buffer with fewer than `n` tokens left. -/
def BlockTotalBelow (block : Parser → Result (CodeBlock × Parser)) (n : Nat) : Prop :=
  ∀ parser, parser.lexer.remaining < n → block parser ≠ .outOfFuel

/-- The tokens of the line `x //`, the comment as a COMMENT token. -/
def tokensComment : List Token :=
  [⟨"x", .ID, 0⟩, ⟨"//", .COMMENT, 2⟩, ⟨"\n", .NEWLINE, 4⟩]

/-- A token sequence with its COMMENT tokens removed. -/
def withoutComments (tokens : List Token) : List Token :=
  tokens.filter (fun t => t.type != .COMMENT)

/-- The block parsed from `tokensPlainAssign`. -/
def blockPlainAssign : CodeBlock :=
  .mk [.ExprStatement (.BinaryNode (.IDNode "x" 0 false) (.LiteralNode (.int 5) 4 false)
    .ASSIGNMENT 2 false) 0]

/-! ## Fuel: more of it never changes an answer -/
theorem Refines.rfl' {α : Type} (r : Result α) : Refines r r := fun _ => rfl

theorem Refines.outOfFuel {α : Type} (r' : Result α) : Refines .outOfFuel r' :=
  fun h => absurd rfl h

theorem Refines.ok_eq {α : Type} {r r' : Result α} {a : α} (h : Refines r r') (ha : r = .ok a) :
    r' = .ok a := by
  rw [← ha]; exact h (by rw [ha]; exact fun h => by cases h)

theorem Refines.throw_eq {α : Type} {r r' : Result α} {e : Exn} (h : Refines r r')
    (ha : r = .throw e) : r' = .throw e := by
  rw [← ha]; exact h (by rw [ha]; exact fun h => by cases h)

theorem parseBinLeft_loop_mono {call call' : Nat → Lexer → Result (ASTNode × Lexer)}
    (hc : CallMono call call') (g : Nat) :
    ∀ fuel fuel', fuel ≤ fuel' → ∀ nodeA lexer,
      Refines (parseBinLeft.loop call g fuel nodeA lexer)
        (parseBinLeft.loop call' g fuel' nodeA lexer) := by
  intro fuel
  induction fuel with
  | zero => intro _ _ _ _; exact Refines.outOfFuel _
  | succ n ih =>
    intro fuel' hle nodeA lexer
    obtain ⟨m, rfl⟩ : ∃ m, fuel' = m + 1 := ⟨fuel' - 1, by omega⟩
    simp only [parseBinLeft.loop]
    cases hop : findOp g lexer.getCurrToken.type with
    | none => exact Refines.rfl' _
    | some op =>
      simp only
      cases h1 : call (g + 1) (lexer.scanToken 1) with
      | outOfFuel => exact Refines.outOfFuel _
      | throw e => rw [(hc _ _).throw_eq h1]; exact Refines.rfl' _
      | ok a =>
        rw [(hc _ _).ok_eq h1]
        exact ih m (by omega) _ _

theorem parseOperands_mono {call call' : Nat → Lexer → Result (ASTNode × Lexer)}
    (hc : CallMono call call') :
    ∀ fuel fuel', fuel ≤ fuel' → ∀ lexer nOperands,
      Refines (parseOperands call fuel lexer nOperands)
        (parseOperands call' fuel' lexer nOperands) := by
  intro fuel
  induction fuel with
  | zero => intro _ _ _ _; exact Refines.outOfFuel _
  | succ n ih =>
    intro fuel' hle lexer nOperands
    obtain ⟨m, rfl⟩ : ∃ m, fuel' = m + 1 := ⟨fuel' - 1, by omega⟩
    simp only [parseOperands]
    cases h1 : call (COMMA_PRECEDENCE + 1) (lexer.scanToken 1) with
    | outOfFuel => exact Refines.outOfFuel _
    | throw e => rw [(hc _ _).throw_eq h1]; exact Refines.rfl' _
    | ok a =>
      rw [(hc _ _).ok_eq h1]
      simp only
      split
      · exact ih m (by omega) _ _
      · exact Refines.rfl' _

theorem listParser_mono {call call' : Nat → Lexer → Result (ASTNode × Lexer)}
    (hc : CallMono call call') (fuel fuel' : Nat) (hle : fuel ≤ fuel') (lexer : Lexer) :
    Refines (listParser call fuel lexer) (listParser call' fuel' lexer) := by
  simp only [listParser]
  split
  · cases h1 : parseOperands call fuel lexer [] with
    | outOfFuel => exact Refines.outOfFuel _
    | throw e => rw [(parseOperands_mono hc fuel fuel' hle _ _).throw_eq h1]; exact Refines.rfl' _
    | ok a => rw [(parseOperands_mono hc fuel fuel' hle _ _).ok_eq h1]; exact Refines.rfl' _
  · exact Refines.rfl' _

theorem parsePrimary_mono {call call' : Nat → Lexer → Result (ASTNode × Lexer)}
    (hc : CallMono call call') (fuel fuel' : Nat) (hle : fuel ≤ fuel') (lexer : Lexer) :
    Refines (parsePrimary call fuel lexer) (parsePrimary call' fuel' lexer) := by
  simp only [parsePrimary]
  split
  case h_7 =>
    cases h1 : call 0 (lexer.scanToken 1) with
    | outOfFuel => exact Refines.outOfFuel _
    | throw e => rw [(hc _ _).throw_eq h1]; exact Refines.rfl' _
    | ok a => rw [(hc _ _).ok_eq h1]; exact Refines.rfl' _
  case h_8 =>
    cases h1 : listParser call fuel lexer with
    | outOfFuel => exact Refines.outOfFuel _
    | throw e => rw [(listParser_mono hc fuel fuel' hle _).throw_eq h1]; exact Refines.rfl' _
    | ok a => rw [(listParser_mono hc fuel fuel' hle _).ok_eq h1]; exact Refines.rfl' _
  all_goals exact Refines.rfl' _

theorem parseUnary_mono {call call' : Nat → Lexer → Result (ASTNode × Lexer)}
    (hc : CallMono call call') (g : Nat) :
    ∀ fuel fuel', fuel ≤ fuel' → ∀ lexer,
      Refines (parseUnary call g fuel lexer) (parseUnary call' g fuel' lexer) := by
  intro fuel
  induction fuel with
  | zero => intro _ _ _; exact Refines.outOfFuel _
  | succ n ih =>
    intro fuel' hle lexer
    obtain ⟨m, rfl⟩ : ∃ m, fuel' = m + 1 := ⟨fuel' - 1, by omega⟩
    simp only [parseUnary]
    cases hop : findOp g lexer.getCurrToken.type with
    | none => exact hc _ _
    | some op =>
      simp only
      cases h1 : parseUnary call g n (lexer.scanToken 1) with
      | outOfFuel => exact Refines.outOfFuel _
      | throw e => rw [(ih m (by omega) _).throw_eq h1]; exact Refines.rfl' _
      | ok a => rw [(ih m (by omega) _).ok_eq h1]; exact Refines.rfl' _

theorem parseBinLeft_mono {call call' : Nat → Lexer → Result (ASTNode × Lexer)}
    (hc : CallMono call call') (g fuel fuel' : Nat) (hle : fuel ≤ fuel') (lexer : Lexer) :
    Refines (parseBinLeft call g fuel lexer) (parseBinLeft call' g fuel' lexer) := by
  simp only [parseBinLeft]
  cases h1 : call (g + 1) lexer with
  | outOfFuel => exact Refines.outOfFuel _
  | throw e => rw [(hc _ _).throw_eq h1]; exact Refines.rfl' _
  | ok a => rw [(hc _ _).ok_eq h1]; exact parseBinLeft_loop_mono hc g fuel fuel' hle _ _

theorem parseBinRight_mono {call call' : Nat → Lexer → Result (ASTNode × Lexer)}
    (hc : CallMono call call') (g : Nat) (lexer : Lexer) :
    Refines (parseBinRight call g lexer) (parseBinRight call' g lexer) := by
  simp only [parseBinRight]
  cases h1 : call (g + 1) lexer with
  | outOfFuel => exact Refines.outOfFuel _
  | throw e => rw [(hc _ _).throw_eq h1]; exact Refines.rfl' _
  | ok a =>
    rw [(hc _ _).ok_eq h1]
    simp only
    cases hop : findOp g a.2.getCurrToken.type with
    | none => exact Refines.rfl' _
    | some op =>
      simp only
      cases h2 : call g (a.2.scanToken 1) with
      | outOfFuel => exact Refines.outOfFuel _
      | throw e => rw [(hc _ _).throw_eq h2]; exact Refines.rfl' _
      | ok b => rw [(hc _ _).ok_eq h2]; exact Refines.rfl' _

theorem parseUnaryPostfix_loop_mono (g : Nat) :
    ∀ fuel fuel', fuel ≤ fuel' → ∀ node lexer,
      Refines (parseUnaryPostfix.loop g fuel node lexer)
        (parseUnaryPostfix.loop g fuel' node lexer) := by
  intro fuel
  induction fuel with
  | zero => intro _ _ _ _; exact Refines.outOfFuel _
  | succ n ih =>
    intro fuel' hle node lexer
    obtain ⟨m, rfl⟩ : ∃ m, fuel' = m + 1 := ⟨fuel' - 1, by omega⟩
    simp only [parseUnaryPostfix.loop]
    cases hop : findOp g lexer.getCurrToken.type with
    | none => exact Refines.rfl' _
    | some op => exact ih m (by omega) _ _

theorem parseUnaryPostfix_mono {call call' : Nat → Lexer → Result (ASTNode × Lexer)}
    (hc : CallMono call call') (g fuel fuel' : Nat) (hle : fuel ≤ fuel') (lexer : Lexer) :
    Refines (parseUnaryPostfix call g fuel lexer) (parseUnaryPostfix call' g fuel' lexer) := by
  simp only [parseUnaryPostfix]
  cases h1 : call (g + 1) lexer with
  | outOfFuel => exact Refines.outOfFuel _
  | throw e => rw [(hc _ _).throw_eq h1]; exact Refines.rfl' _
  | ok a => rw [(hc _ _).ok_eq h1]; exact parseUnaryPostfix_loop_mono g fuel fuel' hle _ _

theorem parseParenthAndDot_loop_mono {call call' : Nat → Lexer → Result (ASTNode × Lexer)}
    (hc : CallMono call call') (g : Nat) :
    ∀ fuel fuel', fuel ≤ fuel' → ∀ node lexer,
      Refines (parseParenthAndDot.loop call g fuel node lexer)
        (parseParenthAndDot.loop call' g fuel' node lexer) := by
  intro fuel
  induction fuel with
  | zero => intro _ _ _ _; exact Refines.outOfFuel _
  | succ n ih =>
    intro fuel' hle node lexer
    obtain ⟨m, rfl⟩ : ∃ m, fuel' = m + 1 := ⟨fuel' - 1, by omega⟩
    simp only [parseParenthAndDot.loop]
    cases hop : findOp g lexer.getCurrToken.type with
    | none =>
      simp only
      split
      · cases h1 : call (g + 1) (lexer.scanToken 1) with
        | outOfFuel => exact Refines.outOfFuel _
        | throw e => rw [(hc _ _).throw_eq h1]; exact Refines.rfl' _
        | ok a => rw [(hc _ _).ok_eq h1]; exact ih m (by omega) _ _
      · exact Refines.rfl' _
    | some op =>
      simp only
      split
      · cases h1 : parseOperands call n lexer [] with
        | outOfFuel => exact Refines.outOfFuel _
        | throw e =>
          rw [(parseOperands_mono hc n m (by omega) _ _).throw_eq h1]; exact Refines.rfl' _
        | ok a =>
          rw [(parseOperands_mono hc n m (by omega) _ _).ok_eq h1]
          simp only
          split
          · exact Refines.rfl' _
          · exact ih m (by omega) _ _
      · exact ih m (by omega) _ _

theorem parseParenthAndDot_mono {call call' : Nat → Lexer → Result (ASTNode × Lexer)}
    (hc : CallMono call call') (g fuel fuel' : Nat) (hle : fuel ≤ fuel') (lexer : Lexer) :
    Refines (parseParenthAndDot call g fuel lexer) (parseParenthAndDot call' g fuel' lexer) := by
  simp only [parseParenthAndDot]
  cases h1 : call (g + 1) lexer with
  | outOfFuel => exact Refines.outOfFuel _
  | throw e => rw [(hc _ _).throw_eq h1]; exact Refines.rfl' _
  | ok a => rw [(hc _ _).ok_eq h1]; exact parseParenthAndDot_loop_mono hc g fuel fuel' hle _ _

theorem callParserFunc_succ : ∀ fuel, CallMono (callParserFunc fuel) (callParserFunc (fuel + 1)) := by
  intro fuel
  induction fuel with
  | zero => intro _ _; exact Refines.outOfFuel _
  | succ n ih =>
    intro g lexer
    rw [callParserFunc, callParserFunc]
    split
    · exact Refines.rfl' _
    · exact parseBinLeft_mono ih _ _ _ (by omega) _
    · exact parseBinRight_mono ih _ _
    · exact parseUnary_mono ih _ _ _ (by omega) _
    · exact parseUnaryPostfix_mono ih _ _ _ (by omega) _
    · exact parseParenthAndDot_mono ih _ _ _ (by omega) _
    · exact parsePrimary_mono ih _ _ (by omega) _

theorem callParserFunc_mono {fuel fuel' : Nat} (hle : fuel ≤ fuel') :
    CallMono (callParserFunc fuel) (callParserFunc fuel') := by
  induction hle with
  | refl => intro _ _; exact Refines.rfl' _
  | step _ ih =>
    intro g lexer h
    rw [callParserFunc_succ _ g lexer (by rw [ih g lexer h]; exact h), ih g lexer h]

theorem callParserFunc_ok_mono {fuel fuel' g : Nat} {lexer : Lexer} {r : ASTNode × Lexer}
    (h : callParserFunc fuel g lexer = .ok r) (hle : fuel ≤ fuel') :
    callParserFunc fuel' g lexer = .ok r :=
  (callParserFunc_mono hle g lexer).ok_eq h

/-! ## Chains of binary operators -/

theorem operandChain_mono {call call' : Nat → Lexer → Result (ASTNode × Lexer)} {g : Nat}
    (hc : CallMono call call') {lexer lexer' : Lexer} {steps : List ChainStep}
    (h : OperandChain call g lexer steps lexer') : OperandChain call' g lexer steps lexer' := by
  induction h with
  | done lexer h => exact .done lexer h
  | step lexer lexer1 lexer2 op nodeB steps hop hB _ ih =>
    exact .step lexer lexer1 lexer2 op nodeB steps hop ((hc _ _).ok_eq hB) ih

theorem leftFold_append_singleton (first : ASTNode) (init : List ChainStep) (s : ChainStep) :
    leftFold first (init ++ [s]) = .BinaryNode (leftFold first init) s.operand s.op s.pos false := by
  simp [leftFold, List.foldl_append]

theorem parseBinLeft_loop_chain {call : Nat → Lexer → Result (ASTNode × Lexer)} {g : Nat}
    {lexer lexer' : Lexer} {steps : List ChainStep}
    (h : OperandChain call g lexer steps lexer') :
    ∀ (fuel : Nat) (nodeA : ASTNode), steps.length < fuel →
      parseBinLeft.loop call g fuel nodeA lexer = .ok (leftFold nodeA steps, lexer') := by
  induction h with
  | done lexer h =>
    intro fuel nodeA hf
    obtain ⟨m, rfl⟩ : ∃ m, fuel = m + 1 := ⟨fuel - 1, by omega⟩
    simp [parseBinLeft.loop, h, leftFold]
  | step lexer lexer1 lexer2 op nodeB steps hop hB _ ih =>
    intro fuel nodeA hf
    obtain ⟨m, rfl⟩ : ∃ m, fuel = m + 1 := ⟨fuel - 1, by omega⟩
    simp only [parseBinLeft.loop, hop, hB]
    rw [ih m _ (by simpa using hf)]
    rfl

theorem callParserFunc_binLeft_chain {g fuel : Nat} (hg : parserFuncAt g = some .parseBinLeft)
    {lexer lexer1 lexer2 : Lexer} {first : ASTNode} {steps : List ChainStep}
    (hfirst : callParserFunc fuel (g + 1) lexer = .ok (first, lexer1))
    (hchain : OperandChain (callParserFunc fuel) g lexer1 steps lexer2)
    {fuel' : Nat} (hf : fuel + steps.length + 2 ≤ fuel') :
    callParserFunc fuel' g lexer = .ok (leftFold first steps, lexer2) := by
  obtain ⟨m, rfl⟩ : ∃ m, fuel' = m + 1 := ⟨fuel' - 1, by omega⟩
  have hm : CallMono (callParserFunc fuel) (callParserFunc m) := callParserFunc_mono (by omega)
  rw [callParserFunc]
  simp only [hg, parseBinLeft, (hm _ _).ok_eq hfirst]
  exact parseBinLeft_loop_chain (operandChain_mono hm hchain) m first (by omega)

theorem callParserFunc_binRight_chain {g fuel : Nat} (hg : parserFuncAt g = some .parseBinRight)
    {lexer1 lexer2 : Lexer} {steps : List ChainStep}
    (hchain : OperandChain (callParserFunc fuel) g lexer1 steps lexer2) :
    ∀ {lexer : Lexer} {first : ASTNode},
      callParserFunc fuel (g + 1) lexer = .ok (first, lexer1) →
      ∀ {fuel' : Nat}, fuel + steps.length + 1 ≤ fuel' →
      callParserFunc fuel' g lexer = .ok (rightFold first steps, lexer2) := by
  induction hchain with
  | done lexer1 h =>
    intro lexer first hfirst fuel' hf
    obtain ⟨m, rfl⟩ : ∃ m, fuel' = m + 1 := ⟨fuel' - 1, by omega⟩
    have hm : CallMono (callParserFunc fuel) (callParserFunc m) := callParserFunc_mono (by omega)
    rw [callParserFunc]
    simp only [hg, parseBinRight, (hm _ _).ok_eq hfirst, h, rightFold]
  | step lexer1 lexerB lexer2 op nodeB steps hop hB _ ih =>
    intro lexer first hfirst fuel' hf
    obtain ⟨m, rfl⟩ : ∃ m, fuel' = m + 1 := ⟨fuel' - 1, by omega⟩
    have hm : CallMono (callParserFunc fuel) (callParserFunc m) := callParserFunc_mono (by simp at hf; omega)
    rw [callParserFunc]
    simp only [hg, parseBinRight, (hm _ _).ok_eq hfirst, hop, rightFold]
    rw [ih hB (by simp at hf; omega)]

/-! ## Operands that pass through a group unchanged -/

theorem callParserFunc_fuel_pos {fuel g : Nat} {lexer : Lexer} {r : ASTNode × Lexer}
    (h : callParserFunc fuel g lexer = .ok r) : ∃ m, fuel = m + 1 := by
  cases fuel with
  | zero => simp [callParserFunc] at h
  | succ m => exact ⟨m, rfl⟩

theorem callParserFunc_lift_step {fuel k : Nat} {lexer lexer1 : Lexer} {a : ASTNode}
    (hk : k ≤ 10)
    (h : callParserFunc fuel (k + 1) lexer = .ok (a, lexer1))
    (hnext : k ≠ 8 → findOp k lexer1.getCurrToken.type = none)
    (hdot : k = 10 → lexer1.getCurrToken.type ≠ .DOT)
    (hpre : k = 8 → findOp 8 lexer.getCurrToken.type = none) :
    callParserFunc (fuel + 1) k lexer = .ok (a, lexer1) := by
  obtain ⟨m, rfl⟩ := callParserFunc_fuel_pos h
  rw [callParserFunc]
  have hL : ∀ j, parserFuncAt j = some ParserFunc.parseBinLeft → j = k → j ≠ 8 →
      (match parserFuncAt j with
        | none => Result.throw Exn.nullParserFunc
        | some ParserFunc.parseBinLeft => parseBinLeft (callParserFunc (m + 1)) j (m + 1) lexer
        | some ParserFunc.parseBinRight => parseBinRight (callParserFunc (m + 1)) j lexer
        | some ParserFunc.parseUnary => parseUnary (callParserFunc (m + 1)) j (m + 1) lexer
        | some ParserFunc.parseUnaryPostfix =>
          parseUnaryPostfix (callParserFunc (m + 1)) j (m + 1) lexer
        | some ParserFunc.parseParenthAndDot =>
          parseParenthAndDot (callParserFunc (m + 1)) j (m + 1) lexer
        | some ParserFunc.parsePrimary => parsePrimary (callParserFunc (m + 1)) (m + 1) lexer) =
      Result.ok (a, lexer1) := by
    intro j hp hj hj8
    subst hj
    simp only [hp, parseBinLeft, h, parseBinLeft.loop, hnext hj8]
  interval_cases k
  · exact hL 0 rfl rfl (by decide)
  · have hp : parserFuncAt 1 = some ParserFunc.parseBinRight := rfl
    simp only [hp, parseBinRight, h, hnext (by decide)]
  · exact hL 2 rfl rfl (by decide)
  · exact hL 3 rfl rfl (by decide)
  · exact hL 4 rfl rfl (by decide)
  · exact hL 5 rfl rfl (by decide)
  · exact hL 6 rfl rfl (by decide)
  · exact hL 7 rfl rfl (by decide)
  · have hp : parserFuncAt 8 = some ParserFunc.parseUnary := rfl
    simp only [hp, parseUnary, hpre rfl, h]
  · have hp : parserFuncAt 9 = some ParserFunc.parseUnaryPostfix := rfl
    simp only [hp, parseUnaryPostfix, h, parseUnaryPostfix.loop, hnext (by decide)]
  · have hp : parserFuncAt 10 = some ParserFunc.parseParenthAndDot := rfl
    simp only [hp, parseParenthAndDot, h, parseParenthAndDot.loop, hnext (by decide), hdot rfl,
      if_false]

theorem callParserFunc_lift {fuel : Nat} {lexer lexer1 : Lexer} {a : ASTNode} :
    ∀ (d g : Nat), g + d ≤ 11 →
      callParserFunc fuel (g + d) lexer = .ok (a, lexer1) →
      (∀ k, g ≤ k → k < g + d → k ≠ 8 → findOp k lexer1.getCurrToken.type = none) →
      (g ≤ 10 → 10 < g + d → lexer1.getCurrToken.type ≠ .DOT) →
      (g ≤ 8 → 8 < g + d → findOp 8 lexer.getCurrToken.type = none) →
      callParserFunc (fuel + d) g lexer = .ok (a, lexer1) := by
  intro d
  induction d with
  | zero => intro g _ h _ _ _; exact h
  | succ d ih =>
    intro g hg h hnext hdot hpre
    have h1 : callParserFunc (fuel + d) (g + 1) lexer = .ok (a, lexer1) :=
      ih (g + 1) (by omega) (by rw [← h]; congr 1; omega)
        (fun k hk1 hk2 hk8 => hnext k (by omega) (by omega) hk8)
        (fun h1 h2 => hdot (by omega) (by omega))
        (fun h1 h2 => hpre (by omega) (by omega))
    exact callParserFunc_lift_step (by omega) h1 (hnext g (le_refl _) (by omega))
      (fun hg10 => hdot (by omega) (by omega)) (fun hg8 => hg8 ▸ hpre (by omega) (by omega))

theorem primary_start {fuel : Nat} {lexer : Lexer} {r : ASTNode × Lexer}
    (h : callParserFunc fuel primaryGroup lexer = .ok r) :
    findOp 8 lexer.getCurrToken.type = none := by
  obtain ⟨m, rfl⟩ := callParserFunc_fuel_pos h
  rw [callParserFunc] at h
  have hp : parserFuncAt primaryGroup = some ParserFunc.parsePrimary := rfl
  simp only [hp, parsePrimary] at h
  split at h
  all_goals first
    | (rename_i heq; rw [heq]; rfl)
    | cases h

/-! ## Precedence -/

theorem findOp_binary_unique {g k : Nat} {t : TokenType} {bop : OperatorType}
    (h : findOp g t = some bop) (hg : g ≤ 7) (hk : k ≤ 10) (hkg : k ≠ g) (hk8 : k ≠ 8) :
    findOp k t = none ∧ t ≠ .DOT := by
  cases t <;> interval_cases g <;>
    first
    | (cases h; done)
    | (interval_cases k <;>
        first
        | exact absurd rfl hkg
        | exact absurd rfl hk8
        | exact ⟨rfl, by decide⟩)

theorem callParserFunc_binary_two {fuel g : Nat} (hg : g ≤ 7)
    {lexer lexer1 lexer2 : Lexer} {x y : ASTNode} {bop : OperatorType}
    (hx : callParserFunc fuel (g + 1) lexer = .ok (x, lexer1))
    (hop : findOp g lexer1.getCurrToken.type = some bop)
    (hy : callParserFunc fuel (g + 1) (lexer1.scanToken 1) = .ok (y, lexer2))
    (hend : findOp g lexer2.getCurrToken.type = none) :
    callParserFunc (fuel + 3) g lexer =
      .ok (.BinaryNode x y bop lexer1.getCurrToken.pos false, lexer2) := by
  have hchain : OperandChain (callParserFunc fuel) g lexer1
      [⟨bop, lexer1.getCurrToken.pos, y⟩] lexer2 :=
    .step lexer1 lexer2 lexer2 bop y [] hop hy (.done _ hend)
  interval_cases g
  · exact callParserFunc_binLeft_chain (g := 0) rfl hx hchain (le_refl _)
  · exact callParserFunc_binRight_chain (g := 1) rfl hchain hx (by simp)
  · exact callParserFunc_binLeft_chain (g := 2) rfl hx hchain (le_refl _)
  · exact callParserFunc_binLeft_chain (g := 3) rfl hx hchain (le_refl _)
  · exact callParserFunc_binLeft_chain (g := 4) rfl hx hchain (le_refl _)
  · exact callParserFunc_binLeft_chain (g := 5) rfl hx hchain (le_refl _)
  · exact callParserFunc_binLeft_chain (g := 6) rfl hx hchain (le_refl _)
  · exact callParserFunc_binLeft_chain (g := 7) rfl hx hchain (le_refl _)

theorem primary_ends {fuel : Nat} {lexer lexer1 : Lexer} {a : ASTNode} (g : Nat) (hg : g ≤ 10)
    (ha : callParserFunc fuel primaryGroup lexer = .ok (a, lexer1))
    (hend : endsExpression lexer1.getCurrToken.type) :
    callParserFunc (fuel + (11 - g)) g lexer = .ok (a, lexer1) :=
  callParserFunc_lift (11 - g) g (by omega) (by rw [← ha]; congr 1; simp [primaryGroup]; omega)
    (fun k _ hk2 hk8 => hend.1 k (by omega) hk8) (fun _ _ => hend.2)
    (fun _ _ => primary_start ha)

theorem primary_before_binary {fuel g h : Nat} {lexer lexer1 : Lexer} {a : ASTNode}
    {bop : OperatorType} (hg : g ≤ 7) (hh : g < h) (hh11 : h ≤ 11)
    (ha : callParserFunc fuel primaryGroup lexer = .ok (a, lexer1))
    (hop : findOp g lexer1.getCurrToken.type = some bop) :
    callParserFunc (fuel + (11 - h)) h lexer = .ok (a, lexer1) :=
  callParserFunc_lift (11 - h) h (by omega) (by rw [← ha]; congr 1; simp [primaryGroup]; omega)
    (fun k _ hk2 hk8 => (findOp_binary_unique hop hg (by omega) (by omega) hk8).1)
    (fun _ _ => (findOp_binary_unique hop hg (k := 9) (by omega) (by omega) (by decide)).2)
    (fun _ _ => primary_start ha)

theorem add_mul_core {fuel : Nat} {lexer lexer1 lexer2 lexer3 : Lexer} {a b c : ASTNode}
    (ha : callParserFunc fuel primaryGroup lexer = .ok (a, lexer1))
    (hplus : lexer1.getCurrToken.type = .PLUS)
    (hb : callParserFunc fuel primaryGroup (lexer1.scanToken 1) = .ok (b, lexer2))
    (hstar : lexer2.getCurrToken.type = .STAR)
    (hc : callParserFunc fuel primaryGroup (lexer2.scanToken 1) = .ok (c, lexer3))
    (hend : endsExpression lexer3.getCurrToken.type) :
    callParserFunc (fuel + 15) 0 lexer =
      .ok (.BinaryNode a
        (.BinaryNode b c .MULTIPLICATION lexer2.getCurrToken.pos false)
        .ADDITION lexer1.getCurrToken.pos false, lexer3) := by
  have hbc7 := callParserFunc_binary_two (g := 7) (by decide)
    (primary_before_binary (g := 7) (h := 8) (by decide) (by decide) (by decide) hb
      (by rw [hstar]; rfl))
    (by rw [hstar]; rfl) (primary_ends 8 (by decide) hc hend)
    (hend.1 7 (by decide) (by decide))
  have h6 := callParserFunc_binary_two (g := 6) (by decide)
    (callParserFunc_ok_mono (primary_before_binary (g := 6) (h := 7) (by decide) (by decide)
      (by decide) ha (by rw [hplus]; rfl)) (by show fuel + 4 ≤ fuel + 3 + 3; omega))
    (by rw [hplus]; rfl) hbc7 (hend.1 6 (by decide) (by decide))
  exact callParserFunc_lift 6 0 (by decide) h6 (fun k _ hk2 hk8 => hend.1 k (by omega) hk8)
    (fun _ h => absurd h (by decide)) (fun _ h => absurd h (by decide))

theorem parseUnary_prefixes {call : Nat → Lexer → Result (ASTNode × Lexer)}
    {rest : List Token} {n : Nat} {e : ASTNode} {lexer' : Lexer} {fuel : Nat}
    (h : parseUnary call 8 fuel ⟨rest, n⟩ = .ok (e, lexer')) :
    ∀ (pre : List Token) (ops : List OperatorType),
      pre.map (fun t => findOp 8 t.type) = ops.map some →
      parseUnary call 8 (fuel + pre.length) ⟨pre ++ rest, n⟩ =
        .ok (prefixFold (ops.zip (pre.map Token.pos)) e, lexer') := by
  intro pre
  induction pre with
  | nil =>
    intro ops hops
    simpa [prefixFold] using h
  | cons t pre ih =>
    intro ops hops
    cases ops with
    | nil => simp at hops
    | cons o ops =>
      simp only [List.map_cons, List.cons.injEq] at hops
      have hlen : fuel + (t :: pre).length = (fuel + pre.length) + 1 := by simp; omega
      rw [hlen, parseUnary]
      have hcur : (Lexer.mk (t :: (pre ++ rest)) n).getCurrToken = t := rfl
      have hscan : (Lexer.mk (t :: (pre ++ rest)) n).scanToken 1 = ⟨pre ++ rest, n⟩ := rfl
      simp only [List.cons_append, hcur, hops.1, hscan, ih ops hops.2]
      rfl

theorem callParserFunc_prefixes {fuel : Nat} {rest : List Token} {n : Nat} {e : ASTNode}
    {lexer' : Lexer} (h : callParserFunc fuel 8 ⟨rest, n⟩ = .ok (e, lexer'))
    (pre : List Token) (ops : List OperatorType)
    (hops : pre.map (fun t => findOp 8 t.type) = ops.map some) :
    callParserFunc (fuel + pre.length) 8 ⟨pre ++ rest, n⟩ =
      .ok (prefixFold (ops.zip (pre.map Token.pos)) e, lexer') := by
  obtain ⟨m, rfl⟩ := callParserFunc_fuel_pos h
  have hp : parserFuncAt 8 = some ParserFunc.parseUnary := rfl
  rw [callParserFunc] at h
  simp only [hp] at h
  have hlen : m + 1 + pre.length = (m + pre.length) + 1 := by omega
  rw [hlen, callParserFunc]
  simp only [hp]
  have hm : CallMono (callParserFunc m) (callParserFunc (m + pre.length)) :=
    callParserFunc_mono (by omega)
  exact parseUnary_prefixes ((parseUnary_mono hm 8 m m (le_refl _) _).ok_eq h) pre ops hops

theorem prefix_binary_core {fuel g : Nat} {lexer lexer1 lexer2 : Lexer} {a b : ASTNode}
    {uop bop : OperatorType}
    (hu : findOp 8 lexer.getCurrToken.type = some uop)
    (ha : callParserFunc fuel primaryGroup (lexer.scanToken 1) = .ok (a, lexer1))
    (hg : g ≤ 7) (ho : findOp g lexer1.getCurrToken.type = some bop)
    (hb : callParserFunc fuel primaryGroup (lexer1.scanToken 1) = .ok (b, lexer2))
    (hend : endsExpression lexer2.getCurrToken.type) :
    callParserFunc (fuel + 25) 0 lexer =
      .ok (.BinaryNode (.UnaryNode a uop lexer.getCurrToken.pos false) b bop
        lexer1.getCurrToken.pos false, lexer2) := by
  -- the operand of the prefix operator, at the level of the prefix operators
  have ha8 : callParserFunc (fuel + 3) 8 (lexer.scanToken 1) = .ok (a, lexer1) :=
    primary_before_binary (h := 8) hg (by omega) (by decide) ha ho
  have hu8 : callParserFunc (fuel + 4) 8 lexer =
      .ok (.UnaryNode a uop lexer.getCurrToken.pos false, lexer1) := by
    obtain ⟨m, hm⟩ := callParserFunc_fuel_pos ha
    have hp : parserFuncAt 8 = some ParserFunc.parseUnary := rfl
    have h1 : callParserFunc (fuel + 3) 8 (lexer.scanToken 1) = .ok (a, lexer1) := ha8
    rw [show fuel + 3 = (fuel + 2) + 1 from rfl, callParserFunc] at h1
    simp only [hp] at h1
    rw [show fuel + 4 = (fuel + 3) + 1 from rfl, callParserFunc]
    simp only [hp]
    rw [show fuel + 3 = (fuel + 2) + 1 from rfl, parseUnary]
    simp only [hu]
    rw [(parseUnary_mono (callParserFunc_mono (Nat.le_succ _)) 8 _ _ (le_refl _) _).ok_eq h1]
  -- up to the level above the binary operator
  have hu' : callParserFunc (fuel + 4 + (8 - (g + 1))) (g + 1) lexer =
      .ok (.UnaryNode a uop lexer.getCurrToken.pos false, lexer1) :=
    callParserFunc_lift (8 - (g + 1)) (g + 1) (by omega)
      (by rw [← hu8]; congr 1; omega)
      (fun k hk1 hk2 hk8 => (findOp_binary_unique ho hg (by omega) (by omega) hk8).1)
      (fun _ h => absurd h (by omega)) (fun _ h => absurd h (by omega))
  have hb' : callParserFunc (fuel + (11 - (g + 1))) (g + 1) (lexer1.scanToken 1) =
      .ok (b, lexer2) := primary_ends (g + 1) (by omega) hb hend
  have hu'' : callParserFunc (fuel + 12) (g + 1) lexer =
      .ok (.UnaryNode a uop lexer.getCurrToken.pos false, lexer1) :=
    callParserFunc_ok_mono hu' (by omega)
  have hb'' : callParserFunc (fuel + 12) (g + 1) (lexer1.scanToken 1) = .ok (b, lexer2) :=
    callParserFunc_ok_mono hb' (by omega)
  have hbin := callParserFunc_binary_two hg hu'' ho hb'' (hend.1 g (by omega) (by omega))
  have h0 := callParserFunc_lift g 0 (by omega) (by rw [← hbin]; congr 1; omega)
    (fun k _ hk2 hk8 => hend.1 k (by omega) hk8)
    (fun _ h => absurd h (by omega)) (fun _ h => absurd h (by omega))
  exact callParserFunc_ok_mono h0 (by omega)

/-! ## Fuel at the level of statements -/

theorem parseReturn_mono {call call' : Nat → Lexer → Result (ASTNode × Lexer)}
    (hc : CallMono call call') (parser : Parser) :
    Refines (parseReturn call parser) (parseReturn call' parser) := by
  simp only [parseReturn]
  cases h1 : call 0 (parser.lexer.scanToken 1) with
  | outOfFuel => exact Refines.outOfFuel _
  | throw e => rw [(hc _ _).throw_eq h1]; exact Refines.rfl' _
  | ok a => rw [(hc _ _).ok_eq h1]; exact Refines.rfl' _

theorem parseExpr_mono {call call' : Nat → Lexer → Result (ASTNode × Lexer)}
    (hc : CallMono call call') (parser : Parser) :
    Refines (parseExpr call parser) (parseExpr call' parser) := by
  simp only [parseExpr]
  cases h1 : call 0 parser.lexer with
  | outOfFuel => exact Refines.outOfFuel _
  | throw e => rw [(hc _ _).throw_eq h1]; exact Refines.rfl' _
  | ok a => rw [(hc _ _).ok_eq h1]; exact Refines.rfl' _

theorem parseIf_condition_mono {call call' : Nat → Lexer → Result (ASTNode × Lexer)}
    (hc : CallMono call call') (currToken : TokenType) (lexer : Lexer) :
    Refines (parseIf.condition call currToken lexer)
      (parseIf.condition call' currToken lexer) := by
  simp only [parseIf.condition]
  split
  · cases h1 : call 0 lexer with
    | outOfFuel => exact Refines.outOfFuel _
    | throw e => rw [(hc _ _).throw_eq h1]; exact Refines.rfl' _
    | ok a => rw [(hc _ _).ok_eq h1]; exact Refines.rfl' _
  · exact Refines.rfl' _

theorem parseIf_loop_mono {call call' : Nat → Lexer → Result (ASTNode × Lexer)}
    {block block' : Parser → Result (CodeBlock × Parser)}
    (hc : CallMono call call') (hb : BlockMono block block') (pos : Nat) :
    ∀ fuel fuel', fuel ≤ fuel' → ∀ parser cases,
      Refines (parseIf.loop call block pos fuel parser cases)
        (parseIf.loop call' block' pos fuel' parser cases) := by
  intro fuel
  induction fuel with
  | zero => intro _ _ _ _; exact Refines.outOfFuel _
  | succ n ih =>
    intro fuel' hle parser cases
    obtain ⟨m, rfl⟩ : ∃ m, fuel' = m + 1 := ⟨fuel' - 1, by omega⟩
    simp only [parseIf.loop]
    split
    · cases h1 : parseIf.condition call parser.lexer.getCurrToken.type
          (parser.lexer.scanToken 1) with
      | outOfFuel => exact Refines.outOfFuel _
      | throw e => rw [(parseIf_condition_mono hc _ _).throw_eq h1]; exact Refines.rfl' _
      | ok a =>
        rw [(parseIf_condition_mono hc _ _).ok_eq h1]
        simp only
        cases h2 : checkNewLine a.2 with
        | outOfFuel => exact Refines.outOfFuel _
        | throw e => exact Refines.rfl' _
        | ok lexer =>
          simp only
          cases h3 : block { parser with lexer := lexer } with
          | outOfFuel => exact Refines.outOfFuel _
          | throw e => rw [(hb _).throw_eq h3]; exact Refines.rfl' _
          | ok r =>
            rw [(hb _).ok_eq h3]
            simp only
            split
            · exact Refines.rfl' _
            · cases h4 : lessTabs r.2 with
              | outOfFuel => exact Refines.outOfFuel _
              | throw e => exact Refines.rfl' _
              | ok q =>
                obtain ⟨flag, nTabs⟩ := q
                cases flag with
                | true => exact Refines.rfl' _
                | false =>
                  simp only
                  split
                  · exact ih m (by omega) _ _
                  · exact Refines.rfl' _
    · exact Refines.rfl' _

theorem parseIf_mono {call call' : Nat → Lexer → Result (ASTNode × Lexer)}
    {block block' : Parser → Result (CodeBlock × Parser)}
    (hc : CallMono call call') (hb : BlockMono block block') (fuel fuel' : Nat)
    (hle : fuel ≤ fuel') (parser : Parser) :
    Refines (parseIf call block fuel parser) (parseIf call' block' fuel' parser) :=
  parseIf_loop_mono hc hb _ fuel fuel' hle _ _

theorem parseWhile_mono {call call' : Nat → Lexer → Result (ASTNode × Lexer)}
    {block block' : Parser → Result (CodeBlock × Parser)}
    (hc : CallMono call call') (hb : BlockMono block block') (parser : Parser) :
    Refines (parseWhile call block parser) (parseWhile call' block' parser) := by
  simp only [parseWhile]
  cases h1 : call 0 (parser.lexer.scanToken 1) with
  | outOfFuel => exact Refines.outOfFuel _
  | throw e => rw [(hc _ _).throw_eq h1]; exact Refines.rfl' _
  | ok a =>
    rw [(hc _ _).ok_eq h1]
    simp only
    cases h2 : checkNewLine a.2 with
    | outOfFuel => exact Refines.outOfFuel _
    | throw e => exact Refines.rfl' _
    | ok lexer =>
      simp only
      cases h3 : block { parser with lexer := lexer } with
      | outOfFuel => exact Refines.outOfFuel _
      | throw e => rw [(hb _).throw_eq h3]; exact Refines.rfl' _
      | ok r => rw [(hb _).ok_eq h3]; exact Refines.rfl' _

theorem parseFor_mono {call call' : Nat → Lexer → Result (ASTNode × Lexer)}
    {block block' : Parser → Result (CodeBlock × Parser)}
    (hc : CallMono call call') (hb : BlockMono block block') (parser : Parser) :
    Refines (parseFor call block parser) (parseFor call' block' parser) := by
  simp only [parseFor]
  split
  · exact Refines.rfl' _
  · split
    · cases h1 : call 0 (((parser.lexer.scanToken 1).scanToken 1).scanToken 1) with
      | outOfFuel => exact Refines.outOfFuel _
      | throw e => rw [(hc _ _).throw_eq h1]; exact Refines.rfl' _
      | ok a =>
        rw [(hc _ _).ok_eq h1]
        simp only
        split
        · cases h2 : call 0 (a.2.scanToken 1) with
          | outOfFuel => exact Refines.outOfFuel _
          | throw e => rw [(hc _ _).throw_eq h2]; exact Refines.rfl' _
          | ok b =>
            rw [(hc _ _).ok_eq h2]
            simp only
            cases h3 : checkNewLine b.2 with
            | outOfFuel => exact Refines.outOfFuel _
            | throw e => exact Refines.rfl' _
            | ok lexer =>
              simp only
              cases h4 : block { parser with lexer := lexer } with
              | outOfFuel => exact Refines.outOfFuel _
              | throw e => rw [(hb _).throw_eq h4]; exact Refines.rfl' _
              | ok r => rw [(hb _).ok_eq h4]; exact Refines.rfl' _
        · exact Refines.rfl' _
    · exact Refines.rfl' _

theorem parseFunctionDef_params_mono :
    ∀ fuel fuel', fuel ≤ fuel' → ∀ lexer paramVec,
      Refines (parseFunctionDef.params fuel lexer paramVec)
        (parseFunctionDef.params fuel' lexer paramVec) := by
  intro fuel
  induction fuel with
  | zero => intro _ _ _ _; exact Refines.outOfFuel _
  | succ n ih =>
    intro fuel' hle lexer paramVec
    obtain ⟨m, rfl⟩ : ∃ m, fuel' = m + 1 := ⟨fuel' - 1, by omega⟩
    simp only [parseFunctionDef.params]
    split
    · exact Refines.rfl' _
    · split
      · exact ih m (by omega) _ _
      · exact Refines.rfl' _

theorem parseFunctionDef_paramList_mono (fuel fuel' : Nat) (hle : fuel ≤ fuel')
    (lexer : Lexer) :
    Refines (parseFunctionDef.paramList fuel lexer) (parseFunctionDef.paramList fuel' lexer) := by
  simp only [parseFunctionDef.paramList]
  split
  · exact parseFunctionDef_params_mono fuel fuel' hle _ _
  · exact Refines.rfl' _

theorem parseFunctionDef_mono {block block' : Parser → Result (CodeBlock × Parser)}
    (hb : BlockMono block block') (fuel fuel' : Nat) (hle : fuel ≤ fuel') (parser : Parser) :
    Refines (parseFunctionDef block fuel parser) (parseFunctionDef block' fuel' parser) := by
  simp only [parseFunctionDef]
  split
  · exact Refines.rfl' _
  · split
    · exact Refines.rfl' _
    · cases h1 : parseFunctionDef.paramList fuel
          ((parser.lexer.scanToken 1).scanToken 1) with
      | outOfFuel => exact Refines.outOfFuel _
      | throw e =>
        rw [(parseFunctionDef_paramList_mono fuel fuel' hle _).throw_eq h1]
        exact Refines.rfl' _
      | ok a =>
        rw [(parseFunctionDef_paramList_mono fuel fuel' hle _).ok_eq h1]
        simp only
        split
        · exact Refines.rfl' _
        · cases h2 : checkNewLine (a.2.scanToken 1) with
          | outOfFuel => exact Refines.outOfFuel _
          | throw e => exact Refines.rfl' _
          | ok lexer =>
            simp only
            cases h3 : block { parser with lexer := lexer } with
            | outOfFuel => exact Refines.outOfFuel _
            | throw e => rw [(hb _).throw_eq h3]; exact Refines.rfl' _
            | ok r => rw [(hb _).ok_eq h3]; exact Refines.rfl' _

theorem parseStatement_mono {call call' : Nat → Lexer → Result (ASTNode × Lexer)}
    {block block' : Parser → Result (CodeBlock × Parser)}
    (hc : CallMono call call') (hb : BlockMono block block') (fuel fuel' : Nat)
    (hle : fuel ≤ fuel') (parser : Parser) :
    Refines (parseStatement call block fuel parser)
      (parseStatement call' block' fuel' parser) := by
  simp only [parseStatement]
  split
  · exact parseWhile_mono hc hb _
  · exact parseIf_mono hc hb _ _ hle _
  · exact parseFor_mono hc hb _
  · exact parseReturn_mono hc _
  · exact parseFunctionDef_mono hb _ _ hle _
  · exact parseExpr_mono hc _

theorem parseBlock_loop_mono {call call' : Nat → Lexer → Result (ASTNode × Lexer)}
    {block block' : Parser → Result (CodeBlock × Parser)}
    (hc : CallMono call call') (hb : BlockMono block block') :
    ∀ fuel fuel', fuel ≤ fuel' → ∀ parser currBlock,
      Refines (parseBlock.loop call block fuel parser currBlock)
        (parseBlock.loop call' block' fuel' parser currBlock) := by
  intro fuel
  induction fuel with
  | zero => intro _ _ _ _; exact Refines.outOfFuel _
  | succ n ih =>
    intro fuel' hle parser currBlock
    obtain ⟨m, rfl⟩ : ∃ m, fuel' = m + 1 := ⟨fuel' - 1, by omega⟩
    simp only [parseBlock.loop]
    split
    · cases h4 : lessTabs parser with
      | outOfFuel => exact Refines.outOfFuel _
      | throw e => exact Refines.rfl' _
      | ok q =>
        obtain ⟨flag, nTabs⟩ := q
        cases flag with
        | true => exact Refines.rfl' _
        | false =>
          simp only
          cases h1 : parseStatement call block n
              { parser with lexer := skipTabs parser.lexer } with
          | outOfFuel => exact Refines.outOfFuel _
          | throw e =>
            rw [(parseStatement_mono hc hb n m (by omega) _).throw_eq h1]
            exact Refines.rfl' _
          | ok a =>
            rw [(parseStatement_mono hc hb n m (by omega) _).ok_eq h1]
            exact ih m (by omega) _ _
    · exact Refines.rfl' _

theorem parseBlock_succ : ∀ fuel, BlockMono (parseBlock fuel) (parseBlock (fuel + 1)) := by
  intro fuel
  induction fuel with
  | zero => intro _; exact Refines.outOfFuel _
  | succ n ih =>
    intro parser
    rw [parseBlock, parseBlock]
    cases h1 : parseBlock.loop (callParserFunc n) (parseBlock n) n
        { parser with blockLevel := parser.blockLevel + 1 } (.mk []) with
    | outOfFuel => exact Refines.outOfFuel _
    | throw e =>
      rw [(parseBlock_loop_mono (callParserFunc_succ n) ih n (n + 1) (by omega) _ _).throw_eq h1]
      exact Refines.rfl' _
    | ok a =>
      rw [(parseBlock_loop_mono (callParserFunc_succ n) ih n (n + 1) (by omega) _ _).ok_eq h1]
      exact Refines.rfl' _

theorem parseBlock_mono {fuel fuel' : Nat} (hle : fuel ≤ fuel') :
    BlockMono (parseBlock fuel) (parseBlock fuel') := by
  induction hle with
  | refl => intro _; exact Refines.rfl' _
  | step _ ih =>
    intro parser h
    rw [parseBlock_succ _ parser (by rw [ih parser h]; exact h), ih parser h]

theorem getAST_mono {fuel fuel' : Nat} (hle : fuel ≤ fuel') (tokens : List Token) (n : Nat) :
    Refines (getAST fuel tokens n) (getAST fuel' tokens n) := by
  simp only [getAST]
  cases h1 : parseBlock fuel ⟨⟨tokens, n⟩, -1⟩ with
  | outOfFuel => exact Refines.outOfFuel _
  | throw e => rw [(parseBlock_mono hle _).throw_eq h1]; exact Refines.rfl' _
  | ok a => rw [(parseBlock_mono hle _).ok_eq h1]; exact Refines.rfl' _

/-! ## Associativity -/

/-- C1: in a left-binary group `g` (the table points to `parseBinLeft`), a first operand
followed by `n ≥ 1` operator-operand pairs of the group, the operands being what the table
parses at group `g + 1`, is parsed to the left fold: the root is the Binary node of the last
operator, its right child is the last operand, and its left child is the left fold of the
operands before it. Any fuel from `fuel + n + 2` on gives this result. -/
theorem parseBinLeft_left_fold (g fuel : Nat) (hg : parserFuncAt g = some .parseBinLeft)
    (lexer lexer1 lexer2 : Lexer) (first : ASTNode) (init : List ChainStep) (last : ChainStep)
    (hfirst : callParserFunc fuel (g + 1) lexer = .ok (first, lexer1))
    (hchain : OperandChain (callParserFunc fuel) g lexer1 (init ++ [last]) lexer2)
    (fuel' : Nat) (hf : fuel + init.length + 3 ≤ fuel') :
    callParserFunc fuel' g lexer =
      .ok (.BinaryNode (leftFold first init) last.operand last.op last.pos false, lexer2) := by
  rw [← leftFold_append_singleton]
  exact callParserFunc_binLeft_chain hg hfirst hchain (by simpa using hf)

/-- Witness of C1: `a - b - c` parses to `(a - b) - c`. -/
theorem parseBinLeft_left_fold_witness :
    callParserFunc 12 6 ⟨tokensSub, 10⟩
      = .ok (.BinaryNode
          (.BinaryNode (.IDNode "a" 0 false) (.IDNode "b" 4 false) .SUBTRACTION 2 false)
          (.IDNode "c" 8 false) .SUBTRACTION 6 false, ⟨tokensSub.drop 5, 10⟩) :=
  parseBinLeft_left_fold 6 6 rfl ⟨tokensSub, 10⟩ ⟨tokensSub.drop 1, 10⟩ ⟨tokensSub.drop 5, 10⟩
    (.IDNode "a" 0 false)
    [⟨.SUBTRACTION, 2, .IDNode "b" 4 false⟩] ⟨.SUBTRACTION, 6, .IDNode "c" 8 false⟩ rfl
    (.step ⟨tokensSub.drop 1, 10⟩ ⟨tokensSub.drop 3, 10⟩ _ _ _ _ rfl rfl
      (.step ⟨tokensSub.drop 3, 10⟩ ⟨tokensSub.drop 5, 10⟩ _ _ _ _ rfl rfl (.done _ rfl)))
    12 (by decide)

/-- C2: in the right-binary group `g` (the table points to `parseBinRight`, the assignment
operators of level 1), a first operand followed by `n ≥ 1` operator-operand pairs of the
group, the operands being what the table parses at group `g + 1`, is parsed to the right
fold: the root is the Binary node of the first operator, its left child is the first operand,
and its right child is what the same group parses from the token after the first operator,
the right fold of the remaining operands. Any fuel from `fuel + n + 1` on gives this. -/
theorem parseBinRight_right_fold (g fuel : Nat) (hg : parserFuncAt g = some .parseBinRight)
    (lexer lexer1 lexer2 : Lexer) (first : ASTNode) (s : ChainStep) (rest : List ChainStep)
    (hfirst : callParserFunc fuel (g + 1) lexer = .ok (first, lexer1))
    (hchain : OperandChain (callParserFunc fuel) g lexer1 (s :: rest) lexer2)
    (fuel' : Nat) (hf : fuel + rest.length + 2 ≤ fuel') :
    callParserFunc fuel' g lexer =
        .ok (.BinaryNode first (rightFold s.operand rest) s.op s.pos false, lexer2) ∧
      callParserFunc fuel' g (lexer1.scanToken 1) = .ok (rightFold s.operand rest, lexer2) := by
  refine ⟨callParserFunc_binRight_chain hg hchain hfirst (by simpa using hf), ?_⟩
  cases hchain with
  | step _ lexerB _ op nodeB _ hop hB hrest =>
    exact callParserFunc_binRight_chain hg hrest hB (by omega)

/-- Witness of C2: `a = b = c` parses to `a = (b = c)`. -/
theorem parseBinRight_right_fold_witness :
    callParserFunc 13 1 ⟨tokensAssign, 10⟩
        = .ok (.BinaryNode (.IDNode "a" 0 false)
            (.BinaryNode (.IDNode "b" 4 false) (.IDNode "c" 8 false) .ASSIGNMENT 6 false)
            .ASSIGNMENT 2 false, ⟨tokensAssign.drop 5, 10⟩) ∧
      callParserFunc 13 1 (Lexer.scanToken ⟨tokensAssign.drop 1, 10⟩ 1)
        = .ok (.BinaryNode (.IDNode "b" 4 false) (.IDNode "c" 8 false) .ASSIGNMENT 6 false,
            ⟨tokensAssign.drop 5, 10⟩) :=
  parseBinRight_right_fold 1 10 rfl ⟨tokensAssign, 10⟩ ⟨tokensAssign.drop 1, 10⟩
    ⟨tokensAssign.drop 5, 10⟩ (.IDNode "a" 0 false)
    ⟨.ASSIGNMENT, 2, .IDNode "b" 4 false⟩ [⟨.ASSIGNMENT, 6, .IDNode "c" 8 false⟩] rfl
    (.step ⟨tokensAssign.drop 1, 10⟩ ⟨tokensAssign.drop 3, 10⟩ _ _ _ _ rfl rfl
      (.step ⟨tokensAssign.drop 3, 10⟩ ⟨tokensAssign.drop 5, 10⟩ _ _ _ _ rfl rfl (.done _ rfl)))
    13 (by decide)

/-! ## Precedence of binary and prefix operators -/

/-- C3: a multiplication binds tighter than an addition. For primary operands `a`, `b`, `c`
(each what the primary group parses), with `+` after `a`, `*` after `b` and a token that
cannot continue an expression after `c`, the expression parser (group 0) returns
`Binary(ADDITION, a, Binary(MULTIPLICATION, b, c))` and stops after `c`; and `getAST` on the
tokens of the line `x = 1 + 2 * 3` returns the block with the one statement
`ExprStatement(x = (1 + (2 * 3)))`. Any fuel from the stated bounds on gives these. -/
theorem precedence_mul_over_add (fuel fuel' fuelAST : Nat)
    (lexer lexer1 lexer2 lexer3 : Lexer) (a b c : ASTNode)
    (ha : callParserFunc fuel primaryGroup lexer = .ok (a, lexer1))
    (hplus : lexer1.getCurrToken.type = .PLUS)
    (hb : callParserFunc fuel primaryGroup (lexer1.scanToken 1) = .ok (b, lexer2))
    (hstar : lexer2.getCurrToken.type = .STAR)
    (hc : callParserFunc fuel primaryGroup (lexer2.scanToken 1) = .ok (c, lexer3))
    (hend : endsExpression lexer3.getCurrToken.type)
    (hf : fuel + 15 ≤ fuel') (hfAST : 14 ≤ fuelAST) :
    callParserFunc fuel' 0 lexer =
        .ok (.BinaryNode a
          (.BinaryNode b c .MULTIPLICATION lexer2.getCurrToken.pos false)
          .ADDITION lexer1.getCurrToken.pos false, lexer3) ∧
      getAST fuelAST tokensStatement 14 =
        .ok (.mk [.ExprStatement
          (.BinaryNode (.IDNode "x" 0 false)
            (.BinaryNode (.LiteralNode (.int 1) 4 false)
              (.BinaryNode (.LiteralNode (.int 2) 8 false) (.LiteralNode (.int 3) 12 false)
                .MULTIPLICATION 10 false)
              .ADDITION 6 false)
            .ASSIGNMENT 2 false) 0]) :=
  ⟨callParserFunc_ok_mono (add_mul_core ha hplus hb hstar hc hend) hf,
    (getAST_mono hfAST tokensStatement 14).ok_eq rfl⟩

/-- Witness of C3: `a + b * c` parses to `a + (b * c)`. -/
theorem precedence_mul_over_add_witness :
    callParserFunc 16 0 ⟨tokensAddMul, 10⟩ =
        .ok (.BinaryNode (.IDNode "a" 0 false)
          (.BinaryNode (.IDNode "b" 4 false) (.IDNode "c" 8 false) .MULTIPLICATION 6 false)
          .ADDITION 2 false, ⟨tokensAddMul.drop 5, 10⟩) ∧
      getAST 14 tokensStatement 14 =
        .ok (.mk [.ExprStatement
          (.BinaryNode (.IDNode "x" 0 false)
            (.BinaryNode (.LiteralNode (.int 1) 4 false)
              (.BinaryNode (.LiteralNode (.int 2) 8 false) (.LiteralNode (.int 3) 12 false)
                .MULTIPLICATION 10 false)
              .ADDITION 6 false)
            .ASSIGNMENT 2 false) 0]) :=
  precedence_mul_over_add 1 16 14 ⟨tokensAddMul, 10⟩ ⟨tokensAddMul.drop 1, 10⟩
    ⟨tokensAddMul.drop 3, 10⟩ ⟨tokensAddMul.drop 5, 10⟩
    (.IDNode "a" 0 false) (.IDNode "b" 4 false) (.IDNode "c" 8 false)
    rfl rfl rfl rfl rfl (by decide) (by decide) (by decide)

/-- C4: a prefix operator binds tighter than every binary operator. For primary operands `a`
and `b`, a prefix operator before `a`, a binary operator of any group 0 to 7 between them and
a token that cannot continue an expression after `b`, the expression parser returns
`Binary(bop, Unary(uop, a), b)` (for `!a == b`: `Binary(EQUAL, Unary(NOT, a), b)`), which is
no tree of the form `Unary(uop, Binary(bop, a, b))`. And a run of prefix operators before an
operand nests right to left: the first operator is the outermost Unary node. -/
theorem prefix_binds_tighter (fuel fuel' g : Nat) (lexer lexer1 lexer2 : Lexer)
    (a b : ASTNode) (uop bop : OperatorType)
    (hu : findOp 8 lexer.getCurrToken.type = some uop)
    (ha : callParserFunc fuel primaryGroup (lexer.scanToken 1) = .ok (a, lexer1))
    (hg : g ≤ 7) (ho : findOp g lexer1.getCurrToken.type = some bop)
    (hb : callParserFunc fuel primaryGroup (lexer1.scanToken 1) = .ok (b, lexer2))
    (hend : endsExpression lexer2.getCurrToken.type)
    (hf : fuel + 25 ≤ fuel')
    (fuelU : Nat) (pre rest : List Token) (n : Nat) (ops : List OperatorType) (e : ASTNode)
    (lexer' : Lexer)
    (hops : pre.map (fun t => findOp 8 t.type) = ops.map some)
    (he : callParserFunc fuelU 8 ⟨rest, n⟩ = .ok (e, lexer')) :
    callParserFunc fuel' 0 lexer =
        .ok (.BinaryNode (.UnaryNode a uop lexer.getCurrToken.pos false) b bop
          lexer1.getCurrToken.pos false, lexer2) ∧
      (∀ p q f1 f2 l, callParserFunc fuel' 0 lexer ≠
        .ok (.UnaryNode (.BinaryNode a b bop p f1) uop q f2, l)) ∧
      callParserFunc (fuelU + pre.length) 8 ⟨pre ++ rest, n⟩ =
        .ok (prefixFold (ops.zip (pre.map Token.pos)) e, lexer') := by
  have h1 := callParserFunc_ok_mono (prefix_binary_core hu ha hg ho hb hend) hf
  refine ⟨h1, ?_, callParserFunc_prefixes he pre ops hops⟩
  intro p q f1 f2 l h2
  rw [h1] at h2
  cases h2

/-- Witness of C4: `!a == b` parses to `(!a) == b`, and `- ! a` to `-(!a)`. -/
theorem prefix_binds_tighter_witness :
    callParserFunc 26 0 ⟨tokensNotEq, 8⟩ =
        .ok (.BinaryNode (.UnaryNode (.IDNode "a" 1 false) .NOT 0 false) (.IDNode "b" 6 false)
          .EQUAL 3 false, ⟨tokensNotEq.drop 4, 8⟩) ∧
      (∀ p q f1 f2 l, callParserFunc 26 0 ⟨tokensNotEq, 8⟩ ≠
        .ok (.UnaryNode (.BinaryNode (.IDNode "a" 1 false) (.IDNode "b" 6 false) .EQUAL p f1)
          .NOT q f2, l)) ∧
      callParserFunc 6 8 ⟨tokensPrefixes, 6⟩ =
        .ok (.UnaryNode (.UnaryNode (.IDNode "a" 4 false) .NOT 2 false) .UNARY_NEGATION 0 false,
          ⟨tokensPrefixes.drop 3, 6⟩) :=
  prefix_binds_tighter 1 26 4 ⟨tokensNotEq, 8⟩ ⟨tokensNotEq.drop 2, 8⟩ ⟨tokensNotEq.drop 4, 8⟩
    (.IDNode "a" 1 false) (.IDNode "b" 6 false) .NOT .EQUAL rfl rfl (by decide) rfl rfl
    (by decide) (by decide)
    4 (tokensPrefixes.take 2) (tokensPrefixes.drop 2) 6 [.UNARY_NEGATION, .NOT]
    (.IDNode "a" 4 false) ⟨tokensPrefixes.drop 3, 6⟩ rfl rfl

/-! ## Call, subscript and member access -/

theorem suffixChain_mono {call call' : Nat → Lexer → Result (ASTNode × Lexer)} {g fuel fuel' : Nat}
    (hc : CallMono call call') (hle : fuel ≤ fuel') {lexer lexer' : Lexer}
    {suffixes : List Suffix} (h : SuffixChain call g fuel lexer suffixes lexer') :
    SuffixChain call' g fuel' lexer suffixes lexer' := by
  induction h with
  | done lexer h hdot => exact .done lexer h hdot
  | operands lexer lexer1 lexer2 op nOperands rest hop hne hargs hclose _ ih =>
    exact .operands lexer lexer1 lexer2 op nOperands rest hop hne
      ((parseOperands_mono hc fuel fuel' hle _ _).ok_eq hargs) hclose ih
  | empty lexer lexer2 op rest hop hempty _ ih => exact .empty lexer lexer2 op rest hop hempty ih
  | member lexer lexer1 lexer2 nodeB rest hop hdot hB _ ih =>
    exact .member lexer lexer1 lexer2 nodeB rest hop hdot ((hc _ _).ok_eq hB) ih

theorem suffixFold_append_singleton (base : ASTNode) (init : List Suffix) (last : Suffix) :
    suffixFold base (init ++ [last]) = Suffix.wrap (suffixFold base init) last := by
  simp [suffixFold, List.foldl_append]

theorem parseParenthAndDot_loop_chain {call : Nat → Lexer → Result (ASTNode × Lexer)}
    {g fuel0 : Nat} {lexer lexer' : Lexer} {suffixes : List Suffix}
    (h : SuffixChain call g fuel0 lexer suffixes lexer') :
    ∀ (fuel : Nat) (node : ASTNode), fuel0 + suffixes.length < fuel →
      parseParenthAndDot.loop call g fuel node lexer = .ok (suffixFold node suffixes, lexer') := by
  induction h with
  | done lexer h hdot =>
    intro fuel node hf
    obtain ⟨m, rfl⟩ : ∃ m, fuel = m + 1 := ⟨fuel - 1, by omega⟩
    simp [parseParenthAndDot.loop, h, hdot, suffixFold]
  | operands lexer lexer1 lexer2 op nOperands rest hop hne hargs hclose _ ih =>
    intro fuel node hf
    obtain ⟨m, rfl⟩ : ∃ m, fuel = m + 1 := ⟨fuel - 1, by omega⟩
    have hm : fuel0 ≤ m := by simp at hf; omega
    have hargs' := (parseOperands_mono (fun _ _ => Refines.rfl' _) fuel0 m hm lexer []).ok_eq hargs
    simp only [parseParenthAndDot.loop, hop, hne, hargs', hclose, ne_eq, not_false_eq_true,
      if_true, not_true_eq_false, if_false]
    rw [ih m _ (by simp at hf; omega)]
    rfl
  | empty lexer lexer2 op rest hop hempty _ ih =>
    intro fuel node hf
    obtain ⟨m, rfl⟩ : ∃ m, fuel = m + 1 := ⟨fuel - 1, by omega⟩
    simp only [parseParenthAndDot.loop, hop, hempty, ne_eq, not_true_eq_false, if_false]
    rw [ih m _ (by simp at hf; omega)]
    rfl
  | member lexer lexer1 lexer2 nodeB rest hop hdot hB _ ih =>
    intro fuel node hf
    obtain ⟨m, rfl⟩ : ∃ m, fuel = m + 1 := ⟨fuel - 1, by omega⟩
    have hop' : findOp g .DOT = none := hdot ▸ hop
    simp only [parseParenthAndDot.loop, hop, hop', hdot, hB, if_true]
    rw [ih m _ (by simp at hf; omega)]
    rfl

theorem callParserFunc_suffix_chain {g fuel : Nat}
    (hg : parserFuncAt g = some .parseParenthAndDot)
    {lexer lexer1 lexer2 : Lexer} {base : ASTNode} {suffixes : List Suffix}
    (hbase : callParserFunc fuel (g + 1) lexer = .ok (base, lexer1))
    (hchain : SuffixChain (callParserFunc fuel) g fuel lexer1 suffixes lexer2)
    {fuel' : Nat} (hf : fuel + suffixes.length + 2 ≤ fuel') :
    callParserFunc fuel' g lexer = .ok (suffixFold base suffixes, lexer2) := by
  obtain ⟨m, rfl⟩ : ∃ m, fuel' = m + 1 := ⟨fuel' - 1, by omega⟩
  have hm : CallMono (callParserFunc fuel) (callParserFunc m) := callParserFunc_mono (by omega)
  rw [callParserFunc]
  simp only [hg, parseParenthAndDot, (hm _ _).ok_eq hbase]
  exact parseParenthAndDot_loop_chain (suffixChain_mono hm (le_refl _) hchain) m base (by omega)

/-- C5: call, subscript and member access associate to the left at one level. In the group
whose table entry is `parseParenthAndDot`, a base (what the table parses at the next group)
followed by `n ≥ 1` suffixes `( ... )`, `[ ... ]` or `.x` is parsed to the node of the last
suffix wrapped around the tree of the base and all suffixes before it: that tree is the
receiver of the last call or subscript, or the left operand of the last member access. -/
theorem parseParenthAndDot_left_assoc (g fuel : Nat)
    (hg : parserFuncAt g = some .parseParenthAndDot)
    (lexer lexer1 lexer2 : Lexer) (base : ASTNode) (init : List Suffix) (last : Suffix)
    (hbase : callParserFunc fuel (g + 1) lexer = .ok (base, lexer1))
    (hchain : SuffixChain (callParserFunc fuel) g fuel lexer1 (init ++ [last]) lexer2)
    (fuel' : Nat) (hf : fuel + init.length + 3 ≤ fuel') :
    callParserFunc fuel' g lexer = .ok (Suffix.wrap (suffixFold base init) last, lexer2) := by
  rw [← suffixFold_append_singleton]
  exact callParserFunc_suffix_chain hg hbase hchain (by simpa using hf)

/-- Witness of C5: `a.b(c)` parses to the call of `a.b` on `c`, and `a[b][c]` to the subscript
of `a[b]` by `c`. -/
theorem parseParenthAndDot_left_assoc_witness :
    callParserFunc 20 10 ⟨tokensMemberCall, 7⟩ =
        .ok (.nAryNode
          (some (.BinaryNode (.IDNode "a" 0 false) (.IDNode "b" 2 false) .MEMBER_ACCESS 1 false))
          .FUNCTION_CALL [.IDNode "c" 4 false] 3 false, ⟨tokensMemberCall.drop 6, 7⟩) ∧
      callParserFunc 20 10 ⟨tokensSubscripts, 8⟩ =
        .ok (.nAryNode
          (some (.nAryNode (some (.IDNode "a" 0 false)) .SUBSCRIPT [.IDNode "b" 2 false] 1 false))
          .SUBSCRIPT [.IDNode "c" 5 false] 4 false, ⟨tokensSubscripts.drop 7, 8⟩) :=
  ⟨parseParenthAndDot_left_assoc 10 12 rfl ⟨tokensMemberCall, 7⟩ ⟨tokensMemberCall.drop 1, 7⟩
      ⟨tokensMemberCall.drop 6, 7⟩ (.IDNode "a" 0 false)
      [.member 1 (.IDNode "b" 2 false)] (.nary .FUNCTION_CALL 3 [.IDNode "c" 4 false]) rfl
      (.member ⟨tokensMemberCall.drop 1, 7⟩ ⟨tokensMemberCall.drop 3, 7⟩ _ _ _ rfl rfl rfl
        (.operands ⟨tokensMemberCall.drop 3, 7⟩ ⟨tokensMemberCall.drop 5, 7⟩ _ _ _ _ rfl
          (by decide) rfl rfl (.done _ rfl (by decide))))
      20 (by decide),
    parseParenthAndDot_left_assoc 10 12 rfl ⟨tokensSubscripts, 8⟩ ⟨tokensSubscripts.drop 1, 8⟩
      ⟨tokensSubscripts.drop 7, 8⟩ (.IDNode "a" 0 false)
      [.nary .SUBSCRIPT 1 [.IDNode "b" 2 false]] (.nary .SUBSCRIPT 4 [.IDNode "c" 5 false]) rfl
      (.operands ⟨tokensSubscripts.drop 1, 8⟩ ⟨tokensSubscripts.drop 3, 8⟩ _ _ _ _ rfl
        (by decide) rfl rfl
        (.operands ⟨tokensSubscripts.drop 4, 8⟩ ⟨tokensSubscripts.drop 6, 8⟩ _ _ _ _ rfl
          (by decide) rfl rfl (.done _ rfl (by decide))))
      20 (by decide)⟩

/-! ## The force_rvalue flag -/

theorem forceRval_setForceRval (node : ASTNode) (b : Bool) :
    (node.setForceRval b).forceRval = b := by
  cases node <;> rfl

theorem parseBinLeft_loop_flag {call : Nat → Lexer → Result (ASTNode × Lexer)} {g : Nat} :
    ∀ (fuel : Nat) (nodeA : ASTNode) (lexer : Lexer) (node : ASTNode) (lexer' : Lexer),
      parseBinLeft.loop call g fuel nodeA lexer = .ok (node, lexer') →
      (node = nodeA ∧ lexer' = lexer) ∨ node.forceRval = false := by
  intro fuel
  induction fuel with
  | zero => intro _ _ _ _ h; simp [parseBinLeft.loop] at h
  | succ n ih =>
    intro nodeA lexer node lexer' h
    simp only [parseBinLeft.loop] at h
    cases hop : findOp g lexer.getCurrToken.type with
    | none =>
      simp only [hop, Result.ok.injEq, Prod.mk.injEq] at h
      exact .inl ⟨h.1.symm, h.2.symm⟩
    | some op =>
      simp only [hop] at h
      cases h1 : call (g + 1) (lexer.scanToken 1) with
      | outOfFuel => simp [h1] at h
      | throw e => simp [h1] at h
      | ok a =>
        simp only [h1] at h
        rcases ih _ _ _ _ h with ⟨rfl, _⟩ | hf
        · exact .inr rfl
        · exact .inr hf

theorem parseUnaryPostfix_loop_flag {g : Nat} :
    ∀ (fuel : Nat) (node0 : ASTNode) (lexer : Lexer) (node : ASTNode) (lexer' : Lexer),
      parseUnaryPostfix.loop g fuel node0 lexer = .ok (node, lexer') →
      (node = node0 ∧ lexer' = lexer) ∨ node.forceRval = false := by
  intro fuel
  induction fuel with
  | zero => intro _ _ _ _ h; simp [parseUnaryPostfix.loop] at h
  | succ n ih =>
    intro node0 lexer node lexer' h
    simp only [parseUnaryPostfix.loop] at h
    cases hop : findOp g lexer.getCurrToken.type with
    | none =>
      simp only [hop, Result.ok.injEq, Prod.mk.injEq] at h
      exact .inl ⟨h.1.symm, h.2.symm⟩
    | some op =>
      simp only [hop] at h
      rcases ih _ _ _ _ h with ⟨rfl, _⟩ | hf
      · exact .inr rfl
      · exact .inr hf

theorem parseParenthAndDot_loop_flag {call : Nat → Lexer → Result (ASTNode × Lexer)} {g : Nat} :
    ∀ (fuel : Nat) (node0 : ASTNode) (lexer : Lexer) (node : ASTNode) (lexer' : Lexer),
      parseParenthAndDot.loop call g fuel node0 lexer = .ok (node, lexer') →
      (node = node0 ∧ lexer' = lexer) ∨ node.forceRval = false := by
  intro fuel
  induction fuel with
  | zero => intro _ _ _ _ h; simp [parseParenthAndDot.loop] at h
  | succ n ih =>
    intro node0 lexer node lexer' h
    simp only [parseParenthAndDot.loop] at h
    cases hop : findOp g lexer.getCurrToken.type with
    | none =>
      simp only [hop] at h
      split at h
      · cases h1 : call (g + 1) (lexer.scanToken 1) with
        | outOfFuel => simp [h1] at h
        | throw e => simp [h1] at h
        | ok a =>
          simp only [h1] at h
          rcases ih _ _ _ _ h with ⟨rfl, _⟩ | hf
          · exact .inr rfl
          · exact .inr hf
      · simp only [Result.ok.injEq, Prod.mk.injEq] at h
        exact .inl ⟨h.1.symm, h.2.symm⟩
    | some op =>
      simp only [hop] at h
      split at h
      · cases h1 : parseOperands call n lexer [] with
        | outOfFuel => simp [h1] at h
        | throw e => simp [h1] at h
        | ok a =>
          simp only [h1] at h
          split at h
          · cases h
          · rcases ih _ _ _ _ h with ⟨rfl, _⟩ | hf
            · exact .inr rfl
            · exact .inr hf
      · rcases ih _ _ _ _ h with ⟨rfl, _⟩ | hf
        · exact .inr rfl
        · exact .inr hf

theorem parseUnary_flag {call : Nat → Lexer → Result (ASTNode × Lexer)} {g fuel : Nat}
    {lexer lexer' : Lexer} {node : ASTNode}
    (h : parseUnary call g fuel lexer = .ok (node, lexer')) :
    call (g + 1) lexer = .ok (node, lexer') ∨ node.forceRval = false := by
  cases fuel with
  | zero => simp [parseUnary] at h
  | succ n =>
    simp only [parseUnary] at h
    cases hop : findOp g lexer.getCurrToken.type with
    | none => simp only [hop] at h; exact .inl h
    | some op =>
      simp only [hop] at h
      cases h1 : parseUnary call g n (lexer.scanToken 1) with
      | outOfFuel => simp [h1] at h
      | throw e => simp [h1] at h
      | ok a =>
        simp only [h1, Result.ok.injEq, Prod.mk.injEq] at h
        exact .inr (h.1 ▸ rfl)

theorem parsePrimary_flag {call : Nat → Lexer → Result (ASTNode × Lexer)} {fuel : Nat}
    {lexer lexer' : Lexer} {node : ASTNode}
    (h : parsePrimary call fuel lexer = .ok (node, lexer')) (hflag : node.forceRval = true) :
    lexer.getCurrToken.type = .L_PAREN ∧
      ∃ inner lexer1, call 0 (lexer.scanToken 1) = .ok (inner, lexer1) ∧
        lexer1.getCurrToken.type = .R_PAREN ∧ node = inner.setForceRval true ∧
        lexer' = lexer1.scanToken 1 := by
  simp only [parsePrimary] at h
  split at h
  case h_7 heq =>
    refine ⟨heq, ?_⟩
    cases h1 : call 0 (lexer.scanToken 1) with
    | outOfFuel => simp [h1] at h
    | throw e => simp [h1] at h
    | ok a =>
      simp only [h1] at h
      split at h
      · rename_i hclose
        simp only [Result.ok.injEq, Prod.mk.injEq] at h
        exact ⟨a.1, a.2, rfl, hclose, h.1.symm, h.2.symm⟩
      · cases h
  case h_3 =>
    cases h1 : stoi lexer.getCurrToken.lexeme with
    | outOfFuel => simp [h1] at h
    | throw e => simp [h1] at h
    | ok a =>
      simp only [h1, Result.ok.injEq, Prod.mk.injEq] at h
      rw [← h.1] at hflag; cases hflag
  case h_4 =>
    cases h1 : stof lexer.getCurrToken.lexeme with
    | outOfFuel => simp [h1] at h
    | throw e => simp [h1] at h
    | ok a =>
      simp only [h1, Result.ok.injEq, Prod.mk.injEq] at h
      rw [← h.1] at hflag; cases hflag
  case h_8 =>
    cases h1 : listParser call fuel lexer with
    | outOfFuel => simp [h1] at h
    | throw e => simp [h1] at h
    | ok a =>
      simp only [h1, Result.ok.injEq, Prod.mk.injEq] at h
      rw [← h.1] at hflag; cases hflag
  case h_10 => cases h
  all_goals
    simp only [Result.ok.injEq, Prod.mk.injEq] at h
    rw [← h.1] at hflag; cases hflag

theorem callParserFunc_flag :
    ∀ (fuel g : Nat) (lexer lexer' : Lexer) (node : ASTNode),
      callParserFunc fuel g lexer = .ok (node, lexer') → node.forceRval = true →
      lexer.getCurrToken.type = .L_PAREN ∧
        ∃ fuel0 inner lexer1, callParserFunc fuel0 0 (lexer.scanToken 1) = .ok (inner, lexer1) ∧
          lexer1.getCurrToken.type = .R_PAREN ∧ node = inner.setForceRval true ∧
          lexer' = lexer1.scanToken 1 := by
  intro fuel
  induction fuel with
  | zero => intro _ _ _ _ h; simp [callParserFunc] at h
  | succ n ih =>
    intro g lexer lexer' node h hflag
    rw [callParserFunc] at h
    split at h
    · cases h
    · simp only [parseBinLeft] at h
      cases h1 : callParserFunc n (g + 1) lexer with
      | outOfFuel => simp [h1] at h
      | throw e => simp [h1] at h
      | ok a =>
        simp only [h1] at h
        rcases parseBinLeft_loop_flag _ _ _ _ _ h with ⟨rfl, rfl⟩ | hf
        · exact ih _ _ _ _ h1 hflag
        · rw [hf] at hflag; cases hflag
    · simp only [parseBinRight] at h
      cases h1 : callParserFunc n (g + 1) lexer with
      | outOfFuel => simp [h1] at h
      | throw e => simp [h1] at h
      | ok a =>
        simp only [h1] at h
        cases hop : findOp g a.2.getCurrToken.type with
        | none =>
          simp only [hop, Result.ok.injEq, Prod.mk.injEq] at h
          obtain ⟨rfl, rfl⟩ := h
          exact ih _ _ _ _ h1 hflag
        | some op =>
          simp only [hop] at h
          cases h2 : callParserFunc n g (a.2.scanToken 1) with
          | outOfFuel => simp [h2] at h
          | throw e => simp [h2] at h
          | ok b =>
            simp only [h2, Result.ok.injEq, Prod.mk.injEq] at h
            rw [← h.1] at hflag; cases hflag
    · rcases parseUnary_flag h with h1 | hf
      · exact ih _ _ _ _ h1 hflag
      · rw [hf] at hflag; cases hflag
    · simp only [parseUnaryPostfix] at h
      cases h1 : callParserFunc n (g + 1) lexer with
      | outOfFuel => simp [h1] at h
      | throw e => simp [h1] at h
      | ok a =>
        simp only [h1] at h
        rcases parseUnaryPostfix_loop_flag _ _ _ _ _ h with ⟨rfl, rfl⟩ | hf
        · exact ih _ _ _ _ h1 hflag
        · rw [hf] at hflag; cases hflag
    · simp only [parseParenthAndDot] at h
      cases h1 : callParserFunc n (g + 1) lexer with
      | outOfFuel => simp [h1] at h
      | throw e => simp [h1] at h
      | ok a =>
        simp only [h1] at h
        rcases parseParenthAndDot_loop_flag _ _ _ _ _ h with ⟨rfl, rfl⟩ | hf
        · exact ih _ _ _ _ h1 hflag
        · rw [hf] at hflag; cases hflag
    · obtain ⟨hp, inner, lexer1, h1, h2, h3, h4⟩ := parsePrimary_flag h hflag
      exact ⟨hp, n, inner, lexer1, h1, h2, h3, h4⟩

theorem parsePrimary_paren {fuel : Nat} {lexer lexer1 : Lexer} {inner : ASTNode}
    (hparen : lexer.getCurrToken.type = .L_PAREN)
    (hinner : callParserFunc fuel 0 (lexer.scanToken 1) = .ok (inner, lexer1))
    (hclose : lexer1.getCurrToken.type = .R_PAREN) :
    callParserFunc (fuel + 1) primaryGroup lexer =
      .ok (inner.setForceRval true, lexer1.scanToken 1) := by
  have hp : parserFuncAt primaryGroup = some ParserFunc.parsePrimary := rfl
  rw [callParserFunc]
  simp only [hp, parsePrimary, hparen, hinner, hclose, if_true]

/-- C6: the `force_rvalue` flag marks exactly the directly parenthesised expressions. If the
cursor is on `(`, the expression parser (group 0) returns `inner` from the next token and
stops on `)`, then the primary parser returns `inner` with the flag set and stops after the
`)`. Conversely, whenever any group returns a node whose flag is set, the parse started on
`(`, and the node is the flagged result of the expression between that `(` and a `)` that
ends the parse. On the tokens of `(x) = 5`, `getAST` succeeds and the left operand of the
assignment carries the flag; on those of `x = 5` it gives the same tree without the flag. -/
theorem force_rvalue_parenthesised (fuel : Nat) (lexer lexer1 : Lexer) (inner : ASTNode)
    (hparen : lexer.getCurrToken.type = .L_PAREN)
    (hinner : callParserFunc fuel 0 (lexer.scanToken 1) = .ok (inner, lexer1))
    (hclose : lexer1.getCurrToken.type = .R_PAREN)
    (fuelB g : Nat) (lexerB lexerB' : Lexer) (node : ASTNode)
    (hres : callParserFunc fuelB g lexerB = .ok (node, lexerB'))
    (hflag : node.forceRval = true)
    (fuelAST : Nat) (hfAST : 30 ≤ fuelAST) :
    (callParserFunc (fuel + 1) primaryGroup lexer =
        .ok (inner.setForceRval true, lexer1.scanToken 1) ∧
      (inner.setForceRval true).forceRval = true) ∧
    (lexerB.getCurrToken.type = .L_PAREN ∧
      ∃ fuel0 innerB lexerB1,
        callParserFunc fuel0 0 (lexerB.scanToken 1) = .ok (innerB, lexerB1) ∧
        lexerB1.getCurrToken.type = .R_PAREN ∧ node = innerB.setForceRval true ∧
        lexerB' = lexerB1.scanToken 1) ∧
    getAST fuelAST tokensParenAssign 8 =
      .ok (.mk [.ExprStatement
        (.BinaryNode (.IDNode "x" 1 true) (.LiteralNode (.int 5) 6 false) .ASSIGNMENT 4 false)
        0]) ∧
    getAST fuelAST tokensPlainAssign 6 =
      .ok (.mk [.ExprStatement
        (.BinaryNode (.IDNode "x" 0 false) (.LiteralNode (.int 5) 4 false) .ASSIGNMENT 2 false)
        0]) :=
  ⟨⟨parsePrimary_paren hparen hinner hclose, forceRval_setForceRval _ _⟩,
    callParserFunc_flag _ _ _ _ _ hres hflag,
    (getAST_mono hfAST tokensParenAssign 8).ok_eq rfl,
    (getAST_mono hfAST tokensPlainAssign 6).ok_eq rfl⟩

/-- Witness of C6: the primary `(x)` of `(x) = 5`, and the flagged node the group above the
assignments returns for it. -/
theorem force_rvalue_parenthesised_witness :
    (callParserFunc 13 primaryGroup ⟨tokensParenAssign, 8⟩ =
        .ok (.IDNode "x" 1 true, ⟨tokensParenAssign.drop 3, 8⟩) ∧
      (ASTNode.IDNode "x" 1 true).forceRval = true) ∧
    ((⟨"(", .L_PAREN, 0⟩ : Token).type = .L_PAREN ∧
      ∃ fuel0 innerB lexerB1,
        callParserFunc fuel0 0 ⟨tokensParenAssign.drop 1, 8⟩ = .ok (innerB, lexerB1) ∧
        lexerB1.getCurrToken.type = .R_PAREN ∧
        ASTNode.IDNode "x" 1 true = innerB.setForceRval true ∧
        (⟨tokensParenAssign.drop 3, 8⟩ : Lexer) = lexerB1.scanToken 1) ∧
    getAST 30 tokensParenAssign 8 =
      .ok (.mk [.ExprStatement
        (.BinaryNode (.IDNode "x" 1 true) (.LiteralNode (.int 5) 6 false) .ASSIGNMENT 4 false)
        0]) ∧
    getAST 30 tokensPlainAssign 6 =
      .ok (.mk [.ExprStatement
        (.BinaryNode (.IDNode "x" 0 false) (.LiteralNode (.int 5) 4 false) .ASSIGNMENT 2 false)
        0]) :=
  force_rvalue_parenthesised 12 ⟨tokensParenAssign, 8⟩ ⟨tokensParenAssign.drop 2, 8⟩
    (.IDNode "x" 1 false) rfl rfl rfl
    30 2 ⟨tokensParenAssign, 8⟩ ⟨tokensParenAssign.drop 3, 8⟩ (.IDNode "x" 1 true) rfl rfl
    30 (by decide)

/-! ## Indentation -/

theorem lookForw_leadingTabs (lexer : Lexer) :
    (lexer.lookForw (leadingTabs lexer.tokenList)).type ≠ .TAB := by
  obtain ⟨tokens, n⟩ := lexer
  simp only [Lexer.lookForw]
  induction tokens with
  | nil => simp [leadingTabs, Lexer.eofToken]
  | cons t ts ih =>
    by_cases ht : t.type = .TAB
    · simpa [leadingTabs, ht] using ih
    · simp [leadingTabs, ht]

theorem lookForw_lt_leadingTabs (lexer : Lexer) :
    ∀ i, i < leadingTabs lexer.tokenList → (lexer.lookForw i).type = .TAB := by
  obtain ⟨tokens, n⟩ := lexer
  simp only [Lexer.lookForw]
  induction tokens with
  | nil => intro i hi; simp [leadingTabs] at hi
  | cons t ts ih =>
    intro i hi
    by_cases ht : t.type = .TAB
    · cases i with
      | zero => simpa using ht
      | succ j =>
        simp only [leadingTabs, ht, if_true] at hi
        simpa using ih j (by omega)
    · simp [leadingTabs, ht] at hi

theorem skipTabs_go_eq_drop (tokens : List Token) :
    skipTabs.go tokens = tokens.drop (leadingTabs tokens) := by
  induction tokens with
  | nil => rfl
  | cons t ts ih =>
    by_cases ht : t.type = .TAB
    · simp [skipTabs.go, leadingTabs, ht, ih]
    · simp [skipTabs.go, leadingTabs, ht]

theorem skipTabs_eq_scanToken (lexer : Lexer) :
    skipTabs lexer = lexer.scanToken (leadingTabs lexer.tokenList) := by
  simp [skipTabs, Lexer.scanToken, skipTabs_go_eq_drop]

theorem getCurrToken_skipTabs (lexer : Lexer) : (skipTabs lexer).getCurrToken.type ≠ .TAB := by
  have h := lookForw_leadingTabs lexer
  rw [skipTabs_eq_scanToken]
  simpa [Lexer.getCurrToken, Lexer.lookForw, Lexer.scanToken, Lexer.eofToken,
    List.getD_eq_getElem?_getD, List.getElem?_drop] using h

/-- C7: one turn of the loop of `parseBlock` at block level `L ≥ 0`, with the cursor at the
start of a line. If the line starts with more than `L` TAB tokens, the result is
`ParsingError("Indentation error.")` at the position of the first token of the line. If it
starts with exactly `L` tabs (and is not the end of the file), the `L` tabs are consumed, the
cursor is then on a token that is no tab, a statement is parsed from there, and the loop goes
on with that statement added. If it starts with fewer than `L` tabs, the block ends with the
cursor where it was. This holds for any positive fuel. -/
theorem parseBlock_indentation (call : Nat → Lexer → Result (ASTNode × Lexer))
    (block : Parser → Result (CodeBlock × Parser)) (fuel : Nat) (parser : Parser)
    (currBlock : CodeBlock) (L : Nat) (hL : parser.blockLevel = (L : Int)) :
    (L < leadingTabs parser.lexer.tokenList →
      parseBlock.loop call block (fuel + 1) parser currBlock =
        .throw (.ParsingError "Indentation error." parser.lexer.getCurrToken.pos)) ∧
    (leadingTabs parser.lexer.tokenList = L → parser.lexer.getCurrToken.type ≠ .EOFILE →
      (parser.lexer.scanToken L).getCurrToken.type ≠ .TAB ∧
      parseBlock.loop call block (fuel + 1) parser currBlock =
        match parseStatement call block fuel { parser with lexer := parser.lexer.scanToken L } with
        | .ok (currStatement, parser') =>
          parseBlock.loop call block fuel parser' (currBlock.addStatement currStatement)
        | .throw e => .throw e
        | .outOfFuel => .outOfFuel) ∧
    (leadingTabs parser.lexer.tokenList < L →
      parseBlock.loop call block (fuel + 1) parser currBlock = .ok (currBlock, parser)) := by
  refine ⟨fun h => ?_, fun h hne => ?_, fun h => ?_⟩
  · have hcur : parser.lexer.getCurrToken.type ≠ .EOFILE := by
      have := lookForw_lt_leadingTabs parser.lexer 0 (by omega)
      simp only [Lexer.getCurrToken, this]
      decide
    have h1 : ¬ ((leadingTabs parser.lexer.tokenList : Int) < parser.blockLevel) := by
      rw [hL]; omega
    have h2 : (leadingTabs parser.lexer.tokenList : Int) > parser.blockLevel := by
      rw [hL]; omega
    simp only [parseBlock.loop, hcur, ne_eq, not_false_eq_true, if_true, lessTabs, h1, h2,
      if_false]
  · have h1 : ¬ ((leadingTabs parser.lexer.tokenList : Int) < parser.blockLevel) := by
      rw [hL]; omega
    have h2 : ¬ ((leadingTabs parser.lexer.tokenList : Int) > parser.blockLevel) := by
      rw [hL]; omega
    refine ⟨?_, ?_⟩
    · rw [← h, ← skipTabs_eq_scanToken]; exact getCurrToken_skipTabs _
    · rw [h] at h1 h2
      simp only [parseBlock.loop, hne, ne_eq, not_false_eq_true, if_true, lessTabs, h, h1, h2,
        if_false, skipTabs_eq_scanToken]
  · have h1 : (leadingTabs parser.lexer.tokenList : Int) < parser.blockLevel := by
      rw [hL]; omega
    simp only [parseBlock.loop, lessTabs, h1, if_true]
    split <;> rfl

/-- Witness of C7: at level 0 a line indented by one tab is an indentation error at its first
token; at level 1 its tab is consumed and the statement `x` is parsed; at level 2 the block
ends in front of it. -/
theorem parseBlock_indentation_witness :
    parseBlock.loop (callParserFunc 12) (parseBlock 12) 13 ⟨⟨tokensIndented, 3⟩, 0⟩ (.mk []) =
        .throw (.ParsingError "Indentation error." 0) ∧
      parseBlock.loop (callParserFunc 12) (parseBlock 12) 13 ⟨⟨tokensIndented, 3⟩, 1⟩ (.mk []) =
        .ok (.mk [.ExprStatement (.IDNode "x" 1 false) 1], ⟨⟨[], 3⟩, 1⟩) ∧
      parseBlock.loop (callParserFunc 12) (parseBlock 12) 13 ⟨⟨tokensIndented, 3⟩, 2⟩ (.mk []) =
        .ok (.mk [], ⟨⟨tokensIndented, 3⟩, 2⟩) :=
  ⟨(parseBlock_indentation (callParserFunc 12) (parseBlock 12) 12 ⟨⟨tokensIndented, 3⟩, 0⟩
      (.mk []) 0 rfl).1 (by decide),
    ((parseBlock_indentation (callParserFunc 12) (parseBlock 12) 12 ⟨⟨tokensIndented, 3⟩, 1⟩
      (.mk []) 1 rfl).2.1 rfl (by decide)).2.trans rfl,
    (parseBlock_indentation (callParserFunc 12) (parseBlock 12) 12 ⟨⟨tokensIndented, 3⟩, 2⟩
      (.mk []) 2 rfl).2.2 (by decide)⟩

/-! ## The block level is restored -/

theorem parseReturn_keepsLevel (call : Nat → Lexer → Result (ASTNode × Lexer)) :
    KeepsLevel (parseReturn call) := by
  intro parser a parser' h
  simp only [parseReturn] at h
  cases h1 : call 0 (parser.lexer.scanToken 1) with
  | outOfFuel => simp [h1] at h
  | throw e => simp [h1] at h
  | ok r =>
    simp only [h1] at h
    cases h2 : checkNewLine r.2 with
    | outOfFuel => simp [h2] at h
    | throw e => simp [h2] at h
    | ok l =>
      simp only [h2, Result.ok.injEq, Prod.mk.injEq] at h
      rw [← h.2]

theorem parseExpr_keepsLevel (call : Nat → Lexer → Result (ASTNode × Lexer)) :
    KeepsLevel (parseExpr call) := by
  intro parser a parser' h
  simp only [parseExpr] at h
  cases h1 : call 0 parser.lexer with
  | outOfFuel => simp [h1] at h
  | throw e => simp [h1] at h
  | ok r =>
    simp only [h1] at h
    cases h2 : checkNewLine r.2 with
    | outOfFuel => simp [h2] at h
    | throw e => simp [h2] at h
    | ok l =>
      simp only [h2, Result.ok.injEq, Prod.mk.injEq] at h
      rw [← h.2]

theorem parseWhile_keepsLevel (call : Nat → Lexer → Result (ASTNode × Lexer))
    {block : Parser → Result (CodeBlock × Parser)} (hb : KeepsLevel block) :
    KeepsLevel (parseWhile call block) := by
  intro parser a parser' h
  simp only [parseWhile] at h
  cases h1 : call 0 (parser.lexer.scanToken 1) with
  | outOfFuel => simp [h1] at h
  | throw e => simp [h1] at h
  | ok r =>
    simp only [h1] at h
    cases h2 : checkNewLine r.2 with
    | outOfFuel => simp [h2] at h
    | throw e => simp [h2] at h
    | ok l =>
      simp only [h2] at h
      cases h3 : block { parser with lexer := l } with
      | outOfFuel => simp [h3] at h
      | throw e => simp [h3] at h
      | ok q =>
        have hq := hb _ _ _ h3
        simp only [h3, Result.ok.injEq, Prod.mk.injEq] at h
        rw [← h.2]
        exact hq

theorem parseFor_keepsLevel (call : Nat → Lexer → Result (ASTNode × Lexer))
    {block : Parser → Result (CodeBlock × Parser)} (hb : KeepsLevel block) :
    KeepsLevel (parseFor call block) := by
  intro parser a parser' h
  simp only [parseFor] at h
  split at h
  · cases h
  · split at h
    · cases h1 : call 0 (((parser.lexer.scanToken 1).scanToken 1).scanToken 1) with
      | outOfFuel => simp [h1] at h
      | throw e => simp [h1] at h
      | ok r =>
        simp only [h1] at h
        split at h
        · cases h2 : call 0 (r.2.scanToken 1) with
          | outOfFuel => simp [h2] at h
          | throw e => simp [h2] at h
          | ok r2 =>
            simp only [h2] at h
            cases h3 : checkNewLine r2.2 with
            | outOfFuel => simp [h3] at h
            | throw e => simp [h3] at h
            | ok l =>
              simp only [h3] at h
              cases h4 : block { parser with lexer := l } with
              | outOfFuel => simp [h4] at h
              | throw e => simp [h4] at h
              | ok q =>
                have hq := hb _ _ _ h4
                simp only [h4, Result.ok.injEq, Prod.mk.injEq] at h
                rw [← h.2]
                exact hq
        · cases h
    · cases h

theorem parseFunctionDef_keepsLevel {block : Parser → Result (CodeBlock × Parser)}
    (hb : KeepsLevel block) (fuel : Nat) : KeepsLevel (parseFunctionDef block fuel) := by
  intro parser a parser' h
  simp only [parseFunctionDef] at h
  split at h
  · cases h
  · split at h
    · cases h
    · cases h1 : parseFunctionDef.paramList fuel ((parser.lexer.scanToken 1).scanToken 1) with
      | outOfFuel => simp [h1] at h
      | throw e => simp [h1] at h
      | ok r =>
        simp only [h1] at h
        split at h
        · cases h
        · cases h3 : checkNewLine (r.2.scanToken 1) with
          | outOfFuel => simp [h3] at h
          | throw e => simp [h3] at h
          | ok l =>
            simp only [h3] at h
            cases h4 : block { parser with lexer := l } with
            | outOfFuel => simp [h4] at h
            | throw e => simp [h4] at h
            | ok q =>
              have hq := hb _ _ _ h4
              simp only [h4, Result.ok.injEq, Prod.mk.injEq] at h
              rw [← h.2]
              exact hq

theorem parseIf_loop_keepsLevel (call : Nat → Lexer → Result (ASTNode × Lexer))
    {block : Parser → Result (CodeBlock × Parser)} (hb : KeepsLevel block) (pos : Nat) :
    ∀ (fuel : Nat) (cases : List (ASTNode × CodeBlock)),
      KeepsLevel (fun parser => parseIf.loop call block pos fuel parser cases) := by
  intro fuel
  induction fuel with
  | zero => intro _ _ _ _ h; simp [parseIf.loop] at h
  | succ n ih =>
    intro cases parser a parser' h
    simp only [parseIf.loop] at h
    split at h
    · cases h1 : parseIf.condition call parser.lexer.getCurrToken.type
          (parser.lexer.scanToken 1) with
      | outOfFuel => simp [h1] at h
      | throw e => simp [h1] at h
      | ok r =>
        simp only [h1] at h
        cases h2 : checkNewLine r.2 with
        | outOfFuel => simp [h2] at h
        | throw e => simp [h2] at h
        | ok l =>
          simp only [h2] at h
          cases h3 : block { parser with lexer := l } with
          | outOfFuel => simp [h3] at h
          | throw e => simp [h3] at h
          | ok q =>
            have hq : q.2.blockLevel = parser.blockLevel := by
              have := hb _ _ _ h3
              exact this
            simp only [h3] at h
            split at h
            · simp only [Result.ok.injEq, Prod.mk.injEq] at h
              rw [← h.2]; exact hq
            · cases h4 : lessTabs q.2 with
              | outOfFuel => simp [h4] at h
              | throw e => simp [h4] at h
              | ok t =>
                obtain ⟨flag, nTabs⟩ := t
                cases flag with
                | true =>
                  simp only [h4, Result.ok.injEq, Prod.mk.injEq] at h
                  rw [← h.2]; exact hq
                | false =>
                  simp only [h4] at h
                  split at h
                  · exact (ih _ _ _ _ h).trans hq
                  · simp only [Result.ok.injEq, Prod.mk.injEq] at h
                    rw [← h.2]; exact hq
    · simp only [Result.ok.injEq, Prod.mk.injEq] at h
      rw [← h.2]

theorem parseStatement_keepsLevel (call : Nat → Lexer → Result (ASTNode × Lexer))
    {block : Parser → Result (CodeBlock × Parser)} (hb : KeepsLevel block) (fuel : Nat) :
    KeepsLevel (parseStatement call block fuel) := by
  intro parser a parser' h
  simp only [parseStatement] at h
  split at h
  · exact parseWhile_keepsLevel call hb _ _ _ h
  · exact parseIf_loop_keepsLevel call hb _ fuel [] _ _ _ h
  · exact parseFor_keepsLevel call hb _ _ _ h
  · exact parseReturn_keepsLevel call _ _ _ h
  · exact parseFunctionDef_keepsLevel hb fuel _ _ _ h
  · exact parseExpr_keepsLevel call _ _ _ h

theorem parseBlock_loop_keepsLevel (call : Nat → Lexer → Result (ASTNode × Lexer))
    {block : Parser → Result (CodeBlock × Parser)} (hb : KeepsLevel block) :
    ∀ (fuel : Nat) (currBlock : CodeBlock),
      KeepsLevel (fun parser => parseBlock.loop call block fuel parser currBlock) := by
  intro fuel
  induction fuel with
  | zero => intro _ _ _ _ h; simp [parseBlock.loop] at h
  | succ n ih =>
    intro currBlock parser a parser' h
    simp only [parseBlock.loop] at h
    split at h
    · cases h4 : lessTabs parser with
      | outOfFuel => simp [h4] at h
      | throw e => simp [h4] at h
      | ok t =>
        obtain ⟨flag, nTabs⟩ := t
        cases flag with
        | true =>
          simp only [h4, Result.ok.injEq, Prod.mk.injEq] at h
          rw [← h.2]
        | false =>
          simp only [h4] at h
          cases h1 : parseStatement call block n
              { parser with lexer := skipTabs parser.lexer } with
          | outOfFuel => simp [h1] at h
          | throw e => simp [h1] at h
          | ok q =>
            have hq := parseStatement_keepsLevel call hb n _ _ _ h1
            simp only [h1] at h
            exact (ih _ _ _ _ h).trans hq
    · simp only [Result.ok.injEq, Prod.mk.injEq] at h
      rw [← h.2]

theorem parseBlock_keepsLevel : ∀ fuel, KeepsLevel (parseBlock fuel) := by
  intro fuel
  induction fuel with
  | zero => intro _ _ _ h; simp [parseBlock] at h
  | succ n ih =>
    intro parser a parser' h
    rw [parseBlock] at h
    cases h1 : parseBlock.loop (callParserFunc n) (parseBlock n) n
        { parser with blockLevel := parser.blockLevel + 1 } (.mk []) with
    | outOfFuel => simp [h1] at h
    | throw e => simp [h1] at h
    | ok q =>
      simp only [h1, Result.ok.injEq, Prod.mk.injEq] at h
      have := parseBlock_loop_keepsLevel (callParserFunc n) ih n _ _ _ _ h1
      rw [← h.2]
      simp only at this ⊢
      omega

/-! ## The if-chain -/

theorem getCurrToken_scanToken (lexer : Lexer) (k : Nat) :
    (lexer.scanToken k).getCurrToken = lexer.lookForw k := by
  simp [Lexer.getCurrToken, Lexer.lookForw, Lexer.scanToken, Lexer.eofToken,
    List.getD_eq_getElem?_getD, List.getElem?_drop]

/-- C8: when `parseIf` has parsed an `if` or `elif` case (keyword, condition, `then`, newline
and block, the block ending at `parser'`), the block level is again that of the `if` line, and
the chain is extended exactly when the next line has as many leading tabs as that level and
its first token after the tabs is `elif` or `else`: then the loop goes on with the cursor on
that keyword and the case added. Otherwise every statement the loop returns has this case as
its last one and the cursor stays at the start of that line, so an `else` on a deeper line is
not added. On the tokens of `if x then / <tab>y / <tab>else / <tab><tab>z`, `getAST` returns
no statement at all: it throws at the `else`. -/
theorem parseIf_chain_extension (fuelB fuel pos : Nat) (parser parser' : Parser)
    (cases : List (ASTNode × CodeBlock)) (condition : ASTNode) (lexer1 lexer2 : Lexer)
    (blk : CodeBlock)
    (hkw : parser.lexer.getCurrToken.type = .IF ∨ parser.lexer.getCurrToken.type = .ELIF)
    (hcond : parseIf.condition (callParserFunc fuelB) parser.lexer.getCurrToken.type
      (parser.lexer.scanToken 1) = .ok (condition, lexer1))
    (hnl : checkNewLine lexer1 = .ok lexer2)
    (hblk : parseBlock fuelB { parser with lexer := lexer2 } = .ok (blk, parser'))
    (fuelAST : Nat) (hfAST : 40 ≤ fuelAST) :
    parser'.blockLevel = parser.blockLevel ∧
    (((leadingTabs parser'.lexer.tokenList : Nat) : Int) = parser.blockLevel →
      ((parser'.lexer.lookForw (leadingTabs parser'.lexer.tokenList)).type = .ELIF ∨
        (parser'.lexer.lookForw (leadingTabs parser'.lexer.tokenList)).type = .ELSE) →
      (parser'.lexer.scanToken (leadingTabs parser'.lexer.tokenList)).getCurrToken =
          parser'.lexer.lookForw (leadingTabs parser'.lexer.tokenList) ∧
        parseIf.loop (callParserFunc fuelB) (parseBlock fuelB) pos (fuel + 1) parser cases =
          parseIf.loop (callParserFunc fuelB) (parseBlock fuelB) pos fuel
            { parser' with
              lexer := parser'.lexer.scanToken (leadingTabs parser'.lexer.tokenList) }
            (cases ++ [(condition, blk)])) ∧
    (¬ (((leadingTabs parser'.lexer.tokenList : Nat) : Int) = parser.blockLevel ∧
        ((parser'.lexer.lookForw (leadingTabs parser'.lexer.tokenList)).type = .ELIF ∨
          (parser'.lexer.lookForw (leadingTabs parser'.lexer.tokenList)).type = .ELSE)) →
      ∀ stmt pEnd,
        parseIf.loop (callParserFunc fuelB) (parseBlock fuelB) pos (fuel + 1) parser cases =
          .ok (stmt, pEnd) →
        stmt = .IfStatement (cases ++ [(condition, blk)]) pos ∧ pEnd = parser') ∧
    getAST fuelAST tokensDeepElse 23 = .throw (.ParsingError "" 14) := by
  have hlevel : parser'.blockLevel = parser.blockLevel := by
    have := parseBlock_keepsLevel fuelB _ _ _ hblk
    exact this
  have hnotElse : parser.lexer.getCurrToken.type ≠ .ELSE := by
    rcases hkw with h | h <;> rw [h] <;> decide
  have hhead : parser.lexer.getCurrToken.type = .IF ∨ parser.lexer.getCurrToken.type = .ELIF ∨
      parser.lexer.getCurrToken.type = .ELSE := by
    rcases hkw with h | h
    · exact .inl h
    · exact .inr (.inl h)
  refine ⟨hlevel, ?_, ?_, (getAST_mono hfAST tokensDeepElse 23).throw_eq rfl⟩
  · intro htabs hnext
    refine ⟨getCurrToken_scanToken _ _, ?_⟩
    have h1 : ¬ ((leadingTabs parser'.lexer.tokenList : Int) < parser'.blockLevel) := by
      rw [hlevel]; omega
    have h2 : ¬ ((leadingTabs parser'.lexer.tokenList : Int) > parser'.blockLevel) := by
      rw [hlevel]; omega
    rw [parseIf.loop]
    simp only []
    rw [if_pos hhead]
    simp only [hcond, hnl, hblk, hnotElse, if_false, lessTabs, h1, h2, hnext, if_true,
      skipTabs_eq_scanToken]
  · intro hno stmt pEnd hres
    rw [parseIf.loop] at hres
    simp only [] at hres
    rw [if_pos hhead] at hres
    simp only [hcond, hnl, hblk, hnotElse, if_false, lessTabs] at hres
    by_cases h1 : (leadingTabs parser'.lexer.tokenList : Int) < parser'.blockLevel
    · simp only [h1, if_true, Result.ok.injEq, Prod.mk.injEq] at hres
      exact ⟨hres.1.symm, hres.2.symm⟩
    · by_cases h2 : (leadingTabs parser'.lexer.tokenList : Int) > parser'.blockLevel
      · simp [h1, h2] at hres
      · have heq : (leadingTabs parser'.lexer.tokenList : Int) = parser.blockLevel := by
          rw [← hlevel]; omega
        have hnext : ¬ ((parser'.lexer.lookForw (leadingTabs parser'.lexer.tokenList)).type
              = .ELIF ∨
            (parser'.lexer.lookForw (leadingTabs parser'.lexer.tokenList)).type = .ELSE) :=
          fun h => hno ⟨heq, h⟩
        simp only [h1, h2, if_false, hnext, Result.ok.injEq, Prod.mk.injEq] at hres
        exact ⟨hres.1.symm, hres.2.symm⟩

/-- Witness of C8: on `if x then / <tab>y / else / <tab>z` the `else` at the level of the `if`
is added as the second case; on the input with the deeper `else` no statement is returned. -/
theorem parseIf_chain_extension_witness :
    parseIf.loop (callParserFunc 20) (parseBlock 20) 0 21 ⟨⟨tokensIfElse, 21⟩, 0⟩ [] =
        .ok (.IfStatement
          [(.IDNode "x" 3 false, .mk [.ExprStatement (.IDNode "y" 11 false) 11]),
            (.LiteralNode (.bool true) 0 false, .mk [.ExprStatement (.IDNode "z" 19 false) 19])]
          0, ⟨⟨[], 21⟩, 0⟩) ∧
      getAST 40 tokensDeepElse 23 = .throw (.ParsingError "" 14) :=
  have h := parseIf_chain_extension 20 20 0 ⟨⟨tokensIfElse, 21⟩, 0⟩
    ⟨⟨tokensIfElse.drop 7, 21⟩, 0⟩ [] (.IDNode "x" 3 false) ⟨tokensIfElse.drop 3, 21⟩
    ⟨tokensIfElse.drop 4, 21⟩ (.mk [.ExprStatement (.IDNode "y" 11 false) 11])
    (Or.inl rfl) rfl rfl rfl 40 (by decide)
  ⟨((h.2.1 rfl (Or.inr rfl)).2).trans rfl, h.2.2.2⟩

/-! ## The cases of an if statement -/

theorem lessTabs_snd {parser : Parser} {flag : Bool} {nTabs : Nat}
    (h : lessTabs parser = .ok (flag, nTabs)) : nTabs = leadingTabs parser.lexer.tokenList := by
  simp only [lessTabs] at h
  split at h
  · simp only [Result.ok.injEq, Prod.mk.injEq] at h; exact h.2.symm
  · split at h
    · cases h
    · simp only [Result.ok.injEq, Prod.mk.injEq] at h; exact h.2.symm

theorem parseIf_loop_chain (call : Nat → Lexer → Result (ASTNode × Lexer))
    (block : Parser → Result (CodeBlock × Parser)) (pos : Nat) :
    ∀ (fuel : Nat) (parser : Parser) (cases : List (ASTNode × CodeBlock)) (stmt : Statement)
      (parserEnd : Parser),
      (parser.lexer.getCurrToken.type = .IF ∨ parser.lexer.getCurrToken.type = .ELIF ∨
        parser.lexer.getCurrToken.type = .ELSE) →
      parseIf.loop call block pos fuel parser cases = .ok (stmt, parserEnd) →
      ∃ cs : List IfCase, IfChain call block parser cs parserEnd ∧
        stmt = .IfStatement (cases ++ cs.map IfCase.toPair) pos := by
  intro fuel
  induction fuel with
  | zero => intro _ _ _ _ _ h; simp [parseIf.loop] at h
  | succ n ih =>
    intro parser cases stmt parserEnd hhead h
    rw [parseIf.loop] at h
    simp only [] at h
    rw [if_pos hhead] at h
    cases h1 : parseIf.condition call parser.lexer.getCurrToken.type
        (parser.lexer.scanToken 1) with
    | outOfFuel => simp [h1] at h
    | throw e => simp [h1] at h
    | ok r =>
      obtain ⟨condition, lexer1⟩ := r
      simp only [h1] at h
      cases h2 : checkNewLine lexer1 with
      | outOfFuel => simp [h2] at h
      | throw e => simp [h2] at h
      | ok lexer2 =>
        simp only [h2] at h
        cases h3 : block { parser with lexer := lexer2 } with
        | outOfFuel => simp [h3] at h
        | throw e => simp [h3] at h
        | ok q =>
          obtain ⟨blk, parser'⟩ := q
          simp only [h3] at h
          have hlast : IfChain call block parser
              [⟨parser.lexer.getCurrToken.type, condition, blk⟩] parser' :=
            .last parser parser' lexer1 lexer2 condition blk hhead h1 h2 h3
          split at h
          · simp only [Result.ok.injEq, Prod.mk.injEq] at h
            exact ⟨_, h.2 ▸ hlast, by rw [← h.1]; rfl⟩
          · rename_i hne
            cases h4 : lessTabs parser' with
            | outOfFuel => simp [h4] at h
            | throw e => simp [h4] at h
            | ok t =>
              obtain ⟨flag, nTabs⟩ := t
              have hn := lessTabs_snd h4
              cases flag with
              | true =>
                simp only [h4, Result.ok.injEq, Prod.mk.injEq] at h
                exact ⟨_, h.2 ▸ hlast, by rw [← h.1]; rfl⟩
              | false =>
                simp only [h4] at h
                split at h
                · rename_i hnext
                  have hcur : (skipTabs parser'.lexer).getCurrToken =
                      parser'.lexer.lookForw nTabs := by
                    rw [skipTabs_eq_scanToken, hn]; exact getCurrToken_scanToken _ _
                  have hhead' : (skipTabs parser'.lexer).getCurrToken.type = .IF ∨
                      (skipTabs parser'.lexer).getCurrToken.type = .ELIF ∨
                      (skipTabs parser'.lexer).getCurrToken.type = .ELSE := by
                    rw [hcur]; exact .inr hnext
                  obtain ⟨cs, hcs, hstmt⟩ := ih _ _ _ _ hhead' h
                  have hkw : parser.lexer.getCurrToken.type = .IF ∨
                      parser.lexer.getCurrToken.type = .ELIF := by
                    rcases hhead with h' | h' | h'
                    · exact .inl h'
                    · exact .inr h'
                    · exact absurd h' hne
                  refine ⟨_, .more parser parser' parserEnd lexer1 lexer2 condition blk cs hkw
                    h1 h2 h3 hcs, ?_⟩
                  rw [hstmt]
                  simp [IfCase.toPair]
                · simp only [Result.ok.injEq, Prod.mk.injEq] at h
                  exact ⟨_, h.2 ▸ hlast, by rw [← h.1]; rfl⟩

theorem IfChain.ne_nil {call : Nat → Lexer → Result (ASTNode × Lexer)}
    {block : Parser → Result (CodeBlock × Parser)} {parser parser' : Parser} {cs : List IfCase}
    (h : IfChain call block parser cs parser') : cs ≠ [] := by
  cases h <;> simp

theorem IfChain.keyword {call : Nat → Lexer → Result (ASTNode × Lexer)}
    {block : Parser → Result (CodeBlock × Parser)} {parser parser' : Parser} {cs : List IfCase}
    (h : IfChain call block parser cs parser') :
    ∀ c ∈ cs, c.keyword = .IF ∨ c.keyword = .ELIF ∨ c.keyword = .ELSE := by
  induction h with
  | last parser parser' lexer1 lexer2 condition blk hkw hcond hnl hblk =>
    intro c hc
    simp only [List.mem_singleton] at hc
    rw [hc]; exact hkw
  | more parser parser' parserEnd lexer1 lexer2 condition blk rest hkw hcond hnl hblk _ ih =>
    intro c hc
    simp only [List.mem_cons] at hc
    rcases hc with rfl | hc
    · rcases hkw with h | h
      · exact .inl h
      · exact .inr (.inl h)
    · exact ih c hc

theorem parseIf_condition_else {call : Nat → Lexer → Result (ASTNode × Lexer)}
    {lexer lexer1 : Lexer} {condition : ASTNode}
    (h : parseIf.condition call .ELSE lexer = .ok (condition, lexer1)) :
    condition = alwaysTrue := by
  simp only [parseIf.condition, ne_eq, not_true_eq_false, if_false, Result.ok.injEq,
    Prod.mk.injEq] at h
  exact h.1.symm

theorem parseIf_condition_parsed {call : Nat → Lexer → Result (ASTNode × Lexer)}
    {kw : TokenType} {lexer lexer1 : Lexer} {condition : ASTNode} (hkw : kw ≠ .ELSE)
    (h : parseIf.condition call kw lexer = .ok (condition, lexer1)) :
    ∃ lexer', call 0 lexer = .ok (condition, lexer') ∧ lexer'.getCurrToken.type = .THEN ∧
      lexer1 = lexer'.scanToken 1 := by
  simp only [parseIf.condition, ne_eq, hkw, not_false_eq_true, if_true] at h
  cases h1 : call 0 lexer with
  | outOfFuel => simp [h1] at h
  | throw e => simp [h1] at h
  | ok r =>
    simp only [h1] at h
    split at h
    · rename_i hthen
      simp only [Result.ok.injEq, Prod.mk.injEq] at h
      exact ⟨r.2, by rw [← h.1], hthen, h.2.symm⟩
    · cases h

theorem IfChain.conditions {call : Nat → Lexer → Result (ASTNode × Lexer)}
    {block : Parser → Result (CodeBlock × Parser)} {parser parser' : Parser} {cs : List IfCase}
    (h : IfChain call block parser cs parser') :
    ∀ c ∈ cs, (c.keyword = .ELSE → c.condition = alwaysTrue) ∧
      (c.keyword ≠ .ELSE → ∃ lexer lexer', call 0 lexer = .ok (c.condition, lexer') ∧
        lexer'.getCurrToken.type = .THEN) := by
  induction h with
  | last parser parser' lexer1 lexer2 condition blk hkw hcond hnl hblk =>
    intro c hc
    simp only [List.mem_singleton] at hc
    subst hc
    refine ⟨fun he => ?_, fun hne => ?_⟩
    · simp only at he
      rw [he] at hcond
      exact parseIf_condition_else hcond
    · obtain ⟨lexer', h1, h2, _⟩ := parseIf_condition_parsed hne hcond
      exact ⟨_, lexer', h1, h2⟩
  | more parser parser' parserEnd lexer1 lexer2 condition blk rest hkw hcond hnl hblk _ ih =>
    intro c hc
    simp only [List.mem_cons] at hc
    rcases hc with rfl | hc
    · refine ⟨fun he => ?_, fun hne => ?_⟩
      · simp only at he
        rw [he] at hcond
        exact parseIf_condition_else hcond
      · obtain ⟨lexer', h1, h2, _⟩ := parseIf_condition_parsed hne hcond
        exact ⟨_, lexer', h1, h2⟩
    · exact ih c hc

theorem IfChain.else_last {call : Nat → Lexer → Result (ASTNode × Lexer)}
    {block : Parser → Result (CodeBlock × Parser)} {parser parser' : Parser} {cs : List IfCase}
    (h : IfChain call block parser cs parser') :
    (∀ c ∈ cs.dropLast, c.keyword ≠ .ELSE) ∧
      (cs.filter (fun c => decide (c.keyword = .ELSE))).length ≤ 1 := by
  induction h with
  | last parser parser' lexer1 lexer2 condition blk hkw hcond hnl hblk =>
    refine ⟨by simp, ?_⟩
    by_cases he : parser.lexer.getCurrToken.type = .ELSE <;> simp [List.filter, he]
  | more parser parser' parserEnd lexer1 lexer2 condition blk rest hkw hcond hnl hblk hrest ih =>
    have hne : parser.lexer.getCurrToken.type ≠ .ELSE := by
      rcases hkw with h | h <;> rw [h] <;> decide
    have hrest_ne := hrest.ne_nil
    refine ⟨?_, ?_⟩
    · intro c hc
      rw [List.dropLast_cons_of_ne_nil hrest_ne] at hc
      simp only [List.mem_cons] at hc
      rcases hc with rfl | hc
      · exact hne
      · exact ih.1 c hc
    · simpa [List.filter, hne] using ih.2

/-- C9: every statement `parseIf` returns (entered on `if`) is an `IfStatement` whose cases
are, in the order of the source, the cases of an if-chain read from the cursor: there is at
least one; each was opened by `if`, `elif` or `else`; a case opened by `if` or `elif` carries
the condition the expression parser returned in front of `then`, a case opened by `else`
carries the always-true literal; no case but the last is an `else`, so there is at most one.
On the tokens of `if x > 0 then / y = 1 / elif x < 0 then / y = -1 / else / y = 0`, `getAST`
returns one `IfStatement` with exactly three cases, the third with the always-true
condition. -/
theorem parseIf_cases (call : Nat → Lexer → Result (ASTNode × Lexer))
    (block : Parser → Result (CodeBlock × Parser)) (fuel : Nat) (parser parserEnd : Parser)
    (stmt : Statement)
    (hif : parser.lexer.getCurrToken.type = .IF)
    (hres : parseIf call block fuel parser = .ok (stmt, parserEnd))
    (fuelAST : Nat) (hfAST : 40 ≤ fuelAST) :
    (∃ cs : List IfCase, IfChain call block parser cs parserEnd ∧
      stmt = .IfStatement (cs.map IfCase.toPair) parser.lexer.getCurrToken.pos ∧
      cs ≠ [] ∧
      (∀ c ∈ cs, c.keyword = .IF ∨ c.keyword = .ELIF ∨ c.keyword = .ELSE) ∧
      (∀ c ∈ cs, (c.keyword = .ELSE → c.condition = alwaysTrue) ∧
        (c.keyword ≠ .ELSE → ∃ lexer lexer', call 0 lexer = .ok (c.condition, lexer') ∧
          lexer'.getCurrToken.type = .THEN)) ∧
      (∀ c ∈ cs.dropLast, c.keyword ≠ .ELSE) ∧
      (cs.filter (fun c => decide (c.keyword = .ELSE))).length ≤ 1) ∧
    getAST fuelAST tokensIfElifElse 57 = .ok (.mk [.IfStatement casesIfElifElse 0]) ∧
    casesIfElifElse.length = 3 ∧
    (casesIfElifElse.map Prod.fst).getLast? = some alwaysTrue := by
  refine ⟨?_, (getAST_mono hfAST tokensIfElifElse 57).ok_eq rfl, rfl, rfl⟩
  obtain ⟨cs, hcs, hstmt⟩ := parseIf_loop_chain call block _ fuel parser [] stmt parserEnd
    (.inl hif) hres
  exact ⟨cs, hcs, by simpa using hstmt, hcs.ne_nil, hcs.keyword, hcs.conditions,
    hcs.else_last.1, hcs.else_last.2⟩

/-- Witness of C9: the statement `parseIf` returns on the tokens of the three-case chain. -/
theorem parseIf_cases_witness :
    (∃ cs : List IfCase,
      IfChain (callParserFunc 30) (parseBlock 30) ⟨⟨tokensIfElifElse, 57⟩, 0⟩ cs
        ⟨⟨[], 57⟩, 0⟩ ∧
      Statement.IfStatement casesIfElifElse 0 = .IfStatement (cs.map IfCase.toPair) 0 ∧
      cs ≠ [] ∧
      (∀ c ∈ cs, c.keyword = .IF ∨ c.keyword = .ELIF ∨ c.keyword = .ELSE) ∧
      (∀ c ∈ cs, (c.keyword = .ELSE → c.condition = alwaysTrue) ∧
        (c.keyword ≠ .ELSE → ∃ lexer lexer',
          callParserFunc 30 0 lexer = .ok (c.condition, lexer') ∧
          lexer'.getCurrToken.type = .THEN)) ∧
      (∀ c ∈ cs.dropLast, c.keyword ≠ .ELSE) ∧
      (cs.filter (fun c => decide (c.keyword = .ELSE))).length ≤ 1) ∧
    getAST 40 tokensIfElifElse 57 = .ok (.mk [.IfStatement casesIfElifElse 0]) ∧
    casesIfElifElse.length = 3 ∧
    (casesIfElifElse.map Prod.fst).getLast? = some alwaysTrue :=
  parseIf_cases (callParserFunc 30) (parseBlock 30) 30 ⟨⟨tokensIfElifElse, 57⟩, 0⟩
    ⟨⟨[], 57⟩, 0⟩ (.IfStatement casesIfElifElse 0) rfl rfl 40 (by decide)

/-! ## Function definitions -/

theorem parseFunctionDef_params_ok (n : Nat) (tail : List Token)
    (htail : (Lexer.mk tail n).getCurrToken.type ≠ .COMMA) :
    ∀ (ps cs : List Token) (lead p : Token) (acc : List ASTNode) (fuel : Nat),
      cs.length = ps.length → p.type = .ID → (∀ x ∈ ps, x.type = .ID) →
      (∀ c ∈ cs, c.type = .COMMA) → ps.length < fuel →
      parseFunctionDef.params fuel ⟨lead :: (interleave (p :: ps) cs ++ tail), n⟩ acc =
        .ok (acc ++ (p :: ps).map idNodeOf, ⟨tail, n⟩) := by
  intro ps
  induction ps with
  | nil =>
    intro cs lead p acc fuel hlen hp _ _ hf
    obtain ⟨m, rfl⟩ : ∃ m, fuel = m + 1 := ⟨fuel - 1, by omega⟩
    cases cs with
    | cons c cs => simp at hlen
    | nil =>
      have h1 : (Lexer.scanToken ⟨lead :: (interleave [p] [] ++ tail), n⟩ 1) =
          ⟨p :: tail, n⟩ := rfl
      have h2 : (Lexer.mk (p :: tail) n).getCurrToken = p := rfl
      have h3 : (Lexer.scanToken ⟨p :: tail, n⟩ 1) = ⟨tail, n⟩ := rfl
      rw [parseFunctionDef.params]
      simp only [h1, h2, hp, ne_eq, not_true_eq_false, if_false, h3, htail, idNodeOf,
        List.map_cons, List.map_nil]
  | cons p' ps ih =>
    intro cs lead p acc fuel hlen hp hps hcs hf
    obtain ⟨m, rfl⟩ : ∃ m, fuel = m + 1 := ⟨fuel - 1, by omega⟩
    cases cs with
    | nil => simp at hlen
    | cons c cs =>
      have hc : c.type = .COMMA := hcs c (by simp)
      have h1 : (Lexer.scanToken ⟨lead :: (interleave (p :: p' :: ps) (c :: cs) ++ tail), n⟩ 1)
          = ⟨p :: c :: (interleave (p' :: ps) cs ++ tail), n⟩ := rfl
      have h2 : (Lexer.mk (p :: c :: (interleave (p' :: ps) cs ++ tail)) n).getCurrToken = p :=
        rfl
      have h3 : (Lexer.scanToken ⟨p :: c :: (interleave (p' :: ps) cs ++ tail), n⟩ 1) =
          ⟨c :: (interleave (p' :: ps) cs ++ tail), n⟩ := rfl
      have h4 : (Lexer.mk (c :: (interleave (p' :: ps) cs ++ tail)) n).getCurrToken = c := rfl
      rw [parseFunctionDef.params]
      simp only [h1, h2, hp, ne_eq, not_true_eq_false, if_false, h3, h4, hc, if_true]
      rw [ih cs c p' _ m (by simpa using hlen) (hps p' (by simp))
        (fun x hx => hps x (by simp [hx])) (fun x hx => hcs x (by simp [hx]))
        (by simp at hf; omega)]
      simp [idNodeOf]

theorem parseFunctionDef_params_bad (n : Nat) (after : List Token)
    (hbad : (Lexer.mk after n).getCurrToken.type ≠ .ID) :
    ∀ (ps cs : List Token) (lead : Token) (acc : List ASTNode) (fuel : Nat),
      cs.length = ps.length → (∀ x ∈ ps, x.type = .ID) →
      (∀ c ∈ cs, c.type = .COMMA) → ps.length < fuel →
      parseFunctionDef.params fuel ⟨lead :: (interleave ps cs ++ after), n⟩ acc =
        .throw (.ParsingError "Token is not an identifier."
          (Lexer.mk after n).getCurrToken.pos) := by
  intro ps
  induction ps with
  | nil =>
    intro cs lead acc fuel hlen _ _ hf
    obtain ⟨m, rfl⟩ : ∃ m, fuel = m + 1 := ⟨fuel - 1, by omega⟩
    have h1 : (Lexer.scanToken ⟨lead :: (interleave [] cs ++ after), n⟩ 1) = ⟨after, n⟩ := rfl
    rw [parseFunctionDef.params]
    simp only [h1, hbad, ne_eq, not_false_eq_true, if_true]
  | cons p ps ih =>
    intro cs lead acc fuel hlen hps hcs hf
    obtain ⟨m, rfl⟩ : ∃ m, fuel = m + 1 := ⟨fuel - 1, by omega⟩
    cases cs with
    | nil => simp at hlen
    | cons c cs =>
      have hp : p.type = .ID := hps p (by simp)
      have hc : c.type = .COMMA := hcs c (by simp)
      have h1 : (Lexer.scanToken ⟨lead :: (interleave (p :: ps) (c :: cs) ++ after), n⟩ 1)
          = ⟨p :: c :: (interleave ps cs ++ after), n⟩ := rfl
      have h2 : (Lexer.mk (p :: c :: (interleave ps cs ++ after)) n).getCurrToken = p := rfl
      have h3 : (Lexer.scanToken ⟨p :: c :: (interleave ps cs ++ after), n⟩ 1) =
          ⟨c :: (interleave ps cs ++ after), n⟩ := rfl
      have h4 : (Lexer.mk (c :: (interleave ps cs ++ after)) n).getCurrToken = c := rfl
      rw [parseFunctionDef.params]
      simp only [h1, h2, hp, ne_eq, not_true_eq_false, if_false, h3, h4, hc, if_true]
      exact ih cs c _ m (by simpa using hlen) (fun x hx => hps x (by simp [hx]))
        (fun x hx => hcs x (by simp [hx])) (by simp at hf; omega)

theorem parseFunctionDef_ok {block : Parser → Result (CodeBlock × Parser)} {fuel n : Nat}
    {level : Int} {fnTok nameTok lp rp nl : Token} {params commas rest : List Token}
    {blk : CodeBlock} {parser' : Parser}
    (hname : nameTok.type = .ID) (hlp : lp.type = .L_PAREN)
    (hparams : ∀ p ∈ params, p.type = .ID) (hcommas : ∀ c ∈ commas, c.type = .COMMA)
    (hlen : commas.length + 1 = params.length ∨ (params = [] ∧ commas = []))
    (hrp : rp.type = .R_PAREN) (hnl : nl.type = .NEWLINE) (hfuel : params.length ≤ fuel)
    (hblk : block ⟨⟨rest, n⟩, level⟩ = .ok (blk, parser')) :
    parseFunctionDef block fuel
        ⟨⟨fnTok :: nameTok :: lp :: (interleave params commas ++ rp :: nl :: rest), n⟩, level⟩ =
      .ok (.FunctionDefStatement (idNodeOf nameTok) (params.map idNodeOf) blk fnTok.pos,
        parser') := by
  have hlist : parseFunctionDef.paramList fuel
      ⟨lp :: (interleave params commas ++ rp :: nl :: rest), n⟩ =
      .ok (params.map idNodeOf, ⟨rp :: nl :: rest, n⟩) := by
    cases params with
    | nil =>
      have hl : (Lexer.lookForw ⟨lp :: (interleave [] commas ++ rp :: nl :: rest), n⟩ 1) = rp :=
        rfl
      simp only [parseFunctionDef.paramList, hl, hrp, ne_eq, not_true_eq_false, if_false,
        List.map_nil]
      rfl
    | cons p ps =>
      have hcl : commas.length = ps.length := by
        rcases hlen with h | h
        · simpa using h
        · simp at h
      have hp : p.type = .ID := hparams p (by simp)
      have hl : (Lexer.lookForw ⟨lp :: (interleave (p :: ps) commas ++ rp :: nl :: rest), n⟩ 1)
          = p := by
        cases commas <;> rfl
      have hne : p.type ≠ .R_PAREN := by rw [hp]; decide
      simp only [parseFunctionDef.paramList, hl, hne, ne_eq, not_false_eq_true, if_true]
      have htail : (Lexer.mk (rp :: nl :: rest) n).getCurrToken.type ≠ .COMMA := by
        show rp.type ≠ .COMMA
        rw [hrp]; decide
      have := parseFunctionDef_params_ok n (rp :: nl :: rest) htail ps commas lp p [] fuel hcl
        hp (fun x hx => hparams x (by simp [hx])) hcommas (by simpa using hfuel)
      simpa using this
  have h1 : (Lexer.scanToken
      ⟨fnTok :: nameTok :: lp :: (interleave params commas ++ rp :: nl :: rest), n⟩ 1) =
      ⟨nameTok :: lp :: (interleave params commas ++ rp :: nl :: rest), n⟩ := rfl
  have h2 : (Lexer.mk (nameTok :: lp :: (interleave params commas ++ rp :: nl :: rest))
      n).getCurrToken = nameTok := rfl
  have h3 : (Lexer.scanToken
      ⟨nameTok :: lp :: (interleave params commas ++ rp :: nl :: rest), n⟩ 1) =
      ⟨lp :: (interleave params commas ++ rp :: nl :: rest), n⟩ := rfl
  have h4 : (Lexer.mk (lp :: (interleave params commas ++ rp :: nl :: rest))
      n).getCurrToken = lp := rfl
  have h5 : (Lexer.mk (rp :: nl :: rest) n).getCurrToken = rp := rfl
  have h6 : (Lexer.scanToken ⟨rp :: nl :: rest, n⟩ 1) = ⟨nl :: rest, n⟩ := rfl
  have h7 : checkNewLine ⟨nl :: rest, n⟩ = .ok ⟨rest, n⟩ := by
    have : (Lexer.mk (nl :: rest) n).getCurrToken = nl := rfl
    simp only [checkNewLine, this, hnl, ne_eq, not_true_eq_false, if_false]
    rfl
  have h8 : (Lexer.mk (fnTok :: nameTok :: lp :: (interleave params commas ++ rp :: nl :: rest))
      n).getCurrToken = fnTok := rfl
  simp only [parseFunctionDef, h1, h2, hname, ne_eq, not_true_eq_false, if_false, h3, h4, hlp,
    hlist, h5, hrp, h6, h7, hblk, h8, idNodeOf]

theorem parseFunctionDef_bad_name (block : Parser → Result (CodeBlock × Parser)) (fuel : Nat)
    (parser : Parser) (hbad : (parser.lexer.lookForw 1).type ≠ .ID) :
    parseFunctionDef block fuel parser =
      .throw (.ParsingError "Token is not an identifier." (parser.lexer.lookForw 1).pos) := by
  have h : (parser.lexer.scanToken 1).getCurrToken = parser.lexer.lookForw 1 :=
    getCurrToken_scanToken _ _
  simp only [parseFunctionDef, h, hbad, ne_eq, not_false_eq_true, if_true]

theorem parseFunctionDef_bad_param {block : Parser → Result (CodeBlock × Parser)} {fuel n : Nat}
    {level : Int} {fnTok nameTok lp : Token} {params commas after : List Token}
    (hname : nameTok.type = .ID) (hlp : lp.type = .L_PAREN)
    (hparams : ∀ p ∈ params, p.type = .ID) (hcommas : ∀ c ∈ commas, c.type = .COMMA)
    (hlen : commas.length = params.length) (hfuel : params.length < fuel)
    (hbad : (Lexer.mk after n).getCurrToken.type ≠ .ID)
    (hclose : params = [] → (Lexer.mk after n).getCurrToken.type ≠ .R_PAREN) :
    parseFunctionDef block fuel
        ⟨⟨fnTok :: nameTok :: lp :: (interleave params commas ++ after), n⟩, level⟩ =
      .throw (.ParsingError "Token is not an identifier."
        (Lexer.mk after n).getCurrToken.pos) := by
  have hlist : parseFunctionDef.paramList fuel
      ⟨lp :: (interleave params commas ++ after), n⟩ =
      .throw (.ParsingError "Token is not an identifier."
        (Lexer.mk after n).getCurrToken.pos) := by
    have hne : (Lexer.lookForw ⟨lp :: (interleave params commas ++ after), n⟩ 1).type ≠
        .R_PAREN := by
      cases params with
      | nil =>
        have : (Lexer.lookForw ⟨lp :: (interleave [] commas ++ after), n⟩ 1) =
            (Lexer.mk after n).getCurrToken := by
          cases after <;> rfl
        rw [this]; exact hclose rfl
      | cons p ps =>
        have : (Lexer.lookForw ⟨lp :: (interleave (p :: ps) commas ++ after), n⟩ 1) = p := by
          cases commas <;> rfl
        rw [this, hparams p (by simp)]; decide
    simp only [parseFunctionDef.paramList, hne, ne_eq, not_false_eq_true, if_true]
    exact parseFunctionDef_params_bad n after hbad params commas lp [] fuel hlen hparams hcommas
      hfuel
  have h1 : (Lexer.scanToken
      ⟨fnTok :: nameTok :: lp :: (interleave params commas ++ after), n⟩ 1) =
      ⟨nameTok :: lp :: (interleave params commas ++ after), n⟩ := rfl
  have h2 : (Lexer.mk (nameTok :: lp :: (interleave params commas ++ after))
      n).getCurrToken = nameTok := rfl
  have h3 : (Lexer.scanToken
      ⟨nameTok :: lp :: (interleave params commas ++ after), n⟩ 1) =
      ⟨lp :: (interleave params commas ++ after), n⟩ := rfl
  have h4 : (Lexer.mk (lp :: (interleave params commas ++ after)) n).getCurrToken = lp := rfl
  simp only [parseFunctionDef, h1, h2, hname, ne_eq, not_true_eq_false, if_false, h3, h4, hlp,
    hlist]

/-- C10: on the tokens `function NAME ( p1 , ... , pn ) NEWLINE` (`n ≥ 0`, `NAME` and every
`pi` an ID token) followed by tokens from which the block parser returns `blk`,
`parseFunctionDef` returns `FunctionDefStatement(Identifier NAME, [Identifier p1, ...,
Identifier pn], blk)` with the parameters in the order of the source, for any fuel of at
least `n`. If the token after `function` is no ID, or the token in a parameter position
(after `(` unless it is `)`, or after a comma) is no ID, the result is
`ParsingError("Token is not an identifier.")` at that token. On the tokens of
`function f(a, b)` / `<tab>return a + b`, `getAST` returns the block with the one statement
`FunctionDefStatement(f, [a, b], [ReturnStatement(a + b)])`. -/
theorem parseFunctionDef_shape (block : Parser → Result (CodeBlock × Parser)) (fuel n : Nat)
    (level : Int) (fnTok nameTok lp : Token) (params commas : List Token)
    (hname : nameTok.type = .ID) (hlp : lp.type = .L_PAREN)
    (hparams : ∀ p ∈ params, p.type = .ID) (hcommas : ∀ c ∈ commas, c.type = .COMMA)
    (hfuel : params.length < fuel) (fuelAST : Nat) (hfAST : 40 ≤ fuelAST) :
    (∀ (rp nl : Token) (rest : List Token) (blk : CodeBlock) (parser' : Parser),
      commas.length + 1 = params.length ∨ (params = [] ∧ commas = []) →
      rp.type = .R_PAREN → nl.type = .NEWLINE →
      block ⟨⟨rest, n⟩, level⟩ = .ok (blk, parser') →
      parseFunctionDef block fuel
          ⟨⟨fnTok :: nameTok :: lp :: (interleave params commas ++ rp :: nl :: rest), n⟩,
            level⟩ =
        .ok (.FunctionDefStatement (idNodeOf nameTok) (params.map idNodeOf) blk fnTok.pos,
          parser')) ∧
    (∀ parser : Parser, (parser.lexer.lookForw 1).type ≠ .ID →
      parseFunctionDef block fuel parser =
        .throw (.ParsingError "Token is not an identifier." (parser.lexer.lookForw 1).pos)) ∧
    (∀ after : List Token, commas.length = params.length →
      (Lexer.mk after n).getCurrToken.type ≠ .ID →
      (params = [] → (Lexer.mk after n).getCurrToken.type ≠ .R_PAREN) →
      parseFunctionDef block fuel
          ⟨⟨fnTok :: nameTok :: lp :: (interleave params commas ++ after), n⟩, level⟩ =
        .throw (.ParsingError "Token is not an identifier."
          (Lexer.mk after n).getCurrToken.pos)) ∧
    getAST fuelAST tokensFunction 31 =
      .ok (.mk [.FunctionDefStatement (.IDNode "f" 9 false)
        [.IDNode "a" 11 false, .IDNode "b" 14 false]
        (.mk [.ReturnStatement
          (.BinaryNode (.IDNode "a" 25 false) (.IDNode "b" 29 false) .ADDITION 27 false) 18])
        0]) :=
  ⟨fun _ _ _ _ _ hlen hrp hnl hblk =>
      parseFunctionDef_ok hname hlp hparams hcommas hlen hrp hnl (Nat.le_of_lt hfuel) hblk,
    fun parser hbad => parseFunctionDef_bad_name block fuel parser hbad,
    fun _ hlen hbad hclose =>
      parseFunctionDef_bad_param hname hlp hparams hcommas hlen hfuel hbad hclose,
    (getAST_mono hfAST tokensFunction 31).ok_eq rfl⟩

/-- Witness of C10: `function f(a, b)` with its block, `function 1`, and `function f(a, )`. -/
theorem parseFunctionDef_shape_witness :
    parseFunctionDef (parseBlock 30) 30 ⟨⟨tokensFunction, 31⟩, 0⟩ =
        .ok (.FunctionDefStatement (.IDNode "f" 9 false)
          [.IDNode "a" 11 false, .IDNode "b" 14 false]
          (.mk [.ReturnStatement
            (.BinaryNode (.IDNode "a" 25 false) (.IDNode "b" 29 false) .ADDITION 27 false) 18])
          0, ⟨⟨[], 31⟩, 0⟩) ∧
      parseFunctionDef (parseBlock 30) 30
          ⟨⟨[⟨"function", .FUNCTION_DEF, 0⟩, ⟨"1", .INT_LIT, 9⟩], 10⟩, 0⟩ =
        .throw (.ParsingError "Token is not an identifier." 9) ∧
      parseFunctionDef (parseBlock 30) 30
          ⟨⟨[⟨"function", .FUNCTION_DEF, 0⟩, ⟨"f", .ID, 9⟩, ⟨"(", .L_PAREN, 10⟩,
            ⟨"a", .ID, 11⟩, ⟨",", .COMMA, 12⟩, ⟨")", .R_PAREN, 14⟩], 15⟩, 0⟩ =
        .throw (.ParsingError "Token is not an identifier." 14) ∧
      getAST 40 tokensFunction 31 =
        .ok (.mk [.FunctionDefStatement (.IDNode "f" 9 false)
          [.IDNode "a" 11 false, .IDNode "b" 14 false]
          (.mk [.ReturnStatement
            (.BinaryNode (.IDNode "a" 25 false) (.IDNode "b" 29 false) .ADDITION 27 false) 18])
          0]) :=
  have h := parseFunctionDef_shape (parseBlock 30) 30 31 0 ⟨"function", .FUNCTION_DEF, 0⟩
    ⟨"f", .ID, 9⟩ ⟨"(", .L_PAREN, 10⟩ [⟨"a", .ID, 11⟩, ⟨"b", .ID, 14⟩] [⟨",", .COMMA, 12⟩]
    rfl rfl (by decide) (by decide) (by decide) 40 (by decide)
  have h' := parseFunctionDef_shape (parseBlock 30) 30 15 0 ⟨"function", .FUNCTION_DEF, 0⟩
    ⟨"f", .ID, 9⟩ ⟨"(", .L_PAREN, 10⟩ [⟨"a", .ID, 11⟩] [⟨",", .COMMA, 12⟩]
    rfl rfl (by decide) (by decide) (by decide) 40 (by decide)
  ⟨h.1 ⟨")", .R_PAREN, 15⟩ ⟨"\n", .NEWLINE, 16⟩ (tokensFunction.drop 8) _ _ (Or.inl rfl) rfl rfl
      rfl,
    h.2.1 ⟨⟨[⟨"function", .FUNCTION_DEF, 0⟩, ⟨"1", .INT_LIT, 9⟩], 10⟩, 0⟩ (by decide),
    h'.2.2.1 [⟨")", .R_PAREN, 14⟩] rfl (by decide) (by simp),
    h.2.2.2⟩

/-! ## Commas between brackets -/

theorem operandList_mono {call call' : Nat → Lexer → Result (ASTNode × Lexer)}
    (hc : CallMono call call') {lexer lexer' : Lexer} {items : List ASTNode}
    (h : OperandList call lexer items lexer') : OperandList call' lexer items lexer' := by
  induction h with
  | last lexer lexer1 node hitem hend => exact .last lexer lexer1 node ((hc _ _).ok_eq hitem) hend
  | more lexer lexer1 lexer2 node rest hitem hcomma _ ih =>
    exact .more lexer lexer1 lexer2 node rest ((hc _ _).ok_eq hitem) hcomma ih

theorem operandList_length_pos {call : Nat → Lexer → Result (ASTNode × Lexer)}
    {lexer lexer' : Lexer} {items : List ASTNode} (h : OperandList call lexer items lexer') :
    0 < items.length := by
  cases h <;> simp

theorem operandList_end {call : Nat → Lexer → Result (ASTNode × Lexer)}
    {lexer lexer' : Lexer} {items : List ASTNode} (h : OperandList call lexer items lexer') :
    lexer'.getCurrToken.type ≠ .COMMA := by
  induction h with
  | last lexer lexer1 node hitem hend => exact hend
  | more lexer lexer1 lexer2 node rest hitem hcomma _ ih => exact ih

theorem parseOperands_list {call : Nat → Lexer → Result (ASTNode × Lexer)}
    {lexer lexer' : Lexer} {items : List ASTNode} (h : OperandList call lexer items lexer') :
    ∀ (fuel : Nat) (nOperands : List ASTNode), items.length ≤ fuel →
      parseOperands call fuel lexer nOperands = .ok (nOperands ++ items, lexer') := by
  induction h with
  | last lexer lexer1 node hitem hend =>
    intro fuel nOperands hf
    obtain ⟨m, rfl⟩ : ∃ m, fuel = m + 1 := ⟨fuel - 1, by simp at hf; omega⟩
    simp only [parseOperands, hitem, hend, if_false]
  | more lexer lexer1 lexer2 node rest hitem hcomma _ ih =>
    intro fuel nOperands hf
    obtain ⟨m, rfl⟩ : ∃ m, fuel = m + 1 := ⟨fuel - 1, by simp at hf; omega⟩
    simp only [parseOperands, hitem, hcomma, if_true]
    rw [ih m _ (by simp at hf; omega)]
    simp

theorem listParser_items {fuel : Nat} {lexer lexer1 : Lexer} {items : List ASTNode}
    (hitems : OperandList (callParserFunc fuel) lexer items lexer1)
    (hopen : lexer.getCurrToken.type = .L_SQ_BRACKET)
    (hnonempty : (lexer.lookForw 1).type ≠ .R_SQ_BRACKET)
    (hclose : lexer1.getCurrToken.type = .R_SQ_BRACKET)
    {fuel' : Nat} (hf : fuel + items.length + 1 ≤ fuel') :
    callParserFunc fuel' primaryGroup lexer =
      .ok (.nAryNode none .LIST_INIT items lexer.getCurrToken.pos false,
        lexer1.scanToken 1) := by
  obtain ⟨m, rfl⟩ : ∃ m, fuel' = m + 1 := ⟨fuel' - 1, by omega⟩
  have hm : CallMono (callParserFunc fuel) (callParserFunc m) := callParserFunc_mono (by omega)
  have hp : parserFuncAt primaryGroup = some ParserFunc.parsePrimary := rfl
  have hops := parseOperands_list (operandList_mono hm hitems) m [] (by omega)
  rw [callParserFunc]
  simp only [hp, parsePrimary, hopen, listParser, hnonempty, ne_eq, not_false_eq_true, if_true,
    hops, hclose, not_true_eq_false, if_false, List.nil_append]

theorem listParser_empty {fuel : Nat} {lexer : Lexer}
    (hopen : lexer.getCurrToken.type = .L_SQ_BRACKET)
    (hempty : (lexer.lookForw 1).type = .R_SQ_BRACKET) :
    callParserFunc (fuel + 1) primaryGroup lexer =
      .ok (.nAryNode none .LIST_INIT [] lexer.getCurrToken.pos false, lexer.scanToken 2) := by
  have hp : parserFuncAt primaryGroup = some ParserFunc.parsePrimary := rfl
  rw [callParserFunc]
  simp only [hp, parsePrimary, hopen, listParser, hempty, ne_eq, not_true_eq_false, if_false]

theorem call_items {fuel : Nat} {lexer0 lexer lexer1 : Lexer} {base : ASTNode}
    {op : OperatorType} {items : List ASTNode}
    (hbase : callParserFunc fuel primaryGroup lexer0 = .ok (base, lexer))
    (hop : findOp 10 lexer.getCurrToken.type = some op)
    (hnonempty : (lexer.lookForw 1).type ≠ lexer.getCurrToken.getOppositeType)
    (hitems : OperandList (callParserFunc fuel) lexer items lexer1)
    (hclose : lexer1.getCurrToken.type = lexer.getCurrToken.getOppositeType)
    (hend : findOp 10 (lexer1.scanToken 1).getCurrToken.type = none)
    (hdot : (lexer1.scanToken 1).getCurrToken.type ≠ .DOT)
    {fuel' : Nat} (hf : fuel + items.length + 3 ≤ fuel') :
    callParserFunc fuel' 10 lexer0 =
      .ok (.nAryNode (some base) op items lexer.getCurrToken.pos false,
        lexer1.scanToken 1) := by
  have hm : CallMono (callParserFunc fuel) (callParserFunc (fuel + items.length)) :=
    callParserFunc_mono (by omega)
  have hops := parseOperands_list (operandList_mono hm hitems) (fuel + items.length) []
    (by omega)
  have hchain : SuffixChain (callParserFunc (fuel + items.length)) 10 (fuel + items.length)
      lexer [.nary op lexer.getCurrToken.pos items] (lexer1.scanToken 1) :=
    .operands lexer lexer1 _ op items [] hop hnonempty (by simpa using hops) hclose
      (.done _ hend hdot)
  have := callParserFunc_suffix_chain (g := 10) rfl ((hm _ _).ok_eq hbase) hchain
    (show fuel + items.length + [Suffix.nary op lexer.getCurrToken.pos items].length + 2 ≤ fuel'
      by simp; omega)
  simpa [suffixFold, Suffix.wrap] using this

theorem call_empty {fuel : Nat} {lexer0 lexer : Lexer} {base : ASTNode} {op : OperatorType}
    (hbase : callParserFunc fuel primaryGroup lexer0 = .ok (base, lexer))
    (hop : findOp 10 lexer.getCurrToken.type = some op)
    (hempty : (lexer.lookForw 1).type = lexer.getCurrToken.getOppositeType)
    (hend : findOp 10 (lexer.scanToken 2).getCurrToken.type = none)
    (hdot : (lexer.scanToken 2).getCurrToken.type ≠ .DOT)
    {fuel' : Nat} (hf : fuel + 3 ≤ fuel') :
    callParserFunc fuel' 10 lexer0 =
      .ok (.nAryNode (some base) op [] lexer.getCurrToken.pos false, lexer.scanToken 2) := by
  have hchain : SuffixChain (callParserFunc fuel) 10 fuel
      lexer [.nary op lexer.getCurrToken.pos []] (lexer.scanToken 2) :=
    .empty lexer _ op [] hop hempty (.done _ hend hdot)
  have := callParserFunc_suffix_chain (g := 10) rfl hbase hchain
    (show fuel + [Suffix.nary op lexer.getCurrToken.pos []].length + 2 ≤ fuel' by simp; omega)
  simpa [suffixFold, Suffix.wrap] using this

/-- C11: between the brackets of a call, a subscript or a list initialiser the comma
separates operands. If from the opening token on `k ≥ 1` items are read, each what the table
parses above the comma level, with commas between them and the closing token after the last,
then the list initialiser is `NAry(no receiver, LIST_INIT, items)`, and the call or subscript
after a base is `NAry(base, FUNCTION_CALL or SUBSCRIPT, items)`: exactly the `k` items, in the
order of the source. The empty forms `[]`, `()` give no operands. On the tokens of
`arr = [1, 2, 3]`, `getAST` returns the assignment whose right operand is
`NAry(no receiver, LIST_INIT, [1, 2, 3])`. -/
theorem comma_separates_operands (fuel fuel' : Nat) (lexer lexer1 : Lexer)
    (items : List ASTNode)
    (hitems : OperandList (callParserFunc fuel) lexer items lexer1)
    (hf : fuel + items.length + 3 ≤ fuel') (fuelAST : Nat) (hfAST : 30 ≤ fuelAST) :
    0 < items.length ∧
    (lexer.getCurrToken.type = .L_SQ_BRACKET → (lexer.lookForw 1).type ≠ .R_SQ_BRACKET →
      lexer1.getCurrToken.type = .R_SQ_BRACKET →
      callParserFunc fuel' primaryGroup lexer =
        .ok (.nAryNode none .LIST_INIT items lexer.getCurrToken.pos false,
          lexer1.scanToken 1)) ∧
    (∀ (lexer0 : Lexer) (base : ASTNode) (op : OperatorType),
      callParserFunc fuel primaryGroup lexer0 = .ok (base, lexer) →
      findOp 10 lexer.getCurrToken.type = some op →
      (lexer.lookForw 1).type ≠ lexer.getCurrToken.getOppositeType →
      lexer1.getCurrToken.type = lexer.getCurrToken.getOppositeType →
      findOp 10 (lexer1.scanToken 1).getCurrToken.type = none →
      (lexer1.scanToken 1).getCurrToken.type ≠ .DOT →
      callParserFunc fuel' 10 lexer0 =
        .ok (.nAryNode (some base) op items lexer.getCurrToken.pos false,
          lexer1.scanToken 1)) ∧
    (∀ lexerE : Lexer, lexerE.getCurrToken.type = .L_SQ_BRACKET →
      (lexerE.lookForw 1).type = .R_SQ_BRACKET →
      callParserFunc fuel' primaryGroup lexerE =
        .ok (.nAryNode none .LIST_INIT [] lexerE.getCurrToken.pos false,
          lexerE.scanToken 2)) ∧
    (∀ (lexer0 lexerE : Lexer) (base : ASTNode) (op : OperatorType),
      callParserFunc fuel primaryGroup lexer0 = .ok (base, lexerE) →
      findOp 10 lexerE.getCurrToken.type = some op →
      (lexerE.lookForw 1).type = lexerE.getCurrToken.getOppositeType →
      findOp 10 (lexerE.scanToken 2).getCurrToken.type = none →
      (lexerE.scanToken 2).getCurrToken.type ≠ .DOT →
      callParserFunc fuel' 10 lexer0 =
        .ok (.nAryNode (some base) op [] lexerE.getCurrToken.pos false,
          lexerE.scanToken 2)) ∧
    getAST fuelAST tokensListInit 16 =
      .ok (.mk [.ExprStatement
        (.BinaryNode (.IDNode "arr" 0 false)
          (.nAryNode none .LIST_INIT
            [.LiteralNode (.int 1) 7 false, .LiteralNode (.int 2) 10 false,
              .LiteralNode (.int 3) 13 false] 6 false)
          .ASSIGNMENT 4 false) 0]) := by
  refine ⟨operandList_length_pos hitems, ?_, ?_, ?_, ?_,
    (getAST_mono hfAST tokensListInit 16).ok_eq rfl⟩
  · intro hopen hne hclose
    exact listParser_items hitems hopen hne hclose (by omega)
  · intro lexer0 base op hbase hop hne hclose hend hdot
    exact call_items hbase hop hne hitems hclose hend hdot hf
  · intro lexerE hopen hempty
    obtain ⟨m, rfl⟩ : ∃ m, fuel' = m + 1 := ⟨fuel' - 1, by omega⟩
    exact listParser_empty hopen hempty
  · intro lexer0 lexerE base op hbase hop hempty hend hdot
    exact call_empty hbase hop hempty hend hdot (by omega)

/-- Witness of C11: the operands of `[1, 2, 3]` and of `f(a, b)`. -/
theorem comma_separates_operands_witness :
    callParserFunc 20 primaryGroup ⟨tokensListInit.drop 2, 16⟩ =
        .ok (.nAryNode none .LIST_INIT
          [.LiteralNode (.int 1) 7 false, .LiteralNode (.int 2) 10 false,
            .LiteralNode (.int 3) 13 false] 6 false, ⟨tokensListInit.drop 9, 16⟩) ∧
      callParserFunc 20 10 ⟨tokensCall, 8⟩ =
        .ok (.nAryNode (some (.IDNode "f" 0 false)) .FUNCTION_CALL
          [.IDNode "a" 2 false, .IDNode "b" 5 false] 1 false, ⟨tokensCall.drop 6, 8⟩) ∧
      getAST 30 tokensListInit 16 =
        .ok (.mk [.ExprStatement
          (.BinaryNode (.IDNode "arr" 0 false)
            (.nAryNode none .LIST_INIT
              [.LiteralNode (.int 1) 7 false, .LiteralNode (.int 2) 10 false,
                .LiteralNode (.int 3) 13 false] 6 false)
            .ASSIGNMENT 4 false) 0]) :=
  have h := comma_separates_operands 12 20 ⟨tokensListInit.drop 2, 16⟩
    ⟨tokensListInit.drop 8, 16⟩
    [.LiteralNode (.int 1) 7 false, .LiteralNode (.int 2) 10 false,
      .LiteralNode (.int 3) 13 false]
    (.more ⟨tokensListInit.drop 2, 16⟩ ⟨tokensListInit.drop 4, 16⟩ _ _ _ rfl rfl
      (.more ⟨tokensListInit.drop 4, 16⟩ ⟨tokensListInit.drop 6, 16⟩ _ _ _ rfl rfl
        (.last ⟨tokensListInit.drop 6, 16⟩ ⟨tokensListInit.drop 8, 16⟩ _ rfl (by decide))))
    (by decide) 30 (by decide)
  have h' := comma_separates_operands 12 20 ⟨tokensCall.drop 1, 8⟩ ⟨tokensCall.drop 5, 8⟩
    [.IDNode "a" 2 false, .IDNode "b" 5 false]
    (.more ⟨tokensCall.drop 1, 8⟩ ⟨tokensCall.drop 3, 8⟩ _ _ _ rfl rfl
      (.last ⟨tokensCall.drop 3, 8⟩ ⟨tokensCall.drop 5, 8⟩ _ rfl (by decide)))
    (by decide) 30 (by decide)
  ⟨h.2.1 rfl (by decide) rfl,
    h'.2.2.1 ⟨tokensCall, 8⟩ (.IDNode "f" 0 false) .FUNCTION_CALL rfl rfl (by decide) rfl rfl
      (by decide),
    h.2.2.2.2.2⟩

/-! ## For statements -/

theorem scanToken_scanToken (lexer : Lexer) (a b : Nat) :
    (lexer.scanToken a).scanToken b = lexer.scanToken (a + b) := by
  simp [Lexer.scanToken, List.drop_drop, Nat.add_comm]

theorem parseFor_ok {call : Nat → Lexer → Result (ASTNode × Lexer)}
    {block : Parser → Result (CodeBlock × Parser)} {parser parser' : Parser}
    {lexer1 lexer2 : Lexer} {lowerNode upperNode : ASTNode} {blk : CodeBlock}
    (hid : (parser.lexer.lookForw 1).type = .ID)
    (hfrom : (parser.lexer.lookForw 2).type = .FROM)
    (hlow : call 0 (parser.lexer.scanToken 3) = .ok (lowerNode, lexer1))
    (hto : lexer1.getCurrToken.type = .TO)
    (hup : call 0 (lexer1.scanToken 1) = .ok (upperNode, lexer2))
    (hnl : lexer2.getCurrToken.type = .NEWLINE)
    (hblk : block { parser with lexer := lexer2.scanToken 1 } = .ok (blk, parser')) :
    parseFor call block parser =
      .ok (.ForStatement (idNodeOf (parser.lexer.lookForw 1)) lowerNode upperNode blk
        parser.lexer.getCurrToken.pos, parser') := by
  have h1 : (parser.lexer.scanToken 1).getCurrToken = parser.lexer.lookForw 1 :=
    getCurrToken_scanToken _ _
  have h2 : ((parser.lexer.scanToken 1).scanToken 1).getCurrToken = parser.lexer.lookForw 2 := by
    rw [scanToken_scanToken]; exact getCurrToken_scanToken _ _
  have h3 : ((parser.lexer.scanToken 1).scanToken 1).scanToken 1 = parser.lexer.scanToken 3 := by
    rw [scanToken_scanToken, scanToken_scanToken]
  simp only [parseFor, h1, hid, ne_eq, not_true_eq_false, if_false, h2, hfrom, if_true, h3,
    hlow, hto, hup, checkNewLine, hnl, hblk, idNodeOf]

theorem parseFor_bad_counter (call : Nat → Lexer → Result (ASTNode × Lexer))
    (block : Parser → Result (CodeBlock × Parser)) (parser : Parser)
    (hid : (parser.lexer.lookForw 1).type ≠ .ID) :
    parseFor call block parser =
      .throw (.ParsingError "Token is not an identifier." (parser.lexer.lookForw 1).pos) := by
  have h1 : (parser.lexer.scanToken 1).getCurrToken = parser.lexer.lookForw 1 :=
    getCurrToken_scanToken _ _
  simp only [parseFor, h1, hid, ne_eq, not_false_eq_true, if_true]

theorem parseFor_no_from (call : Nat → Lexer → Result (ASTNode × Lexer))
    (block : Parser → Result (CodeBlock × Parser)) (parser : Parser)
    (hid : (parser.lexer.lookForw 1).type = .ID)
    (hfrom : (parser.lexer.lookForw 2).type ≠ .FROM) :
    parseFor call block parser =
      .throw (.ParsingError "'from' - lower limit delimiter expected."
        (parser.lexer.lookForw 2).pos) := by
  have h1 : (parser.lexer.scanToken 1).getCurrToken = parser.lexer.lookForw 1 :=
    getCurrToken_scanToken _ _
  have h2 : ((parser.lexer.scanToken 1).scanToken 1).getCurrToken = parser.lexer.lookForw 2 := by
    rw [scanToken_scanToken]; exact getCurrToken_scanToken _ _
  simp only [parseFor, h1, hid, ne_eq, not_true_eq_false, if_false, h2, hfrom]

theorem parseFor_no_to {call : Nat → Lexer → Result (ASTNode × Lexer)}
    (block : Parser → Result (CodeBlock × Parser)) {parser : Parser}
    {lexer1 : Lexer} {lowerNode : ASTNode}
    (hid : (parser.lexer.lookForw 1).type = .ID)
    (hfrom : (parser.lexer.lookForw 2).type = .FROM)
    (hlow : call 0 (parser.lexer.scanToken 3) = .ok (lowerNode, lexer1))
    (hto : lexer1.getCurrToken.type ≠ .TO) :
    parseFor call block parser =
      .throw (.ParsingError "'to' - upper limit delimiter expected."
        lexer1.getCurrToken.pos) := by
  have h1 : (parser.lexer.scanToken 1).getCurrToken = parser.lexer.lookForw 1 :=
    getCurrToken_scanToken _ _
  have h2 : ((parser.lexer.scanToken 1).scanToken 1).getCurrToken = parser.lexer.lookForw 2 := by
    rw [scanToken_scanToken]; exact getCurrToken_scanToken _ _
  have h3 : ((parser.lexer.scanToken 1).scanToken 1).scanToken 1 = parser.lexer.scanToken 3 := by
    rw [scanToken_scanToken, scanToken_scanToken]
  simp only [parseFor, h1, hid, ne_eq, not_true_eq_false, if_false, h2, hfrom, if_true, h3,
    hlow, hto]

/-- C12: with the cursor on `for`, if the next token is an ID, the one after it is `from`, the
expression parser (group 0) returns `E1` from the token after `from` and stops on `to`,
returns `E2` from the token after `to` and stops on a newline, and the block parser returns
`blk` from the token after the newline, then `parseFor` returns
`ForStatement(Identifier ID, E1, E2, blk)`. If the token after `for` is no ID, or `from` or
`to` is not where it is required, the result is a `ParsingError` at the position of that
token. On the tokens of `for i from 1 to n` / `<tab>s = s + a[i]`, `getAST` returns the one
`ForStatement` with counter `i`, bounds `1` and `n` and the body `s = s + a[i]`. -/
theorem parseFor_shape (call : Nat → Lexer → Result (ASTNode × Lexer))
    (block : Parser → Result (CodeBlock × Parser)) (parser : Parser)
    (fuelAST : Nat) (hfAST : 30 ≤ fuelAST) :
    (∀ (parser' : Parser) (lexer1 lexer2 : Lexer) (lowerNode upperNode : ASTNode)
        (blk : CodeBlock),
      (parser.lexer.lookForw 1).type = .ID → (parser.lexer.lookForw 2).type = .FROM →
      call 0 (parser.lexer.scanToken 3) = .ok (lowerNode, lexer1) →
      lexer1.getCurrToken.type = .TO →
      call 0 (lexer1.scanToken 1) = .ok (upperNode, lexer2) →
      lexer2.getCurrToken.type = .NEWLINE →
      block { parser with lexer := lexer2.scanToken 1 } = .ok (blk, parser') →
      parseFor call block parser =
        .ok (.ForStatement (idNodeOf (parser.lexer.lookForw 1)) lowerNode upperNode blk
          parser.lexer.getCurrToken.pos, parser')) ∧
    ((parser.lexer.lookForw 1).type ≠ .ID →
      parseFor call block parser =
        .throw (.ParsingError "Token is not an identifier." (parser.lexer.lookForw 1).pos)) ∧
    ((parser.lexer.lookForw 1).type = .ID → (parser.lexer.lookForw 2).type ≠ .FROM →
      parseFor call block parser =
        .throw (.ParsingError "'from' - lower limit delimiter expected."
          (parser.lexer.lookForw 2).pos)) ∧
    (∀ (lexer1 : Lexer) (lowerNode : ASTNode),
      (parser.lexer.lookForw 1).type = .ID → (parser.lexer.lookForw 2).type = .FROM →
      call 0 (parser.lexer.scanToken 3) = .ok (lowerNode, lexer1) →
      lexer1.getCurrToken.type ≠ .TO →
      parseFor call block parser =
        .throw (.ParsingError "'to' - upper limit delimiter expected."
          lexer1.getCurrToken.pos)) ∧
    getAST fuelAST tokensFor 32 = .ok (.mk [statementFor]) :=
  ⟨fun _ _ _ _ _ _ hid hfrom hlow hto hup hnl hblk =>
      parseFor_ok hid hfrom hlow hto hup hnl hblk,
    parseFor_bad_counter call block parser,
    parseFor_no_from call block parser,
    fun _ _ hid hfrom hlow hto => parseFor_no_to block hid hfrom hlow hto,
    (getAST_mono hfAST tokensFor 32).ok_eq rfl⟩

/-- Witness of C12: the statement of `tokensFor`, and the three errors on `for 1`,
`for i 1` and `for i from 1 n`. -/
theorem parseFor_shape_witness :
    parseFor (callParserFunc 30) (parseBlock 30) ⟨⟨tokensFor, 32⟩, 0⟩ =
        .ok (statementFor, ⟨⟨[], 32⟩, 0⟩) ∧
      parseFor (callParserFunc 30) (parseBlock 30)
          ⟨⟨[⟨"for", .FOR, 0⟩, ⟨"1", .INT_LIT, 4⟩], 5⟩, 0⟩ =
        .throw (.ParsingError "Token is not an identifier." 4) ∧
      parseFor (callParserFunc 30) (parseBlock 30)
          ⟨⟨[⟨"for", .FOR, 0⟩, ⟨"i", .ID, 4⟩, ⟨"1", .INT_LIT, 6⟩], 7⟩, 0⟩ =
        .throw (.ParsingError "'from' - lower limit delimiter expected." 6) ∧
      parseFor (callParserFunc 30) (parseBlock 30)
          ⟨⟨[⟨"for", .FOR, 0⟩, ⟨"i", .ID, 4⟩, ⟨"from", .FROM, 6⟩, ⟨"1", .INT_LIT, 11⟩,
            ⟨"n", .ID, 13⟩], 14⟩, 0⟩ =
        .throw (.ParsingError "'to' - upper limit delimiter expected." 13) ∧
      getAST 30 tokensFor 32 = .ok (.mk [statementFor]) :=
  ⟨(parseFor_shape (callParserFunc 30) (parseBlock 30) ⟨⟨tokensFor, 32⟩, 0⟩ 30 (by decide)).1
      ⟨⟨[], 32⟩, 0⟩ ⟨tokensFor.drop 4, 32⟩ ⟨tokensFor.drop 6, 32⟩ _ _ _ rfl rfl rfl rfl rfl rfl
      rfl,
    (parseFor_shape (callParserFunc 30) (parseBlock 30)
      ⟨⟨[⟨"for", .FOR, 0⟩, ⟨"1", .INT_LIT, 4⟩], 5⟩, 0⟩ 30 (by decide)).2.1 (by decide),
    (parseFor_shape (callParserFunc 30) (parseBlock 30)
      ⟨⟨[⟨"for", .FOR, 0⟩, ⟨"i", .ID, 4⟩, ⟨"1", .INT_LIT, 6⟩], 7⟩, 0⟩ 30
      (by decide)).2.2.1 rfl (by decide),
    (parseFor_shape (callParserFunc 30) (parseBlock 30)
      ⟨⟨[⟨"for", .FOR, 0⟩, ⟨"i", .ID, 4⟩, ⟨"from", .FROM, 6⟩, ⟨"1", .INT_LIT, 11⟩,
        ⟨"n", .ID, 13⟩], 14⟩, 0⟩ 30 (by decide)).2.2.2.1
      ⟨[⟨"n", .ID, 13⟩], 14⟩ (.LiteralNode (.int 1) 11 false) rfl rfl rfl (by decide),
    (parseFor_shape (callParserFunc 30) (parseBlock 30) ⟨⟨tokensFor, 32⟩, 0⟩ 30
      (by decide)).2.2.2.2⟩

/-! ## The newline after a statement -/

theorem checkNewLine_throw {lexer : Lexer} (h : lexer.getCurrToken.type ≠ .NEWLINE) :
    checkNewLine lexer = .throw (.ParsingError "Newline expected." lexer.getCurrToken.pos) := by
  simp only [checkNewLine, h, ne_eq, not_false_eq_true, if_true]

theorem parseExpr_newline {call : Nat → Lexer → Result (ASTNode × Lexer)} {parser : Parser}
    {node : ASTNode} {lexer1 : Lexer}
    (hexpr : call 0 parser.lexer = .ok (node, lexer1))
    (hnl : lexer1.getCurrToken.type ≠ .NEWLINE) :
    parseExpr call parser =
      .throw (.ParsingError "Newline expected." lexer1.getCurrToken.pos) := by
  simp only [parseExpr, hexpr, checkNewLine_throw hnl]

theorem parseReturn_newline {call : Nat → Lexer → Result (ASTNode × Lexer)} {parser : Parser}
    {node : ASTNode} {lexer1 : Lexer}
    (hexpr : call 0 (parser.lexer.scanToken 1) = .ok (node, lexer1))
    (hnl : lexer1.getCurrToken.type ≠ .NEWLINE) :
    parseReturn call parser =
      .throw (.ParsingError "Newline expected." lexer1.getCurrToken.pos) := by
  simp only [parseReturn, hexpr, checkNewLine_throw hnl]

theorem parseWhile_newline {call : Nat → Lexer → Result (ASTNode × Lexer)}
    (block : Parser → Result (CodeBlock × Parser)) {parser : Parser}
    {node : ASTNode} {lexer1 : Lexer}
    (hexpr : call 0 (parser.lexer.scanToken 1) = .ok (node, lexer1))
    (hnl : lexer1.getCurrToken.type ≠ .NEWLINE) :
    parseWhile call block parser =
      .throw (.ParsingError "Newline expected." lexer1.getCurrToken.pos) := by
  simp only [parseWhile, hexpr, checkNewLine_throw hnl]

theorem parseIf_newline {call : Nat → Lexer → Result (ASTNode × Lexer)}
    (block : Parser → Result (CodeBlock × Parser)) {parser : Parser} (fuel pos : Nat)
    (cases : List (ASTNode × CodeBlock)) {condition : ASTNode} {lexer1 : Lexer}
    (hkw : parser.lexer.getCurrToken.type = .IF ∨ parser.lexer.getCurrToken.type = .ELIF)
    (hexpr : call 0 (parser.lexer.scanToken 1) = .ok (condition, lexer1))
    (hthen : lexer1.getCurrToken.type = .THEN)
    (hnl : (lexer1.scanToken 1).getCurrToken.type ≠ .NEWLINE) :
    parseIf.loop call block pos (fuel + 1) parser cases =
      .throw (.ParsingError "Newline expected." (lexer1.scanToken 1).getCurrToken.pos) := by
  have hhead : parser.lexer.getCurrToken.type = .IF ∨ parser.lexer.getCurrToken.type = .ELIF ∨
      parser.lexer.getCurrToken.type = .ELSE := by
    rcases hkw with h | h
    · exact .inl h
    · exact .inr (.inl h)
  have hne : parser.lexer.getCurrToken.type ≠ .ELSE := by
    rcases hkw with h | h <;> rw [h] <;> decide
  rw [parseIf.loop]
  simp only []
  rw [if_pos hhead]
  simp only [parseIf.condition, hne, ne_eq, not_false_eq_true, if_true, hexpr, hthen,
    checkNewLine_throw hnl]

theorem parseElse_newline (call : Nat → Lexer → Result (ASTNode × Lexer))
    (block : Parser → Result (CodeBlock × Parser)) {parser : Parser} (fuel pos : Nat)
    (cases : List (ASTNode × CodeBlock))
    (hkw : parser.lexer.getCurrToken.type = .ELSE)
    (hnl : (parser.lexer.scanToken 1).getCurrToken.type ≠ .NEWLINE) :
    parseIf.loop call block pos (fuel + 1) parser cases =
      .throw (.ParsingError "Newline expected."
        (parser.lexer.scanToken 1).getCurrToken.pos) := by
  have hhead : parser.lexer.getCurrToken.type = .IF ∨ parser.lexer.getCurrToken.type = .ELIF ∨
      parser.lexer.getCurrToken.type = .ELSE := .inr (.inr hkw)
  rw [parseIf.loop]
  simp only []
  rw [if_pos hhead]
  simp only [parseIf.condition, hkw, ne_eq, not_true_eq_false, if_false,
    checkNewLine_throw hnl]

theorem parseFor_newline {call : Nat → Lexer → Result (ASTNode × Lexer)}
    (block : Parser → Result (CodeBlock × Parser)) {parser : Parser}
    {lexer1 lexer2 : Lexer} {lowerNode upperNode : ASTNode}
    (hid : (parser.lexer.lookForw 1).type = .ID)
    (hfrom : (parser.lexer.lookForw 2).type = .FROM)
    (hlow : call 0 (parser.lexer.scanToken 3) = .ok (lowerNode, lexer1))
    (hto : lexer1.getCurrToken.type = .TO)
    (hup : call 0 (lexer1.scanToken 1) = .ok (upperNode, lexer2))
    (hnl : lexer2.getCurrToken.type ≠ .NEWLINE) :
    parseFor call block parser =
      .throw (.ParsingError "Newline expected." lexer2.getCurrToken.pos) := by
  have h1 : (parser.lexer.scanToken 1).getCurrToken = parser.lexer.lookForw 1 :=
    getCurrToken_scanToken _ _
  have h2 : ((parser.lexer.scanToken 1).scanToken 1).getCurrToken = parser.lexer.lookForw 2 := by
    rw [scanToken_scanToken]; exact getCurrToken_scanToken _ _
  have h3 : ((parser.lexer.scanToken 1).scanToken 1).scanToken 1 = parser.lexer.scanToken 3 := by
    rw [scanToken_scanToken, scanToken_scanToken]
  simp only [parseFor, h1, hid, ne_eq, not_true_eq_false, if_false, h2, hfrom, if_true, h3,
    hlow, hto, hup, checkNewLine_throw hnl]

theorem parseFunctionDef_newline (block : Parser → Result (CodeBlock × Parser)) {fuel : Nat}
    {parser : Parser} {paramVec : List ASTNode} {lexerP : Lexer}
    (hname : (parser.lexer.lookForw 1).type = .ID)
    (hlp : (parser.lexer.lookForw 2).type = .L_PAREN)
    (hparams : parseFunctionDef.paramList fuel (parser.lexer.scanToken 2) =
      .ok (paramVec, lexerP))
    (hrp : lexerP.getCurrToken.type = .R_PAREN)
    (hnl : (lexerP.scanToken 1).getCurrToken.type ≠ .NEWLINE) :
    parseFunctionDef block fuel parser =
      .throw (.ParsingError "Newline expected." (lexerP.scanToken 1).getCurrToken.pos) := by
  have h1 : (parser.lexer.scanToken 1).getCurrToken = parser.lexer.lookForw 1 :=
    getCurrToken_scanToken _ _
  have h2 : ((parser.lexer.scanToken 1).scanToken 1).getCurrToken = parser.lexer.lookForw 2 := by
    rw [scanToken_scanToken]; exact getCurrToken_scanToken _ _
  have h3 : (parser.lexer.scanToken 1).scanToken 1 = parser.lexer.scanToken 2 := by
    rw [scanToken_scanToken]
  simp only [parseFunctionDef, h1, hname, ne_eq, not_true_eq_false, if_false, h2, hlp]
  rw [h3]
  simp only [hparams, hrp, not_true_eq_false, if_false, checkNewLine_throw hnl]

theorem parseBlock_loop_throw {call : Nat → Lexer → Result (ASTNode × Lexer)}
    {block : Parser → Result (CodeBlock × Parser)} {fuel : Nat} {parser : Parser}
    (currBlock : CodeBlock) {nTabs : Nat} {e : Exn}
    (hcur : parser.lexer.getCurrToken.type ≠ .EOFILE)
    (htabs : lessTabs parser = .ok (false, nTabs))
    (hstmt : parseStatement call block fuel { parser with lexer := skipTabs parser.lexer } =
      .throw e) :
    parseBlock.loop call block (fuel + 1) parser currBlock = .throw e := by
  simp only [parseBlock.loop, hcur, ne_eq, not_false_eq_true, if_true, htabs, hstmt]

theorem parseBlock_throw {fuel : Nat} {parser : Parser} {e : Exn}
    (h : parseBlock.loop (callParserFunc fuel) (parseBlock fuel) fuel
      { parser with blockLevel := parser.blockLevel + 1 } (.mk []) = .throw e) :
    parseBlock (fuel + 1) parser = .throw e := by
  simp only [parseBlock, h]

theorem getAST_throw {fuel : Nat} {tokens : List Token} {n : Nat} {e : Exn}
    (h : parseBlock fuel ⟨⟨tokens, n⟩, -1⟩ = .throw e) : getAST fuel tokens n = .throw e := by
  simp only [getAST, h]

/-- C13: every statement form requires a newline where it ends. If the current token after
the expression of an expression statement, of a `return` or of a `while`, after the `then` of
an `if` or `elif`, after `else`, after the upper bound of a `for`, or after the `)` of a
function header is not NEWLINE, the statement parser throws
`ParsingError("Newline expected.")` at the position of that token. The exception is not
caught: it is the result of the turn of the block loop that ran the statement, of
`parseBlock` and of `getAST`, which therefore returns no tree. On the tokens of `x y` and of
`while x` / `<tab>return y z`, `getAST` throws it at `y` and at `z`. -/
theorem newline_expected (call : Nat → Lexer → Result (ASTNode × Lexer))
    (block : Parser → Result (CodeBlock × Parser)) (parser : Parser) (fuel : Nat)
    (fuelAST : Nat) (hfAST : 30 ≤ fuelAST) :
    (∀ node lexer1, call 0 parser.lexer = .ok (node, lexer1) →
      lexer1.getCurrToken.type ≠ .NEWLINE →
      parseExpr call parser =
        .throw (.ParsingError "Newline expected." lexer1.getCurrToken.pos)) ∧
    (∀ node lexer1, call 0 (parser.lexer.scanToken 1) = .ok (node, lexer1) →
      lexer1.getCurrToken.type ≠ .NEWLINE →
      parseReturn call parser =
          .throw (.ParsingError "Newline expected." lexer1.getCurrToken.pos) ∧
        parseWhile call block parser =
          .throw (.ParsingError "Newline expected." lexer1.getCurrToken.pos)) ∧
    (∀ pos cases condition lexer1,
      parser.lexer.getCurrToken.type = .IF ∨ parser.lexer.getCurrToken.type = .ELIF →
      call 0 (parser.lexer.scanToken 1) = .ok (condition, lexer1) →
      lexer1.getCurrToken.type = .THEN →
      (lexer1.scanToken 1).getCurrToken.type ≠ .NEWLINE →
      parseIf.loop call block pos (fuel + 1) parser cases =
        .throw (.ParsingError "Newline expected." (lexer1.scanToken 1).getCurrToken.pos)) ∧
    (∀ pos cases, parser.lexer.getCurrToken.type = .ELSE →
      (parser.lexer.scanToken 1).getCurrToken.type ≠ .NEWLINE →
      parseIf.loop call block pos (fuel + 1) parser cases =
        .throw (.ParsingError "Newline expected."
          (parser.lexer.scanToken 1).getCurrToken.pos)) ∧
    (∀ lexer1 lexer2 lowerNode upperNode,
      (parser.lexer.lookForw 1).type = .ID → (parser.lexer.lookForw 2).type = .FROM →
      call 0 (parser.lexer.scanToken 3) = .ok (lowerNode, lexer1) →
      lexer1.getCurrToken.type = .TO →
      call 0 (lexer1.scanToken 1) = .ok (upperNode, lexer2) →
      lexer2.getCurrToken.type ≠ .NEWLINE →
      parseFor call block parser =
        .throw (.ParsingError "Newline expected." lexer2.getCurrToken.pos)) ∧
    (∀ paramVec lexerP,
      (parser.lexer.lookForw 1).type = .ID → (parser.lexer.lookForw 2).type = .L_PAREN →
      parseFunctionDef.paramList fuel (parser.lexer.scanToken 2) = .ok (paramVec, lexerP) →
      lexerP.getCurrToken.type = .R_PAREN →
      (lexerP.scanToken 1).getCurrToken.type ≠ .NEWLINE →
      parseFunctionDef block fuel parser =
        .throw (.ParsingError "Newline expected." (lexerP.scanToken 1).getCurrToken.pos)) ∧
    (∀ currBlock nTabs e, parser.lexer.getCurrToken.type ≠ .EOFILE →
      lessTabs parser = .ok (false, nTabs) →
      parseStatement call block fuel { parser with lexer := skipTabs parser.lexer } =
        .throw e →
      parseBlock.loop call block (fuel + 1) parser currBlock = .throw e) ∧
    (∀ e, parseBlock.loop (callParserFunc fuel) (parseBlock fuel) fuel
        { parser with blockLevel := parser.blockLevel + 1 } (.mk []) = .throw e →
      parseBlock (fuel + 1) parser = .throw e) ∧
    (∀ tokens n e, parseBlock fuel ⟨⟨tokens, n⟩, -1⟩ = .throw e →
      getAST fuel tokens n = .throw e) ∧
    getAST fuelAST tokensNoNewline 4 = .throw (.ParsingError "Newline expected." 2) ∧
    getAST fuelAST tokensNoNewlineNested 20 = .throw (.ParsingError "Newline expected." 18) :=
  ⟨fun _ _ h1 h2 => parseExpr_newline h1 h2,
    fun _ _ h1 h2 => ⟨parseReturn_newline h1 h2, parseWhile_newline block h1 h2⟩,
    fun pos cases _ _ hkw h1 h2 h3 => parseIf_newline block fuel pos cases hkw h1 h2 h3,
    fun pos cases hkw h1 => parseElse_newline call block fuel pos cases hkw h1,
    fun _ _ _ _ hid hfrom hlow hto hup hnl => parseFor_newline block hid hfrom hlow hto hup hnl,
    fun _ _ hname hlp hparams hrp hnl => parseFunctionDef_newline block hname hlp hparams hrp hnl,
    fun currBlock _ _ hcur htabs hstmt => parseBlock_loop_throw currBlock hcur htabs hstmt,
    fun _ h => parseBlock_throw h,
    fun _ _ _ h => getAST_throw h,
    (getAST_mono hfAST tokensNoNewline 4).throw_eq rfl,
    (getAST_mono hfAST tokensNoNewlineNested 20).throw_eq rfl⟩

/-- Witness of C13: the expression statement `x y`, and `getAST` on both examples. -/
theorem newline_expected_witness :
    parseExpr (callParserFunc 30) ⟨⟨tokensNoNewline, 4⟩, 0⟩ =
        .throw (.ParsingError "Newline expected." 2) ∧
      parseReturn (callParserFunc 30) ⟨⟨tokensNoNewlineNested.drop 4, 20⟩, 1⟩ =
        .throw (.ParsingError "Newline expected." 18) ∧
      getAST 30 tokensNoNewline 4 = .throw (.ParsingError "Newline expected." 2) ∧
      getAST 30 tokensNoNewlineNested 20 = .throw (.ParsingError "Newline expected." 18) :=
  have h := newline_expected (callParserFunc 30) (parseBlock 30) ⟨⟨tokensNoNewline, 4⟩, 0⟩ 30
    30 (by decide)
  have h' := newline_expected (callParserFunc 30) (parseBlock 30)
    ⟨⟨tokensNoNewlineNested.drop 4, 20⟩, 1⟩ 30 30 (by decide)
  ⟨h.1 (.IDNode "x" 0 false) ⟨tokensNoNewline.drop 1, 4⟩ rfl (by decide),
    (h'.2.1 (.IDNode "y" 16 false) ⟨tokensNoNewlineNested.drop 6, 20⟩ rfl (by decide)).1,
    h.2.2.2.2.2.2.2.2.2.1, h.2.2.2.2.2.2.2.2.2.2⟩

/-! ## Integer literals -/

theorem foldl_digits_eq (digits : List Char) (acc : Nat) :
    digits.foldl (fun acc c => 10 * acc + (c.toNat - 48)) acc =
      10 ^ digits.length * acc + decimalValue digits := by
  induction digits generalizing acc with
  | nil => simp [decimalValue]
  | cons d ds ih =>
    rw [List.foldl_cons, ih]
    simp only [decimalValue, List.reverse_cons, List.map_append, List.map_cons, List.map_nil,
      Nat.ofDigits_append, Nat.ofDigits_singleton, List.length_map, List.length_reverse,
      List.length_cons]
    ring

theorem isDigit_bounds {c : Char} (hc : c.isDigit = true) : 48 ≤ c.toNat ∧ c.toNat ≤ 57 := by
  simp only [Char.isDigit, Bool.and_eq_true, decide_eq_true_eq] at hc
  have h1 : (48 : UInt32).toNat ≤ c.val.toNat := hc.1
  have h2 : c.val.toNat ≤ (57 : UInt32).toNat := hc.2
  exact ⟨h1, h2⟩

theorem stoi_sign_none (c : Char) (cs : List Char) (hminus : c ≠ '-') (hplus : c ≠ '+') :
    (match c :: cs with
      | '-' :: rest => (true, rest)
      | '+' :: rest => (false, rest)
      | _ => (false, c :: cs)) = (false, c :: cs) := by
  split
  · rename_i rest heq
    simp only [List.cons.injEq] at heq
    exact absurd heq.1 hminus
  · rename_i rest heq
    simp only [List.cons.injEq] at heq
    exact absurd heq.1 hplus
  · rfl

theorem stoi_digits (lexeme : String) (hne : lexeme.data ≠ [])
    (hdigits : ∀ c ∈ lexeme.data, c.isDigit = true) :
    stoi lexeme =
      if decimalValue lexeme.data ≤ INT_MAX then .ok (decimalValue lexeme.data : Int)
      else .throw .out_of_range := by
  obtain ⟨cs⟩ := lexeme
  cases cs with
  | nil => exact absurd rfl hne
  | cons c cs =>
    have hc' := isDigit_bounds (hdigits c (by simp))
    have hws : ¬ (c.toNat = 32 ∨ 9 ≤ c.toNat ∧ c.toNat ≤ 13) := by omega
    have hminus : c ≠ '-' := by
      intro h; rw [h] at hc'; revert hc'; decide
    have hplus : c ≠ '+' := by
      intro h; rw [h] at hc'; revert hc'; decide
    have htake : (c :: cs).takeWhile Char.isDigit = c :: cs := by
      rw [List.takeWhile_eq_self_iff]
      exact hdigits
    have hdrop : (c :: cs).dropWhile
        (fun c => decide (c.toNat = 32) || (decide (9 ≤ c.toNat) && decide (c.toNat ≤ 13))) =
        c :: cs := by
      rw [List.dropWhile_cons_of_neg]
      simpa using hws
    unfold stoi
    simp only [hdrop, stoi_sign_none c cs hminus hplus, htake, reduceCtorEq, if_false,
      foldl_digits_eq, Nat.mul_zero, Nat.zero_add, Bool.false_eq_true]
    by_cases hle : decimalValue (c :: cs) ≤ INT_MAX
    · have : ¬ ((decimalValue (c :: cs) : Int) < -2147483648 ∨
          2147483647 < (decimalValue (c :: cs) : Int)) := by
        unfold INT_MAX at hle; omega
      simp only [this, if_false, hle, if_true]
    · have : ((decimalValue (c :: cs) : Int) < -2147483648 ∨
          2147483647 < (decimalValue (c :: cs) : Int)) := by
        unfold INT_MAX at hle; omega
      simp only [this, if_true, hle, if_false]

/-- C17, as the code has it: for every INT_LIT token whose lexeme is a non-empty string of
decimal digits denoting a value of at most 2147483647, the primary parser returns the integer
literal with exactly that value, at the position of the token, and consumes exactly that one
token; any positive fuel gives this. -/
theorem parsePrimary_int_literal (fuel : Nat) (lexer : Lexer)
    (htype : lexer.getCurrToken.type = .INT_LIT)
    (hne : lexer.getCurrToken.lexeme.data ≠ [])
    (hdigits : ∀ c ∈ lexer.getCurrToken.lexeme.data, c.isDigit = true)
    (hrange : decimalValue lexer.getCurrToken.lexeme.data ≤ INT_MAX) :
    callParserFunc (fuel + 1) primaryGroup lexer =
      .ok (.LiteralNode (.int (decimalValue lexer.getCurrToken.lexeme.data))
        lexer.getCurrToken.pos false, lexer.scanToken 1) := by
  have hp : parserFuncAt primaryGroup = some ParserFunc.parsePrimary := rfl
  rw [callParserFunc]
  simp only [hp, parsePrimary, htype, stoi_digits _ hne hdigits, hrange, if_true]

/-- Witness of C17 as amended: the literal `2147483647`. -/
theorem parsePrimary_int_literal_witness :
    callParserFunc 1 primaryGroup ⟨[⟨"2147483647", .INT_LIT, 0⟩, ⟨"\n", .NEWLINE, 10⟩], 11⟩ =
      .ok (.LiteralNode (.int 2147483647) 0 false, ⟨[⟨"\n", .NEWLINE, 10⟩], 11⟩) :=
  (parsePrimary_int_literal 0 ⟨[⟨"2147483647", .INT_LIT, 0⟩, ⟨"\n", .NEWLINE, 10⟩], 11⟩ rfl
    (by decide) (by decide) (by decide)).trans rfl

/-- Counterexample to C17 as stated: the lexeme `2147483648` is a non-empty string of decimal
digits, and on it the primary parser returns no literal; `std::stoi` throws
`std::out_of_range`, whatever the fuel. -/
theorem parsePrimary_int_literal_overflow :
    ("2147483648".data ≠ [] ∧ "2147483648".data.all Char.isDigit = true) ∧
      callParserFunc 1 primaryGroup ⟨[⟨"2147483648", .INT_LIT, 0⟩, ⟨"\n", .NEWLINE, 10⟩], 11⟩ =
        .throw .out_of_range ∧
      callParserFunc 40 0 ⟨[⟨"2147483648", .INT_LIT, 0⟩, ⟨"\n", .NEWLINE, 10⟩], 11⟩ =
        .throw .out_of_range ∧
      getAST 40 [⟨"2147483648", .INT_LIT, 0⟩, ⟨"\n", .NEWLINE, 10⟩] 11 = .throw .out_of_range :=
  ⟨⟨by decide, by decide⟩, rfl, rfl, rfl⟩

/-! ## The fixed-lexeme table of the lexer -/

/-- C19, what lexer.h has: the table holds a word-token descriptor for `while`, `if`, `elif`,
`else`, `for`, `from`, `to`, `return`, `function`, `true` and `false`, but no descriptor at
all for `then`, `and`, `or`, `not`, `mod` and `div`; and the enumeration of the header
declares none of the kinds `THEN`, `AND`, `OR`, `NOT`, `MOD`, `DIV`, `DIV_EQ`, which the
precedence table of the parser links to operators. -/
theorem fixedTokenList_keywords :
    (∀ kw ∈ ["while", "if", "elif", "else", "for", "from", "to", "return", "function", "true",
        "false"],
      ∃ d ∈ fixedTokenList, d.lexeme = kw ∧ d.wordToken = true) ∧
    (∀ kw ∈ ["then", "and", "or", "not", "mod", "div"], ∀ d ∈ fixedTokenList, d.lexeme ≠ kw) ∧
    (∀ t ∈ [TokenType.THEN, .AND, .OR, .NOT, .MOD, .DIV, .DIV_EQ],
      t ∉ TokenType.declaredInLexer ∧ ∀ d ∈ fixedTokenList, d.type ≠ t) ∧
    (findOp 1 .DIV_EQ = some .DIV_ASSIGN ∧ findOp 2 .OR = some .OR ∧
      findOp 3 .AND = some .AND ∧ findOp 7 .MOD = some .MODULO ∧ findOp 7 .DIV = some .DIV ∧
      findOp 8 .NOT = some .NOT) := by
  refine ⟨by decide, by decide, by decide, by decide⟩

theorem fixedLexemes_pairwise :
    fixedLexemes.Pairwise (fun a b => properPrefix a b = false) := by
  set_option maxRecDepth 100000 in decide

theorem fixedTokenList_prefix_order (i j : Nat) (hi : i < fixedTokenList.length)
    (hj : j < fixedTokenList.length)
    (h : properPrefix (fixedTokenList.get ⟨i, hi⟩).lexeme (fixedTokenList.get ⟨j, hj⟩).lexeme
      = true) : j < i := by
  by_contra hlt
  have hne : i ≠ j := by
    rintro rfl
    simp [properPrefix] at h
  have hij : i < j := by omega
  have hp := List.pairwise_iff_get.mp fixedLexemes_pairwise
    ⟨i, by simpa [fixedLexemes] using hi⟩ ⟨j, by simpa [fixedLexemes] using hj⟩ hij
  simp only [fixedLexemes, List.get_eq_getElem, List.getElem_map] at hp
  simp only [List.get_eq_getElem] at h
  rw [hp] at h
  cases h

theorem firstFixedMatch_longest (boundaryOk : TokenDescriptor → Bool) (input : List Char)
    (d : TokenDescriptor) (h : firstFixedMatch boundaryOk input = some d) :
    ∀ d' ∈ fixedTokenList, matchesAt boundaryOk input d' = true →
      d'.lexeme.data.length ≤ d.lexeme.data.length := by
  intro d' hd' hm'
  by_contra hlen
  rw [firstFixedMatch, List.find?_eq_some] at h
  obtain ⟨hm, as, bs, hlist, hfirst⟩ := h
  have hpre : d.lexeme.data <+: input := by
    simp only [matchesAt, Bool.and_eq_true] at hm
    exact List.isPrefixOf_iff_prefix.mp hm.1
  have hpre' : d'.lexeme.data <+: input := by
    simp only [matchesAt, Bool.and_eq_true] at hm'
    exact List.isPrefixOf_iff_prefix.mp hm'.1
  have hpp : properPrefix d.lexeme d'.lexeme = true := by
    simp only [properPrefix, Bool.and_eq_true, decide_eq_true_eq]
    exact ⟨List.isPrefixOf_iff_prefix.mpr
      (List.prefix_of_prefix_length_le hpre hpre' (by omega)), by omega⟩
  have hpw : (as ++ d :: bs).Pairwise (fun a b => properPrefix a.lexeme b.lexeme = false) := by
    have := fixedLexemes_pairwise
    rw [fixedLexemes, List.pairwise_map, hlist] at this
    exact this
  rw [hlist, List.mem_append, List.mem_cons] at hd'
  rcases hd' with hin | rfl | hin
  · have := hfirst d' hin
    rw [hm'] at this
    cases this
  · omega
  · have := (List.pairwise_cons.mp (List.pairwise_append.mp hpw).2.1).1 d' hin
    rw [hpp] at this
    cases this

/-- C20: in the fixed-lexeme table, whenever the lexeme at index `i` is a proper prefix of
the lexeme at index `j`, the longer one comes first: `j < i`. Each of the listed pairs
(`=`/`==`, `<`/`<<`/`<=`, `>`/`>>`/`>=`, `+`/`++`/`+=`, `-`/`--`/`-=`, `*`/`*=`,
`/`/`//`/`/=`, `%`/`%=`, `!`/`!=`) is in the table, in this order. Hence a scan of the table in
its order that takes the first descriptor matching at a position takes one whose lexeme is
longest among all that match there. -/
theorem fixedTokenList_longest_first (i j : Nat) (hi : i < fixedTokenList.length)
    (hj : j < fixedTokenList.length)
    (h : properPrefix (fixedTokenList.get ⟨i, hi⟩).lexeme (fixedTokenList.get ⟨j, hj⟩).lexeme
      = true) :
    j < i ∧
    (∀ p ∈ prefixPairs, properPrefix p.1 p.2 = true ∧
      fixedLexemes.indexOf p.2 < fixedLexemes.indexOf p.1 ∧
      fixedLexemes.indexOf p.1 < fixedLexemes.length) ∧
    (∀ (boundaryOk : TokenDescriptor → Bool) (input : List Char) (d : TokenDescriptor),
      firstFixedMatch boundaryOk input = some d →
      ∀ d' ∈ fixedTokenList, matchesAt boundaryOk input d' = true →
        d'.lexeme.data.length ≤ d.lexeme.data.length) :=
  ⟨fixedTokenList_prefix_order i j hi hj h, by decide, firstFixedMatch_longest⟩

/-- Witness of C20: `=` at index 24 is a proper prefix of `==` at index 23; on the input
`==x` the scan takes `==`. -/
theorem fixedTokenList_longest_first_witness :
    23 < 24 ∧ firstFixedMatch (fun _ => true) "==x".data = some ⟨"==", .DOUBLE_EQ, false⟩ :=
  ⟨(fixedTokenList_longest_first 24 23 (by decide) (by decide) (by decide)).1, by decide⟩

/-! ## The input cleaner -/

theorem pieces_getlines (text : List Char) :
    pieces text = getlines text ∨ pieces text = getlines text ++ [[]] := by
  induction text with
  | nil => right; rfl
  | cons c rest ih =>
    have hcons : pieces (c :: rest) =
        if c = '\n' then [] :: pieces rest else (pieces rest).modifyHead (List.cons c) := by
      simp only [pieces, List.splitOn, List.splitOnP_cons, beq_iff_eq]
    rw [hcons, getlines]
    by_cases hc : c = '\n'
    · simp only [hc, if_true]
      rcases ih with ih | ih
      · left; rw [ih]
      · right; rw [ih]; rfl
    · simp only [hc, if_false]
      cases hg : getlines rest with
      | nil =>
        rw [hg] at ih
        rcases ih with ih | ih
        · exact absurd ih (List.splitOnP_ne_nil _ _)
        · left; rw [ih]; rfl
      | cons l ls =>
        rw [hg] at ih
        rcases ih with ih | ih
        · left; rw [ih]; rfl
        · right; rw [ih]; rfl

theorem rdropWhile_cons (p : Char → Bool) (c : Char) (rest : List Char) :
    (c :: rest).rdropWhile p =
      if rest.rdropWhile p = [] then (if p c then [] else [c]) else c :: rest.rdropWhile p := by
  simp only [List.rdropWhile, List.reverse_cons, List.dropWhile_append]
  by_cases h : List.dropWhile p rest.reverse = []
  · simp [h, List.dropWhile]
    by_cases hp : p c <;> simp [hp]
  · simp [h]

theorem find_last_not_of_none (chars : List Char) (line : List Char) :
    find_last_not_of line chars = none ↔ line.rdropWhile (fun c => chars.contains c) = [] := by
  induction line with
  | nil => simp [find_last_not_of]
  | cons c rest ih =>
    rw [find_last_not_of, rdropWhile_cons]
    cases hf : find_last_not_of rest chars with
    | some i =>
      have : ¬ rest.rdropWhile (fun c => chars.contains c) = [] := fun h => by
        rw [← ih, hf] at h; cases h
      simp only [if_neg this]
      constructor <;> intro h <;> cases h
    | none =>
      have : rest.rdropWhile (fun c => chars.contains c) = [] := ih.mp hf
      simp only [this, if_true]
      by_cases hp : c ∈ chars <;> simp [hp]

theorem take_find_last_not_of (chars : List Char) (line : List Char) :
    line.take (match find_last_not_of line chars with
      | some i => i + 1
      | none => 0) = line.rdropWhile (fun c => chars.contains c) := by
  induction line with
  | nil => simp [find_last_not_of]
  | cons c rest ih =>
    rw [find_last_not_of, rdropWhile_cons]
    cases hf : find_last_not_of rest chars with
    | some i =>
      have hne : ¬ rest.rdropWhile (fun c => chars.contains c) = [] := fun h => by
        rw [← find_last_not_of_none, hf] at h; cases h
      rw [hf] at ih
      simp only [hne, if_false, List.take_succ_cons]
      rw [← ih]
    | none =>
      have hnil : rest.rdropWhile (fun c => chars.contains c) = [] :=
        (find_last_not_of_none chars rest).mp hf
      simp only [hnil, if_true]
      by_cases hp : c ∈ chars <;> simp [hp]

theorem take_two_eq (line : List Char) :
    (line.take 2 = ['/', '/']) ↔ (['/', '/'].isPrefixOf line = true) := by
  match line with
  | [] => simp
  | [a] => simp
  | a :: b :: rest =>
    simp only [List.take_succ_cons, List.take_zero, List.cons.injEq, and_true, List.isPrefixOf,
      Bool.and_true, Bool.and_eq_true, beq_iff_eq]
    constructor <;> rintro ⟨rfl, rfl⟩ <;> exact ⟨rfl, rfl⟩

/-- One round of the loop, in the vocabulary of the statements. -/
theorem clean_step_eq (st : clean.State) (line : List Char) :
    clean.step st line =
      if keptLine line = true then
        { finalStr := st.finalStr ++ (trimTrailing line ++ ['\n'])
          subStrVec := st.subStrVec ++ [trimTrailing line ++ ['\n']]
          sumOfDeletedStrs := st.sumOfDeletedStrs ++ [st.deletedLines]
          deletedLines := st.deletedLines }
      else { st with deletedLines := st.deletedLines + 1 } := by
  simp only [clean.step, keptLine, trimTrailing, take_find_last_not_of]
  by_cases h2 : line.take 2 = ['/', '/']
  · have := (take_two_eq line).mp h2
    simp [h2, this]
  · have : ['/', '/'].isPrefixOf line = false := by
      rw [← Bool.not_eq_true, ← take_two_eq]; exact h2
    simp only [h2, if_false, this, Bool.not_false, Bool.true_and]

theorem keptNumbersFrom_cons (first : Nat) (line : List Char) (lines : List (List Char)) :
    keptNumbersFrom first (line :: lines) =
      if keptLine line = true then first :: keptNumbersFrom (first + 1) lines
      else keptNumbersFrom (first + 1) lines := by
  simp only [keptNumbersFrom, List.enumFrom_cons, List.filter_cons]
  by_cases h : keptLine line = true <;> simp [h]

theorem foldl_step_finalStr (lines : List (List Char)) : ∀ st : clean.State,
    (lines.foldl clean.step st).finalStr =
      st.finalStr ++
        ((lines.filter keptLine).map (fun line => trimTrailing line ++ ['\n'])).flatten := by
  induction lines with
  | nil => intro st; simp
  | cons l ls ih =>
    intro st
    rw [List.foldl_cons, ih, clean_step_eq, List.filter_cons]
    by_cases h : keptLine l = true <;> simp [h]

theorem foldl_step_subStrVec (lines : List (List Char)) : ∀ st : clean.State,
    (lines.foldl clean.step st).subStrVec =
      st.subStrVec ++ (lines.filter keptLine).map (fun line => trimTrailing line ++ ['\n']) := by
  induction lines with
  | nil => intro st; simp
  | cons l ls ih =>
    intro st
    rw [List.foldl_cons, ih, clean_step_eq, List.filter_cons]
    by_cases h : keptLine l = true <;> simp [h]

theorem foldl_step_numbers (lines : List (List Char)) : ∀ st : clean.State,
    (lines.foldl clean.step st).sumOfDeletedStrs.enum.map (fun p => p.1 + p.2 + 1) =
      st.sumOfDeletedStrs.enum.map (fun p => p.1 + p.2 + 1) ++
        keptNumbersFrom (st.sumOfDeletedStrs.length + st.deletedLines + 1) lines := by
  induction lines with
  | nil => intro st; simp [keptNumbersFrom]
  | cons l ls ih =>
    intro st
    rw [List.foldl_cons, ih, clean_step_eq, keptNumbersFrom_cons]
    by_cases h : keptLine l = true
    · simp only [h, if_true, List.enum_append, List.map_append, List.enumFrom_cons,
        List.enumFrom_nil, List.map_cons, List.map_nil, List.length_append, List.length_cons,
        List.length_nil, List.append_assoc, List.singleton_append]
      rw [show st.sumOfDeletedStrs.length + (0 + 1) + st.deletedLines + 1 =
        st.sumOfDeletedStrs.length + st.deletedLines + 1 + 1 by omega]
    · simp only [h, Bool.false_eq_true, if_false]
      rw [show st.sumOfDeletedStrs.length + (st.deletedLines + 1) + 1 =
        st.sumOfDeletedStrs.length + st.deletedLines + 1 + 1 by omega]

theorem keptLine_nil : keptLine [] = false := by decide

theorem filter_keptLine_pieces (text : List Char) :
    (pieces text).filter keptLine = (getlines text).filter keptLine := by
  rcases pieces_getlines text with h | h <;> rw [h]
  simp [List.filter_append, keptLine_nil]

theorem keptNumbersFrom_pieces (first : Nat) (text : List Char) :
    keptNumbersFrom first (pieces text) = keptNumbersFrom first (getlines text) := by
  rcases pieces_getlines text with h | h <;> rw [h]
  simp [keptNumbersFrom, List.enumFrom_append, List.filter_append, keptLine_nil]

/-- The kept lines of a cleaning, and its text. -/
theorem clean_subStrVec (cleaner : InputCleaner) :
    cleaner.clean.2.subStrVec =
      ((pieces cleaner.originalStr).filter keptLine).map
        (fun line => trimTrailing line ++ ['\n']) ∧
    cleaner.clean.1 = cleaner.clean.2.subStrVec.flatten := by
  simp only [InputCleaner.clean, clean.loop, foldl_step_subStrVec, foldl_step_finalStr,
    filter_keptLine_pieces, List.nil_append, and_self]

/-- The line numbers a fresh cleaner records. -/
theorem clean_numbers (text : List Char) :
    (InputCleaner.new text).clean.2.sumOfDeletedStrs.enum.map (fun p => p.1 + p.2 + 1) =
      keptLineNumbers text := by
  simp only [InputCleaner.clean, clean.loop, InputCleaner.new, foldl_step_numbers,
    keptLineNumbers, keptNumbersFrom_pieces]
  simp

/-- The `i`-th number of `keptNumbersFrom` is the number of the `i`-th kept line. -/
theorem keptNumbersFrom_getElem (lines : List (List Char)) : ∀ (first i : Nat),
    i < (lines.filter keptLine).length →
    ∃ k line, (keptNumbersFrom first lines)[i]? = some (first + k) ∧
      lines[k]? = some line ∧ keptLine line = true ∧
      (lines.filter keptLine)[i]? = some line ∧
      (lines.take k).countP keptLine = i := by
  induction lines with
  | nil => intro first i hi; simp at hi
  | cons l ls ih =>
    intro first i hi
    rw [keptNumbersFrom_cons, List.filter_cons]
    rw [List.filter_cons] at hi
    by_cases h : keptLine l = true
    · simp only [h, if_true] at hi ⊢
      cases i with
      | zero => exact ⟨0, l, by simp, by simp, h, by simp, by simp⟩
      | succ j =>
        obtain ⟨k, line, h1, h2, h3, h4, h5⟩ := ih (first + 1) j (by simpa using hi)
        refine ⟨k + 1, line, ?_, by simpa using h2, h3, by simpa using h4, ?_⟩
        · rw [List.getElem?_cons_succ, h1]; congr 1; omega
        · rw [List.take_succ_cons, List.countP_cons_of_pos _ _ h, h5]
    · simp only [h, Bool.false_eq_true, if_false] at hi ⊢
      obtain ⟨k, line, h1, h2, h3, h4, h5⟩ := ih (first + 1) i hi
      refine ⟨k + 1, line, ?_, by simpa using h2, h3, h4, ?_⟩
      · rw [h1]; congr 1; omega
      · rw [List.take_succ_cons, List.countP_cons_of_neg _ _ h, h5]

theorem keptNumbersFrom_length (lines : List (List Char)) : ∀ first : Nat,
    (keptNumbersFrom first lines).length = (lines.filter keptLine).length := by
  induction lines with
  | nil => intro first; rfl
  | cons l ls ih =>
    intro first
    rw [keptNumbersFrom_cons, List.filter_cons]
    by_cases h : keptLine l = true
    · simp only [h, if_true, List.length_cons, ih]
    · simp only [h, Bool.false_eq_true, if_false, ih]

/-- A fresh cleaner records one count for each kept line, and the count gives the number of
the line in the original text. -/
theorem clean_numbers_getElem (text : List Char) (i : Nat)
    (hi : i < (InputCleaner.new text).clean.2.subStrVec.length) :
    ∃ deleted, (InputCleaner.new text).clean.2.sumOfDeletedStrs[i]? = some deleted ∧
      (keptLineNumbers text)[i]? = some (i + deleted + 1) := by
  have hnum := clean_numbers text
  have hlen : (InputCleaner.new text).clean.2.sumOfDeletedStrs.length =
      (InputCleaner.new text).clean.2.subStrVec.length := by
    have := congrArg List.length hnum
    rw [List.length_map, List.enum_length, keptLineNumbers, keptNumbersFrom_length] at this
    rw [this, (clean_subStrVec (InputCleaner.new text)).1, List.length_map]
    rfl
  have hlt : i < (InputCleaner.new text).clean.2.sumOfDeletedStrs.length := by omega
  refine ⟨(InputCleaner.new text).clean.2.sumOfDeletedStrs[i], List.getElem?_eq_getElem hlt, ?_⟩
  rw [← hnum, List.getElem?_map, List.getElem?_enum, List.getElem?_eq_getElem hlt]
  rfl

theorem trimTrailing_spec (line : List Char) :
    ∃ removed : List Char, line = trimTrailing line ++ removed ∧
      (∀ c ∈ removed, c ∈ whitespaces) ∧
      ∀ c, (trimTrailing line).getLast? = some c → c ∉ whitespaces := by
  refine ⟨(line.reverse.takeWhile (fun c => whitespaces.contains c)).reverse, ?_, ?_, ?_⟩
  · have := List.takeWhile_append_dropWhile (fun c => whitespaces.contains c) line.reverse
    have h2 := congrArg List.reverse this
    rw [List.reverse_append, List.reverse_reverse] at h2
    exact h2.symm
  · intro c hc
    have := List.mem_takeWhile_imp (List.mem_reverse.mp hc)
    simpa using this
  · intro c hc hmem
    by_cases hnil : trimTrailing line = []
    · rw [hnil] at hc; cases hc
    · have hlast := List.rdropWhile_last_not (fun c => whitespaces.contains c) line hnil
      rw [List.getLast?_eq_getLast _ hnil] at hc
      injection hc with hc
      apply hlast
      show whitespaces.contains ((trimTrailing line).getLast hnil) = true
      rw [hc]
      simpa using hmem

/-- C14: for every text, `clean()` returns the kept lines in their order, where the lines
are the pieces of the text between line feeds, a line is kept when it does not begin with
`//` and has a graphic character, and a kept line is emitted without its trailing whitespace
(space, tab, form feed, vertical tab, carriage return, line feed) and with one line feed
appended. What is emitted of a line is a prefix of it, so the leading and interior
characters, tabs included, are unchanged: what is removed is whitespace only, and what
remains does not end in whitespace. -/
theorem clean_normalized (cleaner : InputCleaner) :
    cleaner.clean.1 = normalized cleaner.originalStr ∧
    ∀ line : List Char, ∃ removed : List Char, line = trimTrailing line ++ removed ∧
      (∀ c ∈ removed, c ∈ whitespaces) ∧
      ∀ c, (trimTrailing line).getLast? = some c → c ∉ whitespaces := by
  refine ⟨?_, trimTrailing_spec⟩
  rw [(clean_subStrVec cleaner).2, (clean_subStrVec cleaner).1]
  rfl

/-- C15: after one call of `clean()` on a freshly constructed cleaner, for the kept line
with index `i` in the cleaned text, `i + sumOfDeletedStrs[i] + 1` is the 1-based number of
that line in the original text: the line at the 0-based position `i + sumOfDeletedStrs[i]`
of the original is kept, it is the line emitted at index `i`, exactly `i` kept lines come
before it, and `sumOfDeletedStrs[i]` is the number of discarded lines before it. -/
theorem clean_line_numbers (text : List Char) (i : Nat)
    (hi : i < (InputCleaner.new text).clean.2.subStrVec.length) :
    ∃ deleted line,
      (InputCleaner.new text).clean.2.sumOfDeletedStrs[i]? = some deleted ∧
      (pieces text)[i + deleted]? = some line ∧
      keptLine line = true ∧
      (InputCleaner.new text).clean.2.subStrVec[i]? = some (trimTrailing line ++ ['\n']) ∧
      ((pieces text).take (i + deleted)).countP keptLine = i ∧
      ((pieces text).take (i + deleted)).countP (fun l => !keptLine l) = deleted ∧
      (keptLineNumbers text)[i]? = some (i + deleted + 1) := by
  obtain ⟨deleted, hd, hn⟩ := clean_numbers_getElem text i hi
  have hv := (clean_subStrVec (InputCleaner.new text)).1
  have hi' : i < ((pieces text).filter keptLine).length := by
    rw [hv, List.length_map] at hi; exact hi
  obtain ⟨k, line, h1, h2, h3, h4, h5⟩ := keptNumbersFrom_getElem (pieces text) 1 i hi'
  rw [keptLineNumbers, h1] at hn
  have hk : k = i + deleted := by injection hn; omega
  subst hk
  have hlen : i + deleted < (pieces text).length := by
    rcases List.getElem?_eq_some_iff.mp h2 with ⟨h, _⟩; exact h
  refine ⟨deleted, line, hd, h2, h3, ?_, h5, ?_, ?_⟩
  · rw [hv, List.getElem?_map]
    show Option.map _ ((pieces text).filter keptLine)[i]? = _
    rw [h4]; rfl
  · have := List.length_eq_countP_add_countP keptLine ((pieces text).take (i + deleted))
    rw [List.length_take, Nat.min_eq_left (Nat.le_of_lt hlen), h5] at this
    have h6 : List.countP (fun l => !keptLine l) ((pieces text).take (i + deleted)) =
        List.countP (fun a => decide ¬keptLine a = true) ((pieces text).take (i + deleted)) := by
      congr 1; funext a; cases keptLine a <;> rfl
    rw [h6]; omega
  · rw [keptLineNumbers, h1]; exact hn

/-- Witness of C15: in the sample text the kept line with index 1 is line 4 of the
original. -/
theorem clean_line_numbers_witness :
    ∃ deleted line,
      (InputCleaner.new textSample).clean.2.sumOfDeletedStrs[1]? = some deleted ∧
      (pieces textSample)[1 + deleted]? = some line ∧
      keptLine line = true ∧
      (InputCleaner.new textSample).clean.2.subStrVec[1]? =
        some (trimTrailing line ++ ['\n']) ∧
      ((pieces textSample).take (1 + deleted)).countP keptLine = 1 ∧
      ((pieces textSample).take (1 + deleted)).countP (fun l => !keptLine l) = deleted ∧
      (keptLineNumbers textSample)[1]? = some (1 + deleted + 1) :=
  clean_line_numbers textSample 1 (by decide)

/-- C18, what the code does: a comment line that begins with a tab is kept, text and all,
and is not counted as deleted; the same comment at the first column is removed and
counted. -/
theorem clean_keeps_indented_comment :
    (InputCleaner.new textIndentedComment).clean.1 = textIndentedComment ∧
    (InputCleaner.new textIndentedComment).clean.2.subStrVec =
      ["\t// note\n".data, "x = 1\n".data] ∧
    (InputCleaner.new textIndentedComment).clean.2.sumOfDeletedStrs = [0, 0] ∧
    (InputCleaner.new "// note\nx = 1\n".data).clean.1 = "x = 1\n".data ∧
    (InputCleaner.new "// note\nx = 1\n".data).clean.2.sumOfDeletedStrs = [1] := by
  decide

theorem scan_inside (errPos : Nat) (pre : List (List Char)) :
    ∀ (line : List Char) (post : List (List Char)) (currLen nlines : Nat),
    currLen + pre.flatten.length ≤ errPos →
    errPos < currLen + pre.flatten.length + line.length →
    getErrorLine.scan errPos (pre ++ line :: post) currLen nlines =
      (currLen + pre.flatten.length, nlines + pre.length,
        errPos - (currLen + pre.flatten.length)) := by
  induction pre with
  | nil =>
    intro line post currLen nlines h1 h2
    simp only [List.flatten_nil, List.length_nil, Nat.add_zero, List.nil_append] at h1 h2 ⊢
    rw [getErrorLine.scan, if_neg (by omega)]
  | cons l ls ih =>
    intro line post currLen nlines h1 h2
    simp only [List.flatten_cons, List.length_append, List.length_cons, List.cons_append]
      at h1 h2 ⊢
    rw [getErrorLine.scan, if_pos (by omega), ih line post _ _ (by omega) (by omega)]
    simp only [Prod.mk.injEq]
    omega

theorem scan_past (errPos : Nat) (lines : List (List Char)) : ∀ (currLen nlines : Nat),
    currLen + lines.flatten.length ≤ errPos →
    getErrorLine.scan errPos lines currLen nlines =
      (currLen + lines.flatten.length, nlines + lines.length, 0) := by
  induction lines with
  | nil => intro currLen nlines _; rfl
  | cons l ls ih =>
    intro currLen nlines h
    simp only [List.flatten_cons, List.length_append, List.length_cons] at h ⊢
    rw [getErrorLine.scan, if_pos (by omega), ih _ _ (by omega)]
    simp only [Prod.mk.injEq, and_true]
    omega

theorem exists_line_at (lines : List (List Char)) : ∀ offset : Nat,
    offset < lines.flatten.length →
    ∃ pre line post, lines = pre ++ line :: post ∧ pre.flatten.length ≤ offset ∧
      offset < pre.flatten.length + line.length := by
  induction lines with
  | nil => intro offset h; simp at h
  | cons l ls ih =>
    intro offset h
    by_cases hl : offset < l.length
    · exact ⟨[], l, ls, rfl, by simp, by simpa using hl⟩
    · simp only [List.flatten_cons, List.length_append] at h
      obtain ⟨pre, line, post, h1, h2, h3⟩ := ih (offset - l.length) (by omega)
      refine ⟨l :: pre, line, post, by rw [h1]; rfl, ?_, ?_⟩
      · simp only [List.flatten_cons, List.length_append]; omega
      · simp only [List.flatten_cons, List.length_append]; omega

/-- The diagnostic for an offset inside a line. -/
theorem getErrorLine_inside (self : InputCleaner) (pre : List (List Char)) (line : List Char)
    (post : List (List Char)) (deleted offset : Nat)
    (hv : self.subStrVec = pre ++ line :: post)
    (hs : self.sumOfDeletedStrs[pre.length]? = some deleted)
    (h1 : pre.flatten.length ≤ offset) (h2 : offset < pre.flatten.length + line.length) :
    self.getErrorLine offset =
      some (rendered (pre.length + deleted + 1) line (offset - pre.flatten.length)) := by
  have hscan := scan_inside offset pre line post 0 0 (by omega) (by omega)
  simp only [Nat.zero_add] at hscan
  have hget : (pre ++ line :: post)[pre.length]? = some line := by
    rw [List.getElem?_append_right (Nat.le_refl _), Nat.sub_self, List.getElem?_cons_zero]
  have hlen : ¬ pre.length ≥ (pre ++ line :: post).length := by simp
  have hgetD : (pre ++ line :: post).getD pre.length [] = line := by
    rw [List.getD_eq_getElem?_getD, hget]; rfl
  have hpos : ¬ offset - pre.flatten.length ≥ line.length := by omega
  simp only [InputCleaner.getErrorLine, hv, hscan, hlen, if_false, hgetD, hpos, hget, hs,
    rendered]

/-- The diagnostic for an offset at or past the end. -/
theorem getErrorLine_past (self : InputCleaner) (init : List (List Char)) (last : List Char)
    (deleted offset : Nat)
    (hv : self.subStrVec = init ++ [last])
    (hs : self.sumOfDeletedStrs[init.length]? = some deleted)
    (h : (init ++ [last]).flatten.length ≤ offset) :
    self.getErrorLine offset =
      some (rendered (init.length + deleted + 1) last (last.length - 1)) := by
  have hscan := scan_past offset (init ++ [last]) 0 0 (by omega)
  simp only [Nat.zero_add] at hscan
  have hget : (init ++ [last])[init.length]? = some last := by
    rw [List.getElem?_append_right (Nat.le_refl _), Nat.sub_self, List.getElem?_cons_zero]
  have hlen : (init ++ [last]).length ≥ (init ++ [last]).length := Nat.le_refl _
  have hlast : (init ++ [last]).getLast? = some last := by simp
  have hsub : (init ++ [last]).length - 1 = init.length := by simp
  simp only [InputCleaner.getErrorLine, hv, hscan, hlen, if_true, hlast, hsub, hget, hs,
    rendered]

/-- The diagnostics after the first cleaning of a newly constructed cleaner, on a text with
at least one kept line: the cleaned text is the
lines of `subStrVec` one after another. For every offset inside it, `getErrorLine` reports
the line that holds that byte (the offset is at or after the start of the line and before
its end), with the number that line has in the original text, the line itself (printed with
tabs replaced by spaces), and the caret at the column `offset` minus the start offset of the
line. For every offset at or beyond the end it reports the last kept line, with its number
in the original text, and the last column of that line. -/
theorem getErrorLine_resolves (text : List Char) (offset : Nat)
    (hkept : (InputCleaner.new text).clean.2.subStrVec ≠ []) :
    (InputCleaner.new text).clean.1 = (InputCleaner.new text).clean.2.subStrVec.flatten ∧
    (offset < (InputCleaner.new text).clean.1.length →
      ∃ pre line post number,
        (InputCleaner.new text).clean.2.subStrVec = pre ++ line :: post ∧
        pre.flatten.length ≤ offset ∧ offset < pre.flatten.length + line.length ∧
        (keptLineNumbers text)[pre.length]? = some number ∧
        (InputCleaner.new text).clean.2.getErrorLine offset =
          some (rendered number line (offset - pre.flatten.length))) ∧
    ((InputCleaner.new text).clean.1.length ≤ offset →
      ∃ line number,
        (InputCleaner.new text).clean.2.subStrVec.getLast? = some line ∧
        (keptLineNumbers text).getLast? = some number ∧
        (InputCleaner.new text).clean.2.getErrorLine offset =
          some (rendered number line (line.length - 1))) := by
  have htext := (clean_subStrVec (InputCleaner.new text)).2
  refine ⟨htext, ?_, ?_⟩
  · intro hlt
    rw [htext] at hlt
    obtain ⟨pre, line, post, hv, h1, h2⟩ := exists_line_at _ offset hlt
    have hi : pre.length < (InputCleaner.new text).clean.2.subStrVec.length := by
      rw [hv]; simp
    obtain ⟨deleted, hd, hn⟩ := clean_numbers_getElem text pre.length hi
    exact ⟨pre, line, post, _, hv, h1, h2, hn,
      getErrorLine_inside _ pre line post deleted offset hv hd h1 h2⟩
  · intro hge
    rw [htext] at hge
    obtain ⟨init, last, hv⟩ : ∃ init last,
        (InputCleaner.new text).clean.2.subStrVec = init ++ [last] :=
      ⟨_, _, (List.dropLast_append_getLast hkept).symm⟩
    have hi : init.length < (InputCleaner.new text).clean.2.subStrVec.length := by
      rw [hv]; simp
    obtain ⟨deleted, hd, hn⟩ := clean_numbers_getElem text init.length hi
    have hlenN : (keptLineNumbers text).length = init.length + 1 := by
      have := congrArg List.length (clean_subStrVec (InputCleaner.new text)).1
      rw [hv, List.length_map] at this
      rw [keptLineNumbers, keptNumbersFrom_length]
      simpa using this.symm
    refine ⟨last, init.length + deleted + 1, by rw [hv]; simp, ?_,
      getErrorLine_past _ init last deleted offset hv hd (by rw [← hv]; exact hge)⟩
    rw [List.getLast?_eq_getElem?, hlenN, Nat.add_sub_cancel, hn]

/-- An example of the diagnostics of a new cleaner: in the sample text the offset 7 is in
the second kept line, line 4 of the original, at column 1; the offset 9 is past the end. -/
theorem getErrorLine_resolves_witness :
    (InputCleaner.new textSample).clean.2.subStrVec ≠ [] ∧
    (InputCleaner.new textSample).clean.1 =
      (InputCleaner.new textSample).clean.2.subStrVec.flatten ∧
    (InputCleaner.new textSample).clean.2.getErrorLine 7 = some "Line: 4\n y\n ^".data ∧
    (InputCleaner.new textSample).clean.2.getErrorLine 9 = some "Line: 4\n y\n  ^".data :=
  ⟨by decide, (getErrorLine_resolves textSample 7 (by decide)).1, by decide, by decide⟩

/-! ## Cleaning again -/

theorem getlines_no_newline (text : List Char) : ∀ line ∈ getlines text, '\n' ∉ line := by
  induction text with
  | nil => intro line h; simp [getlines] at h
  | cons c rest ih =>
    intro line h
    rw [getlines] at h
    by_cases hc : c = '\n'
    · simp only [hc, if_true, List.mem_cons] at h
      rcases h with rfl | h
      · simp
      · exact ih line h
    · simp only [hc, if_false] at h
      cases hg : getlines rest with
      | nil =>
        rw [hg] at h
        simp only [List.mem_singleton] at h
        subst h
        simpa using fun h => hc h.symm
      | cons l ls =>
        rw [hg] at h ih
        simp only [List.mem_cons] at h
        rcases h with rfl | h
        · have := ih l (List.mem_cons_self _ _)
          simp only [List.mem_cons, not_or]
          exact ⟨fun h => hc h.symm, this⟩
        · exact ih line (List.mem_cons_of_mem _ h)

theorem getlines_append_newline (rest : List Char) (line : List Char) (h : '\n' ∉ line) :
    getlines (line ++ '\n' :: rest) = line :: getlines rest := by
  induction line with
  | nil => simp [getlines]
  | cons c l ih =>
    simp only [List.mem_cons, not_or] at h
    have hc : ¬ c = '\n' := fun hc => h.1 hc.symm
    rw [List.cons_append, getlines, if_neg hc, ih h.2]

theorem getlines_flatten (lines : List (List Char)) (h : ∀ line ∈ lines, '\n' ∉ line) :
    getlines ((lines.map (fun line => line ++ ['\n'])).flatten) = lines := by
  induction lines with
  | nil => rfl
  | cons l ls ih =>
    simp only [List.map_cons, List.flatten_cons, List.append_assoc, List.singleton_append]
    rw [getlines_append_newline _ _ (h l (List.mem_cons_self _ _)),
      ih (fun line hl => h line (List.mem_cons_of_mem _ hl))]

theorem isgraph_not_whitespace (c : Char) (h : isgraph c = true) : c ∉ whitespaces := by
  intro hmem
  simp only [whitespaces, List.mem_cons, List.mem_singleton, List.not_mem_nil, or_false] at hmem
  rcases hmem with rfl | rfl | rfl | rfl | rfl | rfl <;> revert h <;> decide

/-- A kept line is still kept without its trailing whitespace. -/
theorem keptLine_trimTrailing (line : List Char) (h : keptLine line = true) :
    keptLine (trimTrailing line) = true := by
  obtain ⟨removed, hsplit, hws, _⟩ := trimTrailing_spec line
  simp only [keptLine, Bool.and_eq_true, Bool.not_eq_true', List.any_eq_true] at h ⊢
  obtain ⟨hpre, c, hc, hg⟩ := h
  refine ⟨?_, c, ?_, hg⟩
  · rw [← Bool.not_eq_true] at hpre ⊢
    intro hp
    apply hpre
    rw [List.isPrefixOf_iff_prefix] at hp ⊢
    exact hp.trans ⟨removed, hsplit.symm⟩
  · rw [hsplit, List.mem_append] at hc
    rcases hc with hc | hc
    · exact hc
    · exact absurd (hws c hc) (isgraph_not_whitespace c hg)

theorem trimTrailing_idem (line : List Char) :
    trimTrailing (trimTrailing line) = trimTrailing line :=
  List.rdropWhile_idempotent _ _

theorem foldl_step_all_kept (lines : List (List Char)) : ∀ st : clean.State,
    (∀ line ∈ lines, keptLine line = true) →
    (lines.foldl clean.step st).sumOfDeletedStrs =
      st.sumOfDeletedStrs ++ List.replicate lines.length st.deletedLines := by
  induction lines with
  | nil => intro st _; simp
  | cons l ls ih =>
    intro st h
    rw [List.foldl_cons, clean_step_eq, if_pos (h l (List.mem_cons_self _ _)),
      ih _ (fun line hl => h line (List.mem_cons_of_mem _ hl))]
    simp [List.replicate_succ]

/-- The text of a cleaning, line by line. -/
theorem clean_lines (cleaner : InputCleaner) :
    cleaner.clean.1 =
      ((((getlines cleaner.originalStr).filter keptLine).map trimTrailing).map
        (fun line => line ++ ['\n'])).flatten ∧
    cleaner.clean.2.subStrVec =
      (((getlines cleaner.originalStr).filter keptLine).map trimTrailing).map
        (fun line => line ++ ['\n']) := by
  obtain ⟨h1, h2⟩ := clean_subStrVec cleaner
  rw [h2, h1, filter_keptLine_pieces, List.map_map]
  exact ⟨rfl, rfl⟩

/-- C26: for every text `s`, cleaning the text that `clean` returned for `s` returns it
unchanged, with the same lines, and discards no line (every recorded count of deleted lines
is 0). The returned text is made of lines each ending in one line feed, and every one of
them has a graphic character, does not begin with `//`, has no line feed inside and no
trailing whitespace. -/
theorem clean_idempotent (cleaner again : InputCleaner) :
    ((again.setInputStr cleaner.clean.1).clean.1 = cleaner.clean.1 ∧
      (again.setInputStr cleaner.clean.1).clean.2.subStrVec = cleaner.clean.2.subStrVec) ∧
    (InputCleaner.new cleaner.clean.1).clean.2.sumOfDeletedStrs =
      List.replicate cleaner.clean.2.subStrVec.length 0 ∧
    cleaner.clean.1 =
      ((getlines cleaner.clean.1).map (fun line => line ++ ['\n'])).flatten ∧
    ∀ line ∈ getlines cleaner.clean.1,
      keptLine line = true ∧ trimTrailing line = line ∧ '\n' ∉ line := by
  obtain ⟨htext, hvec⟩ := clean_lines cleaner
  have hnl : ∀ line ∈ ((getlines cleaner.originalStr).filter keptLine).map trimTrailing,
      '\n' ∉ line := by
    intro line hl
    obtain ⟨l, hl1, rfl⟩ := List.mem_map.mp hl
    have h0 := getlines_no_newline _ l (List.mem_of_mem_filter hl1)
    obtain ⟨removed, hsplit, _, _⟩ := trimTrailing_spec l
    intro hmem
    apply h0
    rw [hsplit]
    exact List.mem_append_left _ hmem
  have hlines : getlines cleaner.clean.1 =
      ((getlines cleaner.originalStr).filter keptLine).map trimTrailing := by
    rw [htext, getlines_flatten _ hnl]
  have hall : ∀ line ∈ getlines cleaner.clean.1,
      keptLine line = true ∧ trimTrailing line = line ∧ '\n' ∉ line := by
    intro line hl
    rw [hlines] at hl
    refine ⟨?_, ?_, hnl line hl⟩
    · obtain ⟨l, hl1, rfl⟩ := List.mem_map.mp hl
      exact keptLine_trimTrailing l (List.of_mem_filter hl1)
    · obtain ⟨l, _, rfl⟩ := List.mem_map.mp hl
      exact trimTrailing_idem l
  have hfilter : (getlines cleaner.clean.1).filter keptLine = getlines cleaner.clean.1 :=
    List.filter_eq_self.mpr (fun line hl => (hall line hl).1)
  have hmap : (getlines cleaner.clean.1).map trimTrailing = getlines cleaner.clean.1 := by
    conv_rhs => rw [← List.map_id (getlines cleaner.clean.1)]
    exact List.map_congr_left (fun line hl => (hall line hl).2.1)
  have hsame : ∀ c : InputCleaner, c.originalStr = cleaner.clean.1 →
      c.clean.1 = cleaner.clean.1 ∧ c.clean.2.subStrVec = cleaner.clean.2.subStrVec := by
    intro c hc
    obtain ⟨h1, h2⟩ := clean_lines c
    rw [h1, h2, hc, hfilter, hmap, hlines, ← htext, ← hvec]
    exact ⟨rfl, rfl⟩
  have key : ∀ text : List Char, (∀ line ∈ getlines text, keptLine line = true) →
      (InputCleaner.new text).clean.2.sumOfDeletedStrs =
        List.replicate (getlines text).length 0 := by
    intro text htxt
    have := foldl_step_all_kept (getlines text)
      { finalStr := [], subStrVec := [], sumOfDeletedStrs := [], deletedLines := 0 } htxt
    simp only [InputCleaner.clean, clean.loop, InputCleaner.new]
    rw [this]
    rfl
  refine ⟨hsame _ rfl, ?_, ?_, hall⟩
  · rw [key _ (fun line hl => (hall line hl).1), hlines, hvec]
    simp
  · rw [hlines]; exact htext

theorem foldl_step_counts (lines : List (List Char)) : ∀ st : clean.State,
    ∃ added : List Nat,
      (lines.foldl clean.step st).sumOfDeletedStrs = st.sumOfDeletedStrs ++ added ∧
      added.length = (lines.filter keptLine).length := by
  induction lines with
  | nil => intro st; exact ⟨[], by simp, rfl⟩
  | cons l ls ih =>
    intro st
    rw [List.foldl_cons, clean_step_eq, List.filter_cons]
    by_cases h : keptLine l = true
    · simp only [h, if_true]
      obtain ⟨added, h1, h2⟩ := ih
        { finalStr := st.finalStr ++ (trimTrailing l ++ ['\n'])
          subStrVec := st.subStrVec ++ [trimTrailing l ++ ['\n']]
          sumOfDeletedStrs := st.sumOfDeletedStrs ++ [st.deletedLines]
          deletedLines := st.deletedLines }
      exact ⟨st.deletedLines :: added, by rw [h1]; simp, by simp [h2]⟩
    · simp only [h, Bool.false_eq_true, if_false]
      exact ih _

/-- C27, what the code does: `clean()` empties `subStrVec` but not `sumOfDeletedStrs`, so
after a second cleaning the counts of the first one still stand at the front. After
cleaning `a`, setting the text to two empty lines and `b`, and cleaning again, the only
kept line is `b` but there are two counts, the first the stale one; `getErrorLine(0)` prints
line 1, while `b` is line 3, which a fresh cleaner prints. In every case the counts after a
cleaning are those from before it followed by one count for each kept line. -/
theorem clean_again_keeps_counts :
    (((InputCleaner.new "a\n".data).clean.2.setInputStr "\n\nb\n".data).clean.2.subStrVec =
        ["b\n".data] ∧
      ((InputCleaner.new "a\n".data).clean.2.setInputStr "\n\nb\n".data).clean.2.sumOfDeletedStrs
        = [0, 2] ∧
      ((InputCleaner.new "a\n".data).clean.2.setInputStr "\n\nb\n".data).clean.2.getErrorLine 0
        = some "Line: 1\nb\n^".data ∧
      (InputCleaner.new "\n\nb\n".data).clean.2.getErrorLine 0 = some "Line: 3\nb\n^".data) ∧
    ((InputCleaner.new "\nx\n".data).clean.2.clean.2.subStrVec = ["x\n".data] ∧
      (InputCleaner.new "\nx\n".data).clean.2.clean.2.sumOfDeletedStrs = [1, 1]) ∧
    ∀ cleaner : InputCleaner,
      cleaner.clean.2.sumOfDeletedStrs.length =
        cleaner.sumOfDeletedStrs.length + cleaner.clean.2.subStrVec.length ∧
      cleaner.clean.2.sumOfDeletedStrs.take cleaner.sumOfDeletedStrs.length =
        cleaner.sumOfDeletedStrs := by
  refine ⟨by decide, by decide, ?_⟩
  intro cleaner
  obtain ⟨added, h1, h2⟩ := foldl_step_counts (getlines cleaner.originalStr)
    { finalStr := [], subStrVec := [], sumOfDeletedStrs := cleaner.sumOfDeletedStrs,
      deletedLines := 0 }
  have hv : cleaner.clean.2.subStrVec.length =
      ((getlines cleaner.originalStr).filter keptLine).length := by
    rw [(clean_lines cleaner).2]; simp
  have hs : cleaner.clean.2.sumOfDeletedStrs = cleaner.sumOfDeletedStrs ++ added := h1
  rw [hs, hv, ← h2]
  simp

/-- C16, what the code does on a cleaner that is used again: after cleaning `x` / `y`, then
setting the text to a comment line, an empty line, `z = 1` and `<tab>w` and cleaning again,
the kept lines are lines 3 and 4 of the current text, but the counts of the first cleaning
still stand at the front of `sumOfDeletedStrs`. For the offsets 0 and 7, inside the two kept
lines, and 9, past the end, `getErrorLine` shows the right line and the right column, but
prints the line numbers 1, 2 and 2 where the lines are 3, 4 and 4 in the original text; a
newly constructed cleaner prints 3 and 4 on the same text. -/
theorem getErrorLine_stale_after_reuse :
    ((InputCleaner.new textFirst).clean.2.setInputStr textSecond).clean.1 =
        "z = 1\n\tw\n".data ∧
    reusedCleaner.subStrVec = ["z = 1\n".data, "\tw\n".data] ∧
    reusedCleaner.sumOfDeletedStrs = [0, 0, 2, 2] ∧
    keptLineNumbers textSecond = [3, 4] ∧
    (reusedCleaner.getErrorLine 0 = some (rendered 1 "z = 1\n".data 0) ∧
      reusedCleaner.getErrorLine 7 = some (rendered 2 "\tw\n".data 1) ∧
      reusedCleaner.getErrorLine 9 = some (rendered 2 "\tw\n".data 2)) ∧
    ((InputCleaner.new textSecond).clean.2.getErrorLine 0 =
        some (rendered 3 "z = 1\n".data 0) ∧
      (InputCleaner.new textSecond).clean.2.getErrorLine 7 =
        some (rendered 4 "\tw\n".data 1) ∧
      (InputCleaner.new textSecond).clean.2.getErrorLine 9 =
        some (rendered 4 "\tw\n".data 2)) := by
  refine ⟨by decide, by decide, by decide, ?_, by decide, by decide⟩
  decide

/-- Some values of the model of `std::stof`: a decimal literal in the range of `float`, the
largest literal that still rounds to the largest `float`, literals beyond the range at both
ends, and a text without a number. -/
theorem stof_examples :
    stof "1.5" = .ok (.float "1.5") ∧
    stof "3.4028235e38" = .ok (.float "3.4028235e38") ∧
    stof "3.4028236e38" = .throw .out_of_range ∧
    stof "1e39" = .throw .out_of_range ∧
    stof "1e-46" = .throw .out_of_range ∧
    stof "x" = .throw .invalid_argument ∧
    callParserFunc 1 primaryGroup ⟨[⟨"1e39", .FLOAT_LIT, 0⟩, ⟨"\n", .NEWLINE, 4⟩], 5⟩ =
      .throw .out_of_range :=
  ⟨rfl, rfl, rfl, rfl, rfl, rfl, rfl⟩

/-! ## The cursor only moves forwards -/

theorem Scanned.refl_scan (lexer : Lexer) : Scanned lexer lexer [] :=
  ⟨rfl, rfl, fun _ h => absurd h (List.not_mem_nil _)⟩

theorem Scanned.append {a b c : Lexer} {c1 c2 : List Token} (h1 : Scanned a b c1)
    (h2 : Scanned b c c2) : Scanned a c (c1 ++ c2) := by
  refine ⟨by rw [h1.1, h2.1, List.append_assoc], h2.2.1.trans h1.2.1, ?_⟩
  intro t ht
  rcases List.mem_append.mp ht with ht | ht
  · exact h1.2.2 t ht
  · exact h2.2.2 t ht

theorem Advanced.refl_adv (lexer : Lexer) : Advanced lexer lexer := ⟨[], Scanned.refl_scan lexer⟩

theorem Advanced.then_adv {a b c : Lexer} (h1 : Advanced a b) (h2 : Advanced b c) :
    Advanced a c := by
  obtain ⟨c1, h1⟩ := h1
  obtain ⟨c2, h2⟩ := h2
  exact ⟨_, h1.append h2⟩

theorem Consumed.advanced {a b : Lexer} (h : Consumed a b) : Advanced a b := by
  obtain ⟨c1, _, h1⟩ := h
  exact ⟨c1, h1⟩

theorem Consumed.trans_adv {a b c : Lexer} (h1 : Consumed a b) (h2 : Advanced b c) :
    Consumed a c := by
  obtain ⟨c1, hne, h1⟩ := h1
  obtain ⟨c2, h2⟩ := h2
  exact ⟨_, by simp [hne], h1.append h2⟩

theorem Advanced.trans_cons {a b c : Lexer} (h1 : Advanced a b) (h2 : Consumed b c) :
    Consumed a c := by
  obtain ⟨c1, h1⟩ := h1
  obtain ⟨c2, hne, h2⟩ := h2
  exact ⟨_, by simp [hne], h1.append h2⟩

theorem Consumed.then_cons {a b c : Lexer} (h1 : Consumed a b) (h2 : Consumed b c) :
    Consumed a c := h1.trans_adv h2.advanced

theorem Advanced.remaining_le {a b : Lexer} (h : Advanced a b) : b.remaining ≤ a.remaining := by
  obtain ⟨c1, h1, _⟩ := h
  simp only [Lexer.remaining, h1, List.length_append]
  omega

theorem Consumed.remaining_lt {a b : Lexer} (h : Consumed a b) : b.remaining < a.remaining := by
  obtain ⟨c1, hne, h1, _⟩ := h
  have : 0 < c1.length := List.length_pos.mpr hne
  simp only [Lexer.remaining, h1, List.length_append]
  omega

/-- A token that is not the end-of-file token is in the buffer. -/
theorem tokenList_of_type {lexer : Lexer} (h : lexer.getCurrToken.type ≠ .EOFILE) :
    lexer.tokenList = lexer.getCurrToken :: (lexer.scanToken 1).tokenList := by
  cases hl : lexer.tokenList with
  | nil =>
    exfalso; apply h
    simp [Lexer.getCurrToken, Lexer.lookForw, hl, Lexer.eofToken]
  | cons t ts =>
    simp [Lexer.getCurrToken, Lexer.lookForw, hl, Lexer.scanToken]

theorem Consumed.scan {lexer : Lexer} (h1 : lexer.getCurrToken.type ≠ .COMMENT)
    (h2 : lexer.getCurrToken.type ≠ .EOFILE) : Consumed lexer (lexer.scanToken 1) :=
  ⟨[lexer.getCurrToken], by simp, tokenList_of_type h2, rfl, by
    intro t ht
    rw [List.mem_singleton] at ht
    subst ht
    exact ⟨h1, h2⟩⟩

theorem Consumed.scan_two {lexer : Lexer} (h1 : lexer.getCurrToken.type ≠ .COMMENT)
    (h2 : lexer.getCurrToken.type ≠ .EOFILE) (h3 : (lexer.lookForw 1).type ≠ .COMMENT)
    (h4 : (lexer.lookForw 1).type ≠ .EOFILE) : Consumed lexer (lexer.scanToken 2) := by
  have ha := Consumed.scan h1 h2
  have hcur : (lexer.scanToken 1).getCurrToken = lexer.lookForw 1 := by
    simp only [Lexer.getCurrToken, Lexer.lookForw, Lexer.scanToken, Lexer.eofToken]
    cases lexer.tokenList with
    | nil => rfl
    | cons t ts => rfl
  have hb : Consumed (lexer.scanToken 1) ((lexer.scanToken 1).scanToken 1) :=
    Consumed.scan (by rw [hcur]; exact h3) (by rw [hcur]; exact h4)
  rw [scanToken_scanToken] at hb
  exact ha.then_cons hb

theorem findOp_comment (g : Nat) :
    findOp g .COMMENT = none ∧ findOp g .EOFILE = none := by
  by_cases hg : g < 15
  · interval_cases g <;> decide
  · have hnone : precedenceTab.get? g = none := by
      apply List.get?_eq_none.mpr
      simp only [precedenceTab, List.length_cons, List.length_nil]
      omega
    simp only [findOp, hnone, and_self]

theorem findOp_token {g : Nat} {t : TokenType} {op : OperatorType}
    (h : findOp g t = some op) : t ≠ .COMMENT ∧ t ≠ .EOFILE := by
  constructor <;> rintro rfl
  · rw [(findOp_comment g).1] at h; cases h
  · rw [(findOp_comment g).2] at h; cases h

theorem getOppositeType_ne (t : Token) :
    t.getOppositeType ≠ .COMMENT ∧ t.getOppositeType ≠ .EOFILE := by
  unfold Token.getOppositeType
  split <;> exact ⟨by decide, by decide⟩

theorem receiverRule_setForceRval (node : ASTNode) (b : Bool) :
    (node.setForceRval b).receiverRule = node.receiverRule := by
  cases node with
  | nAryNode receiver op nOperands pos f =>
    cases receiver <;> simp [ASTNode.setForceRval, ASTNode.receiverRule]
  | _ => simp [ASTNode.setForceRval, ASTNode.receiverRule]

theorem receiverRuleList_append (a b : List ASTNode) :
    receiverRuleList (a ++ b) = (receiverRuleList a && receiverRuleList b) := by
  induction a with
  | nil => simp [receiverRuleList]
  | cons x xs ih => simp [receiverRuleList, ih, Bool.and_assoc]

theorem parseOperands_good {call : Nat → Lexer → Result (ASTNode × Lexer)}
    (hcall : CallGood call) :
    ∀ (fuel : Nat) (lexer : Lexer) (acc ops : List ASTNode) (lexer' : Lexer),
      lexer.getCurrToken.type ≠ .COMMENT → lexer.getCurrToken.type ≠ .EOFILE →
      parseOperands call fuel lexer acc = .ok (ops, lexer') →
      Consumed lexer lexer' ∧ (receiverRuleList acc = true → receiverRuleList ops = true) := by
  intro fuel
  induction fuel with
  | zero => intro _ _ _ _ _ _ h; simp [parseOperands] at h
  | succ n ih =>
    intro lexer acc ops lexer' hc1 hc2 h
    simp only [parseOperands] at h
    cases h1 : call (COMMA_PRECEDENCE + 1) (lexer.scanToken 1) with
    | outOfFuel => simp [h1] at h
    | throw e => simp [h1] at h
    | ok a =>
      obtain ⟨hcons, hrule⟩ := hcall _ _ a.1 a.2 h1
      have hfirst : Consumed lexer a.2 := (Consumed.scan hc1 hc2).then_cons hcons
      simp only [h1] at h
      split at h
      · rename_i hcomma
        obtain ⟨h3, h4⟩ := ih _ _ _ _ (by rw [hcomma]; decide) (by rw [hcomma]; decide) h
        refine ⟨hfirst.then_cons h3, fun hacc => h4 ?_⟩
        rw [receiverRuleList_append, hacc]
        simp [receiverRuleList, hrule]
      · simp only [Result.ok.injEq, Prod.mk.injEq] at h
        obtain ⟨rfl, rfl⟩ := h
        refine ⟨hfirst, fun hacc => ?_⟩
        rw [receiverRuleList_append, hacc]
        simp [receiverRuleList, hrule]

theorem listParser_good {call : Nat → Lexer → Result (ASTNode × Lexer)}
    (hcall : CallGood call) {fuel : Nat} {lexer lexer' : Lexer} {ops : List ASTNode}
    (hopen : lexer.getCurrToken.type = .L_SQ_BRACKET)
    (h : listParser call fuel lexer = .ok (ops, lexer')) :
    Consumed lexer lexer' ∧ receiverRuleList ops = true := by
  have hc1 : lexer.getCurrToken.type ≠ .COMMENT := by rw [hopen]; decide
  have hc2 : lexer.getCurrToken.type ≠ .EOFILE := by rw [hopen]; decide
  simp only [listParser] at h
  split at h
  · cases h1 : parseOperands call fuel lexer [] with
    | outOfFuel => simp [h1] at h
    | throw e => simp [h1] at h
    | ok a =>
      obtain ⟨hcons, hrule⟩ := parseOperands_good hcall _ _ _ a.1 a.2 hc1 hc2 h1
      simp only [h1] at h
      split at h
      · cases h
      · rename_i hclose
        simp only [ne_eq, Decidable.not_not] at hclose
        simp only [Result.ok.injEq, Prod.mk.injEq] at h
        obtain ⟨rfl, rfl⟩ := h
        exact ⟨hcons.then_cons (Consumed.scan (by rw [hclose]; decide) (by rw [hclose]; decide)),
          hrule rfl⟩
  · rename_i hnext
    simp only [ne_eq, Decidable.not_not] at hnext
    simp only [Result.ok.injEq, Prod.mk.injEq] at h
    obtain ⟨rfl, rfl⟩ := h
    exact ⟨Consumed.scan_two hc1 hc2 (by rw [hnext]; decide) (by rw [hnext]; decide), rfl⟩

theorem parsePrimary_good {call : Nat → Lexer → Result (ASTNode × Lexer)}
    (hcall : CallGood call) (fuel : Nat) (lexer : Lexer) :
    GoodExpr lexer (parsePrimary call fuel lexer) := by
  intro node lexer' h
  simp only [parsePrimary] at h
  split at h
  case h_1 heq =>
    simp only [Result.ok.injEq, Prod.mk.injEq] at h
    obtain ⟨rfl, rfl⟩ := h
    exact ⟨Consumed.scan (by rw [heq]; decide) (by rw [heq]; decide), rfl⟩
  case h_2 heq =>
    simp only [Result.ok.injEq, Prod.mk.injEq] at h
    obtain ⟨rfl, rfl⟩ := h
    exact ⟨Consumed.scan (by rw [heq]; decide) (by rw [heq]; decide), rfl⟩
  case h_3 heq =>
    cases h1 : stoi lexer.getCurrToken.lexeme with
    | outOfFuel => simp [h1] at h
    | throw e => simp [h1] at h
    | ok a =>
      simp only [h1, Result.ok.injEq, Prod.mk.injEq] at h
      obtain ⟨rfl, rfl⟩ := h
      exact ⟨Consumed.scan (by rw [heq]; decide) (by rw [heq]; decide), rfl⟩
  case h_4 heq =>
    cases h1 : stof lexer.getCurrToken.lexeme with
    | outOfFuel => simp [h1] at h
    | throw e => simp [h1] at h
    | ok a =>
      simp only [h1, Result.ok.injEq, Prod.mk.injEq] at h
      obtain ⟨rfl, rfl⟩ := h
      exact ⟨Consumed.scan (by rw [heq]; decide) (by rw [heq]; decide), rfl⟩
  case h_5 heq =>
    simp only [Result.ok.injEq, Prod.mk.injEq] at h
    obtain ⟨rfl, rfl⟩ := h
    exact ⟨Consumed.scan (by rw [heq]; decide) (by rw [heq]; decide), rfl⟩
  case h_6 heq =>
    simp only [Result.ok.injEq, Prod.mk.injEq] at h
    obtain ⟨rfl, rfl⟩ := h
    exact ⟨Consumed.scan (by rw [heq]; decide) (by rw [heq]; decide), rfl⟩
  case h_7 heq =>
    cases h1 : call 0 (lexer.scanToken 1) with
    | outOfFuel => simp [h1] at h
    | throw e => simp [h1] at h
    | ok a =>
      obtain ⟨hcons, hrule⟩ := hcall _ _ a.1 a.2 h1
      simp only [h1] at h
      split at h
      · rename_i hclose
        simp only [Result.ok.injEq, Prod.mk.injEq] at h
        obtain ⟨rfl, rfl⟩ := h
        refine ⟨((Consumed.scan (by rw [heq]; decide) (by rw [heq]; decide)).then_cons hcons).then_cons
          (Consumed.scan (by rw [hclose]; decide) (by rw [hclose]; decide)), ?_⟩
        rw [receiverRule_setForceRval]; exact hrule
      · cases h
  case h_8 heq =>
    cases h1 : listParser call fuel lexer with
    | outOfFuel => simp [h1] at h
    | throw e => simp [h1] at h
    | ok a =>
      obtain ⟨hcons, hrule⟩ := listParser_good hcall heq h1
      simp only [h1, Result.ok.injEq, Prod.mk.injEq] at h
      obtain ⟨rfl, rfl⟩ := h
      exact ⟨hcons, by simp [ASTNode.receiverRule, hrule]⟩
  case h_9 heq =>
    simp only [Result.ok.injEq, Prod.mk.injEq] at h
    obtain ⟨rfl, rfl⟩ := h
    exact ⟨Consumed.scan (by rw [heq]; decide) (by rw [heq]; decide), rfl⟩
  case h_10 => cases h

theorem parseUnary_good {call : Nat → Lexer → Result (ASTNode × Lexer)}
    (hcall : CallGood call) (g : Nat) :
    ∀ (fuel : Nat) (lexer : Lexer), GoodExpr lexer (parseUnary call g fuel lexer) := by
  intro fuel
  induction fuel with
  | zero => intro _ _ _ h; simp [parseUnary] at h
  | succ n ih =>
    intro lexer node lexer' h
    simp only [parseUnary] at h
    cases hop : findOp g lexer.getCurrToken.type with
    | none => simp only [hop] at h; exact hcall _ _ _ _ h
    | some op =>
      simp only [hop] at h
      cases h1 : parseUnary call g n (lexer.scanToken 1) with
      | outOfFuel => simp [h1] at h
      | throw e => simp [h1] at h
      | ok a =>
        obtain ⟨hcons, hrule⟩ := ih _ a.1 a.2 h1
        simp only [h1, Result.ok.injEq, Prod.mk.injEq] at h
        obtain ⟨rfl, rfl⟩ := h
        exact ⟨(Consumed.scan (findOp_token hop).1 (findOp_token hop).2).then_cons hcons,
          by simp [ASTNode.receiverRule, hrule]⟩

theorem parseBinLeft_loop_good {call : Nat → Lexer → Result (ASTNode × Lexer)}
    (hcall : CallGood call) (g : Nat) :
    ∀ (fuel : Nat) (nodeA : ASTNode) (lexer : Lexer) (node : ASTNode) (lexer' : Lexer),
      parseBinLeft.loop call g fuel nodeA lexer = .ok (node, lexer') →
      Advanced lexer lexer' ∧ (nodeA.receiverRule = true → node.receiverRule = true) := by
  intro fuel
  induction fuel with
  | zero => intro _ _ _ _ h; simp [parseBinLeft.loop] at h
  | succ n ih =>
    intro nodeA lexer node lexer' h
    simp only [parseBinLeft.loop] at h
    cases hop : findOp g lexer.getCurrToken.type with
    | none =>
      simp only [hop, Result.ok.injEq, Prod.mk.injEq] at h
      obtain ⟨rfl, rfl⟩ := h
      exact ⟨Advanced.refl_adv _, id⟩
    | some op =>
      simp only [hop] at h
      cases h1 : call (g + 1) (lexer.scanToken 1) with
      | outOfFuel => simp [h1] at h
      | throw e => simp [h1] at h
      | ok a =>
        obtain ⟨hcons, hrule⟩ := hcall _ _ a.1 a.2 h1
        simp only [h1] at h
        obtain ⟨hadv, hr⟩ := ih _ _ _ _ h
        exact ⟨(((Consumed.scan (findOp_token hop).1 (findOp_token hop).2).then_cons
          hcons).trans_adv hadv).advanced,
          fun hA => hr (by simp [ASTNode.receiverRule, hA, hrule])⟩

theorem parseBinLeft_good {call : Nat → Lexer → Result (ASTNode × Lexer)}
    (hcall : CallGood call) (g fuel : Nat) (lexer : Lexer) :
    GoodExpr lexer (parseBinLeft call g fuel lexer) := by
  intro node lexer' h
  simp only [parseBinLeft] at h
  cases h1 : call (g + 1) lexer with
  | outOfFuel => simp [h1] at h
  | throw e => simp [h1] at h
  | ok a =>
    obtain ⟨hcons, hrule⟩ := hcall _ _ a.1 a.2 h1
    simp only [h1] at h
    obtain ⟨hadv, hr⟩ := parseBinLeft_loop_good hcall g _ _ _ _ _ h
    exact ⟨hcons.trans_adv hadv, hr hrule⟩

theorem parseBinRight_good {call : Nat → Lexer → Result (ASTNode × Lexer)}
    (hcall : CallGood call) (g : Nat) (lexer : Lexer) :
    GoodExpr lexer (parseBinRight call g lexer) := by
  intro node lexer' h
  simp only [parseBinRight] at h
  cases h1 : call (g + 1) lexer with
  | outOfFuel => simp [h1] at h
  | throw e => simp [h1] at h
  | ok a =>
    obtain ⟨hcons, hrule⟩ := hcall _ _ a.1 a.2 h1
    simp only [h1] at h
    cases hop : findOp g a.2.getCurrToken.type with
    | none =>
      simp only [hop, Result.ok.injEq, Prod.mk.injEq] at h
      obtain ⟨rfl, rfl⟩ := h
      exact ⟨hcons, hrule⟩
    | some op =>
      simp only [hop] at h
      cases h2 : call g (a.2.scanToken 1) with
      | outOfFuel => simp [h2] at h
      | throw e => simp [h2] at h
      | ok b =>
        obtain ⟨hcons2, hrule2⟩ := hcall _ _ b.1 b.2 h2
        simp only [h2, Result.ok.injEq, Prod.mk.injEq] at h
        obtain ⟨rfl, rfl⟩ := h
        exact ⟨(hcons.then_cons (Consumed.scan (findOp_token hop).1 (findOp_token hop).2)).then_cons
          hcons2, by simp [ASTNode.receiverRule, hrule, hrule2]⟩

theorem parseUnaryPostfix_loop_good (g : Nat) :
    ∀ (fuel : Nat) (node0 : ASTNode) (lexer : Lexer) (node : ASTNode) (lexer' : Lexer),
      parseUnaryPostfix.loop g fuel node0 lexer = .ok (node, lexer') →
      Advanced lexer lexer' ∧ (node0.receiverRule = true → node.receiverRule = true) := by
  intro fuel
  induction fuel with
  | zero => intro _ _ _ _ h; simp [parseUnaryPostfix.loop] at h
  | succ n ih =>
    intro node0 lexer node lexer' h
    simp only [parseUnaryPostfix.loop] at h
    cases hop : findOp g lexer.getCurrToken.type with
    | none =>
      simp only [hop, Result.ok.injEq, Prod.mk.injEq] at h
      obtain ⟨rfl, rfl⟩ := h
      exact ⟨Advanced.refl_adv _, id⟩
    | some op =>
      simp only [hop] at h
      obtain ⟨hadv, hr⟩ := ih _ _ _ _ h
      exact ⟨((Consumed.scan (findOp_token hop).1 (findOp_token hop).2).trans_adv
        hadv).advanced, fun h0 => hr (by simp [ASTNode.receiverRule, h0])⟩

theorem parseUnaryPostfix_good {call : Nat → Lexer → Result (ASTNode × Lexer)}
    (hcall : CallGood call) (g fuel : Nat) (lexer : Lexer) :
    GoodExpr lexer (parseUnaryPostfix call g fuel lexer) := by
  intro node lexer' h
  simp only [parseUnaryPostfix] at h
  cases h1 : call (g + 1) lexer with
  | outOfFuel => simp [h1] at h
  | throw e => simp [h1] at h
  | ok a =>
    obtain ⟨hcons, hrule⟩ := hcall _ _ a.1 a.2 h1
    simp only [h1] at h
    obtain ⟨hadv, hr⟩ := parseUnaryPostfix_loop_good g _ _ _ _ _ h
    exact ⟨hcons.trans_adv hadv, hr hrule⟩

theorem parseParenthAndDot_loop_good {call : Nat → Lexer → Result (ASTNode × Lexer)}
    (hcall : CallGood call) (g : Nat)
    (hg : ∀ t op, findOp g t = some op → op = .FUNCTION_CALL ∨ op = .SUBSCRIPT) :
    ∀ (fuel : Nat) (node0 : ASTNode) (lexer : Lexer) (node : ASTNode) (lexer' : Lexer),
      parseParenthAndDot.loop call g fuel node0 lexer = .ok (node, lexer') →
      Advanced lexer lexer' ∧ (node0.receiverRule = true → node.receiverRule = true) := by
  intro fuel
  induction fuel with
  | zero => intro _ _ _ _ h; simp [parseParenthAndDot.loop] at h
  | succ n ih =>
    intro node0 lexer node lexer' h
    simp only [parseParenthAndDot.loop] at h
    cases hop : findOp g lexer.getCurrToken.type with
    | none =>
      simp only [hop] at h
      split at h
      · rename_i hdot
        cases h1 : call (g + 1) (lexer.scanToken 1) with
        | outOfFuel => simp [h1] at h
        | throw e => simp [h1] at h
        | ok a =>
          obtain ⟨hcons, hrule⟩ := hcall _ _ a.1 a.2 h1
          simp only [h1] at h
          obtain ⟨hadv, hr⟩ := ih _ _ _ _ h
          exact ⟨(((Consumed.scan (by rw [hdot]; decide) (by rw [hdot]; decide)).then_cons
            hcons).trans_adv hadv).advanced,
            fun h0 => hr (by simp [ASTNode.receiverRule, h0, hrule])⟩
      · simp only [Result.ok.injEq, Prod.mk.injEq] at h
        obtain ⟨rfl, rfl⟩ := h
        exact ⟨Advanced.refl_adv _, id⟩
    | some op =>
      have hc := findOp_token hop
      have hopv : (decide (op = .FUNCTION_CALL) || decide (op = .SUBSCRIPT)) = true := by
        rcases hg _ _ hop with rfl | rfl <;> rfl
      simp only [hop] at h
      split at h
      · cases h1 : parseOperands call n lexer [] with
        | outOfFuel => simp [h1] at h
        | throw e => simp [h1] at h
        | ok a =>
          obtain ⟨hcons, hrule⟩ := parseOperands_good hcall _ _ _ a.1 a.2 hc.1 hc.2 h1
          simp only [h1] at h
          split at h
          · cases h
          · rename_i hclose
            simp only [ne_eq, Decidable.not_not] at hclose
            obtain ⟨hadv, hr⟩ := ih _ _ _ _ h
            have hcl := getOppositeType_ne lexer.getCurrToken
            exact ⟨((hcons.then_cons (Consumed.scan (by rw [hclose]; exact hcl.1)
              (by rw [hclose]; exact hcl.2))).trans_adv hadv).advanced,
              fun h0 => hr (by simp [ASTNode.receiverRule, h0, hrule rfl, hopv])⟩
      · rename_i hnext
        simp only [ne_eq, Decidable.not_not] at hnext
        obtain ⟨hadv, hr⟩ := ih _ _ _ _ h
        have hcl := getOppositeType_ne lexer.getCurrToken
        exact ⟨((Consumed.scan_two hc.1 hc.2 (by rw [hnext]; exact hcl.1)
          (by rw [hnext]; exact hcl.2)).trans_adv hadv).advanced,
          fun h0 => hr (by simp [ASTNode.receiverRule, h0, receiverRuleList, hopv])⟩

theorem parseParenthAndDot_good {call : Nat → Lexer → Result (ASTNode × Lexer)}
    (hcall : CallGood call) (g : Nat)
    (hg : ∀ t op, findOp g t = some op → op = .FUNCTION_CALL ∨ op = .SUBSCRIPT)
    (fuel : Nat) (lexer : Lexer) :
    GoodExpr lexer (parseParenthAndDot call g fuel lexer) := by
  intro node lexer' h
  simp only [parseParenthAndDot] at h
  cases h1 : call (g + 1) lexer with
  | outOfFuel => simp [h1] at h
  | throw e => simp [h1] at h
  | ok a =>
    obtain ⟨hcons, hrule⟩ := hcall _ _ a.1 a.2 h1
    simp only [h1] at h
    obtain ⟨hadv, hr⟩ := parseParenthAndDot_loop_good hcall g hg _ _ _ _ _ h
    exact ⟨hcons.trans_adv hadv, hr hrule⟩

/-- Only the group of the call and the subscript is parsed by `parseParenthAndDot`. -/
theorem parserFuncAt_parenthAndDot {g : Nat}
    (h : parserFuncAt g = some .parseParenthAndDot) :
    ∀ t op, findOp g t = some op → op = .FUNCTION_CALL ∨ op = .SUBSCRIPT := by
  have hg : g = 10 := by
    by_cases hlt : g < 15
    · interval_cases g <;> first | rfl | (revert h; decide)
    · have hnone : precedenceTab.get? g = none := by
        apply List.get?_eq_none.mpr
        simp only [precedenceTab, List.length_cons, List.length_nil]
        omega
      rw [parserFuncAt, hnone] at h
      cases h
  subst hg
  intro t op hop
  have : findOp 10 t = (if t = .L_SQ_BRACKET then some .SUBSCRIPT
      else if t = .L_PAREN then some .FUNCTION_CALL else none) := by
    cases t <;> rfl
  rw [this] at hop
  split at hop
  · injection hop with hop; exact .inr hop.symm
  · split at hop
    · injection hop with hop; exact .inl hop.symm
    · cases hop

/-- Every successful call through the table moves the cursor forwards by at least one
token, over no COMMENT and no end-of-file token, and returns a tree that obeys the rule on
receivers. -/
theorem callParserFunc_good : ∀ fuel : Nat, CallGood (callParserFunc fuel) := by
  intro fuel
  induction fuel with
  | zero => intro g lexer node lexer' h; simp [callParserFunc] at h
  | succ n ih =>
    intro g lexer
    rw [callParserFunc]
    cases hp : parserFuncAt g with
    | none => intro node lexer' h; simp at h
    | some f =>
      cases f with
      | parseBinLeft => exact parseBinLeft_good ih g n lexer
      | parseBinRight => exact parseBinRight_good ih g lexer
      | parseUnary => exact parseUnary_good ih g n lexer
      | parseUnaryPostfix => exact parseUnaryPostfix_good ih g n lexer
      | parseParenthAndDot =>
        exact parseParenthAndDot_good ih g (parserFuncAt_parenthAndDot hp) n lexer
      | parsePrimary => exact parsePrimary_good ih n lexer

theorem skipTabs_go_scanned (n : Nat) : ∀ tokens : List Token,
    Scanned ⟨tokens, n⟩ ⟨skipTabs.go tokens, n⟩ (tokens.take (leadingTabs tokens)) := by
  intro tokens
  induction tokens with
  | nil => exact ⟨rfl, rfl, fun _ h => absurd h (List.not_mem_nil _)⟩
  | cons t ts ih =>
    by_cases ht : t.type = .TAB
    · obtain ⟨h1, _, h3⟩ := ih
      simp only [skipTabs.go, leadingTabs, ht, if_true, List.take_succ_cons]
      refine ⟨by simpa using h1, rfl, ?_⟩
      intro x hx
      rcases List.mem_cons.mp hx with rfl | hx
      · rw [ht]; exact ⟨by decide, by decide⟩
      · exact h3 x hx
    · simp only [skipTabs.go, leadingTabs, ht, if_false, List.take_zero]
      exact ⟨rfl, rfl, fun _ h => absurd h (List.not_mem_nil _)⟩

theorem skipTabs_advanced (lexer : Lexer) : Advanced lexer (skipTabs lexer) :=
  ⟨_, skipTabs_go_scanned lexer.inputLength lexer.tokenList⟩

theorem checkNewLine_good {lexer lexer' : Lexer} (h : checkNewLine lexer = .ok lexer') :
    Consumed lexer lexer' := by
  simp only [checkNewLine] at h
  split at h
  · cases h
  · rename_i hnl
    simp only [ne_eq, Decidable.not_not] at hnl
    simp only [Result.ok.injEq] at h
    subst h
    exact Consumed.scan (by rw [hnl]; decide) (by rw [hnl]; decide)

theorem receiverRuleStatements_append (a b : List Statement) :
    receiverRuleStatements (a ++ b) = (receiverRuleStatements a && receiverRuleStatements b) := by
  induction a with
  | nil => simp [receiverRuleStatements]
  | cons x xs ih => simp [receiverRuleStatements, ih, Bool.and_assoc]

theorem receiverRuleCases_append (a b : List (ASTNode × CodeBlock)) :
    receiverRuleCases (a ++ b) = (receiverRuleCases a && receiverRuleCases b) := by
  induction a with
  | nil => simp [receiverRuleCases]
  | cons x xs ih =>
    obtain ⟨c, blk⟩ := x
    simp [receiverRuleCases, ih, Bool.and_assoc]

theorem parseReturn_good {call : Nat → Lexer → Result (ASTNode × Lexer)}
    (hcall : CallGood call) (parser : Parser)
    (hkw : parser.lexer.getCurrToken.type = .RETURN_TOK) :
    GoodStatement parser (parseReturn call parser) := by
  intro s parser' h
  simp only [parseReturn] at h
  cases h1 : call 0 (parser.lexer.scanToken 1) with
  | outOfFuel => simp [h1] at h
  | throw e => simp [h1] at h
  | ok r =>
    obtain ⟨hcons, hrule⟩ := hcall _ _ r.1 r.2 h1
    simp only [h1] at h
    cases h2 : checkNewLine r.2 with
    | outOfFuel => simp [h2] at h
    | throw e => simp [h2] at h
    | ok l =>
      simp only [h2, Result.ok.injEq, Prod.mk.injEq] at h
      obtain ⟨rfl, rfl⟩ := h
      exact ⟨((Consumed.scan (by rw [hkw]; decide) (by rw [hkw]; decide)).then_cons hcons).then_cons
        (checkNewLine_good h2), by simp [Statement.receiverRule, hrule]⟩

theorem parseExpr_good {call : Nat → Lexer → Result (ASTNode × Lexer)}
    (hcall : CallGood call) (parser : Parser) :
    GoodStatement parser (parseExpr call parser) := by
  intro s parser' h
  simp only [parseExpr] at h
  cases h1 : call 0 parser.lexer with
  | outOfFuel => simp [h1] at h
  | throw e => simp [h1] at h
  | ok r =>
    obtain ⟨hcons, hrule⟩ := hcall _ _ r.1 r.2 h1
    simp only [h1] at h
    cases h2 : checkNewLine r.2 with
    | outOfFuel => simp [h2] at h
    | throw e => simp [h2] at h
    | ok l =>
      simp only [h2, Result.ok.injEq, Prod.mk.injEq] at h
      obtain ⟨rfl, rfl⟩ := h
      exact ⟨hcons.then_cons (checkNewLine_good h2), by simp [Statement.receiverRule, hrule]⟩

theorem parseWhile_good {call : Nat → Lexer → Result (ASTNode × Lexer)}
    {block : Parser → Result (CodeBlock × Parser)}
    (hcall : CallGood call) (hblock : BlockGood block) (parser : Parser)
    (hkw : parser.lexer.getCurrToken.type = .WHILE) :
    GoodStatement parser (parseWhile call block parser) := by
  intro s parser' h
  simp only [parseWhile] at h
  cases h1 : call 0 (parser.lexer.scanToken 1) with
  | outOfFuel => simp [h1] at h
  | throw e => simp [h1] at h
  | ok r =>
    obtain ⟨hcons, hrule⟩ := hcall _ _ r.1 r.2 h1
    simp only [h1] at h
    cases h2 : checkNewLine r.2 with
    | outOfFuel => simp [h2] at h
    | throw e => simp [h2] at h
    | ok l =>
      simp only [h2] at h
      cases h3 : block { parser with lexer := l } with
      | outOfFuel => simp [h3] at h
      | throw e => simp [h3] at h
      | ok q =>
        obtain ⟨hadv, hbr⟩ := hblock _ q.1 q.2 h3
        simp only [h3, Result.ok.injEq, Prod.mk.injEq] at h
        obtain ⟨rfl, rfl⟩ := h
        exact ⟨(((Consumed.scan (by rw [hkw]; decide) (by rw [hkw]; decide)).then_cons hcons).then_cons
          (checkNewLine_good h2)).trans_adv hadv,
          by simp [Statement.receiverRule, hrule, hbr]⟩

theorem parseFor_good {call : Nat → Lexer → Result (ASTNode × Lexer)}
    {block : Parser → Result (CodeBlock × Parser)}
    (hcall : CallGood call) (hblock : BlockGood block) (parser : Parser)
    (hkw : parser.lexer.getCurrToken.type = .FOR) :
    GoodStatement parser (parseFor call block parser) := by
  intro s parser' h
  simp only [parseFor] at h
  split at h
  · cases h
  · rename_i hid
    simp only [ne_eq, Decidable.not_not] at hid
    split at h
    · rename_i hfrom
      cases h1 : call 0 (((parser.lexer.scanToken 1).scanToken 1).scanToken 1) with
      | outOfFuel => simp [h1] at h
      | throw e => simp [h1] at h
      | ok r =>
        obtain ⟨hcons, hrule⟩ := hcall _ _ r.1 r.2 h1
        simp only [h1] at h
        split at h
        · rename_i hto
          cases h2 : call 0 (r.2.scanToken 1) with
          | outOfFuel => simp [h2] at h
          | throw e => simp [h2] at h
          | ok r2 =>
            obtain ⟨hcons2, hrule2⟩ := hcall _ _ r2.1 r2.2 h2
            simp only [h2] at h
            cases h3 : checkNewLine r2.2 with
            | outOfFuel => simp [h3] at h
            | throw e => simp [h3] at h
            | ok l =>
              simp only [h3] at h
              cases h4 : block { parser with lexer := l } with
              | outOfFuel => simp [h4] at h
              | throw e => simp [h4] at h
              | ok q =>
                obtain ⟨hadv, hbr⟩ := hblock _ q.1 q.2 h4
                simp only [h4, Result.ok.injEq, Prod.mk.injEq] at h
                obtain ⟨rfl, rfl⟩ := h
                have s1 : Consumed parser.lexer (parser.lexer.scanToken 1) :=
                  Consumed.scan (by rw [hkw]; decide) (by rw [hkw]; decide)
                have s2 : Consumed (parser.lexer.scanToken 1)
                    ((parser.lexer.scanToken 1).scanToken 1) :=
                  Consumed.scan (by rw [hid]; decide) (by rw [hid]; decide)
                have s3 : Consumed ((parser.lexer.scanToken 1).scanToken 1)
                    (((parser.lexer.scanToken 1).scanToken 1).scanToken 1) :=
                  Consumed.scan (by rw [hfrom]; decide) (by rw [hfrom]; decide)
                have s4 : Consumed r.2 (r.2.scanToken 1) :=
                  Consumed.scan (by rw [hto]; decide) (by rw [hto]; decide)
                exact ⟨((((((s1.then_cons s2).then_cons s3).then_cons hcons).then_cons s4).then_cons hcons2).then_cons
                  (checkNewLine_good h3)).trans_adv hadv,
                  by simp [Statement.receiverRule, ASTNode.receiverRule, hrule, hrule2, hbr]⟩
        · cases h
    · cases h

theorem parseFunctionDef_params_good :
    ∀ (fuel : Nat) (lexer : Lexer) (acc ps : List ASTNode) (lexer' : Lexer),
      lexer.getCurrToken.type ≠ .COMMENT → lexer.getCurrToken.type ≠ .EOFILE →
      parseFunctionDef.params fuel lexer acc = .ok (ps, lexer') →
      Consumed lexer lexer' ∧ (receiverRuleList acc = true → receiverRuleList ps = true) := by
  intro fuel
  induction fuel with
  | zero => intro _ _ _ _ _ _ h; simp [parseFunctionDef.params] at h
  | succ n ih =>
    intro lexer acc ps lexer' hc1 hc2 h
    simp only [parseFunctionDef.params] at h
    split at h
    · cases h
    · rename_i hid
      simp only [ne_eq, Decidable.not_not] at hid
      have s1 : Consumed lexer (lexer.scanToken 1) := Consumed.scan hc1 hc2
      have s2 : Consumed (lexer.scanToken 1) ((lexer.scanToken 1).scanToken 1) :=
        Consumed.scan (by rw [hid]; decide) (by rw [hid]; decide)
      split at h
      · rename_i hcomma
        obtain ⟨h3, h4⟩ := ih _ _ _ _ (by rw [hcomma]; decide) (by rw [hcomma]; decide) h
        refine ⟨(s1.then_cons s2).then_cons h3, fun hacc => h4 ?_⟩
        rw [receiverRuleList_append, hacc]
        simp [receiverRuleList, ASTNode.receiverRule]
      · simp only [Result.ok.injEq, Prod.mk.injEq] at h
        obtain ⟨rfl, rfl⟩ := h
        refine ⟨s1.then_cons s2, fun hacc => ?_⟩
        rw [receiverRuleList_append, hacc]
        simp [receiverRuleList, ASTNode.receiverRule]

theorem parseFunctionDef_paramList_good {fuel : Nat} {lexer lexer' : Lexer}
    {ps : List ASTNode} (hopen : lexer.getCurrToken.type = .L_PAREN)
    (h : parseFunctionDef.paramList fuel lexer = .ok (ps, lexer')) :
    Consumed lexer lexer' ∧ receiverRuleList ps = true := by
  have hc1 : lexer.getCurrToken.type ≠ .COMMENT := by rw [hopen]; decide
  have hc2 : lexer.getCurrToken.type ≠ .EOFILE := by rw [hopen]; decide
  simp only [parseFunctionDef.paramList] at h
  split at h
  · obtain ⟨h1, h2⟩ := parseFunctionDef_params_good _ _ _ _ _ hc1 hc2 h
    exact ⟨h1, h2 rfl⟩
  · simp only [Result.ok.injEq, Prod.mk.injEq] at h
    obtain ⟨rfl, rfl⟩ := h
    exact ⟨Consumed.scan hc1 hc2, rfl⟩

theorem parseFunctionDef_good {block : Parser → Result (CodeBlock × Parser)}
    (hblock : BlockGood block) (fuel : Nat) (parser : Parser)
    (hkw : parser.lexer.getCurrToken.type = .FUNCTION_DEF) :
    GoodStatement parser (parseFunctionDef block fuel parser) := by
  intro s parser' h
  simp only [parseFunctionDef] at h
  split at h
  · cases h
  · rename_i hid
    simp only [ne_eq, Decidable.not_not] at hid
    split at h
    · cases h
    · rename_i hlp
      simp only [ne_eq, Decidable.not_not] at hlp
      cases h1 : parseFunctionDef.paramList fuel ((parser.lexer.scanToken 1).scanToken 1) with
      | outOfFuel => simp [h1] at h
      | throw e => simp [h1] at h
      | ok r =>
        obtain ⟨hcons, hrule⟩ := parseFunctionDef_paramList_good hlp h1
        simp only [h1] at h
        split at h
        · cases h
        · rename_i hrp
          simp only [ne_eq, Decidable.not_not] at hrp
          cases h3 : checkNewLine (r.2.scanToken 1) with
          | outOfFuel => simp [h3] at h
          | throw e => simp [h3] at h
          | ok l =>
            simp only [h3] at h
            cases h4 : block { parser with lexer := l } with
            | outOfFuel => simp [h4] at h
            | throw e => simp [h4] at h
            | ok q =>
              obtain ⟨hadv, hbr⟩ := hblock _ q.1 q.2 h4
              simp only [h4, Result.ok.injEq, Prod.mk.injEq] at h
              obtain ⟨rfl, rfl⟩ := h
              have s1 : Consumed parser.lexer (parser.lexer.scanToken 1) :=
                Consumed.scan (by rw [hkw]; decide) (by rw [hkw]; decide)
              have s2 : Consumed (parser.lexer.scanToken 1)
                  ((parser.lexer.scanToken 1).scanToken 1) :=
                Consumed.scan (by rw [hid]; decide) (by rw [hid]; decide)
              have s4 : Consumed r.2 (r.2.scanToken 1) :=
                Consumed.scan (by rw [hrp]; decide) (by rw [hrp]; decide)
              exact ⟨((((s1.then_cons s2).then_cons hcons).then_cons s4).then_cons
                (checkNewLine_good h3)).trans_adv hadv,
                by simp [Statement.receiverRule, ASTNode.receiverRule, hrule, hbr]⟩

theorem parseIf_condition_good {call : Nat → Lexer → Result (ASTNode × Lexer)}
    (hcall : CallGood call) {currToken : TokenType} {lexer lexer' : Lexer} {c : ASTNode}
    (h : parseIf.condition call currToken lexer = .ok (c, lexer')) :
    Advanced lexer lexer' ∧ c.receiverRule = true := by
  simp only [parseIf.condition] at h
  split at h
  · cases h1 : call 0 lexer with
    | outOfFuel => simp [h1] at h
    | throw e => simp [h1] at h
    | ok r =>
      obtain ⟨hcons, hrule⟩ := hcall _ _ r.1 r.2 h1
      simp only [h1] at h
      split at h
      · rename_i hthen
        simp only [Result.ok.injEq, Prod.mk.injEq] at h
        obtain ⟨rfl, rfl⟩ := h
        exact ⟨(hcons.then_cons (Consumed.scan (by rw [hthen]; decide)
          (by rw [hthen]; decide))).advanced, hrule⟩
      · cases h
  · simp only [Result.ok.injEq, Prod.mk.injEq] at h
    obtain ⟨rfl, rfl⟩ := h
    exact ⟨Advanced.refl_adv _, rfl⟩

theorem parseIf_loop_good {call : Nat → Lexer → Result (ASTNode × Lexer)}
    {block : Parser → Result (CodeBlock × Parser)}
    (hcall : CallGood call) (hblock : BlockGood block) (pos : Nat) :
    ∀ (fuel : Nat) (parser : Parser) (cases : List (ASTNode × CodeBlock)) (s : Statement)
      (parser' : Parser),
      parseIf.loop call block pos fuel parser cases = .ok (s, parser') →
      Advanced parser.lexer parser'.lexer ∧
      ((parser.lexer.getCurrToken.type = .IF ∨ parser.lexer.getCurrToken.type = .ELIF ∨
        parser.lexer.getCurrToken.type = .ELSE) → Consumed parser.lexer parser'.lexer) ∧
      (receiverRuleCases cases = true → s.receiverRule = true) := by
  intro fuel
  induction fuel with
  | zero => intro _ _ _ _ h; simp [parseIf.loop] at h
  | succ n ih =>
    intro parser cases s parser' h
    rw [parseIf.loop] at h
    simp only [] at h
    split at h
    · rename_i hhead
      have hc1 : parser.lexer.getCurrToken.type ≠ .COMMENT := by
        rcases hhead with h | h | h <;> rw [h] <;> decide
      have hc2 : parser.lexer.getCurrToken.type ≠ .EOFILE := by
        rcases hhead with h | h | h <;> rw [h] <;> decide
      have s1 : Consumed parser.lexer (parser.lexer.scanToken 1) := Consumed.scan hc1 hc2
      cases h1 : parseIf.condition call parser.lexer.getCurrToken.type
          (parser.lexer.scanToken 1) with
      | outOfFuel => simp [h1] at h
      | throw e => simp [h1] at h
      | ok r =>
        obtain ⟨hadv1, hrule⟩ := parseIf_condition_good hcall h1
        simp only [h1] at h
        cases h2 : checkNewLine r.2 with
        | outOfFuel => simp [h2] at h
        | throw e => simp [h2] at h
        | ok l =>
          simp only [h2] at h
          cases h3 : block { parser with lexer := l } with
          | outOfFuel => simp [h3] at h
          | throw e => simp [h3] at h
          | ok q =>
            obtain ⟨hadv, hbr⟩ := hblock _ q.1 q.2 h3
            have hhere : Consumed parser.lexer q.2.lexer :=
              ((s1.trans_adv hadv1).then_cons (checkNewLine_good h2)).trans_adv hadv
            have hcases : receiverRuleCases cases = true →
                receiverRuleCases (cases ++ [(r.1, q.1)]) = true := by
              intro hc
              rw [receiverRuleCases_append, hc]
              simp [receiverRuleCases, hrule, hbr]
            simp only [h3] at h
            split at h
            · simp only [Result.ok.injEq, Prod.mk.injEq] at h
              obtain ⟨rfl, rfl⟩ := h
              exact ⟨hhere.advanced, fun _ => hhere,
                fun hc => by simpa [Statement.receiverRule] using hcases hc⟩
            · cases h4 : lessTabs q.2 with
              | outOfFuel => simp [h4] at h
              | throw e => simp [h4] at h
              | ok t =>
                obtain ⟨flag, nTabs⟩ := t
                cases flag with
                | true =>
                  simp only [h4, Result.ok.injEq, Prod.mk.injEq] at h
                  obtain ⟨rfl, rfl⟩ := h
                  exact ⟨hhere.advanced, fun _ => hhere,
                    fun hc => by simpa [Statement.receiverRule] using hcases hc⟩
                | false =>
                  simp only [h4] at h
                  split at h
                  · obtain ⟨ha, _, hr⟩ := ih _ _ _ _ h
                    have hall : Consumed parser.lexer parser'.lexer :=
                      (hhere.trans_adv (skipTabs_advanced _)).trans_adv ha
                    exact ⟨hall.advanced, fun _ => hall, fun hc => hr (hcases hc)⟩
                  · simp only [Result.ok.injEq, Prod.mk.injEq] at h
                    obtain ⟨rfl, rfl⟩ := h
                    exact ⟨hhere.advanced, fun _ => hhere,
                      fun hc => by simpa [Statement.receiverRule] using hcases hc⟩
    · rename_i hhead
      simp only [Result.ok.injEq, Prod.mk.injEq] at h
      obtain ⟨rfl, rfl⟩ := h
      exact ⟨Advanced.refl_adv _, fun hkw => absurd hkw hhead,
        fun hc => by simpa [Statement.receiverRule] using hc⟩

theorem parseStatement_good {call : Nat → Lexer → Result (ASTNode × Lexer)}
    {block : Parser → Result (CodeBlock × Parser)}
    (hcall : CallGood call) (hblock : BlockGood block) (fuel : Nat) (parser : Parser) :
    GoodStatement parser (parseStatement call block fuel parser) := by
  intro s parser' h
  simp only [parseStatement] at h
  split at h
  case h_1 heq => exact parseWhile_good hcall hblock parser heq s parser' h
  case h_2 heq =>
    obtain ⟨_, h2, h3⟩ := parseIf_loop_good hcall hblock _ _ _ _ _ _ h
    exact ⟨h2 (.inl heq), h3 rfl⟩
  case h_3 heq => exact parseFor_good hcall hblock parser heq s parser' h
  case h_4 heq => exact parseReturn_good hcall parser heq s parser' h
  case h_5 heq => exact parseFunctionDef_good hblock fuel parser heq s parser' h
  case h_6 => exact parseExpr_good hcall parser s parser' h

theorem parseBlock_loop_good {call : Nat → Lexer → Result (ASTNode × Lexer)}
    {block : Parser → Result (CodeBlock × Parser)}
    (hcall : CallGood call) (hblock : BlockGood block) :
    ∀ (fuel : Nat) (parser : Parser) (currBlock b : CodeBlock) (parser' : Parser),
      parseBlock.loop call block fuel parser currBlock = .ok (b, parser') →
      Advanced parser.lexer parser'.lexer ∧
      (currBlock.receiverRule = true → b.receiverRule = true) := by
  intro fuel
  induction fuel with
  | zero => intro _ _ _ _ h; simp [parseBlock.loop] at h
  | succ n ih =>
    intro parser currBlock b parser' h
    simp only [parseBlock.loop] at h
    split at h
    · cases h4 : lessTabs parser with
      | outOfFuel => simp [h4] at h
      | throw e => simp [h4] at h
      | ok t =>
        obtain ⟨flag, nTabs⟩ := t
        cases flag with
        | true =>
          simp only [h4, Result.ok.injEq, Prod.mk.injEq] at h
          obtain ⟨rfl, rfl⟩ := h
          exact ⟨Advanced.refl_adv _, id⟩
        | false =>
          simp only [h4] at h
          cases h1 : parseStatement call block n
              { parser with lexer := skipTabs parser.lexer } with
          | outOfFuel => simp [h1] at h
          | throw e => simp [h1] at h
          | ok q =>
            obtain ⟨hcons, hrule⟩ := parseStatement_good hcall hblock n _ q.1 q.2 h1
            simp only [h1] at h
            obtain ⟨ha, hr⟩ := ih _ _ _ _ h
            refine ⟨((skipTabs_advanced _).then_adv hcons.advanced).then_adv ha, fun hc => hr ?_⟩
            cases currBlock with
            | mk statements =>
              simp only [CodeBlock.addStatement, CodeBlock.receiverRule] at hc ⊢
              rw [receiverRuleStatements_append, hc]
              simp [receiverRuleStatements, hrule]
    · simp only [Result.ok.injEq, Prod.mk.injEq] at h
      obtain ⟨rfl, rfl⟩ := h
      exact ⟨Advanced.refl_adv _, id⟩

/-- Every successful block parse leaves the cursor where it was or further on, and returns a
block in which every tree obeys the rule on receivers. -/
theorem parseBlock_good : ∀ fuel : Nat, BlockGood (parseBlock fuel) := by
  intro fuel
  induction fuel with
  | zero => intro _ _ _ h; simp [parseBlock] at h
  | succ n ih =>
    intro parser b parser' h
    rw [parseBlock] at h
    cases h1 : parseBlock.loop (callParserFunc n) (parseBlock n) n
        { parser with blockLevel := parser.blockLevel + 1 } (.mk []) with
    | outOfFuel => simp [h1] at h
    | throw e => simp [h1] at h
    | ok q =>
      obtain ⟨ha, hr⟩ := parseBlock_loop_good (callParserFunc_good n) ih _ _ _ _ _ h1
      simp only [h1, Result.ok.injEq, Prod.mk.injEq] at h
      obtain ⟨rfl, rfl⟩ := h
      exact ⟨ha, hr rfl⟩

/-! ## Termination -/

theorem remaining_scanToken {lexer : Lexer} (h : lexer.getCurrToken.type ≠ .EOFILE) :
    (lexer.scanToken 1).remaining + 1 = lexer.remaining := by
  have := tokenList_of_type h
  simp only [Lexer.remaining]
  rw [this]
  simp

theorem remaining_scanToken_le (lexer : Lexer) (k : Nat) :
    (lexer.scanToken k).remaining ≤ lexer.remaining := by
  simp [Lexer.remaining, Lexer.scanToken]

theorem findOp_eofile {g : Nat} {lexer : Lexer} {op : OperatorType}
    (h : findOp g lexer.getCurrToken.type = some op) : lexer.getCurrToken.type ≠ .EOFILE :=
  (findOp_token h).2

theorem stoi_total (lexeme : String) : stoi lexeme ≠ .outOfFuel := by
  unfold stoi
  simp only []
  split
  · exact fun h => by cases h
  · repeat' split
    all_goals exact fun h => by cases h

theorem stof_total (lexeme : String) : stof lexeme ≠ .outOfFuel := by
  unfold stof
  simp only []
  split
  · exact fun h => by cases h
  · split
    · split <;> exact fun h => by cases h
    · split
      · exact fun h => by cases h
      · split <;> exact fun h => by cases h

theorem parseOperands_total {call : Nat → Lexer → Result (ASTNode × Lexer)}
    (hcall : CallGood call) {N : Nat} (htot : TotalBelow call N) :
    ∀ (fuel : Nat) (lexer : Lexer) (acc : List ASTNode),
      lexer.remaining ≤ N → lexer.getCurrToken.type ≠ .EOFILE → lexer.remaining ≤ fuel →
      parseOperands call fuel lexer acc ≠ .outOfFuel := by
  intro fuel
  induction fuel with
  | zero =>
    intro lexer acc _ hne hf
    have := remaining_scanToken hne
    omega
  | succ n ih =>
    intro lexer acc hN hne hf
    have hrem := remaining_scanToken hne
    simp only [parseOperands]
    cases h1 : call (COMMA_PRECEDENCE + 1) (lexer.scanToken 1) with
    | outOfFuel =>
      exact absurd h1 (htot _ _ (by decide) (by omega))
    | throw e => simp
    | ok a =>
      have hlt := (hcall _ _ a.1 a.2 h1).1.remaining_lt
      simp only []
      split
      · rename_i hcomma
        exact ih _ _ (by omega) (by rw [hcomma]; decide) (by omega)
      · simp

theorem listParser_total {call : Nat → Lexer → Result (ASTNode × Lexer)}
    (hcall : CallGood call) {fuel : Nat} {lexer : Lexer}
    (htot : TotalBelow call lexer.remaining)
    (hopen : lexer.getCurrToken.type = .L_SQ_BRACKET) (hf : lexer.remaining ≤ fuel) :
    listParser call fuel lexer ≠ .outOfFuel := by
  simp only [listParser]
  split
  · cases h1 : parseOperands call fuel lexer [] with
    | outOfFuel =>
      exact absurd h1 (parseOperands_total hcall htot _ _ _ (Nat.le_refl _)
        (by rw [hopen]; decide) hf)
    | throw e => simp
    | ok a =>
      simp only []
      split <;> simp
  · simp

theorem parsePrimary_total {call : Nat → Lexer → Result (ASTNode × Lexer)}
    (hcall : CallGood call) {fuel : Nat} {lexer : Lexer}
    (htot : TotalBelow call lexer.remaining) (hf : lexer.remaining ≤ fuel) :
    parsePrimary call fuel lexer ≠ .outOfFuel := by
  simp only [parsePrimary]
  split
  case h_3 =>
    cases h1 : stoi lexer.getCurrToken.lexeme with
    | outOfFuel => exact absurd h1 (stoi_total _)
    | throw e => simp
    | ok a => simp
  case h_4 =>
    cases h1 : stof lexer.getCurrToken.lexeme with
    | outOfFuel => exact absurd h1 (stof_total _)
    | throw e => simp
    | ok a => simp
  case h_7 heq =>
    have hrem := @remaining_scanToken lexer (by rw [heq]; decide)
    cases h1 : call 0 (lexer.scanToken 1) with
    | outOfFuel => exact absurd h1 (htot _ _ (by decide) (by omega))
    | throw e => simp
    | ok a =>
      simp only []
      split <;> simp
  case h_8 heq =>
    cases h1 : listParser call fuel lexer with
    | outOfFuel => exact absurd h1 (listParser_total hcall htot heq hf)
    | throw e => simp
    | ok a => simp
  all_goals simp

theorem parseUnary_total {call : Nat → Lexer → Result (ASTNode × Lexer)} {g N : Nat}
    (hnext : ∀ lexer : Lexer, lexer.remaining ≤ N → call (g + 1) lexer ≠ .outOfFuel) :
    ∀ (fuel : Nat) (lexer : Lexer), lexer.remaining ≤ N → lexer.remaining + 1 ≤ fuel →
      parseUnary call g fuel lexer ≠ .outOfFuel := by
  intro fuel
  induction fuel with
  | zero => intro lexer _ hf; omega
  | succ n ih =>
    intro lexer hN hf
    simp only [parseUnary]
    cases hop : findOp g lexer.getCurrToken.type with
    | none => exact hnext _ hN
    | some op =>
      have hrem := remaining_scanToken (findOp_eofile hop)
      simp only []
      cases h1 : parseUnary call g n (lexer.scanToken 1) with
      | outOfFuel => exact absurd h1 (ih _ (by omega) (by omega))
      | throw e => simp
      | ok a => simp

theorem parseBinLeft_loop_total {call : Nat → Lexer → Result (ASTNode × Lexer)}
    (hcall : CallGood call) {g N : Nat} (hg : g + 1 ≤ 11) (htot : TotalBelow call N) :
    ∀ (fuel : Nat) (nodeA : ASTNode) (lexer : Lexer),
      lexer.remaining ≤ N → lexer.remaining + 1 ≤ fuel →
      parseBinLeft.loop call g fuel nodeA lexer ≠ .outOfFuel := by
  intro fuel
  induction fuel with
  | zero => intro _ lexer _ hf; omega
  | succ n ih =>
    intro nodeA lexer hN hf
    simp only [parseBinLeft.loop]
    cases hop : findOp g lexer.getCurrToken.type with
    | none => simp
    | some op =>
      have hrem := remaining_scanToken (findOp_eofile hop)
      simp only []
      cases h1 : call (g + 1) (lexer.scanToken 1) with
      | outOfFuel => exact absurd h1 (htot _ _ hg (by omega))
      | throw e => simp
      | ok a =>
        have hlt := (hcall _ _ a.1 a.2 h1).1.remaining_lt
        exact ih _ _ (by omega) (by omega)

theorem parseBinLeft_total {call : Nat → Lexer → Result (ASTNode × Lexer)}
    (hcall : CallGood call) {g fuel : Nat} {lexer : Lexer} (hg : g + 1 ≤ 11)
    (hnext : call (g + 1) lexer ≠ .outOfFuel) (htot : TotalBelow call lexer.remaining)
    (hf : lexer.remaining ≤ fuel) :
    parseBinLeft call g fuel lexer ≠ .outOfFuel := by
  simp only [parseBinLeft]
  cases h1 : call (g + 1) lexer with
  | outOfFuel => exact absurd h1 hnext
  | throw e => simp
  | ok a =>
    have hlt := (hcall _ _ a.1 a.2 h1).1.remaining_lt
    exact parseBinLeft_loop_total hcall hg htot _ _ _ (by omega) (by omega)

theorem parseBinRight_total {call : Nat → Lexer → Result (ASTNode × Lexer)}
    (hcall : CallGood call) {g : Nat} {lexer : Lexer} (hg : g ≤ 11)
    (hnext : call (g + 1) lexer ≠ .outOfFuel) (htot : TotalBelow call lexer.remaining) :
    parseBinRight call g lexer ≠ .outOfFuel := by
  simp only [parseBinRight]
  cases h1 : call (g + 1) lexer with
  | outOfFuel => exact absurd h1 hnext
  | throw e => simp
  | ok a =>
    have hlt := (hcall _ _ a.1 a.2 h1).1.remaining_lt
    simp only []
    cases hop : findOp g a.2.getCurrToken.type with
    | none => simp
    | some op =>
      have hrem := remaining_scanToken (findOp_eofile hop)
      simp only []
      cases h2 : call g (a.2.scanToken 1) with
      | outOfFuel => exact absurd h2 (htot _ _ hg (by omega))
      | throw e => simp
      | ok b => simp

theorem parseUnaryPostfix_loop_total {g : Nat} :
    ∀ (fuel : Nat) (node : ASTNode) (lexer : Lexer), lexer.remaining + 1 ≤ fuel →
      parseUnaryPostfix.loop g fuel node lexer ≠ .outOfFuel := by
  intro fuel
  induction fuel with
  | zero => intro _ lexer hf; omega
  | succ n ih =>
    intro node lexer hf
    simp only [parseUnaryPostfix.loop]
    cases hop : findOp g lexer.getCurrToken.type with
    | none => simp
    | some op =>
      have hrem := remaining_scanToken (findOp_eofile hop)
      exact ih _ _ (by omega)

theorem parseUnaryPostfix_total {call : Nat → Lexer → Result (ASTNode × Lexer)}
    (hcall : CallGood call) {g fuel : Nat} {lexer : Lexer}
    (hnext : call (g + 1) lexer ≠ .outOfFuel) (hf : lexer.remaining ≤ fuel) :
    parseUnaryPostfix call g fuel lexer ≠ .outOfFuel := by
  simp only [parseUnaryPostfix]
  cases h1 : call (g + 1) lexer with
  | outOfFuel => exact absurd h1 hnext
  | throw e => simp
  | ok a =>
    have hlt := (hcall _ _ a.1 a.2 h1).1.remaining_lt
    exact parseUnaryPostfix_loop_total _ _ _ (by omega)

theorem parseParenthAndDot_loop_total {call : Nat → Lexer → Result (ASTNode × Lexer)}
    (hcall : CallGood call) {g N : Nat} (hg : g + 1 ≤ 11) (htot : TotalBelow call N) :
    ∀ (fuel : Nat) (node : ASTNode) (lexer : Lexer),
      lexer.remaining ≤ N → lexer.remaining + 1 ≤ fuel →
      parseParenthAndDot.loop call g fuel node lexer ≠ .outOfFuel := by
  intro fuel
  induction fuel with
  | zero => intro _ lexer _ hf; omega
  | succ n ih =>
    intro node lexer hN hf
    simp only [parseParenthAndDot.loop]
    cases hop : findOp g lexer.getCurrToken.type with
    | none =>
      simp only []
      split
      · rename_i hdot
        have hrem := @remaining_scanToken lexer (by rw [hdot]; decide)
        cases h1 : call (g + 1) (lexer.scanToken 1) with
        | outOfFuel => exact absurd h1 (htot _ _ hg (by omega))
        | throw e => simp
        | ok a =>
          have hlt := (hcall _ _ a.1 a.2 h1).1.remaining_lt
          exact ih _ _ (by omega) (by omega)
      · simp
    | some op =>
      have hc := findOp_token hop
      have hrem := remaining_scanToken hc.2
      simp only []
      split
      · cases h1 : parseOperands call n lexer [] with
        | outOfFuel =>
          exact absurd h1 (parseOperands_total hcall htot _ _ _ hN hc.2 (by omega))
        | throw e => simp
        | ok a =>
          have hlt := (parseOperands_good hcall _ _ _ a.1 a.2 hc.1 hc.2 h1).1.remaining_lt
          simp only []
          split
          · simp
          · have := remaining_scanToken_le a.2 1
            exact ih _ _ (by omega) (by omega)
      · have := remaining_scanToken_le lexer 2
        have h2 : (lexer.scanToken 2).remaining + 1 ≤ lexer.remaining := by
          have h3 := remaining_scanToken_le (lexer.scanToken 1) 1
          have e : (lexer.scanToken 1).scanToken 1 = lexer.scanToken 2 :=
            scanToken_scanToken _ _ _
          rw [e] at h3
          omega
        exact ih _ _ (by omega) (by omega)

theorem parseParenthAndDot_total {call : Nat → Lexer → Result (ASTNode × Lexer)}
    (hcall : CallGood call) {g fuel : Nat} {lexer : Lexer} (hg : g + 1 ≤ 11)
    (hnext : call (g + 1) lexer ≠ .outOfFuel) (htot : TotalBelow call lexer.remaining)
    (hf : lexer.remaining ≤ fuel) :
    parseParenthAndDot call g fuel lexer ≠ .outOfFuel := by
  simp only [parseParenthAndDot]
  cases h1 : call (g + 1) lexer with
  | outOfFuel => exact absurd h1 hnext
  | throw e => simp
  | ok a =>
    have hlt := (hcall _ _ a.1 a.2 h1).1.remaining_lt
    exact parseParenthAndDot_loop_total hcall hg htot _ _ _ (by omega) (by omega)

/-- With fuel of at least thirteen times the number of remaining tokens plus twelve, a call
through the table at any group returns a tree or throws. -/
theorem callParserFunc_total : ∀ (fuel g : Nat) (lexer : Lexer), g ≤ 11 →
    13 * lexer.remaining + (12 - g) ≤ fuel → callParserFunc fuel g lexer ≠ .outOfFuel := by
  intro fuel
  induction fuel with
  | zero => intro g lexer hg hf; omega
  | succ n ih =>
    intro g lexer hg hf
    have hgood := callParserFunc_good n
    have htot : TotalBelow (callParserFunc n) lexer.remaining :=
      fun g' lexer' hg' hlt => ih g' lexer' hg' (by omega)
    rw [callParserFunc]
    rcases Nat.lt_or_ge g 11 with hlt | hge
    · have hnext : ∀ lexer' : Lexer, lexer'.remaining ≤ lexer.remaining →
          callParserFunc n (g + 1) lexer' ≠ .outOfFuel :=
        fun lexer' hle => ih (g + 1) lexer' (by omega) (by omega)
      cases hp : parserFuncAt g with
      | none => simp
      | some f =>
        cases f with
        | parseBinLeft =>
          exact parseBinLeft_total hgood (by omega) (hnext _ (Nat.le_refl _)) htot (by omega)
        | parseBinRight =>
          exact parseBinRight_total hgood hg (hnext _ (Nat.le_refl _)) htot
        | parseUnary => exact parseUnary_total hnext _ _ (Nat.le_refl _) (by omega)
        | parseUnaryPostfix =>
          exact parseUnaryPostfix_total hgood (hnext _ (Nat.le_refl _)) (by omega)
        | parseParenthAndDot =>
          exact parseParenthAndDot_total hgood (by omega) (hnext _ (Nat.le_refl _)) htot
            (by omega)
        | parsePrimary => exact parsePrimary_total hgood htot (by omega)
    · have h11 : g = 11 := by omega
      subst h11
      have hp : parserFuncAt 11 = some .parsePrimary := rfl
      simp only [hp]
      exact parsePrimary_total hgood htot (by omega)

theorem checkNewLine_total (lexer : Lexer) : checkNewLine lexer ≠ .outOfFuel := by
  simp only [checkNewLine]
  split <;> exact fun h => by cases h

theorem lessTabs_total (parser : Parser) : lessTabs parser ≠ .outOfFuel := by
  simp only [lessTabs]
  split
  · exact fun h => by cases h
  · split <;> exact fun h => by cases h

theorem remaining_skipTabs_le (lexer : Lexer) : (skipTabs lexer).remaining ≤ lexer.remaining :=
  (skipTabs_advanced lexer).remaining_le

theorem parseReturn_total {call : Nat → Lexer → Result (ASTNode × Lexer)} {parser : Parser}
    (htot : TotalBelow call (parser.lexer.remaining + 1)) :
    parseReturn call parser ≠ .outOfFuel := by
  simp only [parseReturn]
  have := remaining_scanToken_le parser.lexer 1
  cases h1 : call 0 (parser.lexer.scanToken 1) with
  | outOfFuel => exact absurd h1 (htot _ _ (by decide) (by omega))
  | throw e => simp
  | ok r =>
    simp only []
    cases h2 : checkNewLine r.2 with
    | outOfFuel => exact absurd h2 (checkNewLine_total _)
    | throw e => simp
    | ok l => simp

theorem parseExpr_total {call : Nat → Lexer → Result (ASTNode × Lexer)} {parser : Parser}
    (htot : TotalBelow call (parser.lexer.remaining + 1)) :
    parseExpr call parser ≠ .outOfFuel := by
  simp only [parseExpr]
  cases h1 : call 0 parser.lexer with
  | outOfFuel => exact absurd h1 (htot _ _ (by decide) (by omega))
  | throw e => simp
  | ok r =>
    simp only []
    cases h2 : checkNewLine r.2 with
    | outOfFuel => exact absurd h2 (checkNewLine_total _)
    | throw e => simp
    | ok l => simp

theorem parseWhile_total {call : Nat → Lexer → Result (ASTNode × Lexer)}
    {block : Parser → Result (CodeBlock × Parser)} {parser : Parser}
    (hcall : CallGood call) (htot : TotalBelow call (parser.lexer.remaining + 1))
    (hbtot : BlockTotalBelow block parser.lexer.remaining) :
    parseWhile call block parser ≠ .outOfFuel := by
  simp only [parseWhile]
  have := remaining_scanToken_le parser.lexer 1
  cases h1 : call 0 (parser.lexer.scanToken 1) with
  | outOfFuel => exact absurd h1 (htot _ _ (by decide) (by omega))
  | throw e => simp
  | ok r =>
    have hlt := (hcall _ _ r.1 r.2 h1).1.remaining_lt
    simp only []
    cases h2 : checkNewLine r.2 with
    | outOfFuel => exact absurd h2 (checkNewLine_total _)
    | throw e => simp
    | ok l =>
      have hlt2 := (checkNewLine_good h2).remaining_lt
      simp only []
      cases h3 : block { parser with lexer := l } with
      | outOfFuel => exact absurd h3 (hbtot _ (by simp only []; omega))
      | throw e => simp
      | ok q => simp

theorem parseFor_total {call : Nat → Lexer → Result (ASTNode × Lexer)}
    {block : Parser → Result (CodeBlock × Parser)} {parser : Parser}
    (hcall : CallGood call) (htot : TotalBelow call (parser.lexer.remaining + 1))
    (hbtot : BlockTotalBelow block parser.lexer.remaining) :
    parseFor call block parser ≠ .outOfFuel := by
  simp only [parseFor]
  have e1 := remaining_scanToken_le parser.lexer 1
  have e2 := remaining_scanToken_le (parser.lexer.scanToken 1) 1
  have e3 := remaining_scanToken_le ((parser.lexer.scanToken 1).scanToken 1) 1
  split
  · exact fun h => by cases h
  · split
    · cases h1 : call 0 (((parser.lexer.scanToken 1).scanToken 1).scanToken 1) with
      | outOfFuel => exact absurd h1 (htot _ _ (by decide) (by omega))
      | throw e => simp
      | ok r =>
        have hlt := (hcall _ _ r.1 r.2 h1).1.remaining_lt
        simp only []
        split
        · have e4 := remaining_scanToken_le r.2 1
          cases h2 : call 0 (r.2.scanToken 1) with
          | outOfFuel => exact absurd h2 (htot _ _ (by decide) (by omega))
          | throw e => simp
          | ok r2 =>
            have hlt2 := (hcall _ _ r2.1 r2.2 h2).1.remaining_lt
            simp only []
            cases h3 : checkNewLine r2.2 with
            | outOfFuel => exact absurd h3 (checkNewLine_total _)
            | throw e => simp
            | ok l =>
              have hlt3 := (checkNewLine_good h3).remaining_lt
              simp only []
              cases h4 : block { parser with lexer := l } with
              | outOfFuel => exact absurd h4 (hbtot _ (by simp only []; omega))
              | throw e => simp
              | ok q => simp
        · exact fun h => by cases h
    · exact fun h => by cases h

theorem parseFunctionDef_params_total :
    ∀ (fuel : Nat) (lexer : Lexer) (acc : List ASTNode),
      lexer.getCurrToken.type ≠ .EOFILE → lexer.remaining ≤ fuel →
      parseFunctionDef.params fuel lexer acc ≠ .outOfFuel := by
  intro fuel
  induction fuel with
  | zero =>
    intro lexer acc hne hf
    have := remaining_scanToken hne
    omega
  | succ n ih =>
    intro lexer acc hne hf
    have hrem := remaining_scanToken hne
    simp only [parseFunctionDef.params]
    split
    · exact fun h => by cases h
    · rename_i hid
      simp only [ne_eq, Decidable.not_not] at hid
      have hrem2 := @remaining_scanToken (lexer.scanToken 1) (by rw [hid]; decide)
      split
      · rename_i hcomma
        exact ih _ _ (by rw [hcomma]; decide) (by omega)
      · exact fun h => by cases h

theorem parseFunctionDef_total {block : Parser → Result (CodeBlock × Parser)}
    {fuel : Nat} {parser : Parser}
    (hbtot : BlockTotalBelow block parser.lexer.remaining)
    (hkw : parser.lexer.getCurrToken.type = .FUNCTION_DEF)
    (hf : parser.lexer.remaining ≤ fuel) :
    parseFunctionDef block fuel parser ≠ .outOfFuel := by
  simp only [parseFunctionDef]
  have e1 := @remaining_scanToken parser.lexer (by rw [hkw]; decide)
  have e2 := remaining_scanToken_le (parser.lexer.scanToken 1) 1
  split
  · exact fun h => by cases h
  · split
    · exact fun h => by cases h
    · rename_i hlp
      simp only [ne_eq, Decidable.not_not] at hlp
      cases h1 : parseFunctionDef.paramList fuel ((parser.lexer.scanToken 1).scanToken 1) with
      | outOfFuel =>
        exfalso
        simp only [parseFunctionDef.paramList] at h1
        split at h1
        · exact parseFunctionDef_params_total _ _ _ (by rw [hlp]; decide) (by omega) h1
        · cases h1
      | throw e => simp
      | ok r =>
        have hlt := (parseFunctionDef_paramList_good hlp h1).1.remaining_lt
        simp only []
        split
        · exact fun h => by cases h
        · have e4 := remaining_scanToken_le r.2 1
          cases h3 : checkNewLine (r.2.scanToken 1) with
          | outOfFuel => exact absurd h3 (checkNewLine_total _)
          | throw e => simp
          | ok l =>
            have hlt3 := (checkNewLine_good h3).remaining_lt
            simp only []
            cases h4 : block { parser with lexer := l } with
            | outOfFuel => exact absurd h4 (hbtot _ (by simp only []; omega))
            | throw e => simp
            | ok q => simp

theorem parseIf_condition_total {call : Nat → Lexer → Result (ASTNode × Lexer)}
    {currToken : TokenType} {lexer : Lexer} (htot : TotalBelow call (lexer.remaining + 1)) :
    parseIf.condition call currToken lexer ≠ .outOfFuel := by
  simp only [parseIf.condition]
  split
  · cases h1 : call 0 lexer with
    | outOfFuel => exact absurd h1 (htot _ _ (by decide) (by omega))
    | throw e => simp
    | ok r =>
      simp only []
      split <;> exact fun h => by cases h
  · exact fun h => by cases h

theorem parseIf_loop_total {call : Nat → Lexer → Result (ASTNode × Lexer)}
    {block : Parser → Result (CodeBlock × Parser)} {N : Nat}
    (hcall : CallGood call) (hblock : BlockGood block)
    (htot : TotalBelow call (N + 1)) (hbtot : BlockTotalBelow block N) (pos : Nat) :
    ∀ (fuel : Nat) (parser : Parser) (cases : List (ASTNode × CodeBlock)),
      parser.lexer.remaining ≤ N → parser.lexer.remaining + 1 ≤ fuel →
      parseIf.loop call block pos fuel parser cases ≠ .outOfFuel := by
  intro fuel
  induction fuel with
  | zero => intro parser _ _ hf; omega
  | succ n ih =>
    intro parser cases hN hf
    rw [parseIf.loop]
    simp only []
    split
    · rename_i hhead
      have hc2 : parser.lexer.getCurrToken.type ≠ .EOFILE := by
        rcases hhead with h | h | h <;> rw [h] <;> decide
      have hrem := remaining_scanToken hc2
      cases h1 : parseIf.condition call parser.lexer.getCurrToken.type
          (parser.lexer.scanToken 1) with
      | outOfFuel =>
        exact absurd h1 (parseIf_condition_total
          (fun g l hg hl => htot g l hg (by omega)))
      | throw e => simp
      | ok r =>
        have hle := (parseIf_condition_good hcall h1).1.remaining_le
        simp only []
        cases h2 : checkNewLine r.2 with
        | outOfFuel => exact absurd h2 (checkNewLine_total _)
        | throw e => simp
        | ok l =>
          have hlt2 := (checkNewLine_good h2).remaining_lt
          simp only []
          cases h3 : block { parser with lexer := l } with
          | outOfFuel => exact absurd h3 (hbtot _ (by simp only []; omega))
          | throw e => simp
          | ok q =>
            have hle3 := (hblock _ q.1 q.2 h3).1.remaining_le
            simp only [] at hle3
            simp only []
            split
            · exact fun h => by cases h
            · cases h4 : lessTabs q.2 with
              | outOfFuel => exact absurd h4 (lessTabs_total _)
              | throw e => simp
              | ok t =>
                obtain ⟨flag, nTabs⟩ := t
                cases flag with
                | true => simp
                | false =>
                  simp only []
                  split
                  · have := remaining_skipTabs_le q.2.lexer
                    exact ih _ _ (by simp only []; omega) (by simp only []; omega)
                  · exact fun h => by cases h
    · exact fun h => by cases h

theorem parseStatement_total {call : Nat → Lexer → Result (ASTNode × Lexer)}
    {block : Parser → Result (CodeBlock × Parser)} {fuel : Nat} {parser : Parser}
    (hcall : CallGood call) (hblock : BlockGood block)
    (htot : TotalBelow call (parser.lexer.remaining + 1))
    (hbtot : BlockTotalBelow block parser.lexer.remaining)
    (hf : parser.lexer.remaining + 1 ≤ fuel) :
    parseStatement call block fuel parser ≠ .outOfFuel := by
  simp only [parseStatement]
  split
  case h_1 => exact parseWhile_total hcall htot hbtot
  case h_2 =>
    exact parseIf_loop_total hcall hblock htot hbtot _ _ _ _ (Nat.le_refl _) hf
  case h_3 => exact parseFor_total hcall htot hbtot
  case h_4 => exact parseReturn_total htot
  case h_5 heq => exact parseFunctionDef_total hbtot heq (by omega)
  case h_6 => exact parseExpr_total htot

theorem parseBlock_loop_total {call : Nat → Lexer → Result (ASTNode × Lexer)}
    {block : Parser → Result (CodeBlock × Parser)} {N : Nat}
    (hcall : CallGood call) (hblock : BlockGood block)
    (htot : TotalBelow call (N + 1)) (hbtot : BlockTotalBelow block N) :
    ∀ (fuel : Nat) (parser : Parser) (currBlock : CodeBlock),
      parser.lexer.remaining ≤ N → parser.lexer.remaining + 2 ≤ fuel →
      parseBlock.loop call block fuel parser currBlock ≠ .outOfFuel := by
  intro fuel
  induction fuel with
  | zero => intro parser _ _ hf; omega
  | succ n ih =>
    intro parser currBlock hN hf
    simp only [parseBlock.loop]
    split
    · cases h4 : lessTabs parser with
      | outOfFuel => exact absurd h4 (lessTabs_total _)
      | throw e => simp
      | ok t =>
        obtain ⟨flag, nTabs⟩ := t
        cases flag with
        | true => simp
        | false =>
          have hle := remaining_skipTabs_le parser.lexer
          simp only []
          cases h1 : parseStatement call block n
              { parser with lexer := skipTabs parser.lexer } with
          | outOfFuel =>
            exact absurd h1 (parseStatement_total hcall hblock
              (fun g l hg hl => htot g l hg (by simp only [] at hl; omega))
              (fun p hp => hbtot p (by simp only [] at hp; omega))
              (by simp only []; omega))
          | throw e => simp
          | ok q =>
            have hlt := (parseStatement_good hcall hblock n _ q.1 q.2 h1).1.remaining_lt
            simp only [] at hlt
            exact ih _ _ (by omega) (by omega)
    · exact fun h => by cases h

/-- With fuel of at least thirteen times the number of remaining tokens plus fifteen, the
block parser returns a block or throws. -/
theorem parseBlock_total : ∀ (fuel : Nat) (parser : Parser),
    13 * parser.lexer.remaining + 15 ≤ fuel → parseBlock fuel parser ≠ .outOfFuel := by
  intro fuel
  induction fuel with
  | zero => intro parser hf; omega
  | succ n ih =>
    intro parser hf
    rw [parseBlock]
    cases h1 : parseBlock.loop (callParserFunc n) (parseBlock n) n
        { parser with blockLevel := parser.blockLevel + 1 } (.mk []) with
    | outOfFuel =>
      exfalso
      refine parseBlock_loop_total (N := parser.lexer.remaining) (callParserFunc_good n)
        (parseBlock_good n) ?_ ?_ n { parser with blockLevel := parser.blockLevel + 1 } _
        (Nat.le_refl _) (by simp only []; omega) h1
      · intro g lexer hg hl
        exact callParserFunc_total n g lexer hg (by omega)
      · intro p hp
        exact ih p (by omega)
    | throw e => simp
    | ok q => simp

theorem getAST_total (tokens : List Token) (inputLength fuel : Nat)
    (hfuel : 13 * tokens.length + 15 ≤ fuel) :
    getAST fuel tokens inputLength ≠ .outOfFuel := by
  simp only [getAST]
  cases h1 : parseBlock fuel ⟨⟨tokens, inputLength⟩, -1⟩ with
  | outOfFuel => exact absurd h1 (parseBlock_total _ _ hfuel)
  | throw e => simp
  | ok q =>
    simp only []
    split <;> exact fun h => by cases h

/-! ## The end of the main block -/

theorem lessTabs_true {parser : Parser} {nTabs : Nat}
    (h : lessTabs parser = .ok (true, nTabs)) :
    (leadingTabs parser.lexer.tokenList : Int) < parser.blockLevel := by
  simp only [lessTabs] at h
  split at h
  · assumption
  · split at h
    · cases h
    · simp at h

theorem parseBlock_loop_ends (call : Nat → Lexer → Result (ASTNode × Lexer))
    {block : Parser → Result (CodeBlock × Parser)} (hb : KeepsLevel block) :
    ∀ (fuel : Nat) (parser : Parser) (currBlock b : CodeBlock) (parser' : Parser),
      parser.blockLevel = 0 →
      parseBlock.loop call block fuel parser currBlock = .ok (b, parser') →
      parser'.lexer.getCurrToken.type = .EOFILE := by
  intro fuel
  induction fuel with
  | zero => intro _ _ _ _ _ h; simp [parseBlock.loop] at h
  | succ n ih =>
    intro parser currBlock b parser' hlevel h
    simp only [parseBlock.loop] at h
    split at h
    · cases h4 : lessTabs parser with
      | outOfFuel => simp [h4] at h
      | throw e => simp [h4] at h
      | ok t =>
        obtain ⟨flag, nTabs⟩ := t
        cases flag with
        | true =>
          have := lessTabs_true h4
          omega
        | false =>
          simp only [h4] at h
          cases h1 : parseStatement call block n
              { parser with lexer := skipTabs parser.lexer } with
          | outOfFuel => simp [h1] at h
          | throw e => simp [h1] at h
          | ok q =>
            have hq := parseStatement_keepsLevel call hb n _ _ _ h1
            simp only [h1] at h
            exact ih _ _ _ _ (by rw [hq]; exact hlevel) h
    · rename_i heof
      simp only [ne_eq, Decidable.not_not] at heof
      simp only [Result.ok.injEq, Prod.mk.injEq] at h
      rw [← h.2]; exact heof

theorem parseBlock_top_ends {fuel : Nat} {parser parser' : Parser} {b : CodeBlock}
    (hlevel : parser.blockLevel = -1) (h : parseBlock fuel parser = .ok (b, parser')) :
    parser'.lexer.getCurrToken.type = .EOFILE := by
  cases fuel with
  | zero => simp [parseBlock] at h
  | succ m =>
    rw [parseBlock] at h
    cases h1 : parseBlock.loop (callParserFunc m) (parseBlock m) m
        { parser with blockLevel := parser.blockLevel + 1 } (.mk []) with
    | outOfFuel => simp [h1] at h
    | throw e => simp [h1] at h
    | ok q =>
      have := parseBlock_loop_ends (callParserFunc m) (parseBlock_keepsLevel m) m _ _ _ _
        (by simp only [hlevel]; rfl) h1
      simp only [h1, Result.ok.injEq, Prod.mk.injEq] at h
      rw [← h.2]
      exact this

/-- The main block ends at the end-of-file token, and the cursor got there forwards over
tokens none of which is a COMMENT. -/
theorem parseBlock_main {fuel : Nat} {tokens : List Token} {n : Nat} {b : CodeBlock}
    {parser' : Parser} (h : parseBlock fuel ⟨⟨tokens, n⟩, -1⟩ = .ok (b, parser')) :
    parser'.lexer.getCurrToken.type = .EOFILE ∧ Advanced ⟨tokens, n⟩ parser'.lexer ∧
      b.receiverRule = true := by
  obtain ⟨hadv, hrule⟩ := parseBlock_good fuel _ b parser' h
  exact ⟨parseBlock_top_ends rfl h, hadv, hrule⟩

theorem getAST_of_parseBlock {fuel : Nat} {tokens : List Token} {n : Nat} {b : CodeBlock}
    (h : getAST fuel tokens n = .ok b) :
    ∃ parser', parseBlock fuel ⟨⟨tokens, n⟩, -1⟩ = .ok (b, parser') := by
  simp only [getAST] at h
  cases h1 : parseBlock fuel ⟨⟨tokens, n⟩, -1⟩ with
  | outOfFuel => simp [h1] at h
  | throw e => simp [h1] at h
  | ok q =>
    simp only [h1] at h
    split at h
    · cases h
    · simp only [Result.ok.injEq] at h
      exact ⟨q.2, by rw [← h]⟩

/-- Where no token is an end-of-file token, a cursor on the end-of-file token is at the end of
the buffer. -/
theorem tokenList_nil_of_eofile {lexer lexer' : Lexer} (hadv : Advanced lexer lexer')
    (heof : ∀ t ∈ lexer.tokenList, t.type ≠ .EOFILE)
    (hcur : lexer'.getCurrToken.type = .EOFILE) : lexer'.tokenList = [] := by
  obtain ⟨consumed, hsplit, _, _⟩ := hadv
  cases hl : lexer'.tokenList with
  | nil => rfl
  | cons t ts =>
    exfalso
    have hmem : t ∈ lexer.tokenList := by rw [hsplit, hl]; simp
    apply heof t hmem
    simpa [Lexer.getCurrToken, Lexer.lookForw, hl] using hcur

/-- C24: on a fresh parser (`blockLevel = -1`), whenever the top-level `parseBlock` called
by `getAST` returns a block, the current token is the end-of-file token: the block is at
level 0 and a count of leading tabs is never less than 0, so its loop ends only there. Hence
`getAST` does not throw its trailing-token error but returns that block, the cursor has only
moved forwards, and, the end-of-file token being the last of the buffer, every token of the
list has been consumed. -/
theorem getAST_ends_at_eof (fuel : Nat) (tokens : List Token) (inputLength : Nat)
    (mainBlock : CodeBlock) (parser' : Parser)
    (h : parseBlock fuel ⟨⟨tokens, inputLength⟩, -1⟩ = .ok (mainBlock, parser')) :
    parser'.lexer.getCurrToken.type = .EOFILE ∧
    getAST fuel tokens inputLength = .ok mainBlock ∧
    (∃ consumed, tokens = consumed ++ parser'.lexer.tokenList) ∧
    ((∀ t ∈ tokens, t.type ≠ .EOFILE) → parser'.lexer.tokenList = []) := by
  obtain ⟨heof, hadv, _⟩ := parseBlock_main h
  refine ⟨heof, ?_, ?_, fun hno => tokenList_nil_of_eofile hadv hno heof⟩
  · simp only [getAST, h, heof, ne_eq, not_true_eq_false, if_false]
  · obtain ⟨consumed, hsplit, _⟩ := hadv
    exact ⟨consumed, hsplit⟩

/-- Witness of C24: the line `x = 5`. -/
theorem getAST_ends_at_eof_witness :
    (Lexer.getCurrToken ⟨[], 6⟩).type = .EOFILE ∧
    getAST 40 tokensPlainAssign 6 = .ok blockPlainAssign ∧
    (∃ consumed, tokensPlainAssign = consumed ++ []) ∧
    ((∀ t ∈ tokensPlainAssign, t.type ≠ .EOFILE) → ([] : List Token) = []) :=
  getAST_ends_at_eof 40 tokensPlainAssign 6 blockPlainAssign ⟨⟨[], 6⟩, -1⟩
    (@Eq.trans _ _ (.ok (blockPlainAssign, ⟨⟨[], 6⟩, -1 + 1 - 1⟩)) _ rfl rfl)

/-! ## COMMENT tokens -/

/-- C21, as the code has it: a COMMENT token that reaches the parser is not ignored. No
parsing function accepts it, so for every token sequence in which a COMMENT token occurs
(before the end-of-file token, which is the last of the buffer), `getAST` returns no tree,
whatever the fuel; with enough fuel it throws. -/
theorem comment_never_ignored (fuel : Nat) (tokens : List Token) (inputLength : Nat)
    (hcomment : ∃ t ∈ tokens, t.type = .COMMENT)
    (heof : ∀ t ∈ tokens, t.type ≠ .EOFILE) :
    (∀ mainBlock, getAST fuel tokens inputLength ≠ .ok mainBlock) ∧
    (13 * tokens.length + 15 ≤ fuel → ∃ e, getAST fuel tokens inputLength = .throw e) := by
  have hnot : ∀ mainBlock, getAST fuel tokens inputLength ≠ .ok mainBlock := by
    intro mainBlock h
    obtain ⟨parser', hp⟩ := getAST_of_parseBlock h
    obtain ⟨hcur, hadv, _⟩ := parseBlock_main hp
    have hnil := tokenList_nil_of_eofile hadv heof hcur
    obtain ⟨consumed, hsplit, _, hno⟩ := hadv
    simp only [hnil, List.append_nil] at hsplit
    obtain ⟨t, ht, htype⟩ := hcomment
    exact (hno t (by rw [← hsplit]; exact ht)).1 htype
  refine ⟨hnot, fun hfuel => ?_⟩
  cases hr : getAST fuel tokens inputLength with
  | outOfFuel => exact absurd hr (getAST_total tokens inputLength fuel hfuel)
  | throw e => exact ⟨e, rfl⟩
  | ok b => exact absurd hr (hnot b)

/-- Witness of C21 as amended: the tokens of the line `x //`. -/
theorem comment_never_ignored_witness :
    ∃ e, getAST 54 tokensComment 5 = .throw e :=
  (comment_never_ignored 54 tokensComment 5 ⟨⟨"//", .COMMENT, 2⟩, by decide, rfl⟩
    (by decide)).2 (by decide)

/-- Counterexample to C21 as stated: on the tokens of the line `x //` `getAST` throws
`ParsingError("Newline expected.")` at the COMMENT token, although on the same tokens without
the COMMENT token it returns the statement `x`. -/
theorem comment_token_raises :
    getAST 40 tokensComment 5 = .throw (.ParsingError "Newline expected." 2) ∧
    withoutComments tokensComment = [⟨"x", .ID, 0⟩, ⟨"\n", .NEWLINE, 4⟩] ∧
    getAST 40 (withoutComments tokensComment) 5 =
      .ok (.mk [.ExprStatement (.IDNode "x" 0 false) 0]) :=
  ⟨rfl, by decide, rfl⟩

/-! ## Receivers -/

/-- C22: in every tree that `getAST` returns, every `nAryNode`, at whatever depth of
whatever statement, obeys the rule on receivers: without a receiver its operator is
`LIST_INIT`, with a receiver it is `FUNCTION_CALL` or `SUBSCRIPT`. So a node has no receiver
exactly when its operator is `LIST_INIT`, and no node has an operator other than these
three. -/
theorem nary_receiver_rule (fuel : Nat) (tokens : List Token) (inputLength : Nat)
    (mainBlock : CodeBlock) (h : getAST fuel tokens inputLength = .ok mainBlock) :
    mainBlock.receiverRule = true ∧
    ∀ (receiver : Option ASTNode) (op : OperatorType) (nOperands : List ASTNode)
      (pos : Nat) (forceRval : Bool),
      (ASTNode.nAryNode receiver op nOperands pos forceRval).receiverRule = true →
      (receiver = none ↔ op = .LIST_INIT) ∧
        (op = .LIST_INIT ∨ op = .FUNCTION_CALL ∨ op = .SUBSCRIPT) := by
  obtain ⟨parser', hp⟩ := getAST_of_parseBlock h
  refine ⟨(parseBlock_main hp).2.2, ?_⟩
  intro receiver op nOperands pos forceRval hr
  cases receiver with
  | none =>
    simp only [ASTNode.receiverRule, Bool.and_eq_true, decide_eq_true_eq] at hr
    exact ⟨⟨fun _ => hr.1, fun _ => rfl⟩, .inl hr.1⟩
  | some r =>
    simp only [ASTNode.receiverRule, Bool.and_eq_true, Bool.or_eq_true, decide_eq_true_eq]
      at hr
    rcases hr.1.1 with hop | hop
    · exact ⟨⟨fun hn => (by cases hn), fun hl => (by rw [hop] at hl; cases hl)⟩,
        .inr (.inl hop)⟩
    · exact ⟨⟨fun hn => (by cases hn), fun hl => (by rw [hop] at hl; cases hl)⟩,
        .inr (.inr hop)⟩

/-- Witness of C22: the statement of `for i from 1 to n` / `<tab>s = s + a[i]`, with the
subscript `a[i]`. -/
theorem nary_receiver_rule_witness :
    (CodeBlock.mk [statementFor]).receiverRule = true :=
  (nary_receiver_rule 40 tokensFor 32 (.mk [statementFor]) rfl).1

/-! ## Termination of the parser -/

/-- C23: `getAST` terminates on every token list (the end-of-file token is what every look
past the end of the list yields): with fuel of at least `13 * tokens.length + 15` it returns
a block or throws, and its answer is the same for all such fuel. The measure is the number
of remaining tokens: every successful call through the precedence table consumes at least
one token, so does every statement parsed by the loop of `parseBlock` and every turn of the
case loop of `parseIf`, the operand loop consumes at least one token, and a block parse
never moves the cursor backwards. -/
theorem getAST_terminates (tokens : List Token) (inputLength fuel : Nat)
    (hfuel : 13 * tokens.length + 15 ≤ fuel) :
    (getAST fuel tokens inputLength ≠ .outOfFuel ∧
      getAST fuel tokens inputLength =
        getAST (13 * tokens.length + 15) tokens inputLength) ∧
    (∀ f g lexer node lexer', callParserFunc f g lexer = .ok (node, lexer') →
      ∃ consumed, consumed ≠ [] ∧ lexer.tokenList = consumed ++ lexer'.tokenList) ∧
    (∀ f parser s parser',
      parseStatement (callParserFunc f) (parseBlock f) f parser = .ok (s, parser') →
      ∃ consumed, consumed ≠ [] ∧
        parser.lexer.tokenList = consumed ++ parser'.lexer.tokenList) ∧
    (∀ f pos parser cases s parser',
      (parser.lexer.getCurrToken.type = .IF ∨ parser.lexer.getCurrToken.type = .ELIF ∨
        parser.lexer.getCurrToken.type = .ELSE) →
      parseIf.loop (callParserFunc f) (parseBlock f) pos f parser cases = .ok (s, parser') →
      ∃ consumed, consumed ≠ [] ∧
        parser.lexer.tokenList = consumed ++ parser'.lexer.tokenList) ∧
    (∀ f f' lexer acc nOperands lexer',
      (lexer.getCurrToken.type = .COMMA ∨ lexer.getCurrToken.type = .L_PAREN ∨
        lexer.getCurrToken.type = .L_SQ_BRACKET) →
      parseOperands (callParserFunc f) f' lexer acc = .ok (nOperands, lexer') →
      ∃ consumed, consumed ≠ [] ∧ lexer.tokenList = consumed ++ lexer'.tokenList) ∧
    (∀ f parser b parser', parseBlock f parser = .ok (b, parser') →
      ∃ consumed, parser.lexer.tokenList = consumed ++ parser'.lexer.tokenList) := by
  have htotal := getAST_total tokens inputLength _ (Nat.le_refl (13 * tokens.length + 15))
  refine ⟨⟨getAST_total tokens inputLength fuel hfuel,
    getAST_mono hfuel tokens inputLength htotal⟩, ?_, ?_, ?_, ?_, ?_⟩
  · intro f g lexer node lexer' h
    obtain ⟨consumed, hne, hsplit, _⟩ := (callParserFunc_good f g lexer node lexer' h).1
    exact ⟨consumed, hne, hsplit⟩
  · intro f parser s parser' h
    obtain ⟨consumed, hne, hsplit, _⟩ :=
      (parseStatement_good (callParserFunc_good f) (parseBlock_good f) f parser s parser' h).1
    exact ⟨consumed, hne, hsplit⟩
  · intro f pos parser cases s parser' hkw h
    obtain ⟨_, hc, _⟩ :=
      parseIf_loop_good (callParserFunc_good f) (parseBlock_good f) pos f parser cases s
        parser' h
    obtain ⟨consumed, hne, hsplit, _⟩ := hc hkw
    exact ⟨consumed, hne, hsplit⟩
  · intro f f' lexer acc nOperands lexer' hkind h
    have hc : lexer.getCurrToken.type ≠ .COMMENT ∧ lexer.getCurrToken.type ≠ .EOFILE := by
      rcases hkind with hk | hk | hk <;> rw [hk] <;> exact ⟨by decide, by decide⟩
    obtain ⟨consumed, hne, hsplit, _⟩ :=
      (parseOperands_good (callParserFunc_good f) f' lexer acc nOperands lexer' hc.1 hc.2 h).1
    exact ⟨consumed, hne, hsplit⟩
  · intro f parser b parser' h
    obtain ⟨consumed, hsplit, _⟩ := (parseBlock_good f parser b parser' h).1
    exact ⟨consumed, hsplit⟩

/-- Witness of C23: the tokens of `for i from 1 to n` / `<tab>s = s + a[i]`. -/
theorem getAST_terminates_witness :
    getAST (13 * tokensFor.length + 15) tokensFor 32 ≠ .outOfFuel :=
  (getAST_terminates tokensFor 32 (13 * tokensFor.length + 15) (Nat.le_refl _)).1.1

/-! ## Empty bodies -/

end PseudoInterp
